import Mathlib

/-! timescaledb-event-streamer: a shallow embedding of the event-emission engine.

The Go sources are embedded as executable Lean definitions:

* Go strings and byte slices are lists of bytes (`Fin 256`); a byte slice also
  carries the part of its backing array between `len` and `cap`.
* Go `uint32` values are natural numbers reduced modulo `2 ^ 32` at every
  operation that can wrap.
* A call either returns, returns an `error`, or panics (`GoResult`).
* Go maps are association lists with pairwise distinct keys; the order of a
  `range` over a map is an explicit argument.
-/

namespace Streamer

/-! ## Go runtime values -/

/-- One byte. -/
abbrev Byte := Fin 256

/-- Go `string`: an immutable sequence of bytes. -/
abbrev GoString := List Byte

/-- Byte string of an ASCII literal. -/
def ascii (s : String) : GoString := s.toList.map (fun c => Fin.ofNat c.toNat)

/-- Go `error` values: a plain error, an error wrapping another one
(`errors.Wrap`, `AdaptErrorWithMessage`), and `backoff.PermanentError`. -/
inductive GoError where
  | mk (msg : String) : GoError
  | wrap (inner : GoError) : GoError
  | permanent (inner : GoError) : GoError
  deriving DecidableEq, Repr

/-- Outcome of a Go call that may return a value, return an `error`, or panic. -/
inductive GoResult (α : Type) where
  | ok (a : α) : GoResult α
  | error (e : GoError) : GoResult α
  | panic (msg : String) : GoResult α
  deriving DecidableEq, Repr

/-- Sequencing of Go calls: an error or a panic ends the enclosing function. -/
def GoResult.bind {α β : Type} (r : GoResult α) (f : α → GoResult β) : GoResult β :=
  match r with
  | .ok a => f a
  | .error e => .error e
  | .panic m => .panic m

instance : Monad GoResult where
  pure := GoResult.ok
  bind := GoResult.bind

/-- Conversion to `uint32`. -/
def u32 (n : Nat) : Nat := n % 4294967296

/-- Go map `map[string]V` as an association list with distinct keys. -/
abbrev GoMap (β : Type) := List (GoString × β)

/-- Lookup `m[k]` with the comma-ok idiom. -/
def GoMap.get {β : Type} (m : GoMap β) (k : GoString) : Option β :=
  match m with
  | [] => none
  | (k', v) :: rest => if k' = k then some v else GoMap.get rest k

/-- Assignment `m[k] = v`. -/
def GoMap.set {β : Type} (m : GoMap β) (k : GoString) (v : β) : GoMap β :=
  match m with
  | [] => [(k, v)]
  | (k', v') :: rest => if k' = k then (k, v) :: rest else (k', v') :: GoMap.set rest k v

/-- Keys of a map. -/
def GoMap.keys {β : Type} (m : GoMap β) : List GoString := m.map Prod.fst

/-! ## `encoding/binary`, big endian -/

/-- `binary.BigEndian.AppendUint32(data, v)`: the four bytes appended for `v`. -/
def BigEndian.AppendUint32 (data : List Byte) (v : Nat) : List Byte :=
  data ++ [Fin.ofNat (v / 16777216), Fin.ofNat (v / 65536), Fin.ofNat (v / 256), Fin.ofNat v]

/-- Byte slice `[]byte`: the `len` visible bytes and the bytes of the backing
array between `len` and `cap`. -/
structure ByteSlice where
  elems : List Byte
  spare : List Byte
  deriving DecidableEq, Repr

/-- Slice expression `data[lo:]`; panics unless `lo ≤ len(data)`. -/
def ByteSlice.sliceFrom (d : ByteSlice) (lo : Nat) : GoResult ByteSlice :=
  if lo ≤ d.elems.length then .ok ⟨d.elems.drop lo, d.spare⟩
  else .panic "slice bounds out of range"

/-- Slice expression `data[lo:hi]`; panics unless `lo ≤ hi ≤ cap(data)`. -/
def ByteSlice.slice (d : ByteSlice) (lo hi : Nat) : GoResult ByteSlice :=
  if lo ≤ hi ∧ hi ≤ d.elems.length + d.spare.length then
    .ok ⟨((d.elems ++ d.spare).drop lo).take (hi - lo), (d.elems ++ d.spare).drop hi⟩
  else .panic "slice bounds out of range"

/-- `binary.BigEndian.Uint32(b)`; panics (index out of range) when `len(b) < 4`. -/
def BigEndian.Uint32 (b : ByteSlice) : GoResult Nat :=
  match b.elems with
  | b0 :: b1 :: b2 :: b3 :: _ =>
    .ok (b0.val * 16777216 + b1.val * 65536 + b2.val * 256 + b3.val)
  | _ => .panic "index out of range"

/-! ## Sink context (`eventemitter.go`) -/

/-- The sink context: persistent and transient attributes. -/
structure sinkContextImpl where
  attributes : GoMap GoString
  transientAttributes : GoMap GoString
  deriving DecidableEq, Repr

/-- `newSinkContextImpl`. -/
def newSinkContextImpl : sinkContextImpl := ⟨[], []⟩

/-- `SetAttribute`. -/
def sinkContextImpl.SetAttribute (s : sinkContextImpl) (key value : GoString) : sinkContextImpl :=
  { s with attributes := s.attributes.set key value }

/-- `Attribute`. -/
def sinkContextImpl.Attribute (s : sinkContextImpl) (key : GoString) : Option GoString :=
  s.attributes.get key

/-- `SetTransientAttribute`. -/
def sinkContextImpl.SetTransientAttribute (s : sinkContextImpl) (key value : GoString) :
    sinkContextImpl :=
  { s with transientAttributes := s.transientAttributes.set key value }

/-- `TransientAttribute`. -/
def sinkContextImpl.TransientAttribute (s : sinkContextImpl) (key : GoString) : Option GoString :=
  s.transientAttributes.get key

/-- Body of the `for i := uint32(0); i < numOfItems; i++` loop of `UnmarshalBinary`,
run for the remaining number of iterations; `offset` is a `uint32`. -/
def sinkContextImpl.unmarshalItems (data : ByteSlice) :
    Nat → Nat → sinkContextImpl → GoResult sinkContextImpl
  | 0, _, s => .ok s
  | n + 1, offset, s => do
    let keyLength ← BigEndian.Uint32 (← data.sliceFrom offset)
    let offset := u32 (offset + 4)
    let valueLength ← BigEndian.Uint32 (← data.sliceFrom offset)
    let offset := u32 (offset + 4)
    let key ← data.slice offset (u32 (offset + keyLength))
    let offset := u32 (offset + keyLength)
    let value ← data.slice offset (u32 (offset + valueLength))
    let offset := u32 (offset + valueLength)
    sinkContextImpl.unmarshalItems data n offset (s.SetAttribute key.elems value.elems)

/-- `UnmarshalBinary`: `ok s'` is a `nil` return that leaves the context as `s'`. -/
def sinkContextImpl.UnmarshalBinary (s : sinkContextImpl) (data : ByteSlice) :
    GoResult sinkContextImpl := do
  let offset := 0
  let numOfItems ← BigEndian.Uint32 (← data.sliceFrom offset)
  let offset := u32 (offset + 4)
  sinkContextImpl.unmarshalItems data numOfItems offset s

/-- Body of the `range s.attributes` loop of `MarshalBinary` over the entries
in the order the runtime yields them. -/
def sinkContextImpl.marshalItems (data : List Byte) : List (GoString × GoString) → List Byte
  | [] => data
  | (key, value) :: rest =>
    let data := BigEndian.AppendUint32 data (u32 key.length)
    let data := BigEndian.AppendUint32 data (u32 value.length)
    let data := data ++ key
    let data := data ++ value
    sinkContextImpl.marshalItems data rest

/-- `MarshalBinary`; `order` is the sequence in which `range` yields the
entries of `s.attributes` (a permutation of them). The error result is always `nil`. -/
def sinkContextImpl.MarshalBinary (s : sinkContextImpl) (order : List (GoString × GoString)) :
    List Byte :=
  let data := []
  let numOfItems := u32 s.attributes.length
  let data := BigEndian.AppendUint32 data numOfItems
  sinkContextImpl.marshalItems data order

/-! ## System catalog entities (`spi/systemcatalog`, `spi/pgtypes`) -/

/-- Modelled from the spec: the replica identity of a table, package `spi/pgtypes`
(not part of the sources): one of `DEFAULT`, `INDEX`, `FULL`, `NOTHING`. -/
inductive ReplicaIdentity where
  | DEFAULT : ReplicaIdentity
  | INDEX : ReplicaIdentity
  | FULL : ReplicaIdentity
  | NOTHING : ReplicaIdentity
  deriving DecidableEq, Repr

/-- Modelled from the spec: a column of package `spi/systemcatalog` (not part of the
sources): its name, its data type (an OID), whether it belongs to the primary key and
whether it belongs to the replica-identity index. -/
structure Column where
  name : GoString
  dataType : Nat
  isPrimaryKey : Bool
  isReplicaIdent : Bool
  deriving DecidableEq, Repr

/-- `Column.Name`. -/
def Column.Name (c : Column) : GoString := c.name

/-- `Column.DataType`. -/
def Column.DataType (c : Column) : Nat := c.dataType

/-- `Column.IsPrimaryKey`. -/
def Column.IsPrimaryKey (c : Column) : Bool := c.isPrimaryKey

/-- `Column.IsReplicaIdent`. -/
def Column.IsReplicaIdent (c : Column) : Bool := c.isReplicaIdent

/-- Modelled from the spec: `Columns.HasPrimaryKey` of package `spi/systemcatalog`
(not part of the sources): some column belongs to the primary key. -/
def Columns.HasPrimaryKey (columns : List Column) : Bool := columns.any Column.IsPrimaryKey

/-- Modelled from the spec: `Columns.HasReplicaIdentity` of package
`spi/systemcatalog` (not part of the sources): some column belongs to a valid
replica-identity index. -/
def Columns.HasReplicaIdentity (columns : List Column) : Bool :=
  columns.any Column.IsReplicaIdent

/-- Modelled from the spec: a hypertable of package `spi/systemcatalog` (not part of
the sources): a `(schema, table)` pair with its database, the optional view schema and
view name of a continuous aggregate, its replica identity and its ordered columns. -/
structure Hypertable where
  schemaName : GoString
  tableName : GoString
  databaseName : GoString
  continuousAggregate : Bool
  viewSchema : Option GoString
  viewName : Option GoString
  replicaIdentity : ReplicaIdentity
  columns : List Column
  deriving DecidableEq, Repr

/-- Modelled from the spec: a vanilla (ordinary) table of package `spi/systemcatalog`
(not part of the sources), which like a hypertable is a `BaseTable`. -/
structure PgTable where
  schemaName : GoString
  tableName : GoString
  replicaIdentity : ReplicaIdentity
  columns : List Column
  deriving DecidableEq, Repr

/-- Modelled from the spec: the dynamic types behind the interface
`systemcatalog.SystemEntity` (not part of the sources): a plain `(schema, table)`
pair as built by `NewSystemEntity` (chunks included), a hypertable, a vanilla table. -/
inductive SystemEntity where
  | entity (schemaName tableName : GoString) : SystemEntity
  | hypertable (h : Hypertable) : SystemEntity
  | table (t : PgTable) : SystemEntity
  deriving DecidableEq, Repr

/-- `NewSystemEntity`. -/
def NewSystemEntity (schemaName tableName : GoString) : SystemEntity :=
  .entity schemaName tableName

/-- `SystemEntity.SchemaName`. -/
def SystemEntity.SchemaName : SystemEntity → GoString
  | .entity s _ => s
  | .hypertable h => h.schemaName
  | .table t => t.schemaName

/-- `SystemEntity.TableName`. -/
def SystemEntity.TableName : SystemEntity → GoString
  | .entity _ t => t
  | .hypertable h => h.tableName
  | .table t => t.tableName

/-- Modelled from the spec: the canonical name of an entity (package
`spi/systemcatalog`, not part of the sources): the schema name and the table name, each
enclosed in double quotes, joined by a dot. -/
def SystemEntity.CanonicalName (e : SystemEntity) : GoString :=
  [34] ++ e.SchemaName ++ [34, 46, 34] ++ e.TableName ++ [34]

/-- `Hypertable.IsContinuousAggregate`. -/
def Hypertable.IsContinuousAggregate (h : Hypertable) : Bool := h.continuousAggregate

/-- `Hypertable.ViewSchema`, with the comma-ok result as an option. -/
def Hypertable.ViewSchema (h : Hypertable) : Option GoString := h.viewSchema

/-- `Hypertable.ViewName`, with the comma-ok result as an option. -/
def Hypertable.ViewName (h : Hypertable) : Option GoString := h.viewName

/-- `Hypertable.ReplicaIdentity`. -/
def Hypertable.ReplicaIdentity (h : Hypertable) : ReplicaIdentity := h.replicaIdentity

/-- `Hypertable.Columns`. -/
def Hypertable.Columns (h : Hypertable) : List Column := h.columns

/-- `Hypertable.DatabaseName`. -/
def Hypertable.DatabaseName (h : Hypertable) : GoString := h.databaseName

/-- `Hypertable.SchemaName`. -/
def Hypertable.SchemaName (h : Hypertable) : GoString := h.schemaName

/-- `Hypertable.TableName`. -/
def Hypertable.TableName (h : Hypertable) : GoString := h.tableName

/-- `Hypertable.CanonicalName`. -/
def Hypertable.CanonicalName (h : Hypertable) : GoString :=
  (SystemEntity.hypertable h).CanonicalName

/-- `PgTable.CanonicalName`. -/
def PgTable.CanonicalName (t : PgTable) : GoString := (SystemEntity.table t).CanonicalName

/-! ## Table filter (`tablefilter.go`) -/

/-- A compiled regular expression of the standard package `regexp`, identified by
its source text. -/
structure Regexp where
  source : GoString
  deriving DecidableEq, Repr

/-- A parsed pattern `namespace.table`: each part is a literal or a compiled regular
expression (`nil` when the part is a literal). -/
structure filter where
  namespace_ : GoString
  table : GoString
  namespaceRegex : Option Regexp
  tableRegex : Option Regexp
  deriving DecidableEq, Repr

/-- The table filter: parsed include and exclude patterns, the decision cache keyed by
canonical name, and the default decision. -/
structure TableFilter where
  includes : List filter
  excludes : List filter
  filterCache : GoMap Bool
  acceptedByDefault : Bool
  deriving DecidableEq, Repr

/-- `filter.matches`; `reMatch r s` is `r.Match([]byte(s))` of the standard package
`regexp`. -/
def filter.matches (reMatch : Regexp → GoString → Bool) (f : filter) (table : SystemEntity) :
    Bool :=
  let namespace_ := table.SchemaName
  let entity := table.TableName
  -- a continuous aggregate is matched by its view schema and view name
  let names : Option (GoString × GoString) :=
    match table with
    | .hypertable hypertable =>
      if hypertable.IsContinuousAggregate then
        match hypertable.ViewSchema with
        | some n =>
          match hypertable.ViewName with
          | some e => some (n, e)
          | none => none
        | none => none
      else some (namespace_, entity)
    | _ => some (namespace_, entity)
  match names with
  | none => false
  | some (namespace_, entity) =>
    let namespaceFails :=
      match f.namespaceRegex with
      | some r => !reMatch r namespace_
      | none => f.namespace_ != namespace_
    if namespaceFails then false
    else
      let tableFails :=
        match f.tableRegex with
        | some r => !reMatch r entity
        | none => f.table != entity
      if tableFails then false else true

/-- `TableFilter.Enabled`: the decision and the filter with its updated cache. -/
def TableFilter.Enabled (reMatch : Regexp → GoString → Bool) (rf : TableFilter)
    (table : SystemEntity) : Bool × TableFilter :=
  -- already tested?
  let canonicalName := table.CanonicalName
  match rf.filterCache.get canonicalName with
  | some v => (v, rf)
  | none =>
    -- excluded has priority
    if rf.excludes.any (fun exclude => exclude.matches reMatch table) then
      (false, { rf with filterCache := rf.filterCache.set canonicalName false })
    -- is explicitly included?
    else if rf.includes.any (fun include_ => include_.matches reMatch table) then
      (true, { rf with filterCache := rf.filterCache.set canonicalName true })
    -- otherwise use acceptedByDefault
    else
      (rf.acceptedByDefault,
        { rf with filterCache := rf.filterCache.set canonicalName rf.acceptedByDefault })

/-! ## Known-tables state codec (`replicator.go`) -/

/-- Modelled from the spec: the write buffer of package `spi/encoding` (not part of
the sources), holding the bytes written so far; layout `string = u32 len || bytes`,
big endian. -/
structure WriteBuffer where
  bytes : List Byte
  deriving DecidableEq, Repr

/-- Modelled from the spec: `encoding.NewWriteBuffer`, an empty buffer. -/
def NewWriteBuffer : WriteBuffer := ⟨[]⟩

/-- Modelled from the spec: `WriteBuffer.PutUint32`, four bytes, big endian. -/
def WriteBuffer.PutUint32 (b : WriteBuffer) (v : Nat) : GoResult WriteBuffer :=
  .ok ⟨BigEndian.AppendUint32 b.bytes v⟩

/-- Modelled from the spec: `WriteBuffer.PutString`, `u32 len || bytes`. -/
def WriteBuffer.PutString (b : WriteBuffer) (s : GoString) : GoResult WriteBuffer := do
  let b ← b.PutUint32 (u32 s.length)
  .ok ⟨b.bytes ++ s⟩

/-- Modelled from the spec: `WriteBuffer.Bytes`. -/
def WriteBuffer.Bytes (b : WriteBuffer) : List Byte := b.bytes

/-- Modelled from the spec: the read buffer of package `spi/encoding` (not part of the
sources), holding the bytes not read yet. -/
structure ReadBuffer where
  bytes : List Byte
  deriving DecidableEq, Repr

/-- Modelled from the spec: `encoding.NewReadBuffer(bytes.NewBuffer(data))`. -/
def NewReadBuffer (data : List Byte) : ReadBuffer := ⟨data⟩

/-- Modelled from the spec: `ReadBuffer.ReadUint32`, four bytes, big endian; an error
when fewer than four bytes remain. -/
def ReadBuffer.ReadUint32 (b : ReadBuffer) : GoResult (Nat × ReadBuffer) :=
  match b.bytes with
  | b0 :: b1 :: b2 :: b3 :: rest =>
    .ok (b0.val * 16777216 + b1.val * 65536 + b2.val * 256 + b3.val, ⟨rest⟩)
  | _ => .error (.mk "unexpected EOF")

/-- Modelled from the spec: `ReadBuffer.ReadString`, `u32 len || bytes`; an error when
the length field or the declared bytes are not all there. -/
def ReadBuffer.ReadString (b : ReadBuffer) : GoResult (GoString × ReadBuffer) := do
  let (length, b) ← b.ReadUint32
  if length ≤ b.bytes.length then .ok (b.bytes.take length, ⟨b.bytes.drop length⟩)
  else .error (.mk "unexpected EOF")

/-- `errors.Wrap(err, 0)` around a failing call. -/
def wrapError {α : Type} : GoResult α → GoResult α
  | .error e => .error (.wrap e)
  | r => r

/-- Loop `for i := 0; i < int(numOfChunks); i++` of `decodeKnownTables`, run for the
remaining number of iterations. -/
def decodeKnownTablesLoop : Nat → ReadBuffer → List SystemEntity → GoResult (List SystemEntity)
  | 0, _, chunks => .ok chunks
  | n + 1, buffer, chunks => do
    let (schemaName, buffer) ← wrapError buffer.ReadString
    let (tableName, buffer) ← wrapError buffer.ReadString
    decodeKnownTablesLoop n buffer (chunks ++ [NewSystemEntity schemaName tableName])

/-- Built-in `make([]systemcatalog.SystemEntity, 0, capacity)`: the empty slice over a
new backing array with room for `capacity` entities. `available` is the number of
entities for which the Go runtime can still obtain memory at this point; asked for more,
the runtime ends the process with `fatal error: runtime: out of memory`, which no
`recover` intercepts and which the result type renders as a panic. -/
def makeSlice (available capacity : Nat) : GoResult (List SystemEntity) :=
  if capacity ≤ available then .ok [] else .panic "fatal error: runtime: out of memory"

/-- `decodeKnownTables`; `available` is what the runtime can grant to `make`. The loop
appends at most `numOfChunks` entities, so `append` stays inside the array of `make`. -/
def decodeKnownTables (available : Nat) (data : List Byte) : GoResult (List SystemEntity) := do
  let buffer := NewReadBuffer data
  let (numOfChunks, buffer) ← wrapError buffer.ReadUint32
  let chunks ← makeSlice available numOfChunks
  decodeKnownTablesLoop numOfChunks buffer chunks

/-- Loop `for i := 0; i < numOfChunks; i++` of `encodeKnownTables` over `chunks[i]`. -/
def encodeKnownTablesLoop (buffer : WriteBuffer) : List SystemEntity → GoResult WriteBuffer
  | [] => .ok buffer
  | chunk :: rest => do
    let buffer ← wrapError (buffer.PutString chunk.SchemaName)
    let buffer ← wrapError (buffer.PutString chunk.TableName)
    encodeKnownTablesLoop buffer rest

/-- `encodeKnownTables`. -/
def encodeKnownTables (chunks : List SystemEntity) : GoResult (List Byte) := do
  let buffer := NewWriteBuffer
  let numOfChunks := chunks.length
  let buffer ← wrapError (buffer.PutUint32 (u32 numOfChunks))
  let buffer ← encodeKnownTablesLoop buffer chunks
  .ok buffer.Bytes

/-! ## Replicator (`replicator.go`) -/

/-- `esPreviouslyKnownChunks`. -/
def esPreviouslyKnownChunks : GoString := ascii "::previously::known::chunks"

/-- `esPreviouslyKnownTables`. -/
def esPreviouslyKnownTables : GoString := ascii "::previously::known::tables"

/-- Modelled from the spec: the system catalog of package `spi/systemcatalog` (not
part of the sources), as far as the replicator reads it: the hypertables, chunks and
vanilla tables it currently knows, each list typed `[]SystemEntity`. -/
structure SystemCatalog where
  GetAllHypertables : Unit → List SystemEntity
  GetAllChunks : Unit → List SystemEntity
  GetAllVanillaTables : Unit → List SystemEntity

/-- The type assertion `hypertable.(*systemcatalog.Hypertable)`. -/
def SystemEntity.assertHypertable : SystemEntity → GoResult Hypertable
  | .hypertable h => .ok h
  | _ => .panic "interface conversion"

/-- The type assertion `vanillaTable.(systemcatalog.BaseTable)`: hypertables and
vanilla tables are base tables; the result carries what `checkReplicaIdentities`
reads of a base table: replica identity, columns, canonical name. -/
def SystemEntity.assertBaseTable :
    SystemEntity → GoResult (ReplicaIdentity × List Column × GoString)
  | .hypertable h => .ok (h.ReplicaIdentity, h.Columns, h.CanonicalName)
  | .table t => .ok (t.replicaIdentity, t.columns, t.CanonicalName)
  | .entity _ _ => .panic "interface conversion"

/-- First loop of `checkReplicaIdentities`, over `GetAllHypertables()`. -/
def checkReplicaIdentitiesHypertables :
    List SystemEntity → List GoString → GoResult (List GoString)
  | [], issues => .ok issues
  | hypertable :: rest, issues => do
    let table ← hypertable.assertHypertable
    if table.IsContinuousAggregate then
      checkReplicaIdentitiesHypertables rest issues
    else if table.ReplicaIdentity = ReplicaIdentity.FULL then
      checkReplicaIdentitiesHypertables rest issues
    else
      let columns := table.Columns
      if table.ReplicaIdentity = ReplicaIdentity.INDEX ∧ ¬ Columns.HasReplicaIdentity columns then
        checkReplicaIdentitiesHypertables rest (issues ++
          [ascii "Hypertable " ++ table.CanonicalName
            ++ ascii " has replica identity INDEX, but no valid index"])
      else if Columns.HasPrimaryKey columns then
        checkReplicaIdentitiesHypertables rest issues
      else
        checkReplicaIdentitiesHypertables rest (issues ++
          [ascii "Hypertable " ++ table.CanonicalName
            ++ ascii " has replica identity DEFAULT, but no valid primary key"])

/-- Second loop of `checkReplicaIdentities`, over `GetAllVanillaTables()`. -/
def checkReplicaIdentitiesVanillaTables :
    List SystemEntity → List GoString → GoResult (List GoString)
  | [], issues => .ok issues
  | vanillaTable :: rest, issues => do
    let (replicaIdentity, columns, canonicalName) ← vanillaTable.assertBaseTable
    if replicaIdentity = ReplicaIdentity.FULL then
      checkReplicaIdentitiesVanillaTables rest issues
    else if replicaIdentity = ReplicaIdentity.INDEX ∧ ¬ Columns.HasReplicaIdentity columns then
      checkReplicaIdentitiesVanillaTables rest (issues ++
        [ascii "Table " ++ canonicalName
          ++ ascii " has replica identity INDEX, but no valid index"])
    else if Columns.HasPrimaryKey columns then
      checkReplicaIdentitiesVanillaTables rest issues
    else
      checkReplicaIdentitiesVanillaTables rest (issues ++
        [ascii "Table " ++ canonicalName
          ++ ascii " has replica identity DEFAULT, but no valid primary key"])

/-- `Replicator.checkReplicaIdentities`; `none` is the `nil` result. -/
def checkReplicaIdentities (systemCatalog : SystemCatalog) : GoResult (Option (List GoString)) := do
  let issues := []
  let issues ← checkReplicaIdentitiesHypertables (systemCatalog.GetAllHypertables ()) issues
  let issues ← checkReplicaIdentitiesVanillaTables (systemCatalog.GetAllVanillaTables ()) issues
  if issues.length > 0 then .ok (some issues) else .ok none

/-- `getKnownVanillaTables`; `encodedState name` is the durable state stored under
`name`, if present, and `available` what the runtime can grant to the `make` of
`decodeKnownTables`. -/
def getKnownVanillaTables (available : Nat) (encodedState : GoString → Option (List Byte))
    (getAllVanillaTables : Unit → List SystemEntity) : GoResult (List SystemEntity) :=
  let allTables := getAllVanillaTables ()
  match encodedState esPreviouslyKnownTables with
  | some state => do
    let candidates ← decodeKnownTables available state
    -- Filter potentially deleted chunks
    .ok (candidates.filter fun item =>
      allTables.any fun other => item.CanonicalName == other.CanonicalName)
  | none => .ok allTables

/-- `getKnownChunks`. -/
def getKnownChunks (available : Nat) (encodedState : GoString → Option (List Byte))
    (getAllChunks : Unit → List SystemEntity) : GoResult (List SystemEntity) :=
  let allChunks := getAllChunks ()
  match encodedState esPreviouslyKnownChunks with
  | some state => do
    let candidates ← decodeKnownTables available state
    -- Filter potentially deleted chunks
    .ok (candidates.filter fun item =>
      allChunks.any fun other => item.CanonicalName == other.CanonicalName)
  | none => .ok allChunks

/-- `Replicator.collectVanillaTablesForPublication` (logging left out). -/
def collectVanillaTablesForPublication (available : Nat)
    (encodedState : GoString → Option (List Byte))
    (getAllVanillaTables : Unit → List SystemEntity) (publishedTables : List SystemEntity) :
    GoResult (List SystemEntity) := do
  let allKnownTables ← wrapError
    (getKnownVanillaTables available encodedState getAllVanillaTables)
  -- Filter out published chunks, we're only interested in non TimescaleDB tables
  let publishedTables := publishedTables.filter fun item =>
    item.SchemaName != ascii "_timescaledb_internal"
      && item.SchemaName != ascii "_timescaledb_catalog"
  let initialTables := allKnownTables.filter fun item =>
    !publishedTables.any fun other => item.CanonicalName == other.CanonicalName
  .ok initialTables

/-- `Replicator.collectChunksForPublication` (logging left out). -/
def collectChunksForPublication (available : Nat)
    (encodedState : GoString → Option (List Byte))
    (getAllChunks : Unit → List SystemEntity) (publishedTables : List SystemEntity) :
    GoResult (List SystemEntity) := do
  -- Get initial list of chunks to add to publication
  let allKnownTables ← wrapError (getKnownChunks available encodedState getAllChunks)
  -- Filter published chunks to only add new chunks
  let publishedTables := publishedTables.filter fun item =>
    item.SchemaName == ascii "_timescaledb_internal"
  let initialChunkTables := allKnownTables.filter fun item =>
    !publishedTables.any fun other => item.CanonicalName == other.CanonicalName
  .ok initialChunkTables

/-- The part of `Replicator.StartReplication` that computes the initial publication
list handed to `StartReplicationChannel`: the chunks, then the vanilla tables.
`availableChunks` and `availableTables` are what the runtime can grant to `make` when the
known chunks and when the known vanilla tables are decoded. -/
def StartReplication.initialTables (availableChunks availableTables : Nat)
    (encodedState : GoString → Option (List Byte))
    (systemCatalog : SystemCatalog) (publishedTables : List SystemEntity) :
    GoResult (List SystemEntity) := do
  let initialTables ← wrapError
    (collectChunksForPublication availableChunks encodedState systemCatalog.GetAllChunks
      publishedTables)
  let initialVanillaTables ← wrapError
    (collectVanillaTablesForPublication availableTables encodedState
      systemCatalog.GetAllVanillaTables publishedTables)
  .ok (initialTables ++ initialVanillaTables)

/-! ## Event emitter (`eventemitter.go`) -/

/-- `pglogrepl.XLogData`; LSNs and times are numbers. -/
structure XLogData where
  WALStart : Nat
  ServerWALEnd : Nat
  ServerTime : Nat
  WALData : List Byte
  deriving DecidableEq, Repr

/-- Values of Go type `any` found in row-value maps. -/
inductive GoAny where
  | null : GoAny
  | bool (b : Bool) : GoAny
  | int (i : Int) : GoAny
  | text (s : GoString) : GoAny
  deriving DecidableEq, Repr

/-- Modelled from the spec: `pgtypes.LogicalReplicationMessage` (not part of the
sources): prefix, content and whether the message is transactional. -/
structure LogicalReplicationMessage where
  Prefix : GoString
  Content : List Byte
  transactional : Bool
  deriving DecidableEq, Repr

/-- `LogicalReplicationMessage.IsTransactional`. -/
def LogicalReplicationMessage.IsTransactional (msg : LogicalReplicationMessage) : Bool :=
  msg.transactional

/-- Modelled from the spec: the values of type `schema.Struct` that package
`spi/schema` (not part of the sources) builds for the emitter. Each builder is kept as a
term that records its arguments: the `nil` struct, a map of column values, the source
descriptor, one event payload per event kind, the two administrative keys, the schemas
and the envelope pairing a schema with a payload. -/
inductive Struct where
  | nil : Struct
  | values (m : GoMap GoAny) : Struct
  | Source (lsn : Nat) (timestamp : Nat) (snapshot : Bool)
      (databaseName schemaName tableName : GoString) (transactionId : Option Nat) : Struct
  | ReadEvent (record source : Struct) : Struct
  | CreateEvent (record source : Struct) : Struct
  | UpdateEvent (before after source : Struct) : Struct
  | DeleteEvent (before source : Struct) (tombstone : Bool) : Struct
  | TruncateEvent (source : Struct) : Struct
  | MessageEvent (pfx content : GoString) (source : Struct) : Struct
  | CompressionEvent (source : Struct) : Struct
  | DecompressionEvent (source : Struct) : Struct
  | TimescaleKey (schemaName tableName : GoString) : Struct
  | MessageKey (pfx : GoString) : Struct
  | EnvelopeSchema (hypertable : Hypertable) : Struct
  | EnvelopeMessageSchema : Struct
  | KeySchema (hypertable : Hypertable) : Struct
  | registered (schemaName : GoString) : Struct
  | Envelope (schema payload : Struct) : Struct
  deriving DecidableEq, Repr

/-- A `map[string]any` as a `schema.Struct`; `none` is the `nil` map. -/
def Struct.ofValues : Option (GoMap GoAny) → Struct
  | none => .nil
  | some m => .values m

/-- One call of the emitter to a collaborator, with its arguments and its result, as
recorded in the order of execution. -/
inductive Call where
  | Evaluate (hypertable : Hypertable) (key value : Struct) (result : GoResult Bool) : Call
  | Emit (context : sinkContextImpl) (serverTime : Nat) (topic : GoString)
      (key value : Struct) (result : GoResult Unit) : Call
  | AcknowledgeProcessed (xld : XLogData) (result : GoResult Unit) : Call
  | Sleep (duration : Nat) : Call
  deriving DecidableEq, Repr

/-- The collaborators of the emitter, none of them part of the sources. The stateful
ones (transaction monitor, clock, event filter, sink, replication context, the
delegate exponential back-off) answer as functions of the calls made so far, so that
any deterministic behaviour over time is covered; `NextBackOff` answers `none` for
`backoff.Stop`. Naming and the schema registry are read as functions. -/
structure Collaborators where
  TransactionId : List Call → Nat
  Now : List Call → Nat
  Evaluate : List Call → Hypertable → Struct → Struct → GoResult Bool
  Emit : List Call → sinkContextImpl → Nat → GoString → Struct → Struct →
    GoResult Unit × sinkContextImpl
  AcknowledgeProcessed : List Call → XLogData → GoResult Unit
  NextBackOff : List Call → Option Nat
  ConverterByOID : Nat → GoResult (Option (Nat → GoAny → GoResult GoAny))
  EventTopicName : Hypertable → GoString
  MessageTopicName : Unit → GoString
  HypertableEnvelopeSchemaName : Hypertable → GoString
  HypertableKeySchemaName : Hypertable → GoString
  MessageEnvelopeSchemaName : Unit → GoString
  MessageKeySchemaName : GoString
  GetSchemaOrCreate : GoString → (Unit → Struct) → Struct
  GetSchema : GoString → Struct
  EncodeToString : List Byte → GoString

/-- `errors.As(err, &permanent)` for `*backoff.PermanentError`: the wrapped error of
the first permanent error in the chain of `err`. -/
def GoError.asPermanent : GoError → Option GoError
  | .mk _ => none
  | .wrap inner => inner.asPermanent
  | .permanent inner => some inner

/-- The back-off returned by `backoff.WithMaxRetries` (library
`github.com/cenkalti/backoff/v4`): the counters around the delegate. -/
structure backOffTries where
  maxTries : Nat
  numTries : Nat
  deriving DecidableEq, Repr

/-- `backoff.WithMaxRetries(b, max)`. -/
def WithMaxRetries (max : Nat) : backOffTries := ⟨max, 0⟩

/-- `backOffTries.Reset`. -/
def backOffTries.Reset (b : backOffTries) : backOffTries := { b with numTries := 0 }

/-- `backOffTries.NextBackOff`; `delegate` is the answer of the delegate's
`NextBackOff`, asked only when the counters allow another try; `none` is `Stop`. -/
def backOffTries.NextBackOff (b : backOffTries) (delegate : Option Nat) :
    Option Nat × backOffTries :=
  if b.maxTries = 0 then (none, b)
  else if b.maxTries ≤ b.numTries then (none, b)
  else (delegate, { b with numTries := b.numTries + 1 })

/-- What an operation run under `backoff.Retry` can change: the sink context and the
record of calls. -/
structure World where
  sinkContext : sinkContextImpl
  calls : List Call
  deriving DecidableEq, Repr

/-- The emitter: its sink context, its back-off and the record of the calls it has made
to its collaborators. -/
structure EventEmitter where
  world : World
  backOff : backOffTries
  deriving DecidableEq, Repr

/-- `NewEventEmitter`. -/
def NewEventEmitter : EventEmitter := ⟨⟨newSinkContextImpl, []⟩, WithMaxRetries 8⟩

/-- The `for` loop of `backoff.Retry` (library `github.com/cenkalti/backoff/v4`): run
the operation; stop on success, on a permanent error and when the back-off answers
`Stop`; otherwise wait for the answered duration and try again. -/
def retryLoop (c : Collaborators) (operation : World → GoResult Unit × World)
    (b : backOffTries) (w : World) : GoResult Unit × backOffTries × World :=
  match operation w with
  | (.ok _, w) => (.ok (), b, w)
  | (.panic m, w) => (.panic m, b, w)
  | (.error err, w) =>
    match err.asPermanent with
    | some inner => (.error inner, b, w)
    | none =>
      match h : b.NextBackOff (c.NextBackOff w.calls) with
      | (none, b') => (.error err, b', w)
      | (some next, b') => retryLoop c operation b' ⟨w.sinkContext, w.calls ++ [Call.Sleep next]⟩
termination_by b.maxTries - b.numTries
decreasing_by
  unfold backOffTries.NextBackOff at h
  split at h
  · injection h with h1 _; exact Option.noConfusion h1
  · split at h
    · injection h with h1 _; exact Option.noConfusion h1
    · injection h with _ h2
      rw [← h2]
      show b.maxTries - (b.numTries + 1) < b.maxTries - b.numTries
      omega

/-- `backoff.Retry(operation, b)`: reset the back-off, then loop. -/
def Retry (c : Collaborators) (operation : World → GoResult Unit × World)
    (b : backOffTries) (w : World) : GoResult Unit × backOffTries × World :=
  retryLoop c operation b.Reset w

/-- `EventEmitter.envelopeSchema`. -/
def EventEmitter.envelopeSchema (c : Collaborators) (hypertable : Hypertable) : Struct :=
  let schemaTopicName := c.HypertableEnvelopeSchemaName hypertable
  c.GetSchemaOrCreate schemaTopicName (fun _ => Struct.EnvelopeSchema hypertable)

/-- `EventEmitter.envelopeMessageSchema`. -/
def EventEmitter.envelopeMessageSchema (c : Collaborators) : Struct :=
  let schemaTopicName := c.MessageEnvelopeSchemaName ()
  c.GetSchemaOrCreate schemaTopicName (fun _ => Struct.EnvelopeMessageSchema)

/-- `EventEmitter.keySchema`. -/
def EventEmitter.keySchema (c : Collaborators) (hypertable : Hypertable) : Struct :=
  let schemaTopicName := c.HypertableKeySchemaName hypertable
  c.GetSchemaOrCreate schemaTopicName (fun _ => Struct.KeySchema hypertable)

/-- The retryable operation of `EventEmitter.emit`: one call of `sink.Emit`. -/
def EventEmitter.emitOperation (c : Collaborators) (xld : XLogData) (eventTopicName : GoString)
    (key envelope : Struct) (w : World) : GoResult Unit × World :=
  let r := c.Emit w.calls w.sinkContext xld.ServerTime eventTopicName key envelope
  (r.1, ⟨r.2, w.calls ++
    [Call.Emit w.sinkContext xld.ServerTime eventTopicName key envelope r.1]⟩)

/-- `ReplicationContext.AcknowledgeProcessed` as called by the emitter. -/
def EventEmitter.AcknowledgeProcessed (c : Collaborators) (ee : EventEmitter) (xld : XLogData) :
    GoResult Unit × EventEmitter :=
  let r := c.AcknowledgeProcessed ee.world.calls xld
  (r, { ee with world :=
    ⟨ee.world.sinkContext, ee.world.calls ++ [Call.AcknowledgeProcessed xld r]⟩ })

/-- `EventEmitter.emit`. -/
def EventEmitter.emit (c : Collaborators) (ee : EventEmitter) (xld : XLogData)
    (eventTopicName : GoString) (key envelope : Struct) : GoResult Unit × EventEmitter :=
  -- Run with backoff (it'll automatically reset before starting)
  match Retry c (EventEmitter.emitOperation c xld eventTopicName key envelope)
      ee.backOff ee.world with
  | (.ok _, b, w) => EventEmitter.AcknowledgeProcessed c ⟨w, b⟩ xld
  | (.error err, b, w) => (.error err, ⟨w, b⟩)
  | (.panic m, b, w) => (.panic m, ⟨w, b⟩)

/-- Loop of `convertColumnValues` over the columns, filling `result`. -/
def convertColumnValuesLoop (c : Collaborators) :
    List Column → GoMap GoAny → GoMap GoAny → GoResult (GoMap GoAny)
  | [], _, result => .ok result
  | column :: rest, values, result =>
    match values.get column.Name with
    | some v => do
      let converter ← c.ConverterByOID column.DataType
      let v ← match converter with
        | some convert => convert column.DataType v
        | none => .ok v
      convertColumnValuesLoop c rest values (result.set column.Name v)
    | none => convertColumnValuesLoop c rest values result

/-- `eventEmitterEventHandler.convertColumnValues`; `none` is the `nil` map. -/
def convertColumnValues (c : Collaborators) (columns : List Column)
    (values : Option (GoMap GoAny)) : GoResult (Option (GoMap GoAny)) :=
  match values with
  | none => .ok none
  | some values => do
    let result ← convertColumnValuesLoop c columns values []
    .ok (some result)

/-- `eventEmitterEventHandler.convertValues`. -/
def convertValues (c : Collaborators) (hypertable : Hypertable)
    (values : Option (GoMap GoAny)) : GoResult (Option (GoMap GoAny)) :=
  convertColumnValues c hypertable.Columns values

/-- `eventEmitterEventHandler.hypertableEventKey`. -/
def hypertableEventKey (c : Collaborators) (hypertable : Hypertable)
    (values : Option (GoMap GoAny)) : GoResult (Option (GoMap GoAny)) :=
  let columns := hypertable.Columns.filter fun column => column.IsPrimaryKey
  convertColumnValues c columns values

/-- `eventEmitterEventHandler.timescaleEventKey`. -/
def timescaleEventKey (hypertable : Hypertable) : GoResult Struct :=
  .ok (Struct.TimescaleKey hypertable.SchemaName hypertable.TableName)

/-- `eventEmitterEventHandler.emit0`. -/
def emit0 (c : Collaborators) (ee : EventEmitter) (xld : XLogData) (snapshot : Bool)
    (hypertable : Hypertable) (eventProvider : Struct → Struct)
    (keyProvider : Unit → GoResult Struct) : GoResult Unit × EventEmitter :=
  let transactionId := c.TransactionId ee.world.calls
  let envelopeSchema := EventEmitter.envelopeSchema c hypertable
  let eventTopicName := c.EventTopicName hypertable
  match keyProvider () with
  | .error err => (.error err, ee)
  | .panic m => (.panic m, ee)
  | .ok keyData =>
    let key := Struct.Envelope (EventEmitter.keySchema c hypertable) keyData
    let event := eventProvider (Struct.Source xld.ServerWALEnd xld.ServerTime snapshot
      hypertable.DatabaseName hypertable.SchemaName hypertable.TableName (some transactionId))
    let value := Struct.Envelope envelopeSchema event
    let success := c.Evaluate ee.world.calls hypertable key value
    let ee : EventEmitter := { ee with world :=
      ⟨ee.world.sinkContext, ee.world.calls ++ [Call.Evaluate hypertable key value success]⟩ }
    match success with
    | .error err => (.error err, ee)
    | .panic m => (.panic m, ee)
    -- If unsuccessful we'll discard the event and not send it to the sink
    | .ok false => EventEmitter.AcknowledgeProcessed c ee xld
    | .ok true => EventEmitter.emit c ee xld eventTopicName key value

/-- `eventEmitterEventHandler.emit`. -/
def eventEmitterEventHandler.emit (c : Collaborators) (ee : EventEmitter) (xld : XLogData)
    (hypertable : Hypertable) (eventProvider : Struct → Struct)
    (keyProvider : Unit → GoResult Struct) : GoResult Unit × EventEmitter :=
  emit0 c ee xld false hypertable eventProvider keyProvider

/-- `eventEmitterEventHandler.emitMessageEvent`. -/
def emitMessageEvent (c : Collaborators) (ee : EventEmitter) (xld : XLogData)
    (msg : LogicalReplicationMessage) (eventProvider : Struct → Struct) :
    GoResult Unit × EventEmitter :=
  let timestamp := if msg.IsTransactional then xld.ServerTime else c.Now ee.world.calls
  let transactionId : Option Nat :=
    if msg.IsTransactional then some (c.TransactionId ee.world.calls) else none
  let envelopeSchema := EventEmitter.envelopeMessageSchema c
  let messageKeySchema := c.GetSchema c.MessageKeySchemaName
  let source := Struct.Source xld.ServerWALEnd timestamp false [] [] [] transactionId
  let payload := eventProvider source
  let eventTopicName := c.MessageTopicName ()
  let key := Struct.Envelope messageKeySchema (Struct.MessageKey msg.Prefix)
  let value := Struct.Envelope envelopeSchema payload
  EventEmitter.emit c ee xld eventTopicName key value

/-- The key provider closures of the row events: `hypertableEventKey` as a struct. -/
def hypertableEventKeyProvider (c : Collaborators) (hypertable : Hypertable)
    (values : Option (GoMap GoAny)) (_ : Unit) : GoResult Struct := do
  let key ← hypertableEventKey c hypertable values
  .ok (Struct.ofValues key)

/-- `OnReadEvent`. -/
def OnReadEvent (c : Collaborators) (ee : EventEmitter) (lsn : Nat) (hypertable : Hypertable)
    (newValues : Option (GoMap GoAny)) : GoResult Unit × EventEmitter :=
  match convertValues c hypertable newValues with
  | .error err => (.error err, ee)
  | .panic m => (.panic m, ee)
  | .ok cnValues =>
    let xld : XLogData :=
      { WALStart := lsn, WALData := [], ServerWALEnd := lsn, ServerTime := c.Now ee.world.calls }
    emit0 c ee xld true hypertable
      (fun source => Struct.ReadEvent (Struct.ofValues cnValues) source)
      (hypertableEventKeyProvider c hypertable newValues)

/-- `OnInsertEvent`. -/
def OnInsertEvent (c : Collaborators) (ee : EventEmitter) (xld : XLogData)
    (hypertable : Hypertable) (newValues : Option (GoMap GoAny)) :
    GoResult Unit × EventEmitter :=
  match convertValues c hypertable newValues with
  | .error err => (.error err, ee)
  | .panic m => (.panic m, ee)
  | .ok cnValues =>
    eventEmitterEventHandler.emit c ee xld hypertable
      (fun source => Struct.CreateEvent (Struct.ofValues cnValues) source)
      (hypertableEventKeyProvider c hypertable newValues)

/-- `OnUpdateEvent`. -/
def OnUpdateEvent (c : Collaborators) (ee : EventEmitter) (xld : XLogData)
    (hypertable : Hypertable) (oldValues newValues : Option (GoMap GoAny)) :
    GoResult Unit × EventEmitter :=
  match convertValues c hypertable oldValues with
  | .error err => (.error err, ee)
  | .panic m => (.panic m, ee)
  | .ok coValues =>
    match convertValues c hypertable newValues with
    | .error err => (.error err, ee)
    | .panic m => (.panic m, ee)
    | .ok cnValues =>
      eventEmitterEventHandler.emit c ee xld hypertable
        (fun source =>
          Struct.UpdateEvent (Struct.ofValues coValues) (Struct.ofValues cnValues) source)
        (hypertableEventKeyProvider c hypertable newValues)

/-- `OnDeleteEvent`. -/
def OnDeleteEvent (c : Collaborators) (ee : EventEmitter) (xld : XLogData)
    (hypertable : Hypertable) (oldValues : Option (GoMap GoAny)) (tombstone : Bool) :
    GoResult Unit × EventEmitter :=
  match convertValues c hypertable oldValues with
  | .error err => (.error err, ee)
  | .panic m => (.panic m, ee)
  | .ok coValues =>
    eventEmitterEventHandler.emit c ee xld hypertable
      (fun source => Struct.DeleteEvent (Struct.ofValues coValues) source tombstone)
      (hypertableEventKeyProvider c hypertable oldValues)

/-- `OnTruncateEvent`. -/
def OnTruncateEvent (c : Collaborators) (ee : EventEmitter) (xld : XLogData)
    (hypertable : Hypertable) : GoResult Unit × EventEmitter :=
  eventEmitterEventHandler.emit c ee xld hypertable
    (fun source => Struct.TruncateEvent source)
    (fun _ => .ok Struct.nil)

/-- `OnMessageEvent`. -/
def OnMessageEvent (c : Collaborators) (ee : EventEmitter) (xld : XLogData)
    (msg : LogicalReplicationMessage) : GoResult Unit × EventEmitter :=
  emitMessageEvent c ee xld msg fun source =>
    let content := c.EncodeToString msg.Content
    Struct.MessageEvent msg.Prefix content source

/-- `OnChunkCompressedEvent`. -/
def OnChunkCompressedEvent (c : Collaborators) (ee : EventEmitter) (xld : XLogData)
    (hypertable : Hypertable) : GoResult Unit × EventEmitter :=
  eventEmitterEventHandler.emit c ee xld hypertable
    (fun source => Struct.CompressionEvent source)
    (fun _ => timescaleEventKey hypertable)

/-- `OnChunkDecompressedEvent`. -/
def OnChunkDecompressedEvent (c : Collaborators) (ee : EventEmitter) (xld : XLogData)
    (hypertable : Hypertable) : GoResult Unit × EventEmitter :=
  eventEmitterEventHandler.emit c ee xld hypertable
    (fun source => Struct.DecompressionEvent source)
    (fun _ => timescaleEventKey hypertable)

/-- The events the dispatcher hands to the emitter's handler, one per handler method
that emits. -/
inductive Event where
  | Read (lsn : Nat) (hypertable : Hypertable) (newValues : Option (GoMap GoAny)) : Event
  | Insert (xld : XLogData) (hypertable : Hypertable) (newValues : Option (GoMap GoAny)) : Event
  | Update (xld : XLogData) (hypertable : Hypertable)
      (oldValues newValues : Option (GoMap GoAny)) : Event
  | Delete (xld : XLogData) (hypertable : Hypertable) (oldValues : Option (GoMap GoAny))
      (tombstone : Bool) : Event
  | Truncate (xld : XLogData) (hypertable : Hypertable) : Event
  | Message (xld : XLogData) (msg : LogicalReplicationMessage) : Event
  | ChunkCompressed (xld : XLogData) (hypertable : Hypertable) : Event
  | ChunkDecompressed (xld : XLogData) (hypertable : Hypertable) : Event
  deriving DecidableEq, Repr

/-- The handler method the dispatcher invokes for an event. -/
def handle (c : Collaborators) (ee : EventEmitter) : Event → GoResult Unit × EventEmitter
  | .Read lsn hypertable newValues => OnReadEvent c ee lsn hypertable newValues
  | .Insert xld hypertable newValues => OnInsertEvent c ee xld hypertable newValues
  | .Update xld hypertable oldValues newValues =>
    OnUpdateEvent c ee xld hypertable oldValues newValues
  | .Delete xld hypertable oldValues tombstone =>
    OnDeleteEvent c ee xld hypertable oldValues tombstone
  | .Truncate xld hypertable => OnTruncateEvent c ee xld hypertable
  | .Message xld msg => OnMessageEvent c ee xld msg
  | .ChunkCompressed xld hypertable => OnChunkCompressedEvent c ee xld hypertable
  | .ChunkDecompressed xld hypertable => OnChunkDecompressedEvent c ee xld hypertable

/-- A sequence of events handled one after the other; the dispatcher logs an error
returned by the handler and goes on, a panic ends the run. -/
def handleAll (c : Collaborators) : EventEmitter → List Event → EventEmitter
  | ee, [] => ee
  | ee, event :: rest =>
    match handle c ee event with
    | (.panic _, ee) => ee
    | (_, ee) => handleAll c ee rest

/-! ## Auxiliary definitions used in the statements and proofs -/

/-- The four big-endian bytes of `v`. -/
def be32 (v : Nat) : List Byte :=
  [Fin.ofNat (v / 16777216), Fin.ofNat (v / 65536), Fin.ofNat (v / 256), Fin.ofNat v]

/-- Bytes written by the `range` loop of `MarshalBinary` for a sequence of entries. -/
def encodeItems : List (GoString × GoString) → List Byte
  | [] => []
  | (k, v) :: rest =>
    be32 (u32 k.length) ++ (be32 (u32 v.length) ++ (k ++ (v ++ encodeItems rest)))

/-- Bytes written by `PutString`. -/
def encodeString (s : GoString) : List Byte := be32 (u32 s.length) ++ s

/-- Bytes written by the loop of `encodeKnownTables` for a list of entities. -/
def encodeEntities : List SystemEntity → List Byte
  | [] => []
  | e :: rest =>
    encodeString e.SchemaName ++ (encodeString e.TableName ++ encodeEntities rest)

/-- The plain entity with the names of `e`, as `decodeKnownTables` rebuilds it. -/
def SystemEntity.plain (e : SystemEntity) : SystemEntity :=
  NewSystemEntity e.SchemaName e.TableName

/-- Whether a call is a call of `sink.Emit`. -/
def Call.isEmit : Call → Bool
  | .Emit _ _ _ _ _ _ => true
  | _ => false

/-- Whether a call is a call of `AcknowledgeProcessed`. -/
def Call.isAck : Call → Bool
  | .AcknowledgeProcessed _ _ => true
  | _ => false

/-- Whether a call belongs to the retry loop: a call of `sink.Emit` or a wait. -/
def Call.isRetry : Call → Bool
  | .Emit _ _ _ _ _ _ => true
  | .Sleep _ => true
  | _ => false

/-- The results of the calls of `sink.Emit` among `calls`, in order. -/
def emitResults : List Call → List (GoResult Unit)
  | [] => []
  | .Emit _ _ _ _ _ r :: rest => r :: emitResults rest
  | _ :: rest => emitResults rest

/-- What `backoff.Retry` returns when it stops after an attempt that returned `r`: the
wrapped error of a permanent error, `r` itself otherwise. -/
def retryReturn : GoResult Unit → GoResult Unit
  | .error err =>
    match err.asPermanent with
    | some inner => .error inner
    | none => .error err
  | r => r

/-- A failed attempt that `backoff.Retry` may repeat: an error that is not permanent. -/
def retryable : GoResult Unit → Bool
  | .error err => err.asPermanent.isNone
  | _ => false

/-- Sample collaborators for the scenarios of the spec: a sink that fails `fails` times
with a retryable error and then succeeds, a filter that always answers `accept`, no
converters, Debezium-style topic names, a delegate back-off that never stops. -/
def sampleCollaborators (fails : Nat) (accept : GoResult Bool) : Collaborators where
  TransactionId := fun _ => 7
  Now := fun _ => 1000
  Evaluate := fun _ _ _ _ => accept
  Emit := fun calls context _ _ _ _ =>
    (if (emitResults calls).length < fails then .error (.mk "sink unavailable") else .ok (),
      context)
  AcknowledgeProcessed := fun _ _ => .ok ()
  NextBackOff := fun _ => some 500
  ConverterByOID := fun _ => .ok none
  EventTopicName := fun hypertable =>
    ascii "prefix." ++ hypertable.SchemaName ++ ascii "." ++ hypertable.TableName
  MessageTopicName := fun _ => ascii "prefix.message"
  HypertableEnvelopeSchemaName := fun hypertable => hypertable.CanonicalName
  HypertableKeySchemaName := fun hypertable => hypertable.CanonicalName ++ ascii ".key"
  MessageEnvelopeSchemaName := fun _ => ascii "message"
  MessageKeySchemaName := ascii "message.key"
  GetSchemaOrCreate := fun _ factory => factory ()
  GetSchema := fun schemaName => Struct.registered schemaName
  EncodeToString := fun content => content

/-- The table `public.metrics` of the scenarios of the spec, primary key `id`. -/
def sampleHypertable : Hypertable where
  schemaName := ascii "public"
  tableName := ascii "metrics"
  databaseName := ascii "db"
  continuousAggregate := false
  viewSchema := none
  viewName := none
  replicaIdentity := ReplicaIdentity.DEFAULT
  columns := [⟨ascii "id", 23, true, false⟩, ⟨ascii "v", 701, false, false⟩]

/-- The key envelope that `emit0` builds from the key data. -/
def emit0Key (c : Collaborators) (hypertable : Hypertable) (keyData : Struct) : Struct :=
  Struct.Envelope (EventEmitter.keySchema c hypertable) keyData

/-- The value envelope that `emit0` builds around the event payload. -/
def emit0Value (c : Collaborators) (ee : EventEmitter) (xld : XLogData) (snapshot : Bool)
    (hypertable : Hypertable) (eventProvider : Struct → Struct) : Struct :=
  Struct.Envelope (EventEmitter.envelopeSchema c hypertable)
    (eventProvider (Struct.Source xld.ServerWALEnd xld.ServerTime snapshot
      hypertable.DatabaseName hypertable.SchemaName hypertable.TableName
      (some (c.TransactionId ee.world.calls))))

/-- The hypertable of a row or administrative event; a logical message has none. -/
def Event.hypertable? : Event → Option Hypertable
  | .Read _ hypertable _ => some hypertable
  | .Insert _ hypertable _ => some hypertable
  | .Update _ hypertable _ _ => some hypertable
  | .Delete _ hypertable _ _ => some hypertable
  | .Truncate _ hypertable => some hypertable
  | .Message _ _ => none
  | .ChunkCompressed _ hypertable => some hypertable
  | .ChunkDecompressed _ hypertable => some hypertable

/-- The `XLogData` with which an event is acknowledged: the one it carries, or the one
`OnReadEvent` makes up from the LSN of a snapshot read. -/
def Event.acknowledges : Event → XLogData → Prop
  | .Read lsn _ _, x => x.WALStart = lsn ∧ x.ServerWALEnd = lsn ∧ x.WALData = []
  | .Insert xld _ _, x => x = xld
  | .Update xld _ _ _, x => x = xld
  | .Delete xld _ _ _, x => x = xld
  | .Truncate xld _, x => x = xld
  | .Message xld _, x => x = xld
  | .ChunkCompressed xld _, x => x = xld
  | .ChunkDecompressed xld _, x => x = xld

/-- The value conversions and the key construction that the handler performs for an
event, in the order of the handler; `ok` when all of them succeed. -/
def Event.converted (c : Collaborators) : Event → GoResult Unit
  | .Read _ hypertable newValues => do
    let _ ← convertValues c hypertable newValues
    let _ ← hypertableEventKey c hypertable newValues
    .ok ()
  | .Insert _ hypertable newValues => do
    let _ ← convertValues c hypertable newValues
    let _ ← hypertableEventKey c hypertable newValues
    .ok ()
  | .Update _ hypertable oldValues newValues => do
    let _ ← convertValues c hypertable oldValues
    let _ ← convertValues c hypertable newValues
    let _ ← hypertableEventKey c hypertable newValues
    .ok ()
  | .Delete _ hypertable oldValues _ => do
    let _ ← convertValues c hypertable oldValues
    let _ ← hypertableEventKey c hypertable oldValues
    .ok ()
  | _ => .ok ()

/-- A call that entitles the emitter to acknowledge `x` for `event`: the filter
rejecting the event's hypertable row, or a successful `sink.Emit` at the server time
of `x`. -/
def Call.justifiesAck (event : Event) (x : XLogData) : Call → Prop
  | .Evaluate hypertable _ _ (.ok false) => event.hypertable? = some hypertable
  | .Emit _ serverTime _ _ _ (.ok _) => serverTime = x.ServerTime
  | _ => False

/-- The acknowledgement discipline for the calls `new` made while one event is
handled: every call of `AcknowledgeProcessed` is the last call, is made with the
`XLogData` of this event, and directly follows the filter's rejection of this event or
a successful `sink.Emit` of it; a failed value conversion or key construction makes no
call at all; a failed filter evaluation and a failed last `sink.Emit` leave the event
without acknowledgement. -/
def AckDiscipline (c : Collaborators) (event : Event) (new : List Call) : Prop :=
  (∀ pre post x r, new = pre ++ Call.AcknowledgeProcessed x r :: post →
      post = [] ∧ event.acknowledges x
      ∧ ∃ pre' j, pre = pre' ++ [j] ∧ j.justifiesAck event x)
  ∧ (event.converted c ≠ .ok () → new = [])
  ∧ (∀ hypertable key value r, Call.Evaluate hypertable key value r ∈ new →
      (∀ b, r ≠ .ok b) → ∀ call ∈ new, call.isAck = false)
  ∧ (∀ r, (emitResults new).getLast? = some r → r ≠ .ok () →
      ∀ call ∈ new, call.isAck = false)

/-- The possible sequences of calls made while one event is handled: none; a failed
filter evaluation; a rejection followed by the acknowledgement; or, after an accepting
evaluation if the event is filtered at all, failed attempts and waits followed by a
last attempt, which is acknowledged exactly when it succeeds. -/
def EventTrace (hypertable? : Option Hypertable) (x : XLogData) (new : List Call) : Prop :=
  new = []
  ∨ (∃ h k v r, new = [Call.Evaluate h k v r] ∧ ∀ b, r ≠ .ok b)
  ∨ (∃ h k v r, hypertable? = some h
      ∧ new = [Call.Evaluate h k v (.ok false), Call.AcknowledgeProcessed x r])
  ∨ (∃ head pre ctx topic k v last,
      (head = [] ∨ ∃ h k' v', head = [Call.Evaluate h k' v' (.ok true)])
      ∧ (∀ call ∈ pre, call.isRetry = true)
      ∧ (((∃ u, last = .ok u) ∧ ∃ r, new = head ++ (pre ++
            [Call.Emit ctx x.ServerTime topic k v last, Call.AcknowledgeProcessed x r]))
        ∨ (last ≠ .ok ()
            ∧ new = head ++ (pre ++ [Call.Emit ctx x.ServerTime topic k v last]))))

/-- The `XLogData` of the scenarios of the spec: LSN 100. -/
def sampleXLogData : XLogData := ⟨100, 100, 5, []⟩

/-- The key data of the row `id = 7`. -/
def sampleKeyData : Struct := Struct.values [(ascii "id", GoAny.int 7)]

/-- The event provider of an insert of the row `id = 7, v = 1`. -/
def sampleEventProvider (source : Struct) : Struct :=
  Struct.CreateEvent (Struct.values [(ascii "id", GoAny.int 7), (ascii "v", GoAny.int 1)]) source

/-- A sequence of `Enabled` calls, one after the other; the filter with its cache after
the last call. -/
def TableFilter.EnabledAll (reMatch : Regexp → GoString → Bool) (rf : TableFilter) :
    List SystemEntity → TableFilter
  | [] => rf
  | table :: rest => TableFilter.EnabledAll reMatch (rf.Enabled reMatch table).2 rest

/-- The decision of a filter for an entity when the cache is not consulted: excludes,
then includes, then the default. -/
def TableFilter.cold (reMatch : Regexp → GoString → Bool) (rf : TableFilter)
    (table : SystemEntity) : Bool :=
  if rf.excludes.any (fun exclude => exclude.matches reMatch table) then false
  else if rf.includes.any (fun include_ => include_.matches reMatch table) then true
  else rf.acceptedByDefault

/-! ## Pattern parsing (`tablefilter.go`) -/

/-- A rune: a Unicode code point. -/
abbrev Rune := Nat

/-- The functions of the standard package `unicode` that the parser calls, as
parameters: letter and number classes and the case mappings of runes. -/
structure Unicode where
  IsLetter : Rune → Bool
  IsNumber : Rune → Bool
  ToLower : Rune → Rune
  ToUpper : Rune → Rune

/-- What the parser needs from outside `tablefilter.go`: package `unicode`, the
package-level table `reservedKeywords` (declared in a file that is not part of the
sources) and whether `regexp.Compile` accepts an expression. -/
structure PatternEnv where
  unicode : Unicode
  reservedKeywords : List GoString
  regexpCompiles : GoString → Bool

/-- Whether a byte continues a UTF-8 sequence. -/
def isContinuation (b : Byte) : Bool := 128 ≤ b.val && b.val < 192

/-- `utf8.DecodeRuneInString`: the first rune of a non-empty string and its width in
bytes; an invalid or incomplete sequence gives `utf8.RuneError` (U+FFFD) and width 1. -/
def decodeRune : List Byte → Rune × Nat
  | [] => (65533, 0)
  | b0 :: rest =>
    if b0.val < 128 then (b0.val, 1)
    else if 194 ≤ b0.val ∧ b0.val ≤ 223 then
      match rest with
      | b1 :: _ =>
        if isContinuation b1 then ((b0.val - 192) * 64 + (b1.val - 128), 2) else (65533, 1)
      | _ => (65533, 1)
    else if 224 ≤ b0.val ∧ b0.val ≤ 239 then
      match rest with
      | b1 :: b2 :: _ =>
        if (if b0.val = 224 then 160 else 128) ≤ b1.val
            ∧ b1.val ≤ (if b0.val = 237 then 159 else 191) ∧ isContinuation b2 then
          ((b0.val - 224) * 4096 + (b1.val - 128) * 64 + (b2.val - 128), 3)
        else (65533, 1)
      | _ => (65533, 1)
    else if 240 ≤ b0.val ∧ b0.val ≤ 244 then
      match rest with
      | b1 :: b2 :: b3 :: _ =>
        if (if b0.val = 240 then 144 else 128) ≤ b1.val
            ∧ b1.val ≤ (if b0.val = 244 then 143 else 191)
            ∧ isContinuation b2 ∧ isContinuation b3 then
          ((b0.val - 240) * 262144 + (b1.val - 128) * 4096 + (b2.val - 128) * 64
            + (b3.val - 128), 4)
        else (65533, 1)
      | _ => (65533, 1)
    else (65533, 1)

/-- The conversion `[]rune(s)`, one rune per step; every step consumes at least one
byte, so `len(s)` steps are enough. -/
def decodeRunesSteps : Nat → List Byte → List Rune
  | 0, _ => []
  | _ + 1, [] => []
  | steps + 1, b :: rest =>
    (decodeRune (b :: rest)).1 ::
      decodeRunesSteps steps ((b :: rest).drop (decodeRune (b :: rest)).2)

/-- The conversion `[]rune(s)`. -/
def decodeRunes (s : GoString) : List Rune := decodeRunesSteps s.length s

/-- The bytes that `strings.Builder.WriteRune` appends: the UTF-8 encoding of the rune,
of U+FFFD for a surrogate or a value beyond U+10FFFF. -/
def encodeRune (r : Rune) : List Byte :=
  if r < 128 then [Fin.ofNat r]
  else if r < 2048 then [Fin.ofNat (192 + r / 64), Fin.ofNat (128 + r % 64)]
  else if (55296 ≤ r ∧ r ≤ 57343) ∨ 1114111 < r then [239, 191, 189]
  else if r < 65536 then
    [Fin.ofNat (224 + r / 4096), Fin.ofNat (128 + r / 64 % 64), Fin.ofNat (128 + r % 64)]
  else
    [Fin.ofNat (240 + r / 262144), Fin.ofNat (128 + r / 4096 % 64),
      Fin.ofNat (128 + r / 64 % 64), Fin.ofNat (128 + r % 64)]

/-- Lower-case form of an ASCII byte. -/
def lowerASCII (b : Byte) : Byte := if 65 ≤ b.val ∧ b.val ≤ 90 then Fin.ofNat (b.val + 32) else b

/-- Upper-case form of an ASCII byte. -/
def upperASCII (b : Byte) : Byte := if 97 ≤ b.val ∧ b.val ≤ 122 then Fin.ofNat (b.val - 32) else b

/-- `strings.Map(mapping, s)` for a mapping without negative results: every rune of `s`
is replaced by the encoding of its image. -/
def strings.Map (mapping : Rune → Rune) (s : GoString) : GoString :=
  (decodeRunes s).flatMap fun r => encodeRune (mapping r)

/-- `strings.ToLower`: ASCII strings are lowered byte by byte, other strings rune by
rune with `unicode.ToLower`. -/
def strings.ToLower (u : Unicode) (s : GoString) : GoString :=
  if s.all (fun b => b.val < 128) then s.map lowerASCII else strings.Map u.ToLower s

/-- `strings.ToUpper`: ASCII strings are raised byte by byte, other strings rune by
rune with `unicode.ToUpper`. -/
def strings.ToUpper (u : Unicode) (s : GoString) : GoString :=
  if s.all (fun b => b.val < 128) then s.map upperASCII else strings.Map u.ToUpper s

/-- Loop of `strings.Split(s, sep)` for a separator of one byte: `current` is the piece
being read. -/
def strings.SplitLoop (sep : Byte) : GoString → GoString → List GoString
  | [], current => [current]
  | b :: rest, current =>
    if b = sep then current :: strings.SplitLoop sep rest []
    else strings.SplitLoop sep rest (current ++ [b])

/-- `strings.Split(s, sep)` for a separator of one byte. -/
def strings.Split (s : GoString) (sep : Byte) : List GoString := strings.SplitLoop sep s []

/-- The `for i := firstIndex; i < lastIndex; i++` loop of `parseToken`; the first
argument is `runedToken[i:]`, so that `runedToken[i]` is out of range exactly when it is
empty, and `i < len(runedToken)-1` holds exactly when it has a second element. The
result is the builder and `isRegex`. -/
def parseTokenLoop (env : PatternEnv) (isQuoted : Bool) (lastIndex : Nat) :
    List Rune → Nat → GoString → Bool → GoResult (GoString × Bool)
  | [], i, builder, isRegex =>
    if i < lastIndex then .panic "index out of range" else .ok (builder, isRegex)
  | char :: rest, i, builder, isRegex =>
    if ¬ i < lastIndex then .ok (builder, isRegex)
    else if char = 92 ∧ isQuoted = true then
      match rest with
      | [] => parseTokenLoop env isQuoted lastIndex [] (i + 1) builder isRegex
      | peekNextChar :: rest' =>
        if peekNextChar = 42 ∨ peekNextChar = 63 ∨ peekNextChar = 43 then
          parseTokenLoop env isQuoted lastIndex rest' (i + 2)
            (builder ++ [92] ++ encodeRune peekNextChar) isRegex
        else parseTokenLoop env isQuoted lastIndex (peekNextChar :: rest') (i + 1) builder isRegex
    else if char = 34 ∧ isQuoted = true then
      match rest with
      | [] => parseTokenLoop env isQuoted lastIndex [] (i + 1) builder isRegex
      | peekNextChar :: rest' =>
        if peekNextChar = 34 then
          parseTokenLoop env isQuoted lastIndex rest' (i + 2) (builder ++ [34, 34]) isRegex
        else
          parseTokenLoop env isQuoted lastIndex (peekNextChar :: rest') (i + 1)
            (builder ++ [34, 34]) isRegex
    else if char = 42 then
      parseTokenLoop env isQuoted lastIndex rest (i + 1) (builder ++ [46, 42, 63]) true
    else if char = 63 then
      parseTokenLoop env isQuoted lastIndex rest (i + 1) (builder ++ [46, 123, 49, 125]) true
    else if char = 43 then
      parseTokenLoop env isQuoted lastIndex rest (i + 1) (builder ++ [46, 43, 63]) true
    else if (env.unicode.IsLetter char || env.unicode.IsNumber char || char == 95 || isQuoted)
        = true then
      parseTokenLoop env isQuoted lastIndex rest (i + 1) (builder ++ encodeRune char) isRegex
    else .error (.mk "illegal character in pattern")

/-- `parseToken`: the parsed token and whether it is a regular expression. -/
def parseToken (env : PatternEnv) (token : GoString) : GoResult (GoString × Bool) :=
  match token.head?, token.getLast? with
  | some first, some last =>
    let isQuoted : Bool := first.val == 34 && last.val == 34
    -- When not quoted, all identifiers are folded to lowercase
    let token := if !isQuoted then strings.ToLower env.unicode token else token
    -- Check identifier length
    if token.length > 63 ∧ (!isQuoted ∨ token.length > 65) then
      .error (.mk "an pattern cannot be longer than 63 characters")
    else
      let firstIndex := if isQuoted then 1 else 0
      let lastIndex := if isQuoted then token.length - 1 else token.length
      -- If unquoted the first character needs to be a letter, underscore, or a wildcard
      match token.head? with
      | none => .panic "index out of range"
      | some token0 =>
        if !isQuoted ∧ !env.unicode.IsLetter token0.val ∧ token0.val ≠ 95 ∧ token0.val ≠ 42
            ∧ token0.val ≠ 63 ∧ token0.val ≠ 43 then
          .error (.mk "illegal first character of pattern")
        else do
          let runedToken := decodeRunes token
          let (parsedToken, isRegex) ←
            parseTokenLoop env isQuoted lastIndex (runedToken.drop firstIndex) firstIndex [] false
          if !isQuoted ∧ !isRegex ∧
              env.reservedKeywords.contains (strings.ToUpper env.unicode parsedToken) then
            .error (.mk "an unquoted pattern cannot match a reserved keyword")
          else .ok (parsedToken, isRegex)
  | _, _ => .panic "index out of range"

/-- `regexp.MustCompile(fmt.Sprintf("^%s$", token))`; panics when the expression does
not compile. -/
def MustCompileAnchored (env : PatternEnv) (token : GoString) : GoResult Regexp :=
  if env.regexpCompiles ([94] ++ token ++ [36]) then .ok ⟨[94] ++ token ++ [36]⟩
  else .panic "regexp: Compile: error parsing regexp"

/-- `parseFilter`. -/
def parseFilter (env : PatternEnv) (filterTerm : GoString) : GoResult filter :=
  match strings.Split filterTerm 46 with
  | [token0, token1] => do
    let (namespace_, namespaceIsRegex) ← wrapError (parseToken env token0)
    let (table, tableIsRegex) ← wrapError (parseToken env token1)
    let f : filter := ⟨[], [], none, none⟩
    let f ←
      if namespaceIsRegex then do
        let r ← MustCompileAnchored env namespace_
        pure { f with namespaceRegex := some r }
      else pure { f with namespace_ := namespace_ }
    let f ←
      if tableIsRegex then do
        let r ← MustCompileAnchored env table
        pure { f with tableRegex := some r }
      else pure { f with table := table }
    .ok f
  | _ => .error (.mk "failed parsing filter term")

/-- The loops of `NewTableFilter` over the exclude and the include patterns. -/
def parseFilters (env : PatternEnv) : List GoString → List filter → GoResult (List filter)
  | [], filters => .ok filters
  | term :: rest, filters => do
    let f ← parseFilter env term
    parseFilters env rest (filters ++ [f])

/-- `NewTableFilter`. -/
def NewTableFilter (env : PatternEnv) (excludes includes : List GoString)
    (acceptedByDefault : Bool) : GoResult TableFilter := do
  let excludeFilters ← parseFilters env excludes []
  let includeFilters ← parseFilters env includes []
  .ok { includes := includeFilters, excludes := excludeFilters, filterCache := [],
        acceptedByDefault := acceptedByDefault }

/-- The restriction of package `unicode` to ASCII, for the scenarios: outside ASCII no
rune is a letter or a number and the case mappings change nothing. -/
def unicodeASCII : Unicode where
  IsLetter := fun r => (65 ≤ r && r ≤ 90) || (97 ≤ r && r ≤ 122)
  IsNumber := fun r => 48 ≤ r && r ≤ 57
  ToLower := fun r => if 65 ≤ r ∧ r ≤ 90 then r + 32 else r
  ToUpper := fun r => if 97 ≤ r ∧ r ≤ 122 then r - 32 else r

/-- The environment of the scenarios: ASCII classes, a few reserved keywords and a
regular-expression compiler that accepts every expression. -/
def samplePatternEnv : PatternEnv where
  unicode := unicodeASCII
  reservedKeywords := [ascii "SELECT", ascii "TABLE", ascii "USER", ascii "WHERE"]
  regexpCompiles := fun _ => true

/-! ## Auxiliary definitions for the statements about the pattern parser -/

/-- A wildcard byte of the pattern language: `*`, `?` or `+`. -/
def isWildcard (b : Byte) : Bool := b.val == 42 || b.val == 63 || b.val == 43

/-- An ASCII letter. -/
def isASCIILetter (b : Byte) : Bool := (65 ≤ b.val && b.val ≤ 90) || (97 ≤ b.val && b.val ≤ 122)

/-- An ASCII digit. -/
def isASCIIDigit (b : Byte) : Bool := 48 ≤ b.val && b.val ≤ 57

/-- A byte allowed in an unquoted token: ASCII letter, digit, `_` or wildcard. -/
def isPlainChar (b : Byte) : Bool :=
  isASCIILetter b || isASCIIDigit b || b.val == 95 || isWildcard b

/-- The token with every `*` replaced by `.*?`, every `?` by `.{1}` and every `+` by
`.+?`. -/
def expandWildcards (token : GoString) : GoString :=
  token.flatMap fun b =>
    if b.val = 42 then [46, 42, 63]
    else if b.val = 63 then [46, 123, 49, 125]
    else if b.val = 43 then [46, 43, 63]
    else [b]

/-- The letter and number classes of package `unicode` on ASCII: the letters are
`A`-`Z` and `a`-`z`, the numbers are `0`-`9`. -/
def Unicode.AgreesOnASCII (u : Unicode) : Prop :=
  ∀ r, r < 128 →
    u.IsLetter r = ((decide (65 ≤ r) && decide (r ≤ 90)) || (decide (97 ≤ r) && decide (r ≤ 122)))
    ∧ u.IsNumber r = (decide (48 ≤ r) && decide (r ≤ 57))

/-! ## Handler dispatcher (`dispatcher.go`) -/

/-- Modelled from the spec: a replication event handler, identified by the pointer it is
(`id`), with one flag per handler interface that its dynamic type implements besides
`BaseReplicationEventHandler`; the interfaces are declared outside the sources. -/
structure Handler where
  id : Nat
  systemCatalog : Bool
  compression : Bool
  hypertable : Bool
  logical : Bool
  chunkSnapshot : Bool
  deriving DecidableEq, Repr

/-- A value of the interface type `BaseReplicationEventHandler`: `nil` or a handler. Two
values are `==` when both are `nil` or both are the same handler. -/
abbrev HandlerValue := Option Handler

/-- A slice `[]BaseReplicationEventHandler`: its elements, and the content of the slots of
its backing array between its length and its capacity. -/
structure HandlerSlice where
  elems : List HandlerValue
  spare : List HandlerValue
  deriving DecidableEq, Repr

/-- Built-in `append(s, handler)`: the element is stored into the backing array when the
capacity allows it; otherwise the elements move to a new, zeroed array whose capacity
`grow` chooses (at least the needed length). -/
def HandlerSlice.append (grow : Nat → Nat) (s : HandlerSlice) (handler : HandlerValue) :
    HandlerSlice :=
  match s.spare with
  | _ :: spare => ⟨s.elems ++ [handler], spare⟩
  | [] => ⟨s.elems ++ [handler], List.replicate (grow s.elems.length - (s.elems.length + 1)) none⟩

/-- The dispatcher; of its fields only `handlers` is used by the registration and the
notification methods. -/
structure Dispatcher where
  handlers : HandlerSlice
  deriving DecidableEq, Repr

/-- `NewDispatcher`: `handlers` is `make([]BaseReplicationEventHandler, 0)`. -/
def NewDispatcher : Dispatcher := ⟨⟨[], []⟩⟩

/-- `Dispatcher.RegisterReplicationEventHandler`. -/
def Dispatcher.RegisterReplicationEventHandler (grow : Nat → Nat) (d : Dispatcher)
    (handler : HandlerValue) : Dispatcher :=
  if d.handlers.elems.any (fun candidate => candidate == handler) then d
  else { d with handlers := d.handlers.append grow handler }

/-- The `for index, candidate := range d.handlers` loop of
`UnregisterReplicationEventHandler`, with `remaining` iterations to go. The range
expression is evaluated once, so `candidate` is read from the backing array at `index`
whatever the current length of `d.handlers` is; `d.handlers[index] = nil` is checked
against the current length; `append(d.handlers[:index], d.handlers[index+1:]...)` has
the capacity of `d.handlers` at its disposal, so it moves the elements after `index` one
slot down inside the backing array and leaves the last slot as it is. -/
def UnregisterLoop (handler : HandlerValue) : Nat → Nat → HandlerSlice → GoResult HandlerSlice
  | 0, _, handlers => .ok handlers
  | remaining + 1, index, handlers =>
    match (handlers.elems ++ handlers.spare)[index]? with
    | none => .panic "index out of range"
    | some candidate =>
      if candidate = handler then
        if index < handlers.elems.length then
          -- Erase element (zero value) to prevent memory leak
          let erased := handlers.elems.set index none
          UnregisterLoop handler remaining (index + 1)
            ⟨erased.take index ++ erased.drop (index + 1),
              erased.drop (erased.length - 1) ++ handlers.spare⟩
        else .panic "index out of range"
      else UnregisterLoop handler remaining (index + 1) handlers

/-- `Dispatcher.UnregisterReplicationEventHandler`. -/
def Dispatcher.UnregisterReplicationEventHandler (d : Dispatcher) (handler : HandlerValue) :
    GoResult Dispatcher := do
  let handlers ← UnregisterLoop handler d.handlers.elems.length 0 d.handlers
  .ok { d with handlers := handlers }

/-- `notificatorImpl`. -/
structure notificatorImpl where
  dispatcher : Dispatcher
  deriving DecidableEq, Repr

/-- A call, made by a callback, of one of the two exported methods that change the
handler list of the dispatcher. -/
inductive HandlerCall where
  | register (handler : HandlerValue)
  | unregister (handler : HandlerValue)
  deriving DecidableEq, Repr

/-- What one call `fn(handler)` of a callback does: the calls of
`RegisterReplicationEventHandler` and `UnregisterReplicationEventHandler` it makes on the
dispatcher, in order, how it ends - `nil`, an error, or a panic - and the state in which
it leaves whatever else the closure can reach (`σ`). -/
structure Invocation (σ : Type) where
  calls : List HandlerCall
  result : GoResult Unit
  state : σ

/-- A walk `for _, handler := range n.dispatcher.handlers` in progress. The range
expression is evaluated once: the loop keeps the backing array it started on (`array`,
all slots up to the capacity) and reads slot `index` of it when iteration `index` begins.
`shared` tells whether `dispatcher.handlers` still lives in that array, so that the
dispatcher methods write into the slots the loop is going to read. `state` is the state of
the closure, `invoked` the handlers `fn` was called on, `logged` the errors passed to
`handleError`, `panicked` the panic that ended the walk, if one did. -/
structure Walk (σ : Type) where
  dispatcher : Dispatcher
  array : List HandlerValue
  shared : Bool
  state : σ
  invoked : List HandlerValue
  logged : List GoError
  panicked : Option String

/-- A dispatcher method called by the callback during the walk. `Register` appends in
place when the capacity allows it and moves `dispatcher.handlers` to a new array
otherwise, after which the loop and the dispatcher no longer share the array;
`Unregister` always works in place. A panic of the method ends the walk. -/
def Walk.apply {σ : Type} (grow : Nat → Nat) (walk : Walk σ) : HandlerCall → Walk σ
  | .register handler =>
    let d := walk.dispatcher.RegisterReplicationEventHandler grow handler
    let moved := !(walk.dispatcher.handlers.elems.any (fun candidate => candidate == handler))
      && walk.dispatcher.handlers.spare.isEmpty
    let shared := walk.shared && !moved
    { walk with
      dispatcher := d
      shared := shared
      array := if shared then d.handlers.elems ++ d.handlers.spare else walk.array }
  | .unregister handler =>
    match walk.dispatcher.UnregisterReplicationEventHandler handler with
    | .ok d =>
      { walk with
        dispatcher := d
        array := if walk.shared then d.handlers.elems ++ d.handlers.spare else walk.array }
    | .error _ => walk
    | .panic msg => { walk with panicked := some msg }

/-- The dispatcher methods called during one call of the callback, in order, up to the
first that panics. -/
def Walk.applyAll {σ : Type} (grow : Nat → Nat) : List HandlerCall → Walk σ → Walk σ
  | [], walk => walk
  | call :: rest, walk =>
    if (walk.apply grow call).panicked.isSome then walk.apply grow call
    else Walk.applyAll grow rest (walk.apply grow call)

/-- The loop `for _, handler := range n.dispatcher.handlers` shared by the notification
methods, with `remaining` iterations to go: `capable` is the type assertion of the
method, `fn` the callback. A panic of the callback, or of a dispatcher method it calls,
unwinds the loop: the notification methods have no `recover`. -/
def notifyLoop {σ : Type} (grow : Nat → Nat) (capable : HandlerValue → Bool)
    (fn : HandlerValue → σ → Invocation σ) : Nat → Nat → Walk σ → Walk σ
  | 0, _, walk => walk
  | remaining + 1, index, walk =>
    match walk.array[index]? with
    | none => { walk with panicked := some "index out of range" }
    | some handler =>
      if capable handler then
        let after := Walk.applyAll grow (fn handler walk.state).calls
          { walk with invoked := walk.invoked ++ [handler] }
        if after.panicked.isSome then after
        else
          match (fn handler walk.state).result with
          | .ok _ =>
            notifyLoop grow capable fn remaining (index + 1)
              { after with state := (fn handler walk.state).state }
          | .error err =>
            notifyLoop grow capable fn remaining (index + 1)
              { after with
                state := (fn handler walk.state).state
                logged := after.logged ++ [err] }
          | .panic msg =>
            { after with state := (fn handler walk.state).state, panicked := some msg }
      else notifyLoop grow capable fn remaining (index + 1) walk

/-- The state in which a notification method enters its loop: the range expression
`n.dispatcher.handlers` gives the number of iterations and the backing array. -/
def notificatorImpl.enter {σ : Type} (n : notificatorImpl) (state : σ) : Walk σ :=
  ⟨n.dispatcher, n.dispatcher.handlers.elems ++ n.dispatcher.handlers.spare, true, state,
    [], [], none⟩

/-- `notificatorImpl.NotifyBaseReplicationEventHandler`: no type assertion. -/
def notificatorImpl.NotifyBaseReplicationEventHandler {σ : Type} (grow : Nat → Nat)
    (n : notificatorImpl) (fn : HandlerValue → σ → Invocation σ) (state : σ) : Walk σ :=
  notifyLoop grow (fun _ => true) fn n.dispatcher.handlers.elems.length 0 (n.enter state)

/-- `notificatorImpl.NotifySystemCatalogReplicationEventHandler`. -/
def notificatorImpl.NotifySystemCatalogReplicationEventHandler {σ : Type} (grow : Nat → Nat)
    (n : notificatorImpl) (fn : HandlerValue → σ → Invocation σ) (state : σ) : Walk σ :=
  notifyLoop grow (fun handler => handler.any (fun h => h.systemCatalog)) fn
    n.dispatcher.handlers.elems.length 0 (n.enter state)

/-- `notificatorImpl.NotifyCompressionReplicationEventHandler`. -/
def notificatorImpl.NotifyCompressionReplicationEventHandler {σ : Type} (grow : Nat → Nat)
    (n : notificatorImpl) (fn : HandlerValue → σ → Invocation σ) (state : σ) : Walk σ :=
  notifyLoop grow (fun handler => handler.any (fun h => h.compression)) fn
    n.dispatcher.handlers.elems.length 0 (n.enter state)

/-- `notificatorImpl.NotifyHypertableReplicationEventHandler`. -/
def notificatorImpl.NotifyHypertableReplicationEventHandler {σ : Type} (grow : Nat → Nat)
    (n : notificatorImpl) (fn : HandlerValue → σ → Invocation σ) (state : σ) : Walk σ :=
  notifyLoop grow (fun handler => handler.any (fun h => h.hypertable)) fn
    n.dispatcher.handlers.elems.length 0 (n.enter state)

/-- `notificatorImpl.NotifyLogicalReplicationEventHandler`. -/
def notificatorImpl.NotifyLogicalReplicationEventHandler {σ : Type} (grow : Nat → Nat)
    (n : notificatorImpl) (fn : HandlerValue → σ → Invocation σ) (state : σ) : Walk σ :=
  notifyLoop grow (fun handler => handler.any (fun h => h.logical)) fn
    n.dispatcher.handlers.elems.length 0 (n.enter state)

/-- `notificatorImpl.NotifyChunkSnapshotEventHandler`. -/
def notificatorImpl.NotifyChunkSnapshotEventHandler {σ : Type} (grow : Nat → Nat)
    (n : notificatorImpl) (fn : HandlerValue → σ → Invocation σ) (state : σ) : Walk σ :=
  notifyLoop grow (fun handler => handler.any (fun h => h.chunkSnapshot)) fn
    n.dispatcher.handlers.elems.length 0 (n.enter state)

/-! ## Auxiliary definitions for the statements about the dispatcher -/

/-- The dispatchers that `NewDispatcher` and any sequence of registrations and
unregistrations produce. -/
inductive Dispatcher.Reachable (grow : Nat → Nat) : Dispatcher → Prop
  | new : Dispatcher.Reachable grow NewDispatcher
  | register (d : Dispatcher) (handler : HandlerValue) :
      Dispatcher.Reachable grow d →
      Dispatcher.Reachable grow (d.RegisterReplicationEventHandler grow handler)
  | unregister (d d' : Dispatcher) (handler : HandlerValue) :
      Dispatcher.Reachable grow d →
      d.UnregisterReplicationEventHandler handler = .ok d' →
      Dispatcher.Reachable grow d'

/-- Three handlers for the scenarios. -/
def sampleHandlers : List HandlerValue :=
  [some ⟨1, true, false, true, true, false⟩, some ⟨2, false, true, false, false, true⟩,
    some ⟨3, true, true, true, true, true⟩]

/-- The dispatcher with the three sample handlers registered, the slice doubling its
capacity when it grows. -/
def sampleDispatcher : Dispatcher :=
  sampleHandlers.foldl (fun d h => d.RegisterReplicationEventHandler (fun n => 2 * n) h)
    NewDispatcher

/-- Calls of `fn` on the handlers of a list, one after the other, each call starting in
the state the call before left: the state after the last call and the errors returned, in
order, after those in `logged`. -/
def invokeAll {σ : Type} (fn : HandlerValue → σ → Invocation σ) :
    List HandlerValue → σ → List GoError → σ × List GoError
  | [], state, logged => (state, logged)
  | handler :: rest, state, logged =>
    match (fn handler state).result with
    | .error err => invokeAll fn rest (fn handler state).state (logged ++ [err])
    | _ => invokeAll fn rest (fn handler state).state logged

/-- A walk that returned after calling `fn` on the handlers of `handlers`, once per entry
and in the order of the list, and on nothing else: it did not panic, `handlers` is the
sequence of its invocations, the closure is in the state that these calls of `fn`, made
one after the other from `state`, leave, and the errors they returned, in order, are what
went to `handleError`. -/
def Walk.Called {σ : Type} (walk : Walk σ) (fn : HandlerValue → σ → Invocation σ)
    (handlers : List HandlerValue) (state : σ) : Prop :=
  walk.panicked = none ∧ walk.invoked = handlers
    ∧ walk.state = (invokeAll fn handlers state []).1
    ∧ walk.logged = (invokeAll fn handlers state []).2

/-- What holds of a walk over the handlers `L` as long as the callback unregisters
nothing: the first slots of the array the loop reads still hold `L`, the handler list of
the dispatcher has not become shorter, and the array is the one of the dispatcher while
the two are shared. -/
structure Walk.Undisturbed {σ : Type} (L : List HandlerValue) (walk : Walk σ) : Prop where
  front : walk.array.take L.length = L
  length_le : L.length ≤ walk.dispatcher.handlers.elems.length
  array_eq : walk.shared = true →
    walk.array = walk.dispatcher.handlers.elems ++ walk.dispatcher.handlers.spare
  running : walk.panicked = none

/-- A callback whose closure records the `id` of every handler it is called on. It fails
on the handlers with an odd `id` and on `nil`, and on the handler with `id` 2 it registers
a fourth handler. -/
def sampleCallback : HandlerValue → List Nat → Invocation (List Nat) :=
  fun handler seen =>
    match handler with
    | some h =>
      ⟨if h.id = 2 then [.register (some ⟨4, true, true, true, true, true⟩)] else [],
        if h.id % 2 = 1 then .error (.mk "handler failed") else .ok (),
        seen ++ [h.id]⟩
    | none => ⟨[], .error (.mk "nil handler"), seen ++ [0]⟩

/-- A callback that panics on the handler with `id` 1. -/
def panickingCallback : HandlerValue → List Nat → Invocation (List Nat) :=
  fun handler seen =>
    match handler with
    | some h =>
      ⟨[], if h.id = 1 then .panic "handler panicked" else .ok (), seen ++ [h.id]⟩
    | none => ⟨[], .ok (), seen ++ [0]⟩

/-- A callback with which the handler with `id` 1 unregisters itself when it is
notified. -/
def unregisteringCallback : HandlerValue → List Nat → Invocation (List Nat) :=
  fun handler seen =>
    match handler with
    | some h => ⟨if h.id = 1 then [.unregister handler] else [], .ok (), seen ++ [h.id]⟩
    | none => ⟨[], .ok (), seen ++ [0]⟩

/-! ## Topic names (`debezium.go`, `namegenerator.go`) -/

/-- Modelled from the spec: `model.Hypertable` (package `systemcatalog/model`, not part of
the sources) as far as the naming strategy reads it: schema name and table name. -/
structure model.Hypertable where
  schemaName : GoString
  hypertableName : GoString
  deriving DecidableEq, Repr

/-- `model.Hypertable.SchemaName`. -/
def model.Hypertable.SchemaName (h : model.Hypertable) : GoString := h.schemaName

/-- `model.Hypertable.HypertableName`. -/
def model.Hypertable.HypertableName (h : model.Hypertable) : GoString := h.hypertableName

/-- `fmt.Sprintf("%s.%s.%s", a, b, c)` for string arguments. -/
def fmt.SprintfDotted (a b c : GoString) : GoString := a ++ [46] ++ b ++ [46] ++ c

/-- `DebeziumNamingStrategy.EventTopicName`. -/
def DebeziumNamingStrategy.EventTopicName (topicPrefix : GoString)
    (hypertable : model.Hypertable) : GoString :=
  fmt.SprintfDotted topicPrefix hypertable.SchemaName hypertable.HypertableName

/-- `DebeziumNamingStrategy.SchemaTopicName`. -/
def DebeziumNamingStrategy.SchemaTopicName (topicPrefix : GoString)
    (hypertable : model.Hypertable) : GoString :=
  fmt.SprintfDotted topicPrefix hypertable.SchemaName hypertable.HypertableName

/-- Modelled from the spec: the interface `NamingStrategy` (declared outside the sources)
with the three methods that `NameGenerator` calls. -/
structure NamingStrategy where
  EventTopicName : GoString → model.Hypertable → GoString
  SchemaTopicName : GoString → model.Hypertable → GoString
  MessageTopicName : GoString → GoString

/-- `NameGenerator`. -/
structure NameGenerator where
  topicPrefix : GoString
  topicNamingStrategy : NamingStrategy

/-- `NewNameGenerator`. -/
def NewNameGenerator (topicPrefix : GoString) (topicNamingStrategy : NamingStrategy) :
    NameGenerator :=
  { topicPrefix := topicPrefix, topicNamingStrategy := topicNamingStrategy }

/-- `NameGenerator.EventTopicName`. -/
def NameGenerator.EventTopicName (ng : NameGenerator) (hypertable : model.Hypertable) :
    GoString :=
  ng.topicNamingStrategy.EventTopicName ng.topicPrefix hypertable

/-- `NameGenerator.SchemaTopicName`. -/
def NameGenerator.SchemaTopicName (ng : NameGenerator) (hypertable : model.Hypertable) :
    GoString :=
  ng.topicNamingStrategy.SchemaTopicName ng.topicPrefix hypertable

/-- `NameGenerator.MessageTopicName`. -/
def NameGenerator.MessageTopicName (ng : NameGenerator) : GoString :=
  ng.topicNamingStrategy.MessageTopicName ng.topicPrefix

/-- The Debezium strategy as a `NamingStrategy`; its method `MessageTopicName` is not in
the sources and is a parameter. -/
def DebeziumNamingStrategy (messageTopicName : GoString → GoString) : NamingStrategy :=
  { EventTopicName := DebeziumNamingStrategy.EventTopicName,
    SchemaTopicName := DebeziumNamingStrategy.SchemaTopicName,
    MessageTopicName := messageTopicName }

/-! ## Auxiliary definitions for the statements about value conversion -/

/-- What `convertColumnValues` stores for a column whose name is a key of the input with
value `v`: the result of the converter registered for the column's OID, `v` itself when
no converter is registered, the error of the lookup or of the conversion when one of
them fails. -/
def convertedValue (c : Collaborators) (column : Column) (v : GoAny) : GoResult GoAny :=
  match c.ConverterByOID column.DataType with
  | .ok (some convert) => convert column.DataType v
  | .ok none => .ok v
  | .error err => .error err
  | .panic msg => .panic msg

/-! ## Shutdown of the replicator (`replicator.go`) -/

/-- One call of a shutdown task: the index of the task in `shutdownTasks` and what the
call returned. -/
structure TaskCall where
  index : Nat
  result : GoResult Unit
  deriving DecidableEq, Repr

/-- A shutdown task, a closure `func() error`: its outcome as a function of the calls of
shutdown tasks made before it. -/
abbrev ShutdownTask := List TaskCall → GoResult Unit

/-- The replicator, as far as shutdown is concerned: the tasks in the order in which
`StartReplication` appended them. -/
structure Replicator where
  shutdownTasks : List ShutdownTask

/-- Modelled from the spec: `cli.ExitError` as `erroring.AdaptError` builds it from the
result of `stderrors.Join`: the joined errors, in order, and the exit code. -/
structure ExitError where
  joined : List GoError
  exitCode : Nat
  deriving DecidableEq, Repr

/-- Modelled from the spec: `erroring.AdaptError(stderrors.Join(errors...), exitCode)` for
a non-empty list of non-nil errors. -/
def erroring.AdaptError (errors : List GoError) (exitCode : Nat) : ExitError :=
  ⟨errors, exitCode⟩

/-- The loop `for i := len(r.shutdownTasks) - 1; i >= 0; i--` of `StopReplication`; the
first argument is `i + 1`. The result is the collected errors and the calls made. -/
def StopReplicationLoop (shutdownTasks : List ShutdownTask) :
    Nat → List GoError → List TaskCall → GoResult (List GoError × List TaskCall)
  | 0, errors, calls => .ok (errors, calls)
  | i + 1, errors, calls =>
    match shutdownTasks[i]? with
    | none => .panic "index out of range"
    | some task =>
      match task calls with
      | .ok _ => StopReplicationLoop shutdownTasks i errors (calls ++ [⟨i, .ok ()⟩])
      | .error err =>
        StopReplicationLoop shutdownTasks i (errors ++ [err]) (calls ++ [⟨i, .error err⟩])
      | .panic msg => .panic msg

/-- `Replicator.StopReplication`: the returned exit error (`none` is `nil`) and the calls
of shutdown tasks made. -/
def Replicator.StopReplication (r : Replicator) :
    GoResult (Option ExitError × List TaskCall) :=
  if r.shutdownTasks.length > 0 then
    match StopReplicationLoop r.shutdownTasks r.shutdownTasks.length [] [] with
    | .ok (errors, calls) =>
      if errors.length > 0 then .ok (some (erroring.AdaptError errors 250), calls)
      else .ok (none, calls)
    | .error err => .error err
    | .panic msg => .panic msg
  else .ok (none, [])

/-! ## Auxiliary definitions for the statements about shutdown -/

/-- The errors among the results of a sequence of task calls, in order. -/
def TaskCall.errors : List TaskCall → List GoError
  | [] => []
  | ⟨_, .error err⟩ :: rest => err :: TaskCall.errors rest
  | _ :: rest => TaskCall.errors rest

/-- Whether each call of a sequence made after `before` returned what its task answers
to the calls made before it. -/
def TaskCall.Faithful (shutdownTasks : List ShutdownTask) :
    List TaskCall → List TaskCall → Prop
  | _, [] => True
  | before, call :: rest =>
    (∃ task, shutdownTasks[call.index]? = some task ∧ task before = call.result)
    ∧ TaskCall.Faithful shutdownTasks (before ++ [call]) rest

/-- Three shutdown tasks of which the first and the third fail. -/
def sampleShutdownTasks : List ShutdownTask :=
  [fun _ => .error (.mk "stats"), fun _ => .ok (), fun _ => .error (.mk "channel")]

/-! ## Task queue and shutdown of the dispatcher (`dispatcher.go`) -/

/-- A task handed to `EnqueueTask`, a closure `func(notificator Notificator)`, named by a
number. -/
abbrev Task := Nat

/-- Where the goroutine of `StartDispatcher` stands: not yet started, at the `select` of
its loop, at `d.shutdownDone <- true` after the label `finish`, or ended. -/
inductive WorkerState where
  | notStarted : WorkerState
  | selecting : WorkerState
  | sendingDone : WorkerState
  | finished : WorkerState
  deriving DecidableEq, Repr

/-- Where a call of `StopDispatcher` stands: not yet made, at `d.shutdownStart <- true`
(the flag is set), at `<-d.shutdownDone`, or returned. -/
inductive StopState where
  | notCalled : StopState
  | sendingStart : StopState
  | receivingDone : StopState
  | returned : StopState
  deriving DecidableEq, Repr

/-- The fields `taskQueue` and `shutdownActive` of a `Dispatcher` together with the
goroutines at work on it: `taskQueue` is the buffer of the channel, oldest task first,
`queueLength` its capacity, `senders` the tasks of the calls of `EnqueueTask` that have
passed the shutdown test and stand at `d.taskQueue <- task`, `executed` the tasks the
worker has run, in order. The channels `shutdownStart` and `shutdownDone` are unbuffered
and hold nothing. -/
structure DispatcherRun where
  queueLength : Nat
  taskQueue : List Task
  shutdownActive : Bool
  worker : WorkerState
  stop : StopState
  senders : List Task
  executed : List Task
  deriving DecidableEq, Repr

/-- `NewDispatcher(queueLength)`, before `StartDispatcher`. -/
def DispatcherRun.new (queueLength : Nat) : DispatcherRun :=
  { queueLength := queueLength, taskQueue := [], shutdownActive := false,
    worker := .notStarted, stop := .notCalled, senders := [], executed := [] }

/-- `Dispatcher.EnqueueTask` when no other goroutine takes a step during the call: the
returned error (`none` is `nil`) and the state afterwards; `none` when the call blocks at
`d.taskQueue <- task` because the buffer is full. -/
def Dispatcher.EnqueueTask (d : DispatcherRun) (task : Task) :
    Option (Option GoError × DispatcherRun) :=
  if d.shutdownActive then some (some (.mk "shutdown active, draining only"), d)
  else if d.taskQueue.length < d.queueLength then
    some (none, { d with taskQueue := d.taskQueue ++ [task] })
  else none

/-- One step of one goroutine. The worker receives the oldest task of the buffer and runs
it (`receive`), or receives directly from a sender when the buffer is empty (`handoff`);
with nothing to receive it takes the `default` branch, which loops (`idle`) or, when
`shutdownActive` is set, jumps to `finish` (`leave`). A send on the unbuffered channel
`shutdownDone` completes together with the receive of `StopDispatcher` (`confirm`).
`StopDispatcher` first sets the flag (`stopMark`); its next statement is a send on the
unbuffered channel `shutdownStart`, which completes only together with a receive from
that channel, and no statement of the program is such a receive: there is no step for
it. A call of `EnqueueTask` tests the flag and returns an error (`enqueueRejected`) or
goes on to its send (`enqueueAccepted`), which completes when the buffer has room
(`send`). -/
inductive Step : DispatcherRun → DispatcherRun → Prop
  | start (s : DispatcherRun) : s.worker = .notStarted →
      Step s { s with worker := .selecting }
  | receive (s : DispatcherRun) (task : Task) (rest : List Task) :
      s.worker = .selecting → s.taskQueue = task :: rest →
      Step s { s with taskQueue := rest, executed := s.executed ++ [task] }
  | handoff (s : DispatcherRun) (task : Task) (pre post : List Task) :
      s.worker = .selecting → s.taskQueue = [] → s.senders = pre ++ task :: post →
      Step s { s with senders := pre ++ post, executed := s.executed ++ [task] }
  | idle (s : DispatcherRun) :
      s.worker = .selecting → s.taskQueue = [] → s.shutdownActive = false → Step s s
  | leave (s : DispatcherRun) :
      s.worker = .selecting → s.taskQueue = [] → s.shutdownActive = true →
      Step s { s with worker := .sendingDone }
  | confirm (s : DispatcherRun) :
      s.worker = .sendingDone → s.stop = .receivingDone →
      Step s { s with worker := .finished, stop := .returned }
  | stopMark (s : DispatcherRun) : s.stop = .notCalled →
      Step s { s with shutdownActive := true, stop := .sendingStart }
  | enqueueRejected (s : DispatcherRun) (task : Task) : s.shutdownActive = true → Step s s
  | enqueueAccepted (s : DispatcherRun) (task : Task) : s.shutdownActive = false →
      Step s { s with senders := s.senders ++ [task] }
  | send (s : DispatcherRun) (task : Task) (pre post : List Task) :
      s.senders = pre ++ task :: post → s.taskQueue.length < s.queueLength →
      Step s { s with senders := pre ++ post, taskQueue := s.taskQueue ++ [task] }

/-- Any number of steps. -/
abbrev Steps : DispatcherRun → DispatcherRun → Prop := Relation.ReflTransGen Step

/-! ## Auxiliary definitions for the statements about event keys -/

/-- The key envelope that a call to the event filter or to the sink carries. -/
def Call.key? : Call → Option Struct
  | .Evaluate _ key _ _ => some key
  | .Emit _ _ _ key _ _ => some key
  | _ => none

/-- The table `public.metrics` before and after an update that changes the primary key
from 7 to 8. -/
def sampleOldValues : GoMap GoAny := [(ascii "id", GoAny.int 7), (ascii "v", GoAny.int 1)]

/-- The new row of the update that changes the primary key from 7 to 8. -/
def sampleNewValues : GoMap GoAny := [(ascii "id", GoAny.int 8), (ascii "v", GoAny.int 1)]

/-! # Theorems -/


@[simp] theorem GoResult.ok_bind {α β : Type} (a : α) (f : α → GoResult β) :
    (GoResult.ok a >>= f) = f a := rfl

@[simp] theorem GoResult.error_bind {α β : Type} (e : GoError) (f : α → GoResult β) :
    (GoResult.error e >>= f) = GoResult.error e := rfl

@[simp] theorem GoResult.panic_bind {α β : Type} (m : String) (f : α → GoResult β) :
    (GoResult.panic m >>= f) = GoResult.panic m := rfl

@[simp] theorem GoResult.pure_eq {α : Type} (a : α) : (pure a : GoResult α) = GoResult.ok a := rfl

theorem u32_of_lt {n : Nat} (h : n < 4294967296) : u32 n = n := Nat.mod_eq_of_lt h

theorem AppendUint32_eq (data : List Byte) (v : Nat) :
    BigEndian.AppendUint32 data v = data ++ be32 v := rfl

@[simp] theorem be32_length (v : Nat) : (be32 v).length = 4 := rfl

theorem Uint32_be32 (v : Nat) (h : v < 4294967296) (rest spare : List Byte) :
    BigEndian.Uint32 ⟨be32 v ++ rest, spare⟩ = .ok v := by
  simp only [be32, BigEndian.Uint32, List.cons_append, List.nil_append, Fin.ofNat, Fin.val_mk]
  congr 1
  omega

theorem sliceFrom_append (d : ByteSlice) (a b : List Byte) (h : d.elems = a ++ b) :
    d.sliceFrom a.length = .ok ⟨b, d.spare⟩ := by
  simp [ByteSlice.sliceFrom, h]

theorem slice_append (d : ByteSlice) (a m b : List Byte) (h : d.elems = a ++ (m ++ b)) :
    d.slice a.length (a.length + m.length) = .ok ⟨m, b ++ d.spare⟩ := by
  have h1 : a.length + m.length ≤ d.elems.length + d.spare.length := by
    simp [h]; omega
  unfold ByteSlice.slice
  rw [if_pos ⟨Nat.le_add_right _ _, h1⟩, h]
  rw [← List.append_assoc a m b, List.append_assoc (a ++ m) b d.spare]
  have e1 : List.drop a.length (a ++ m ++ (b ++ d.spare)) = m ++ (b ++ d.spare) := by
    rw [List.append_assoc, List.drop_left]
  have e2 : List.drop (a.length + m.length) (a ++ m ++ (b ++ d.spare)) = b ++ d.spare := by
    rw [← List.length_append, List.drop_left]
  rw [e1, e2, Nat.add_sub_cancel_left, List.take_left]

theorem marshalItems_eq (data : List Byte) (l : List (GoString × GoString)) :
    sinkContextImpl.marshalItems data l = data ++ encodeItems l := by
  induction l generalizing data with
  | nil => simp [sinkContextImpl.marshalItems, encodeItems]
  | cons p rest ih =>
    obtain ⟨k, v⟩ := p
    simp [sinkContextImpl.marshalItems, encodeItems, ih, AppendUint32_eq]

theorem encodeItems_length_ge (l : List (GoString × GoString)) :
    8 * l.length ≤ (encodeItems l).length := by
  induction l with
  | nil => simp [encodeItems]
  | cons p rest ih =>
    obtain ⟨k, v⟩ := p
    simp only [encodeItems, List.length_append, be32_length, List.length_cons]
    omega

theorem unmarshalItems_encode (d : ByteSlice) (items : List (GoString × GoString)) :
    ∀ (pre : List Byte) (s : sinkContextImpl), d.elems = pre ++ encodeItems items →
      d.elems.length < 4294967296 →
      sinkContextImpl.unmarshalItems d items.length pre.length s
        = .ok (items.foldl (fun s p => s.SetAttribute p.1 p.2) s) := by
  induction items with
  | nil => intro pre s _ _; rfl
  | cons p rest ih =>
    obtain ⟨k, v⟩ := p
    intro pre s h hlen
    have hl := hlen
    rw [h] at hl
    simp only [encodeItems, List.length_append, be32_length] at hl
    have hk : u32 k.length = k.length := u32_of_lt (by omega)
    have hv : u32 v.length = v.length := u32_of_lt (by omega)
    rw [encodeItems, hk, hv] at h
    have s1 := sliceFrom_append d pre _ h
    have h2 : d.elems = (pre ++ be32 k.length) ++
        (be32 v.length ++ (k ++ (v ++ encodeItems rest))) := by
      rw [h]; simp
    have s2 := sliceFrom_append d _ _ h2
    have h3 : d.elems = (pre ++ be32 k.length ++ be32 v.length) ++
        (k ++ (v ++ encodeItems rest)) := by
      rw [h]; simp
    have s3 := slice_append d _ _ _ h3
    have h4 : d.elems = (pre ++ be32 k.length ++ be32 v.length ++ k) ++
        (v ++ encodeItems rest) := by
      rw [h]; simp
    have s4 := slice_append d _ _ _ h4
    have h5 : d.elems = (pre ++ be32 k.length ++ be32 v.length ++ k ++ v) ++
        encodeItems rest := by
      rw [h]; simp
    have r := ih _ (s.SetAttribute k v) h5 hlen
    simp only [List.length_append, be32_length] at s2 s3 s4 r
    have o1 : u32 (pre.length + 4) = pre.length + 4 := u32_of_lt (by omega)
    have o2 : u32 (pre.length + 4 + 4) = pre.length + 4 + 4 := u32_of_lt (by omega)
    have o3 : u32 (pre.length + 4 + 4 + k.length) = pre.length + 4 + 4 + k.length :=
      u32_of_lt (by omega)
    have o4 : u32 (pre.length + 4 + 4 + k.length + v.length)
        = pre.length + 4 + 4 + k.length + v.length := u32_of_lt (by omega)
    simp only [List.length_cons, sinkContextImpl.unmarshalItems, s1, GoResult.ok_bind,
      Uint32_be32 _ (show k.length < 4294967296 by omega),
      Uint32_be32 _ (show v.length < 4294967296 by omega), o1, o2, o3, o4, s2, s3, s4, r,
      List.foldl_cons]

theorem GoMap.set_of_not_mem {β : Type} (m : GoMap β) (k : GoString) (v : β)
    (h : k ∉ m.keys) : m.set k v = m ++ [(k, v)] := by
  induction m with
  | nil => rfl
  | cons p rest ih =>
    obtain ⟨k', v'⟩ := p
    simp only [GoMap.keys, List.map_cons, List.mem_cons, not_or] at h
    have hne : ¬ k' = k := fun e => h.1 e.symm
    simp only [GoMap.set, hne, if_false, List.cons_append]
    rw [ih h.2]

theorem GoMap.get_eq_some_iff {β : Type} (m : GoMap β) (k : GoString) (v : β)
    (h : m.keys.Nodup) : m.get k = some v ↔ (k, v) ∈ m := by
  induction m with
  | nil => simp [GoMap.get]
  | cons p rest ih =>
    obtain ⟨k', v'⟩ := p
    simp only [GoMap.keys, List.map_cons, List.nodup_cons] at h
    by_cases e : k' = k
    · subst e
      simp only [GoMap.get, if_true, Option.some.injEq, List.mem_cons, Prod.mk.injEq, true_and]
      constructor
      · intro hv; exact Or.inl hv.symm
      · rintro (hv | hmem)
        · exact hv.symm
        · exact absurd (List.mem_map_of_mem Prod.fst hmem) h.1
    · simp only [GoMap.get, e, if_false, List.mem_cons, Prod.mk.injEq]
      rw [ih h.2]
      constructor
      · intro hm; exact Or.inr hm
      · rintro (⟨hk, _⟩ | hm)
        · exact absurd hk.symm e
        · exact hm

theorem GoMap.get_perm {β : Type} (m₁ m₂ : GoMap β) (k : GoString) (hp : m₁.Perm m₂)
    (h : m₂.keys.Nodup) : m₁.get k = m₂.get k := by
  have h1 : m₁.keys.Nodup := (List.Perm.nodup_iff (hp.map Prod.fst)).mpr h
  apply Option.ext
  intro v
  rw [Option.mem_def, Option.mem_def, GoMap.get_eq_some_iff m₁ k v h1, GoMap.get_eq_some_iff m₂ k v h]
  exact hp.mem_iff

theorem foldl_SetAttribute (items : List (GoString × GoString)) :
    ∀ s : sinkContextImpl, (s.attributes ++ items).keys.Nodup →
      items.foldl (fun s p => s.SetAttribute p.1 p.2) s
        = ⟨s.attributes ++ items, s.transientAttributes⟩ := by
  induction items with
  | nil => intro s _; simp
  | cons p rest ih =>
    obtain ⟨k, v⟩ := p
    intro s h
    have hk : k ∉ s.attributes.keys := by
      simp only [GoMap.keys, List.map_append, List.map_cons, List.nodup_append,
        List.nodup_cons] at h
      intro hmem
      exact h.2.2 hmem (List.mem_cons_self _ _)
    have hs : s.SetAttribute k v = ⟨s.attributes ++ [(k, v)], s.transientAttributes⟩ := by
      simp only [sinkContextImpl.SetAttribute, GoMap.set_of_not_mem _ _ _ hk]
    rw [List.foldl_cons, hs, ih]
    · simp
    · simpa using h

/-- **C1 (amended).** For every persistent attribute map `M` (distinct keys), every
order `order` in which `range` may yield its entries, every transient map and every
spare capacity of the payload slice: when the whole encoding is shorter than `2 ^ 32`
bytes, `UnmarshalBinary` on a fresh sink context succeeds on the output of
`MarshalBinary` and leaves persistent attributes equal to `M` (same entries, same
lookups) and no transient attribute. -/
theorem unmarshal_marshal_roundtrip (M order transient : GoMap GoString) (spare : List Byte)
    (hM : M.keys.Nodup) (hperm : order.Perm M)
    (hsize : (sinkContextImpl.MarshalBinary ⟨M, transient⟩ order).length < 4294967296) :
    ∃ s', newSinkContextImpl.UnmarshalBinary
          ⟨sinkContextImpl.MarshalBinary ⟨M, transient⟩ order, spare⟩ = .ok s'
      ∧ s'.attributes.Perm M
      ∧ (∀ k, s'.Attribute k = (sinkContextImpl.mk M transient).Attribute k)
      ∧ s'.transientAttributes = [] := by
  have henc : sinkContextImpl.MarshalBinary ⟨M, transient⟩ order
      = be32 (u32 M.length) ++ encodeItems order := by
    simp only [sinkContextImpl.MarshalBinary, AppendUint32_eq, marshalItems_eq, List.nil_append]
  rw [henc] at hsize ⊢
  have hlen : M.length = order.length := hperm.length_eq.symm
  have hge := encodeItems_length_ge order
  simp only [List.length_append, be32_length] at hsize
  have hcount : u32 M.length = order.length := by rw [hlen]; exact u32_of_lt (by omega)
  rw [hcount]
  have hnd : order.keys.Nodup := (List.Perm.nodup_iff (hperm.map Prod.fst)).mpr hM
  let d : ByteSlice := ⟨be32 order.length ++ encodeItems order, spare⟩
  have s0 : d.sliceFrom 0 = .ok ⟨be32 order.length ++ encodeItems order, spare⟩ :=
    sliceFrom_append d [] _ rfl
  have hloop := unmarshalItems_encode d order (be32 order.length) newSinkContextImpl rfl
    (by simp only [d, List.length_append, be32_length]; omega)
  rw [foldl_SetAttribute order newSinkContextImpl (by simpa [newSinkContextImpl] using hnd)]
    at hloop
  refine ⟨⟨order, []⟩, ?_, hperm, ?_, rfl⟩
  · simp only [sinkContextImpl.UnmarshalBinary, s0, GoResult.ok_bind,
      Uint32_be32 _ (show order.length < 4294967296 by omega)]
    simpa [newSinkContextImpl, u32] using hloop
  · intro k
    exact GoMap.get_perm order M k hperm hM

theorem unmarshal_huge_value (v : GoString) (hv : v.length = 4294967295)
    (transient : GoMap GoString) (spare : List Byte) :
    newSinkContextImpl.UnmarshalBinary
        ⟨sinkContextImpl.MarshalBinary ⟨[([], v)], transient⟩ [([], v)], spare⟩
      = .panic "slice bounds out of range" := by
  have henc : sinkContextImpl.MarshalBinary ⟨[([], v)], transient⟩ [([], v)]
      = be32 1 ++ (be32 0 ++ (be32 4294967295 ++ v)) := by
    simp only [sinkContextImpl.MarshalBinary, AppendUint32_eq, marshalItems_eq, encodeItems, hv,
      List.length_nil, List.length_singleton, List.nil_append, List.append_nil]
    rfl
  rw [henc]
  generalize hd : ByteSlice.mk (be32 1 ++ (be32 0 ++ (be32 4294967295 ++ v))) spare = d
  have he : d.elems = be32 1 ++ (be32 0 ++ (be32 4294967295 ++ v)) := by rw [← hd]
  have s0 : d.sliceFrom 0 = .ok ⟨be32 1 ++ (be32 0 ++ (be32 4294967295 ++ v)), d.spare⟩ :=
    sliceFrom_append d [] _ he
  have s1 : d.sliceFrom 4 = .ok ⟨be32 0 ++ (be32 4294967295 ++ v), d.spare⟩ :=
    sliceFrom_append d (be32 1) _ he
  have s2 : d.sliceFrom 8 = .ok ⟨be32 4294967295 ++ v, d.spare⟩ :=
    sliceFrom_append d (be32 1 ++ be32 0) (be32 4294967295 ++ v)
      (by rw [he, List.append_assoc])
  have s3 : d.slice 12 12 = .ok ⟨[], v ++ d.spare⟩ :=
    slice_append d (be32 1 ++ be32 0 ++ be32 4294967295) [] v
      (by rw [he]; simp only [List.append_assoc, List.nil_append])
  have s4 : d.slice 12 11 = .panic "slice bounds out of range" := by
    unfold ByteSlice.slice
    rw [if_neg]
    omega
  have u1 : u32 (0 + 4) = 4 := rfl
  have u2 : u32 (4 + 4) = 8 := rfl
  have u3 : u32 (8 + 4) = 12 := rfl
  have u4 : u32 (12 + 0) = 12 := rfl
  have u5 : u32 (12 + 4294967295) = 11 := rfl
  simp only [sinkContextImpl.UnmarshalBinary, sinkContextImpl.unmarshalItems, s0, s1,
    GoResult.ok_bind, Uint32_be32 1 (by omega), Uint32_be32 0 (by omega),
    Uint32_be32 4294967295 (by omega), u1, u2, u3, u4, u5, s2, s3, s4, GoResult.panic_bind]

/-- **C1 (as stated) fails.** The map with the single entry `"" ↦ v`, `v` made of
`2 ^ 32 - 1` zero bytes, has keys and values shorter than `2 ^ 32` bytes, yet
`UnmarshalBinary` panics on the output of `MarshalBinary`: the `uint32` offset wraps. -/
theorem unmarshal_marshal_roundtrip_fails_on_huge_value :
    (GoMap.keys [(([] : GoString), List.replicate 4294967295 (0 : Byte))]).Nodup
    ∧ (∀ p ∈ ([([], List.replicate 4294967295 (0 : Byte))] : GoMap GoString),
        p.1.length < 4294967296 ∧ p.2.length < 4294967296)
    ∧ ¬ ∃ s', newSinkContextImpl.UnmarshalBinary
          ⟨sinkContextImpl.MarshalBinary ⟨[([], List.replicate 4294967295 (0 : Byte))], []⟩
            [([], List.replicate 4294967295 (0 : Byte))], []⟩ = .ok s' := by
  refine ⟨?_, ?_, ?_⟩
  · exact List.nodup_singleton _
  · intro p hp
    rw [List.mem_singleton] at hp
    subst hp
    exact ⟨Nat.succ_pos _, by rw [List.length_replicate]; exact Nat.lt_succ_self _⟩
  · rw [unmarshal_huge_value _ (List.length_replicate _ _)]
    rintro ⟨s', h⟩
    exact GoResult.noConfusion h

/-- Witness for `unmarshal_marshal_roundtrip`: two attributes, yielded by `range` in
the reverse of their stored order. -/
theorem unmarshal_marshal_roundtrip_witness :
    ∃ s', newSinkContextImpl.UnmarshalBinary
          ⟨sinkContextImpl.MarshalBinary
            ⟨[(ascii "region", ascii "eu"), (ascii "zone", ascii "b")], []⟩
            [(ascii "zone", ascii "b"), (ascii "region", ascii "eu")], [0, 0]⟩ = .ok s'
      ∧ s'.attributes.Perm [(ascii "region", ascii "eu"), (ascii "zone", ascii "b")]
      ∧ (∀ k, s'.Attribute k = (sinkContextImpl.mk
          [(ascii "region", ascii "eu"), (ascii "zone", ascii "b")] []).Attribute k)
      ∧ s'.transientAttributes = [] :=
  unmarshal_marshal_roundtrip [(ascii "region", ascii "eu"), (ascii "zone", ascii "b")]
    [(ascii "zone", ascii "b"), (ascii "region", ascii "eu")] [] [0, 0]
    (by decide) (by decide) (by decide)

/-! ## Known-tables state codec -/

theorem ReadUint32_be32 (v : Nat) (h : v < 4294967296) (rest : List Byte) :
    ReadBuffer.ReadUint32 ⟨be32 v ++ rest⟩ = .ok (v, ⟨rest⟩) := by
  simp only [be32, ReadBuffer.ReadUint32, List.cons_append, List.nil_append, Fin.ofNat,
    Fin.val_mk]
  congr 2
  omega

theorem ReadUint32_lt (b b' : ReadBuffer) (v : Nat) (h : b.ReadUint32 = .ok (v, b')) :
    v < 4294967296 := by
  unfold ReadBuffer.ReadUint32 at h
  split at h
  · rename_i b0 b1 b2 b3 rest _
    injection h with h
    injection h with h _
    have h0 := b0.isLt
    have h1 := b1.isLt
    have h2 := b2.isLt
    have h3 := b3.isLt
    omega
  · exact GoResult.noConfusion h

theorem ReadString_encodeString (s : GoString) (h : s.length < 4294967296) (rest : List Byte) :
    ReadBuffer.ReadString ⟨encodeString s ++ rest⟩ = .ok (s, ⟨rest⟩) := by
  have e : ReadBuffer.ReadUint32 ⟨encodeString s ++ rest⟩ = .ok (s.length, ⟨s ++ rest⟩) := by
    rw [encodeString, u32_of_lt h, List.append_assoc]
    exact ReadUint32_be32 _ h _
  simp only [ReadBuffer.ReadString, e, GoResult.ok_bind, List.length_append,
    Nat.le_add_right, if_true, List.take_left, List.drop_left]

theorem ReadString_length_lt (b b' : ReadBuffer) (s : GoString)
    (h : b.ReadString = .ok (s, b')) : s.length < 4294967296 := by
  unfold ReadBuffer.ReadString at h
  cases hr : b.ReadUint32 with
  | ok p =>
    obtain ⟨n, b1⟩ := p
    have hn := ReadUint32_lt b b1 n hr
    rw [hr] at h
    simp only [GoResult.ok_bind] at h
    split at h
    · injection h with h
      injection h with h _
      rw [← h, List.length_take]
      omega
    · exact GoResult.noConfusion h
  | error e => rw [hr] at h; exact GoResult.noConfusion h
  | panic m => rw [hr] at h; exact GoResult.noConfusion h

theorem wrapError_ok {α : Type} (a : α) : wrapError (GoResult.ok a) = .ok a := rfl

theorem wrapError_eq_ok {α : Type} (r : GoResult α) (a : α) (h : wrapError r = .ok a) :
    r = .ok a := by
  cases r with
  | ok b => exact h
  | error e => exact GoResult.noConfusion h
  | panic m => exact GoResult.noConfusion h

theorem PutString_eq (b : WriteBuffer) (s : GoString) :
    b.PutString s = .ok ⟨b.bytes ++ encodeString s⟩ := by
  simp only [WriteBuffer.PutString, WriteBuffer.PutUint32, AppendUint32_eq, GoResult.ok_bind,
    encodeString, List.append_assoc]

theorem encodeKnownTablesLoop_eq (L : List SystemEntity) :
    ∀ b : WriteBuffer, encodeKnownTablesLoop b L = .ok ⟨b.bytes ++ encodeEntities L⟩ := by
  induction L with
  | nil => intro b; simp [encodeKnownTablesLoop, encodeEntities]
  | cons e rest ih =>
    intro b
    simp only [encodeKnownTablesLoop, PutString_eq, wrapError_ok, GoResult.ok_bind, ih,
      encodeEntities, List.append_assoc]

theorem encodeKnownTables_eq (L : List SystemEntity) :
    encodeKnownTables L = .ok (be32 (u32 L.length) ++ encodeEntities L) := by
  simp only [encodeKnownTables, NewWriteBuffer, WriteBuffer.PutUint32, AppendUint32_eq,
    wrapError_ok, GoResult.ok_bind, encodeKnownTablesLoop_eq, WriteBuffer.Bytes,
    List.nil_append]

theorem decodeKnownTablesLoop_encode (L : List SystemEntity) :
    ∀ (rest : List Byte) (acc : List SystemEntity),
      (∀ e ∈ L, e.SchemaName.length < 4294967296 ∧ e.TableName.length < 4294967296) →
      decodeKnownTablesLoop L.length ⟨encodeEntities L ++ rest⟩ acc
        = .ok (acc ++ L.map SystemEntity.plain) := by
  induction L with
  | nil => intro rest acc _; simp [decodeKnownTablesLoop]
  | cons e tl ih =>
    intro rest acc h
    have he := h e (List.mem_cons_self _ _)
    have htl : ∀ x ∈ tl, x.SchemaName.length < 4294967296 ∧ x.TableName.length < 4294967296 :=
      fun x hx => h x (List.mem_cons_of_mem _ hx)
    simp only [List.length_cons, decodeKnownTablesLoop, encodeEntities, List.append_assoc,
      ReadString_encodeString _ he.1, ReadString_encodeString _ he.2, wrapError_ok,
      GoResult.ok_bind, ih rest _ htl, List.map_cons, SystemEntity.plain,
      List.singleton_append]

theorem decodeKnownTablesLoop_names (n : Nat) :
    ∀ (b : ReadBuffer) (acc L : List SystemEntity),
      decodeKnownTablesLoop n b acc = .ok L →
      (∀ e ∈ acc, e.SchemaName.length < 4294967296 ∧ e.TableName.length < 4294967296) →
      ∀ e ∈ L, e.SchemaName.length < 4294967296 ∧ e.TableName.length < 4294967296 := by
  induction n with
  | zero =>
    intro b acc L h hacc
    simp only [decodeKnownTablesLoop] at h
    injection h with h
    rw [← h]; exact hacc
  | succ n ih =>
    intro b acc L h hacc
    simp only [decodeKnownTablesLoop] at h
    cases h1 : wrapError b.ReadString with
    | ok p1 =>
      obtain ⟨sn, b1⟩ := p1
      rw [h1] at h
      simp only [GoResult.ok_bind] at h
      cases h2 : wrapError b1.ReadString with
      | ok p2 =>
        obtain ⟨tn, b2⟩ := p2
        rw [h2] at h
        simp only [GoResult.ok_bind] at h
        have l1 := ReadString_length_lt b b1 sn (wrapError_eq_ok _ _ h1)
        have l2 := ReadString_length_lt b1 b2 tn (wrapError_eq_ok _ _ h2)
        refine ih b2 _ L h ?_
        intro e he
        rw [List.mem_append, List.mem_singleton] at he
        rcases he with he | he
        · exact hacc e he
        · subst he; exact ⟨l1, l2⟩
      | error e => rw [h2] at h; exact GoResult.noConfusion h
      | panic m => rw [h2] at h; exact GoResult.noConfusion h
    | error e => rw [h1] at h; exact GoResult.noConfusion h
    | panic m => rw [h1] at h; exact GoResult.noConfusion h

theorem decodeKnownTables_of_read (available : Nat) (data : List Byte) (n : Nat)
    (b : ReadBuffer) (h : (NewReadBuffer data).ReadUint32 = .ok (n, b)) (hle : n ≤ available) :
    decodeKnownTables available data = decodeKnownTablesLoop n b [] := by
  simp only [decodeKnownTables, h, wrapError_ok, GoResult.ok_bind, makeSlice, if_pos hle]

theorem decodeKnownTables_of_short (available : Nat) (data : List Byte) (n : Nat)
    (b : ReadBuffer) (h : (NewReadBuffer data).ReadUint32 = .ok (n, b)) (hlt : available < n) :
    decodeKnownTables available data = .panic "fatal error: runtime: out of memory" := by
  simp only [decodeKnownTables, h, wrapError_ok, GoResult.ok_bind, makeSlice,
    if_neg (Nat.not_le.mpr hlt), GoResult.panic_bind]

theorem decodeKnownTables_ok_inv (available : Nat) (data : List Byte) (L : List SystemEntity)
    (h : decodeKnownTables available data = .ok L) :
    ∃ n b, (NewReadBuffer data).ReadUint32 = .ok (n, b) ∧ n ≤ available
      ∧ decodeKnownTablesLoop n b [] = .ok L := by
  cases h1 : (NewReadBuffer data).ReadUint32 with
  | ok p =>
    obtain ⟨n, b⟩ := p
    by_cases hle : n ≤ available
    · rw [decodeKnownTables_of_read available data n b h1 hle] at h
      exact ⟨n, b, rfl, hle, h⟩
    · rw [decodeKnownTables_of_short available data n b h1 (Nat.not_le.mp hle)] at h
      exact GoResult.noConfusion h
  | error e =>
    simp only [decodeKnownTables, h1, wrapError, GoResult.error_bind] at h
    exact GoResult.noConfusion h
  | panic m =>
    simp only [decodeKnownTables, h1, wrapError, GoResult.panic_bind] at h
    exact GoResult.noConfusion h

theorem decodeKnownTables_names (available : Nat) (data : List Byte) (L : List SystemEntity)
    (h : decodeKnownTables available data = .ok L) :
    ∀ e ∈ L, e.SchemaName.length < 4294967296 ∧ e.TableName.length < 4294967296 := by
  obtain ⟨n, b, _, _, hloop⟩ := decodeKnownTables_ok_inv available data L h
  exact decodeKnownTablesLoop_names n b [] L hloop (fun e he => absurd he (List.not_mem_nil e))

/-- **C2 (amended).** For every list `L` of system entities with fewer than `2 ^ 32`
entries (duplicates and empty names allowed) whose schema and table names are each
shorter than `2 ^ 32` bytes, `encodeKnownTables` succeeds and `decodeKnownTables` on its
output - on a machine whose runtime can allocate a slice for the entities of `L` -
succeeds and returns a list of the same length whose `i`-th entity is the plain entity
with the schema name and table name of `L[i]`. -/
theorem decode_encode_known_tables (available : Nat) (L : List SystemEntity)
    (hcount : L.length < 4294967296)
    (hnames : ∀ e ∈ L, e.SchemaName.length < 4294967296 ∧ e.TableName.length < 4294967296)
    (hmem : L.length ≤ available) :
    ∃ data L', encodeKnownTables L = .ok data ∧ decodeKnownTables available data = .ok L'
      ∧ L' = L.map SystemEntity.plain ∧ L'.length = L.length
      ∧ ∀ i (hi : i < L.length) (hi' : i < L'.length),
          (L'.get ⟨i, hi'⟩).SchemaName = (L.get ⟨i, hi⟩).SchemaName
          ∧ (L'.get ⟨i, hi'⟩).TableName = (L.get ⟨i, hi⟩).TableName := by
  refine ⟨_, L.map SystemEntity.plain, encodeKnownTables_eq L, ?_, rfl, List.length_map _ _, ?_⟩
  · have hr : ReadBuffer.ReadUint32 (NewReadBuffer (be32 (u32 L.length) ++ encodeEntities L))
        = .ok (L.length, ⟨encodeEntities L⟩) := by
      rw [u32_of_lt hcount]
      exact ReadUint32_be32 _ hcount _
    have hl := decodeKnownTablesLoop_encode L [] [] hnames
    simp only [List.append_nil, List.nil_append] at hl
    rw [decodeKnownTables_of_read available _ _ _ hr hmem, hl]
  · intro i hi hi'
    simp only [List.get_eq_getElem, List.getElem_map]
    cases L[i] <;> exact ⟨rfl, rfl⟩

/-- Witness for `decode_encode_known_tables`: a chunk, a duplicate of it and an entity
with empty names, on a machine with room for three entities. -/
theorem decode_encode_known_tables_witness :
    ∃ data L',
      encodeKnownTables [NewSystemEntity (ascii "_timescaledb_internal") (ascii "_hyper_1_1_chunk"),
        NewSystemEntity (ascii "_timescaledb_internal") (ascii "_hyper_1_1_chunk"),
        NewSystemEntity [] []] = .ok data
      ∧ decodeKnownTables 3 data = .ok L'
      ∧ L' = [NewSystemEntity (ascii "_timescaledb_internal") (ascii "_hyper_1_1_chunk"),
        NewSystemEntity (ascii "_timescaledb_internal") (ascii "_hyper_1_1_chunk"),
        NewSystemEntity [] []].map SystemEntity.plain
      ∧ L'.length = [NewSystemEntity (ascii "_timescaledb_internal") (ascii "_hyper_1_1_chunk"),
        NewSystemEntity (ascii "_timescaledb_internal") (ascii "_hyper_1_1_chunk"),
        NewSystemEntity [] []].length
      ∧ ∀ i (hi : i < [NewSystemEntity (ascii "_timescaledb_internal") (ascii "_hyper_1_1_chunk"),
            NewSystemEntity (ascii "_timescaledb_internal") (ascii "_hyper_1_1_chunk"),
            NewSystemEntity [] []].length) (hi' : i < L'.length),
          (L'.get ⟨i, hi'⟩).SchemaName
            = ([NewSystemEntity (ascii "_timescaledb_internal") (ascii "_hyper_1_1_chunk"),
                NewSystemEntity (ascii "_timescaledb_internal") (ascii "_hyper_1_1_chunk"),
                NewSystemEntity [] []].get ⟨i, hi⟩).SchemaName
          ∧ (L'.get ⟨i, hi'⟩).TableName
            = ([NewSystemEntity (ascii "_timescaledb_internal") (ascii "_hyper_1_1_chunk"),
                NewSystemEntity (ascii "_timescaledb_internal") (ascii "_hyper_1_1_chunk"),
                NewSystemEntity [] []].get ⟨i, hi⟩).TableName :=
  decode_encode_known_tables 3 _ (by decide) (by decide) (by decide)

/-- **C2 (as stated) fails.** The one-entry list whose schema name consists of `2 ^ 32`
zero bytes has fewer than `2 ^ 32` entries, yet no decoding of its encoding, whatever
memory the runtime has, returns an entity with that schema name: a length field holds
less than `2 ^ 32`. -/
theorem decode_encode_known_tables_fails_on_huge_name :
    [NewSystemEntity (List.replicate 4294967296 (0 : Byte)) []].length < 4294967296
    ∧ ¬ ∃ available data L',
        encodeKnownTables [NewSystemEntity (List.replicate 4294967296 (0 : Byte)) []]
          = .ok data
        ∧ decodeKnownTables available data = .ok L'
        ∧ L'.map SystemEntity.SchemaName
          = [NewSystemEntity (List.replicate 4294967296 (0 : Byte)) []].map
              SystemEntity.SchemaName := by
  refine ⟨by rw [List.length_singleton]; omega, ?_⟩
  rintro ⟨available, data, L', _, hdec, hmap⟩
  have hnames := decodeKnownTables_names available data L' hdec
  cases L' with
  | nil => exact List.noConfusion hmap
  | cons e tl =>
    rw [List.map_cons, List.map_cons] at hmap
    injection hmap with hhead _
    have hlt := (hnames e (List.mem_cons_self _ _)).1
    rw [hhead] at hlt
    have hlen : (NewSystemEntity (List.replicate 4294967296 (0 : Byte)) []).SchemaName.length
        = 4294967296 := List.length_replicate _ _
    rw [hlen] at hlt
    exact Nat.lt_irrefl _ hlt

/-! ## Table filter -/

/-- **C3.** For every table filter (in particular every one built by `NewTableFilter`,
whose cache is empty) and every entity `e` whose canonical name is not yet in the
cache, `Enabled e` is `false` if some exclude pattern matches `e` (whatever the
includes and the default are), otherwise `true` if some include pattern matches `e`,
otherwise `acceptedByDefault`. -/
theorem enabled_cold (reMatch : Regexp → GoString → Bool) (rf : TableFilter)
    (e : SystemEntity) (hmiss : rf.filterCache.get e.CanonicalName = none) :
    ((∃ x ∈ rf.excludes, x.matches reMatch e = true) → (rf.Enabled reMatch e).1 = false)
    ∧ ((¬ ∃ x ∈ rf.excludes, x.matches reMatch e = true) →
        (∃ i ∈ rf.includes, i.matches reMatch e = true) → (rf.Enabled reMatch e).1 = true)
    ∧ ((¬ ∃ x ∈ rf.excludes, x.matches reMatch e = true) →
        (¬ ∃ i ∈ rf.includes, i.matches reMatch e = true) →
        (rf.Enabled reMatch e).1 = rf.acceptedByDefault) := by
  refine ⟨?_, ?_, ?_⟩
  · intro hx
    have h : rf.excludes.any (fun x => x.matches reMatch e) = true := List.any_eq_true.mpr hx
    simp only [TableFilter.Enabled, hmiss, h, if_true]
  · intro hx hi
    have h1 : ¬ rf.excludes.any (fun x => x.matches reMatch e) = true :=
      fun h => hx (List.any_eq_true.mp h)
    have h2 : rf.includes.any (fun x => x.matches reMatch e) = true := List.any_eq_true.mpr hi
    simp only [TableFilter.Enabled, hmiss, h1, h2, if_true, if_false, Bool.false_eq_true]
  · intro hx hi
    have h1 : ¬ rf.excludes.any (fun x => x.matches reMatch e) = true :=
      fun h => hx (List.any_eq_true.mp h)
    have h2 : ¬ rf.includes.any (fun x => x.matches reMatch e) = true :=
      fun h => hi (List.any_eq_true.mp h)
    simp only [TableFilter.Enabled, hmiss, h1, h2, if_false, Bool.false_eq_true]

/-- Witness for `enabled_cold`: scenario 2 of the spec, the table `public.metrics`
excluded by the literal pattern `public.metrics`, on a filter with an empty cache. -/
theorem enabled_cold_witness :
    ((∃ x ∈ (TableFilter.mk [⟨ascii "public", [], none, some ⟨ascii "^.*?$"⟩⟩]
          [⟨ascii "public", ascii "metrics", none, none⟩] [] false).excludes,
        x.matches (fun _ _ => true) (NewSystemEntity (ascii "public") (ascii "metrics")) = true) →
      ((TableFilter.mk [⟨ascii "public", [], none, some ⟨ascii "^.*?$"⟩⟩]
          [⟨ascii "public", ascii "metrics", none, none⟩] [] false).Enabled (fun _ _ => true)
        (NewSystemEntity (ascii "public") (ascii "metrics"))).1 = false)
    ∧ ((¬ ∃ x ∈ (TableFilter.mk [⟨ascii "public", [], none, some ⟨ascii "^.*?$"⟩⟩]
          [⟨ascii "public", ascii "metrics", none, none⟩] [] false).excludes,
        x.matches (fun _ _ => true) (NewSystemEntity (ascii "public") (ascii "metrics")) = true) →
        (∃ i ∈ (TableFilter.mk [⟨ascii "public", [], none, some ⟨ascii "^.*?$"⟩⟩]
          [⟨ascii "public", ascii "metrics", none, none⟩] [] false).includes,
          i.matches (fun _ _ => true) (NewSystemEntity (ascii "public") (ascii "metrics")) = true) →
        ((TableFilter.mk [⟨ascii "public", [], none, some ⟨ascii "^.*?$"⟩⟩]
          [⟨ascii "public", ascii "metrics", none, none⟩] [] false).Enabled (fun _ _ => true)
          (NewSystemEntity (ascii "public") (ascii "metrics"))).1 = true)
    ∧ ((¬ ∃ x ∈ (TableFilter.mk [⟨ascii "public", [], none, some ⟨ascii "^.*?$"⟩⟩]
          [⟨ascii "public", ascii "metrics", none, none⟩] [] false).excludes,
        x.matches (fun _ _ => true) (NewSystemEntity (ascii "public") (ascii "metrics")) = true) →
        (¬ ∃ i ∈ (TableFilter.mk [⟨ascii "public", [], none, some ⟨ascii "^.*?$"⟩⟩]
          [⟨ascii "public", ascii "metrics", none, none⟩] [] false).includes,
          i.matches (fun _ _ => true) (NewSystemEntity (ascii "public") (ascii "metrics")) = true) →
        ((TableFilter.mk [⟨ascii "public", [], none, some ⟨ascii "^.*?$"⟩⟩]
          [⟨ascii "public", ascii "metrics", none, none⟩] [] false).Enabled (fun _ _ => true)
          (NewSystemEntity (ascii "public") (ascii "metrics"))).1
          = (TableFilter.mk [⟨ascii "public", [], none, some ⟨ascii "^.*?$"⟩⟩]
          [⟨ascii "public", ascii "metrics", none, none⟩] [] false).acceptedByDefault) :=
  enabled_cold (fun _ _ => true)
    (TableFilter.mk [⟨ascii "public", [], none, some ⟨ascii "^.*?$"⟩⟩]
      [⟨ascii "public", ascii "metrics", none, none⟩] [] false)
    (NewSystemEntity (ascii "public") (ascii "metrics")) rfl

/-! ## Truncated sink-context payloads -/

theorem GoResult.bind_ne_error {α β : Type} (r : GoResult α) (f : α → GoResult β)
    (hr : ∀ e, r ≠ .error e) (hf : ∀ a e, f a ≠ .error e) : ∀ e, (r >>= f) ≠ .error e := by
  intro e
  cases r with
  | ok a => exact hf a e
  | error e' => exact absurd rfl (hr e')
  | panic m => intro h; exact GoResult.noConfusion h

theorem sliceFrom_ne_error (d : ByteSlice) (lo : Nat) : ∀ e, d.sliceFrom lo ≠ .error e := by
  intro e h
  unfold ByteSlice.sliceFrom at h
  split at h <;> exact GoResult.noConfusion h

theorem slice_ne_error (d : ByteSlice) (lo hi : Nat) : ∀ e, d.slice lo hi ≠ .error e := by
  intro e h
  unfold ByteSlice.slice at h
  split at h <;> exact GoResult.noConfusion h

theorem Uint32_ne_error (b : ByteSlice) : ∀ e, BigEndian.Uint32 b ≠ .error e := by
  intro e h
  unfold BigEndian.Uint32 at h
  split at h <;> exact GoResult.noConfusion h

theorem unmarshalItems_ne_error (data : ByteSlice) (n : Nat) :
    ∀ (offset : Nat) (s : sinkContextImpl) (e : GoError),
      sinkContextImpl.unmarshalItems data n offset s ≠ .error e := by
  induction n with
  | zero => intro offset s e h; exact GoResult.noConfusion h
  | succ n ih =>
    intro offset s
    unfold sinkContextImpl.unmarshalItems
    refine GoResult.bind_ne_error _ _ (sliceFrom_ne_error _ _) (fun _ => ?_)
    refine GoResult.bind_ne_error _ _ (Uint32_ne_error _) (fun _ => ?_)
    refine GoResult.bind_ne_error _ _ (sliceFrom_ne_error _ _) (fun _ => ?_)
    refine GoResult.bind_ne_error _ _ (Uint32_ne_error _) (fun _ => ?_)
    refine GoResult.bind_ne_error _ _ (slice_ne_error _ _ _) (fun _ => ?_)
    refine GoResult.bind_ne_error _ _ (slice_ne_error _ _ _) (fun _ => ?_)
    exact ih _ _

theorem UnmarshalBinary_ne_error (s : sinkContextImpl) (data : ByteSlice) :
    ∀ e, s.UnmarshalBinary data ≠ .error e := by
  unfold sinkContextImpl.UnmarshalBinary
  refine GoResult.bind_ne_error _ _ (sliceFrom_ne_error _ _) (fun _ => ?_)
  refine GoResult.bind_ne_error _ _ (Uint32_ne_error _) (fun _ => ?_)
  exact unmarshalItems_ne_error _ _ _ _

/-- **C4 (the code at the failing inputs).** `UnmarshalBinary` has no bounds check and
no error return: on the empty payload and on a payload cut inside a length field it
panics with an index out of range, on a payload cut inside a key it panics with slice
bounds out of range, and when the slice has spare capacity it returns `nil` after
reading the key past the end of the payload; on no payload does it return an error. -/
theorem unmarshal_truncated_payload :
    newSinkContextImpl.UnmarshalBinary ⟨[], []⟩ = .panic "index out of range"
    ∧ newSinkContextImpl.UnmarshalBinary ⟨[0, 0, 0, 1, 0, 0], []⟩ = .panic "index out of range"
    ∧ newSinkContextImpl.UnmarshalBinary ⟨[0, 0, 0, 1, 0, 0, 0, 2, 0, 0, 0, 0, 97], []⟩
        = .panic "slice bounds out of range"
    ∧ newSinkContextImpl.UnmarshalBinary ⟨[0, 0, 0, 1, 0, 0, 0, 2, 0, 0, 0, 0, 97], [98, 99]⟩
        = .ok ⟨[([97, 98], [])], []⟩
    ∧ ∀ (s : sinkContextImpl) (data : ByteSlice) (e : GoError),
        s.UnmarshalBinary data ≠ .error e :=
  ⟨by decide, by decide, by decide, by decide, UnmarshalBinary_ne_error⟩

/-! ## Replica-identity validator -/

/-- **C5 (the code at the failing input).** For the hypertable `public.metrics` with
replica identity `INDEX`, a valid replica-identity index on column `id` and no primary
key, `checkReplicaIdentities` reports an issue, worded for replica identity `DEFAULT`;
the same holds for such a vanilla table. -/
theorem checkReplicaIdentities_index_without_primary_key :
    checkReplicaIdentities
        ⟨fun _ => [.hypertable ⟨ascii "public", ascii "metrics", ascii "db", false, none, none,
            ReplicaIdentity.INDEX, [⟨ascii "id", 23, false, true⟩]⟩],
          fun _ => [], fun _ => []⟩
      = .ok (some [ascii "Hypertable \"public\".\"metrics\" has replica identity DEFAULT, but no valid primary key"])
    ∧ checkReplicaIdentities
        ⟨fun _ => [], fun _ => [],
          fun _ => [.table ⟨ascii "public", ascii "events", ReplicaIdentity.INDEX,
            [⟨ascii "id", 23, false, true⟩]⟩]⟩
      = .ok (some [ascii "Table \"public\".\"events\" has replica identity DEFAULT, but no valid primary key"]) :=
  ⟨by decide, by decide⟩

/-! ## Initial publication list -/

theorem mem_filter_not_published (known published : List SystemEntity)
    (keep : SystemEntity → Bool) (e : SystemEntity) :
    e ∈ known.filter (fun item =>
        !(published.filter keep).any fun other => item.CanonicalName == other.CanonicalName)
      ↔ e ∈ known ∧ ∀ p ∈ published, keep p = true → p.CanonicalName ≠ e.CanonicalName := by
  simp only [List.mem_filter, Bool.not_eq_true', List.any_eq_false, beq_iff_eq, and_imp]
  constructor
  · rintro ⟨hk, h⟩
    exact ⟨hk, fun p hp hkeep heq => h p hp hkeep heq.symm⟩
  · rintro ⟨hk, h⟩
    exact ⟨hk, fun p hp hkeep heq => h p hp hkeep heq.symm⟩

/-- What the two collectors compute whenever the durable state is absent or decodes: the
initial publication list is the list of `collectChunksForPublication` followed by that of
`collectVanillaTablesForPublication`; the first holds the known chunks whose canonical
name is not that of a published table in schema `_timescaledb_internal`, the second the
known vanilla tables whose canonical name is not that of a published table outside the
schemas `_timescaledb_internal` and `_timescaledb_catalog`, both in the order of the
known lists. -/
theorem collectors_filter_by_schema (availableChunks availableTables : Nat)
    (encodedState : GoString → Option (List Byte))
    (systemCatalog : SystemCatalog) (publishedTables knownChunks knownTables : List SystemEntity)
    (hc : getKnownChunks availableChunks encodedState systemCatalog.GetAllChunks
        = .ok knownChunks)
    (hv : getKnownVanillaTables availableTables encodedState systemCatalog.GetAllVanillaTables
        = .ok knownTables) :
    ∃ chunks tables,
      collectChunksForPublication availableChunks encodedState systemCatalog.GetAllChunks
          publishedTables = .ok chunks
      ∧ collectVanillaTablesForPublication availableTables encodedState
          systemCatalog.GetAllVanillaTables publishedTables = .ok tables
      ∧ StartReplication.initialTables availableChunks availableTables encodedState
          systemCatalog publishedTables = .ok (chunks ++ tables)
      ∧ (∀ e, e ∈ chunks ↔ e ∈ knownChunks ∧ ∀ p ∈ publishedTables,
            p.SchemaName = ascii "_timescaledb_internal" → p.CanonicalName ≠ e.CanonicalName)
      ∧ (∀ e, e ∈ tables ↔ e ∈ knownTables ∧ ∀ p ∈ publishedTables,
            p.SchemaName ≠ ascii "_timescaledb_internal" →
            p.SchemaName ≠ ascii "_timescaledb_catalog" → p.CanonicalName ≠ e.CanonicalName)
      ∧ chunks.Sublist knownChunks ∧ tables.Sublist knownTables
      ∧ (∀ e, (e ∈ knownChunks ∨ e ∈ knownTables) →
            (∀ p ∈ publishedTables, p.CanonicalName ≠ e.CanonicalName) →
            e ∈ chunks ++ tables) := by
  have h1 : collectChunksForPublication availableChunks encodedState systemCatalog.GetAllChunks
        publishedTables
      = .ok (knownChunks.filter fun item =>
          !(publishedTables.filter fun item =>
              item.SchemaName == ascii "_timescaledb_internal").any
            fun other => item.CanonicalName == other.CanonicalName) := by
    simp only [collectChunksForPublication, hc, wrapError_ok, GoResult.ok_bind]
  have h2 : collectVanillaTablesForPublication availableTables encodedState
        systemCatalog.GetAllVanillaTables publishedTables
      = .ok (knownTables.filter fun item =>
          !(publishedTables.filter fun item =>
              item.SchemaName != ascii "_timescaledb_internal"
                && item.SchemaName != ascii "_timescaledb_catalog").any
            fun other => item.CanonicalName == other.CanonicalName) := by
    simp only [collectVanillaTablesForPublication, hv, wrapError_ok, GoResult.ok_bind]
  have m1 : ∀ e, e ∈ (knownChunks.filter fun item =>
          !(publishedTables.filter fun item =>
              item.SchemaName == ascii "_timescaledb_internal").any
            fun other => item.CanonicalName == other.CanonicalName)
        ↔ e ∈ knownChunks ∧ ∀ p ∈ publishedTables,
            p.SchemaName = ascii "_timescaledb_internal" → p.CanonicalName ≠ e.CanonicalName := by
    intro e
    rw [mem_filter_not_published]
    simp only [beq_iff_eq]
  have m2 : ∀ e, e ∈ (knownTables.filter fun item =>
          !(publishedTables.filter fun item =>
              item.SchemaName != ascii "_timescaledb_internal"
                && item.SchemaName != ascii "_timescaledb_catalog").any
            fun other => item.CanonicalName == other.CanonicalName)
        ↔ e ∈ knownTables ∧ ∀ p ∈ publishedTables,
            p.SchemaName ≠ ascii "_timescaledb_internal" →
            p.SchemaName ≠ ascii "_timescaledb_catalog" → p.CanonicalName ≠ e.CanonicalName := by
    intro e
    rw [mem_filter_not_published]
    simp only [Bool.and_eq_true, bne_iff_ne, ne_eq, and_imp]
  refine ⟨_, _, h1, h2, ?_, m1, m2, List.filter_sublist _, List.filter_sublist _, ?_⟩
  · simp only [StartReplication.initialTables, h1, h2, wrapError_ok, GoResult.ok_bind]
  · intro e hk hp
    rw [List.mem_append]
    rcases hk with hk | hk
    · exact Or.inl ((m1 e).mpr ⟨hk, fun p hpm _ => hp p hpm⟩)
    · exact Or.inr ((m2 e).mpr ⟨hk, fun p hpm _ _ => hp p hpm⟩)

/-- **C6 (the code at the failing input).** No durable state; the live catalog has one
chunk, `chunks._hyper_1_1_chunk` (its hypertable was created with the associated schema
`chunks`), and that chunk is already published. `collectChunksForPublication` keeps of
the published list only the entries in schema `_timescaledb_internal`, does not find the
chunk among them and returns it, so the initial publication list holds an entity that is
already published under the same canonical name. Scenario 7 of the spec, the same chunk
in schema `_timescaledb_internal`, gives the empty list. -/
theorem initial_publication_tables_returns_published_chunk :
    collectChunksForPublication 0 (fun _ => none)
        (fun _ => [NewSystemEntity (ascii "chunks") (ascii "_hyper_1_1_chunk")])
        [NewSystemEntity (ascii "chunks") (ascii "_hyper_1_1_chunk")]
      = .ok [NewSystemEntity (ascii "chunks") (ascii "_hyper_1_1_chunk")]
    ∧ StartReplication.initialTables 0 0 (fun _ => none)
        ⟨fun _ => [], fun _ => [NewSystemEntity (ascii "chunks") (ascii "_hyper_1_1_chunk")],
          fun _ => []⟩
        [NewSystemEntity (ascii "chunks") (ascii "_hyper_1_1_chunk")]
      = .ok [NewSystemEntity (ascii "chunks") (ascii "_hyper_1_1_chunk")]
    ∧ (∃ p ∈ [NewSystemEntity (ascii "chunks") (ascii "_hyper_1_1_chunk")],
        p.CanonicalName
          = (NewSystemEntity (ascii "chunks") (ascii "_hyper_1_1_chunk")).CanonicalName)
    ∧ StartReplication.initialTables 0 0 (fun _ => none)
        ⟨fun _ => [],
          fun _ => [NewSystemEntity (ascii "_timescaledb_internal") (ascii "_hyper_1_1_chunk")],
          fun _ => []⟩
        [NewSystemEntity (ascii "_timescaledb_internal") (ascii "_hyper_1_1_chunk")]
      = .ok [] :=
  ⟨by decide, by decide, ⟨_, List.mem_singleton.mpr rfl, rfl⟩, by decide⟩

/-! ## Bounded retry -/

theorem retryLoop_ok (c : Collaborators) (operation : World → GoResult Unit × World)
    (b : backOffTries) (w w1 : World) (u : Unit) (h : operation w = (.ok u, w1)) :
    retryLoop c operation b w = (.ok (), b, w1) := by
  rw [retryLoop]
  simp only [h]

theorem retryLoop_panic (c : Collaborators) (operation : World → GoResult Unit × World)
    (b : backOffTries) (w w1 : World) (m : String) (h : operation w = (.panic m, w1)) :
    retryLoop c operation b w = (.panic m, b, w1) := by
  rw [retryLoop]
  simp only [h]

theorem retryLoop_permanent (c : Collaborators) (operation : World → GoResult Unit × World)
    (b : backOffTries) (w w1 : World) (err inner : GoError)
    (h : operation w = (.error err, w1)) (hp : err.asPermanent = some inner) :
    retryLoop c operation b w = (.error inner, b, w1) := by
  rw [retryLoop]
  simp only [h, hp]

theorem retryLoop_stop (c : Collaborators) (operation : World → GoResult Unit × World)
    (b b' : backOffTries) (w w1 : World) (err : GoError)
    (h : operation w = (.error err, w1)) (hp : err.asPermanent = none)
    (hn : b.NextBackOff (c.NextBackOff w1.calls) = (none, b')) :
    retryLoop c operation b w = (.error err, b', w1) := by
  rw [retryLoop]
  simp only [h, hp]
  split
  · rename_i b'' heq
    rw [hn] at heq
    injection heq with _ h2
    rw [h2]
  · rename_i next b'' heq
    rw [hn] at heq
    injection heq with h1 _
    exact Option.noConfusion h1

theorem retryLoop_again (c : Collaborators) (operation : World → GoResult Unit × World)
    (b b' : backOffTries) (w w1 : World) (err : GoError) (next : Nat)
    (h : operation w = (.error err, w1)) (hp : err.asPermanent = none)
    (hn : b.NextBackOff (c.NextBackOff w1.calls) = (some next, b')) :
    retryLoop c operation b w
      = retryLoop c operation b' ⟨w1.sinkContext, w1.calls ++ [Call.Sleep next]⟩ := by
  rw [retryLoop]
  simp only [h, hp]
  split
  · rename_i b'' heq
    rw [hn] at heq
    injection heq with h1 _
    exact Option.noConfusion h1
  · rename_i next' b'' heq
    rw [hn] at heq
    injection heq with h1 h2
    injection h1 with h1
    rw [h1, h2]

theorem Call.isAck_of_isRetry (call : Call) (h : call.isRetry = true) : call.isAck = false := by
  cases call <;> first | rfl | exact Bool.noConfusion h

@[simp] theorem emitResults_append (a b : List Call) :
    emitResults (a ++ b) = emitResults a ++ emitResults b := by
  induction a with
  | nil => rfl
  | cons x rest ih => cases x <;> simp [emitResults, ih]

theorem retryLoop_trace (c : Collaborators) (xld : XLogData) (topic : GoString)
    (key envelope : Struct) (n : Nat) :
    ∀ (b : backOffTries) (w : World), b.maxTries - b.numTries = n →
      ∃ pre ctx last,
        (retryLoop c (EventEmitter.emitOperation c xld topic key envelope) b w).2.2.calls
            = w.calls ++ pre ++ [Call.Emit ctx xld.ServerTime topic key envelope last]
        ∧ (retryLoop c (EventEmitter.emitOperation c xld topic key envelope) b w).1
            = retryReturn last
        ∧ (∀ call ∈ pre, call.isRetry = true)
        ∧ (∀ x ∈ emitResults pre, retryable x = true)
        ∧ (emitResults pre).length ≤ n
        ∧ (retryLoop c (EventEmitter.emitOperation c xld topic key envelope) b w).2.1.maxTries
            = b.maxTries
        ∧ (retryable last = true → (∀ calls, c.NextBackOff calls ≠ none) →
            (emitResults pre).length = n) := by
  induction n with
  | zero =>
    intro b w hn
    have hop : EventEmitter.emitOperation c xld topic key envelope w
        = ((c.Emit w.calls w.sinkContext xld.ServerTime topic key envelope).1,
            ⟨(c.Emit w.calls w.sinkContext xld.ServerTime topic key envelope).2, w.calls ++
              [Call.Emit w.sinkContext xld.ServerTime topic key envelope
                (c.Emit w.calls w.sinkContext xld.ServerTime topic key envelope).1]⟩) := rfl
    refine ⟨[], w.sinkContext, (c.Emit w.calls w.sinkContext xld.ServerTime topic key envelope).1,
      ?_⟩
    generalize (c.Emit w.calls w.sinkContext xld.ServerTime topic key envelope) = res at hop
    obtain ⟨r, ctx'⟩ := res
    simp only at hop ⊢
    have hstop : ∀ d, b.NextBackOff d = (none, b) := by
      intro d
      unfold backOffTries.NextBackOff
      by_cases h0 : b.maxTries = 0
      · simp only [h0, if_true]
      · have : b.maxTries ≤ b.numTries := by omega
        simp only [h0, if_false, this, if_true]
    cases r with
    | ok u =>
      rw [retryLoop_ok c _ b w _ u hop]
      simp [retryReturn, emitResults, retryable]
    | panic m =>
      rw [retryLoop_panic c _ b w _ m hop]
      simp [retryReturn, emitResults, retryable]
    | error err =>
      cases hp : err.asPermanent with
      | some inner =>
        rw [retryLoop_permanent c _ b w _ err inner hop hp]
        simp [retryReturn, emitResults, retryable, hp]
      | none =>
        rw [retryLoop_stop c _ b b w _ err hop hp (hstop _)]
        simp [retryReturn, emitResults, retryable, hp]
  | succ n ih =>
    intro b w hn
    have hop : EventEmitter.emitOperation c xld topic key envelope w
        = ((c.Emit w.calls w.sinkContext xld.ServerTime topic key envelope).1,
            ⟨(c.Emit w.calls w.sinkContext xld.ServerTime topic key envelope).2, w.calls ++
              [Call.Emit w.sinkContext xld.ServerTime topic key envelope
                (c.Emit w.calls w.sinkContext xld.ServerTime topic key envelope).1]⟩) := rfl
    generalize (c.Emit w.calls w.sinkContext xld.ServerTime topic key envelope) = res at hop
    obtain ⟨r, ctx'⟩ := res
    simp only at hop
    cases r with
    | ok u =>
      refine ⟨[], w.sinkContext, .ok u, ?_⟩
      rw [retryLoop_ok c _ b w _ u hop]
      simp [retryReturn, emitResults, retryable]
    | panic m =>
      refine ⟨[], w.sinkContext, .panic m, ?_⟩
      rw [retryLoop_panic c _ b w _ m hop]
      simp [retryReturn, emitResults, retryable]
    | error err =>
      cases hp : err.asPermanent with
      | some inner =>
        refine ⟨[], w.sinkContext, .error err, ?_⟩
        rw [retryLoop_permanent c _ b w _ err inner hop hp]
        simp [retryReturn, emitResults, retryable, hp]
      | none =>
        have h0 : ¬ b.maxTries = 0 := by omega
        have h1 : ¬ b.maxTries ≤ b.numTries := by omega
        cases hd : c.NextBackOff (w.calls ++
            [Call.Emit w.sinkContext xld.ServerTime topic key envelope (.error err)]) with
        | none =>
          have hnb : b.NextBackOff (c.NextBackOff (World.mk ctx' (w.calls ++
              [Call.Emit w.sinkContext xld.ServerTime topic key envelope (.error err)])).calls)
              = (none, { b with numTries := b.numTries + 1 }) := by
            simp only [backOffTries.NextBackOff, h0, h1, if_false, hd]
          refine ⟨[], w.sinkContext, .error err, ?_⟩
          rw [retryLoop_stop c _ b _ w _ err hop hp hnb]
          refine ⟨by simp, by simp [retryReturn, hp], by simp, by simp [emitResults],
            by simp [emitResults], rfl, ?_⟩
          intro _ hns
          exact absurd hd (hns _)
        | some next =>
          have hnb : b.NextBackOff (c.NextBackOff (World.mk ctx' (w.calls ++
              [Call.Emit w.sinkContext xld.ServerTime topic key envelope (.error err)])).calls)
              = (some next, { b with numTries := b.numTries + 1 }) := by
            simp only [backOffTries.NextBackOff, h0, h1, if_false, hd]
          rw [retryLoop_again c _ b _ w _ err next hop hp hnb]
          obtain ⟨pre, ctx, last, hc, hr, hack, hret, hlen, hmax, hcont⟩ :=
            ih { b with numTries := b.numTries + 1 }
              ⟨ctx', w.calls ++
                [Call.Emit w.sinkContext xld.ServerTime topic key envelope (.error err)]
                ++ [Call.Sleep next]⟩ (by show b.maxTries - (b.numTries + 1) = n; omega)
          refine ⟨Call.Emit w.sinkContext xld.ServerTime topic key envelope (.error err)
            :: Call.Sleep next :: pre, ctx, last, ?_, hr, ?_, ?_, ?_, hmax, ?_⟩
          · rw [hc]; simp
          · intro call hcall
            simp only [List.mem_cons] at hcall
            rcases hcall with h | h | h
            · rw [h]; rfl
            · rw [h]; rfl
            · exact hack call h
          · intro x hx
            simp only [emitResults, List.mem_cons] at hx
            rcases hx with h | h
            · rw [h]; simp [retryable, hp]
            · exact hret x h
          · simp only [emitResults, List.length_cons]; omega
          · intro hl hns
            simp only [emitResults, List.length_cons]
            rw [hcont hl hns]

theorem retryable_ne_ok (x : GoResult Unit) (h : retryable x = true) : x ≠ .ok () := by
  intro hx
  rw [hx] at h
  exact Bool.noConfusion h

/-- **C8.** `EventEmitter.emit` with the back-off of `NewEventEmitter` (at most 8
retries) appends calls to the record such that: `sink.Emit` is invoked at most 9 times;
if the `k`-th invocation (counting from 0) succeeds, it is the last one, all earlier
ones failed with a retryable error, and it is followed by exactly one call of
`AcknowledgeProcessed` for the event, whose result is returned; if no invocation
succeeds, nothing is acknowledged and the error of the last invocation is returned
(unwrapped when permanent); and, as long as the delegate back-off does not stop, a
retryable failure is the last invocation only when it is the 9th. -/
theorem emit_bounded_retry (c : Collaborators) (ee : EventEmitter) (xld : XLogData)
    (topic : GoString) (key envelope : Struct) (hmax : ee.backOff.maxTries = 8) :
    ∃ new, (EventEmitter.emit c ee xld topic key envelope).2.world.calls
        = ee.world.calls ++ new
      ∧ (emitResults new).length ≤ 9
      ∧ (∀ k, (emitResults new)[k]? = some (.ok ()) →
          (emitResults new).length = k + 1
          ∧ (∀ j, j < k → ∃ x, (emitResults new)[j]? = some x ∧ retryable x = true)
          ∧ ∃ pre, new = pre ++
              [Call.AcknowledgeProcessed xld (EventEmitter.emit c ee xld topic key envelope).1]
            ∧ ∀ call ∈ pre, call.isAck = false)
      ∧ ((∀ x ∈ emitResults new, x ≠ .ok ()) →
          (∀ call ∈ new, call.isAck = false)
          ∧ ∃ last, (emitResults new).getLast? = some last
            ∧ (EventEmitter.emit c ee xld topic key envelope).1 = retryReturn last
            ∧ (EventEmitter.emit c ee xld topic key envelope).1 ≠ .ok ())
      ∧ ((∀ calls, c.NextBackOff calls ≠ none) →
          ∀ last, (emitResults new).getLast? = some last → retryable last = true →
            (emitResults new).length = 9) := by
  obtain ⟨pre, ctx, last, hc, hr, hack, hret, hlen, _, hcont⟩ :=
    retryLoop_trace c xld topic key envelope 8 ee.backOff.Reset ee.world
      (by show ee.backOff.maxTries - 0 = 8; omega)
  have hack : ∀ call ∈ pre, call.isAck = false :=
    fun call hcall => Call.isAck_of_isRetry call (hack call hcall)
  have hnotok : ∀ x ∈ emitResults pre, x ≠ .ok () := fun x hx => retryable_ne_ok x (hret x hx)
  generalize hres : retryLoop c (EventEmitter.emitOperation c xld topic key envelope)
    ee.backOff.Reset ee.world = res at hc hr
  obtain ⟨r, b, w⟩ := res
  simp only at hc hr
  cases hl : last with
  | ok u =>
    have hrok : r = .ok () := by rw [hr, hl]; rfl
    subst hrok
    have hemit : EventEmitter.emit c ee xld topic key envelope
        = EventEmitter.AcknowledgeProcessed c ⟨w, b⟩ xld := by
      simp only [EventEmitter.emit, Retry, hres]
    simp only [EventEmitter.AcknowledgeProcessed] at hemit
    rw [hemit]
    simp only [hc, hl]
    refine ⟨_, by rw [List.append_assoc, List.append_assoc], ?_, ?_, ?_, ?_⟩
    · simp [emitResults]; omega
    · intro k hk
      simp only [emitResults_append, emitResults, List.append_nil] at hk ⊢
      have hkl : k = (emitResults pre).length := by
        rcases Nat.lt_trichotomy k (emitResults pre).length with h | h | h
        · rw [List.getElem?_append_left h] at hk
          exact absurd rfl (hnotok _ (List.getElem?_mem hk))
        · exact h
        · rw [List.getElem?_append_right (by omega)] at hk
          have : k - (emitResults pre).length = 0 := by
            by_contra hne
            have h2 : ([GoResult.ok u] : List (GoResult Unit))[k - (emitResults pre).length]?
                = none := by
              rw [List.getElem?_eq_none_iff]; simp; omega
            rw [h2] at hk
            exact Option.noConfusion hk
          omega
      refine ⟨by simp [hkl], ?_, ?_⟩
      · intro j hj
        rw [hkl] at hj
        refine ⟨(emitResults pre)[j], ?_, hret _ (List.getElem_mem _)⟩
        rw [List.getElem?_append_left hj, List.getElem?_eq_getElem hj]
      · refine ⟨pre ++ [Call.Emit ctx xld.ServerTime topic key envelope (.ok u)], by simp, ?_⟩
        intro call hcall
        rw [List.mem_append, List.mem_singleton] at hcall
        rcases hcall with h | h
        · exact hack call h
        · rw [h]; rfl
    · intro hall
      exfalso
      exact hall (.ok ()) (by simp [emitResults]) rfl
    · intro _ last' hlast hrt
      simp [emitResults] at hlast
      rw [← hlast] at hrt
      exact Bool.noConfusion hrt
  | error err =>
    have hre : r = retryReturn (.error err) := by rw [hr, hl]
    have hrne : ∃ e, r = .error e := by
      rw [hre]
      cases hp : err.asPermanent with
      | some inner => exact ⟨inner, by simp [retryReturn, hp]⟩
      | none => exact ⟨err, by simp [retryReturn, hp]⟩
    obtain ⟨e, hrerr⟩ := hrne
    have hemit : EventEmitter.emit c ee xld topic key envelope = (.error e, ⟨w, b⟩) := by
      simp only [EventEmitter.emit, Retry, hres, hrerr]
    rw [hemit]
    simp only [hc, hl]
    refine ⟨_, by rw [List.append_assoc], ?_, ?_, ?_, ?_⟩
    · simp [emitResults]; omega
    · intro k hk
      exfalso
      have hmem := List.getElem?_mem hk
      simp only [emitResults_append, emitResults, List.append_nil, List.mem_append,
        List.mem_singleton] at hmem
      rcases hmem with h | h
      · exact hnotok _ h rfl
      · exact GoResult.noConfusion h
    · intro _
      refine ⟨?_, .error err, by simp [emitResults], by rw [← hrerr, hre], ?_⟩
      · intro call hcall
        rw [List.mem_append, List.mem_singleton] at hcall
        rcases hcall with h | h
        · exact hack call h
        · rw [h]; rfl
      · intro h; exact GoResult.noConfusion h
    · intro hns last' hlast hrt
      simp [emitResults] at hlast
      rw [← hlast] at hrt
      have := hcont (by rw [hl]; exact hrt) hns
      simp [emitResults, this]
  | panic m =>
    have hre : r = .panic m := by rw [hr, hl]; rfl
    have hemit : EventEmitter.emit c ee xld topic key envelope = (.panic m, ⟨w, b⟩) := by
      simp only [EventEmitter.emit, Retry, hres, hre]
    rw [hemit]
    simp only [hc, hl]
    refine ⟨_, by rw [List.append_assoc], ?_, ?_, ?_, ?_⟩
    · simp [emitResults]; omega
    · intro k hk
      exfalso
      have hmem := List.getElem?_mem hk
      simp only [emitResults_append, emitResults, List.append_nil, List.mem_append,
        List.mem_singleton] at hmem
      rcases hmem with h | h
      · exact hnotok _ h rfl
      · exact GoResult.noConfusion h
    · intro _
      refine ⟨?_, .panic m, by simp [emitResults], rfl, ?_⟩
      · intro call hcall
        rw [List.mem_append, List.mem_singleton] at hcall
        rcases hcall with h | h
        · exact hack call h
        · rw [h]; rfl
      · intro h; exact GoResult.noConfusion h
    · intro _ last' hlast hrt
      simp [emitResults] at hlast
      rw [← hlast] at hrt
      exact Bool.noConfusion hrt


/-- Witness for `emit_bounded_retry`: the emitter of `NewEventEmitter` and a sink that
fails three times before it succeeds. -/
theorem emit_bounded_retry_witness :
    NewEventEmitter.backOff.maxTries = 8
    ∧ ∃ new, (EventEmitter.emit (sampleCollaborators 3 (.ok true)) NewEventEmitter sampleXLogData
          (ascii "prefix.public.metrics") sampleKeyData Struct.nil).2.world.calls
        = NewEventEmitter.world.calls ++ new
      ∧ (emitResults new).length ≤ 9
      ∧ (∀ k, (emitResults new)[k]? = some (.ok ()) →
          (emitResults new).length = k + 1
          ∧ (∀ j, j < k → ∃ x, (emitResults new)[j]? = some x ∧ retryable x = true)
          ∧ ∃ pre, new = pre ++
              [Call.AcknowledgeProcessed sampleXLogData
                (EventEmitter.emit (sampleCollaborators 3 (.ok true)) NewEventEmitter
                  sampleXLogData (ascii "prefix.public.metrics") sampleKeyData Struct.nil).1]
            ∧ ∀ call ∈ pre, call.isAck = false)
      ∧ ((∀ x ∈ emitResults new, x ≠ .ok ()) →
          (∀ call ∈ new, call.isAck = false)
          ∧ ∃ last, (emitResults new).getLast? = some last
            ∧ (EventEmitter.emit (sampleCollaborators 3 (.ok true)) NewEventEmitter
                sampleXLogData (ascii "prefix.public.metrics") sampleKeyData Struct.nil).1
              = retryReturn last
            ∧ (EventEmitter.emit (sampleCollaborators 3 (.ok true)) NewEventEmitter
                sampleXLogData (ascii "prefix.public.metrics") sampleKeyData Struct.nil).1
              ≠ .ok ())
      ∧ ((∀ calls, (sampleCollaborators 3 (.ok true)).NextBackOff calls ≠ none) →
          ∀ last, (emitResults new).getLast? = some last → retryable last = true →
            (emitResults new).length = 9) :=
  ⟨rfl, emit_bounded_retry (sampleCollaborators 3 (.ok true)) NewEventEmitter sampleXLogData
    (ascii "prefix.public.metrics") sampleKeyData Struct.nil rfl⟩

/-- Scenario 6 of the spec evaluated: the sink fails three times and then succeeds;
`sink.Emit` is invoked four times, with a wait after each failure, and LSN 100 is
acknowledged once, after the fourth invocation. -/
theorem emit_three_failures_then_success :
    EventEmitter.emit (sampleCollaborators 3 (.ok true)) NewEventEmitter sampleXLogData
        (ascii "t") sampleKeyData Struct.nil
      = (.ok (), ⟨⟨newSinkContextImpl,
          [Call.Emit newSinkContextImpl 5 (ascii "t") sampleKeyData Struct.nil
              (.error (.mk "sink unavailable")),
            Call.Sleep 500,
            Call.Emit newSinkContextImpl 5 (ascii "t") sampleKeyData Struct.nil
              (.error (.mk "sink unavailable")),
            Call.Sleep 500,
            Call.Emit newSinkContextImpl 5 (ascii "t") sampleKeyData Struct.nil
              (.error (.mk "sink unavailable")),
            Call.Sleep 500,
            Call.Emit newSinkContextImpl 5 (ascii "t") sampleKeyData Struct.nil (.ok ()),
            Call.AcknowledgeProcessed sampleXLogData (.ok ())]⟩, ⟨8, 3⟩⟩) := by
  simp [EventEmitter.emit, Retry, retryLoop, EventEmitter.emitOperation, sampleCollaborators,
    NewEventEmitter, emitResults, GoError.asPermanent, backOffTries.NextBackOff,
    backOffTries.Reset, WithMaxRetries, EventEmitter.AcknowledgeProcessed, sampleXLogData]

theorem emit_trace (c : Collaborators) (ee : EventEmitter) (xld : XLogData)
    (topic : GoString) (key envelope : Struct) :
    ∃ pre ctx last, (∀ call ∈ pre, call.isRetry = true)
      ∧ (((∃ u, last = .ok u)
          ∧ (EventEmitter.emit c ee xld topic key envelope).2.world.calls
            = ee.world.calls ++ (pre ++ [Call.Emit ctx xld.ServerTime topic key envelope last,
                Call.AcknowledgeProcessed xld (EventEmitter.emit c ee xld topic key envelope).1]))
        ∨ (last ≠ .ok ()
          ∧ (EventEmitter.emit c ee xld topic key envelope).2.world.calls
            = ee.world.calls ++ (pre ++ [Call.Emit ctx xld.ServerTime topic key envelope last])
          ∧ (EventEmitter.emit c ee xld topic key envelope).1 = retryReturn last)) := by
  obtain ⟨pre, ctx, last, hc, hr, hretry, _, _, _, _⟩ :=
    retryLoop_trace c xld topic key envelope _ ee.backOff.Reset ee.world rfl
  generalize hres : retryLoop c (EventEmitter.emitOperation c xld topic key envelope)
    ee.backOff.Reset ee.world = res at hc hr
  obtain ⟨r, b, w⟩ := res
  simp only at hc hr
  refine ⟨pre, ctx, last, hretry, ?_⟩
  cases hl : last with
  | ok u =>
    have hrok : r = .ok () := by rw [hr, hl]; rfl
    subst hrok
    have hemit : EventEmitter.emit c ee xld topic key envelope
        = EventEmitter.AcknowledgeProcessed c ⟨w, b⟩ xld := by
      simp only [EventEmitter.emit, Retry, hres]
    simp only [EventEmitter.AcknowledgeProcessed] at hemit
    left
    refine ⟨⟨u, rfl⟩, ?_⟩
    rw [hemit]
    simp only [hc, hl, List.append_assoc, List.singleton_append]
  | error err =>
    have hre : r = retryReturn (.error err) := by rw [hr, hl]
    have hrne : ∃ e, r = .error e := by
      rw [hre]
      cases hp : err.asPermanent with
      | some inner => exact ⟨inner, by simp [retryReturn, hp]⟩
      | none => exact ⟨err, by simp [retryReturn, hp]⟩
    obtain ⟨e, hrerr⟩ := hrne
    have hemit : EventEmitter.emit c ee xld topic key envelope = (.error e, ⟨w, b⟩) := by
      simp only [EventEmitter.emit, Retry, hres, hrerr]
    right
    refine ⟨fun h => GoResult.noConfusion h, ?_, ?_⟩
    · rw [hemit]; simp only [hc, hl, List.append_assoc]
    · rw [hemit, ← hre, hrerr]
  | panic m =>
    have hre : r = .panic m := by rw [hr, hl]; rfl
    have hemit : EventEmitter.emit c ee xld topic key envelope = (.panic m, ⟨w, b⟩) := by
      simp only [EventEmitter.emit, Retry, hres, hre]
    right
    refine ⟨fun h => GoResult.noConfusion h, ?_, ?_⟩
    · rw [hemit]; simp only [hc, hl, List.append_assoc]
    · rw [hemit]; rfl

/-! ## The filter in the row-event pipeline -/

/-- **C7.** In `emit0`, once the key provider has returned the key data: when the event
filter returns `false`, the calls made are the filter evaluation followed by one call
of `AcknowledgeProcessed` with the event's `XLogData`, whose result is returned, and
`sink.Emit` is not invoked; when the filter returns an error, that error is returned,
the only call made is the filter evaluation, and neither `sink.Emit` nor
`AcknowledgeProcessed` is invoked. -/
theorem emit0_filter (c : Collaborators) (ee : EventEmitter) (xld : XLogData)
    (snapshot : Bool) (hypertable : Hypertable) (eventProvider : Struct → Struct)
    (keyProvider : Unit → GoResult Struct) (keyData : Struct)
    (hkey : keyProvider () = .ok keyData) :
    (c.Evaluate ee.world.calls hypertable (emit0Key c hypertable keyData)
        (emit0Value c ee xld snapshot hypertable eventProvider) = .ok false →
      ∃ new, (emit0 c ee xld snapshot hypertable eventProvider keyProvider).2.world.calls
          = ee.world.calls ++ new
        ∧ new = [Call.Evaluate hypertable (emit0Key c hypertable keyData)
              (emit0Value c ee xld snapshot hypertable eventProvider) (.ok false),
            Call.AcknowledgeProcessed xld
              (emit0 c ee xld snapshot hypertable eventProvider keyProvider).1]
        ∧ new.filter Call.isEmit = []
        ∧ (new.filter Call.isAck).length = 1)
    ∧ (∀ err, c.Evaluate ee.world.calls hypertable (emit0Key c hypertable keyData)
        (emit0Value c ee xld snapshot hypertable eventProvider) = .error err →
      (emit0 c ee xld snapshot hypertable eventProvider keyProvider).1 = .error err
      ∧ ∃ new, (emit0 c ee xld snapshot hypertable eventProvider keyProvider).2.world.calls
          = ee.world.calls ++ new
        ∧ new = [Call.Evaluate hypertable (emit0Key c hypertable keyData)
              (emit0Value c ee xld snapshot hypertable eventProvider) (.error err)]
        ∧ new.filter Call.isEmit = []
        ∧ new.filter Call.isAck = []) := by
  constructor
  · intro hf
    simp only [emit0Key, emit0Value] at hf
    refine ⟨_, ?_, rfl, rfl, rfl⟩
    simp only [emit0, hkey, hf, EventEmitter.AcknowledgeProcessed, emit0Key, emit0Value,
      List.append_assoc, List.singleton_append]
  · intro err hf
    simp only [emit0Key, emit0Value] at hf
    refine ⟨?_, _, ?_, rfl, rfl, rfl⟩
    · simp only [emit0, hkey, hf]
    · simp only [emit0, hkey, hf, emit0Key, emit0Value]

/-- Witness for `emit0_filter`: scenario 2 of the spec, the filter rejects the insert
at LSN 100; the sink is not called and LSN 100 is acknowledged. -/
theorem emit0_filter_witness :
    ∃ new, (emit0 (sampleCollaborators 0 (.ok false)) NewEventEmitter sampleXLogData false
          sampleHypertable sampleEventProvider (fun _ => .ok sampleKeyData)).2.world.calls
          = NewEventEmitter.world.calls ++ new
      ∧ new = [Call.Evaluate sampleHypertable
            (emit0Key (sampleCollaborators 0 (.ok false)) sampleHypertable sampleKeyData)
            (emit0Value (sampleCollaborators 0 (.ok false)) NewEventEmitter sampleXLogData false
              sampleHypertable sampleEventProvider) (.ok false),
          Call.AcknowledgeProcessed sampleXLogData
            (emit0 (sampleCollaborators 0 (.ok false)) NewEventEmitter sampleXLogData false
              sampleHypertable sampleEventProvider (fun _ => .ok sampleKeyData)).1]
      ∧ new.filter Call.isEmit = []
      ∧ (new.filter Call.isAck).length = 1 :=
  (emit0_filter (sampleCollaborators 0 (.ok false)) NewEventEmitter sampleXLogData false
    sampleHypertable sampleEventProvider (fun _ => .ok sampleKeyData) sampleKeyData rfl).1 rfl

/-! ## Acknowledgement discipline -/

theorem emit0_trace (c : Collaborators) (ee : EventEmitter) (xld : XLogData) (snapshot : Bool)
    (hypertable : Hypertable) (eventProvider : Struct → Struct)
    (keyProvider : Unit → GoResult Struct) :
    ∃ new, (emit0 c ee xld snapshot hypertable eventProvider keyProvider).2.world.calls
        = ee.world.calls ++ new
      ∧ EventTrace (some hypertable) xld new
      ∧ ((∀ keyData, keyProvider () ≠ .ok keyData) → new = []) := by
  cases hk : keyProvider () with
  | error err =>
    refine ⟨[], ?_, Or.inl rfl, fun _ => rfl⟩
    simp only [emit0, hk, List.append_nil]
  | panic m =>
    refine ⟨[], ?_, Or.inl rfl, fun _ => rfl⟩
    simp only [emit0, hk, List.append_nil]
  | ok keyData =>
    cases hf : c.Evaluate ee.world.calls hypertable (emit0Key c hypertable keyData)
        (emit0Value c ee xld snapshot hypertable eventProvider) with
    | error err =>
      simp only [emit0Key, emit0Value] at hf
      refine ⟨[Call.Evaluate hypertable (emit0Key c hypertable keyData)
          (emit0Value c ee xld snapshot hypertable eventProvider) (.error err)], ?_,
        Or.inr (Or.inl ⟨_, _, _, .error err, rfl, fun b h => GoResult.noConfusion h⟩),
        fun h => absurd rfl (h keyData)⟩
      simp only [emit0, hk, hf, emit0Key, emit0Value]
    | panic m =>
      simp only [emit0Key, emit0Value] at hf
      refine ⟨[Call.Evaluate hypertable (emit0Key c hypertable keyData)
          (emit0Value c ee xld snapshot hypertable eventProvider) (.panic m)], ?_,
        Or.inr (Or.inl ⟨_, _, _, .panic m, rfl, fun b h => GoResult.noConfusion h⟩),
        fun h => absurd rfl (h keyData)⟩
      simp only [emit0, hk, hf, emit0Key, emit0Value]
    | ok accepted =>
      simp only [emit0Key, emit0Value] at hf
      cases accepted with
      | false =>
        refine ⟨[Call.Evaluate hypertable (emit0Key c hypertable keyData)
            (emit0Value c ee xld snapshot hypertable eventProvider) (.ok false),
            Call.AcknowledgeProcessed xld
              (emit0 c ee xld snapshot hypertable eventProvider keyProvider).1], ?_,
          Or.inr (Or.inr (Or.inl ⟨_, _, _, _, rfl, rfl⟩)),
          fun h => absurd rfl (h keyData)⟩
        simp only [emit0, hk, hf, EventEmitter.AcknowledgeProcessed, List.append_assoc,
          List.singleton_append, emit0Key, emit0Value]
      | true =>
        have hemit0 : emit0 c ee xld snapshot hypertable eventProvider keyProvider
            = EventEmitter.emit c
                { ee with world := ⟨ee.world.sinkContext, ee.world.calls ++
                  [Call.Evaluate hypertable (emit0Key c hypertable keyData)
                    (emit0Value c ee xld snapshot hypertable eventProvider) (.ok true)]⟩ }
                xld (c.EventTopicName hypertable) (emit0Key c hypertable keyData)
                (emit0Value c ee xld snapshot hypertable eventProvider) := by
          simp only [emit0, hk, hf, emit0Key, emit0Value]
        obtain ⟨pre, ctx, last, hretry, hcases⟩ := emit_trace c
          { ee with world := ⟨ee.world.sinkContext, ee.world.calls ++
            [Call.Evaluate hypertable (emit0Key c hypertable keyData)
              (emit0Value c ee xld snapshot hypertable eventProvider) (.ok true)]⟩ }
          xld (c.EventTopicName hypertable) (emit0Key c hypertable keyData)
          (emit0Value c ee xld snapshot hypertable eventProvider)
        rw [hemit0]
        rcases hcases with ⟨hok, hcalls⟩ | ⟨hne, hcalls, _⟩
        · refine ⟨[Call.Evaluate hypertable (emit0Key c hypertable keyData)
              (emit0Value c ee xld snapshot hypertable eventProvider) (.ok true)] ++ (pre ++
              [Call.Emit ctx xld.ServerTime (c.EventTopicName hypertable)
                (emit0Key c hypertable keyData)
                (emit0Value c ee xld snapshot hypertable eventProvider) last,
               Call.AcknowledgeProcessed xld (EventEmitter.emit c
                { ee with world := ⟨ee.world.sinkContext, ee.world.calls ++
                  [Call.Evaluate hypertable (emit0Key c hypertable keyData)
                    (emit0Value c ee xld snapshot hypertable eventProvider) (.ok true)]⟩ }
                xld (c.EventTopicName hypertable) (emit0Key c hypertable keyData)
                (emit0Value c ee xld snapshot hypertable eventProvider)).1]), ?_, ?_,
            fun h => absurd rfl (h keyData)⟩
          · rw [hcalls]
            simp only [List.append_assoc]
          · exact Or.inr (Or.inr (Or.inr ⟨_, pre, ctx, _, _, _, last,
              Or.inr ⟨_, _, _, rfl⟩, hretry, Or.inl ⟨hok, _, rfl⟩⟩))
        · refine ⟨[Call.Evaluate hypertable (emit0Key c hypertable keyData)
              (emit0Value c ee xld snapshot hypertable eventProvider) (.ok true)] ++ (pre ++
              [Call.Emit ctx xld.ServerTime (c.EventTopicName hypertable)
                (emit0Key c hypertable keyData)
                (emit0Value c ee xld snapshot hypertable eventProvider) last]), ?_, ?_,
            fun h => absurd rfl (h keyData)⟩
          · rw [hcalls]
            simp only [List.append_assoc]
          · exact Or.inr (Or.inr (Or.inr ⟨_, pre, ctx, _, _, _, last,
              Or.inr ⟨_, _, _, rfl⟩, hretry, Or.inr ⟨hne, rfl⟩⟩))

theorem emitMessageEvent_trace (c : Collaborators) (ee : EventEmitter) (xld : XLogData)
    (msg : LogicalReplicationMessage) (eventProvider : Struct → Struct) :
    ∃ new, (emitMessageEvent c ee xld msg eventProvider).2.world.calls = ee.world.calls ++ new
      ∧ EventTrace none xld new := by
  unfold emitMessageEvent
  simp only
  obtain ⟨pre, ctx, last, hretry, hcases⟩ := emit_trace c ee xld (c.MessageTopicName ())
    (Struct.Envelope (c.GetSchema c.MessageKeySchemaName) (Struct.MessageKey msg.Prefix))
    (Struct.Envelope (EventEmitter.envelopeMessageSchema c)
      (eventProvider (Struct.Source xld.ServerWALEnd
        (if msg.IsTransactional = true then xld.ServerTime else c.Now ee.world.calls) false
        [] [] [] (if msg.IsTransactional = true then some (c.TransactionId ee.world.calls)
          else none))))
  rcases hcases with ⟨hok, hcalls⟩ | ⟨hne, hcalls, _⟩
  · refine ⟨_, hcalls, Or.inr (Or.inr (Or.inr ⟨[], pre, ctx, _, _, _, last,
      Or.inl rfl, hretry, Or.inl ⟨hok, _, rfl⟩⟩))⟩
  · refine ⟨_, hcalls, Or.inr (Or.inr (Or.inr ⟨[], pre, ctx, _, _, _, last,
      Or.inl rfl, hretry, Or.inr ⟨hne, rfl⟩⟩))⟩

theorem eq_of_append_ack (A : List Call) :
    ∀ (pre post : List Call) (a b : Call), (∀ call ∈ A, call.isAck = false) →
      b.isAck = true → A ++ [a] = pre ++ b :: post → pre = A ∧ b = a ∧ post = [] := by
  induction A with
  | nil =>
    intro pre post a b _ _ h
    cases pre with
    | nil =>
      simp only [List.nil_append, List.cons.injEq] at h
      exact ⟨rfl, h.1.symm, h.2.symm⟩
    | cons p pre' =>
      simp only [List.nil_append, List.cons_append, List.cons.injEq] at h
      have := h.2
      cases pre' <;> simp at this
  | cons x rest ih =>
    intro pre post a b hA hb h
    cases pre with
    | nil =>
      simp only [List.nil_append, List.cons_append, List.cons.injEq] at h
      have hx := hA x (List.mem_cons_self _ _)
      rw [h.1, hb] at hx
      exact Bool.noConfusion hx
    | cons p pre' =>
      simp only [List.cons_append, List.cons.injEq] at h
      obtain ⟨h1, h2, h3⟩ := ih pre' post a b
        (fun call hcall => hA call (List.mem_cons_of_mem _ hcall)) hb h.2
      exact ⟨by rw [h.1, h1], h2, h3⟩

theorem no_ack_split (new pre post : List Call) (x : XLogData) (r : GoResult Unit)
    (h : ∀ call ∈ new, call.isAck = false)
    (hs : new = pre ++ Call.AcknowledgeProcessed x r :: post) : False := by
  have hm : Call.AcknowledgeProcessed x r ∈ new := by
    rw [hs]; exact List.mem_append_right _ (List.mem_cons_self _ _)
  exact Bool.noConfusion (h _ hm)

theorem AckDiscipline_of_no_ack (c : Collaborators) (event : Event) (new : List Call)
    (h : ∀ call ∈ new, call.isAck = false) (hconv : event.converted c ≠ .ok () → new = []) :
    AckDiscipline c event new :=
  ⟨fun pre post x r hs => (no_ack_split new pre post x r h hs).elim, hconv,
    fun _ _ _ _ _ _ => h, fun _ _ _ => h⟩

theorem AckDiscipline_of_trace (c : Collaborators) (event : Event) (x : XLogData)
    (new : List Call) (hx : event.acknowledges x) (ht : EventTrace event.hypertable? x new)
    (hconv : event.converted c ≠ .ok () → new = []) : AckDiscipline c event new := by
  rcases ht with h0 | ⟨h, k, v, r, hnew, hr⟩ | ⟨h, k, v, r, hh, hnew⟩
    | ⟨head, pre, ctx, topic, k, v, last, hhead, hretry, hlast⟩
  · -- no call
    subst h0
    exact AckDiscipline_of_no_ack c event [] (fun _ hc => absurd hc (List.not_mem_nil _)) hconv
  · -- failed filter evaluation
    subst hnew
    refine AckDiscipline_of_no_ack c event _ ?_ hconv
    intro call hcall
    rw [List.mem_singleton] at hcall
    rw [hcall]; rfl
  · -- rejected and acknowledged
    subst hnew
    refine ⟨?_, hconv, ?_, ?_⟩
    · intro pre post x' r' hs
      obtain ⟨h1, h2, h3⟩ := eq_of_append_ack [Call.Evaluate h k v (.ok false)] pre post
        (Call.AcknowledgeProcessed x r) (Call.AcknowledgeProcessed x' r')
        (by intro call hcall; rw [List.mem_singleton] at hcall; rw [hcall]; rfl) rfl hs
      injection h2 with hxx _
      subst hxx
      exact ⟨h3, hx, [], Call.Evaluate h k v (.ok false), h1, hh⟩
    · intro h' k' v' r' hmem hfail
      simp only [List.mem_cons, List.mem_singleton, Call.Evaluate.injEq, List.not_mem_nil,
        or_false] at hmem
      rcases hmem with hm | hm
      · exact absurd hm.2.2.2 (hfail false)
      · exact Call.noConfusion hm
    · intro r' hl _
      simp only [emitResults] at hl
      exact Option.noConfusion hl
  · -- retried emission
    have hheadAck : ∀ call ∈ head, call.isAck = false := by
      intro call hcall
      rcases hhead with h | ⟨h, k', v', h⟩
      · rw [h] at hcall; exact absurd hcall (List.not_mem_nil _)
      · rw [h, List.mem_singleton] at hcall; rw [hcall]; rfl
    have hpreAck : ∀ call ∈ pre, call.isAck = false :=
      fun call hcall => Call.isAck_of_isRetry call (hretry call hcall)
    rcases hlast with ⟨⟨u, hu⟩, r, hnew⟩ | ⟨hne, hnew⟩
    · subst hnew hu
      refine ⟨?_, hconv, ?_, ?_⟩
      · intro pre0 post x' r' hs
        have hs' : (head ++ pre ++ [Call.Emit ctx x.ServerTime topic k v (.ok u)])
            ++ [Call.AcknowledgeProcessed x r]
            = pre0 ++ Call.AcknowledgeProcessed x' r' :: post := by
          rw [← hs]; simp only [List.append_assoc, List.singleton_append]
        obtain ⟨h1, h2, h3⟩ := eq_of_append_ack _ pre0 post
          (Call.AcknowledgeProcessed x r) (Call.AcknowledgeProcessed x' r')
          (by
            intro call hcall
            simp only [List.mem_append, List.mem_singleton] at hcall
            rcases hcall with (hc | hc) | hc
            · exact hheadAck call hc
            · exact hpreAck call hc
            · rw [hc]; rfl) rfl hs'
        injection h2 with hxx _
        subst hxx
        exact ⟨h3, hx, head ++ pre, Call.Emit ctx x'.ServerTime topic k v (.ok u), h1, rfl⟩
      · intro h' k' v' r' hmem hfail
        exfalso
        simp only [List.mem_append, List.mem_cons, List.mem_singleton, List.not_mem_nil,
          or_false] at hmem
        rcases hmem with hm | hm | hm | hm
        · rcases hhead with h | ⟨h, k'', v'', h⟩
          · rw [h] at hm; exact absurd hm (List.not_mem_nil _)
          · rw [h, List.mem_singleton] at hm
            injection hm with _ _ _ hr
            exact hfail true hr
        · exact Bool.noConfusion (hretry _ hm)
        · exact Call.noConfusion hm
        · exact Call.noConfusion hm
      · intro r' hl hr'
        exfalso
        simp only [emitResults_append, emitResults, List.append_nil] at hl
        rw [← List.append_assoc, List.getLast?_append_of_ne_nil _ (List.cons_ne_nil _ _)] at hl
        simp only [List.getLast?_singleton, Option.some.injEq] at hl
        exact hr' hl.symm
    · subst hnew
      refine AckDiscipline_of_no_ack c event _ ?_ hconv
      intro call hcall
      simp only [List.mem_append, List.mem_singleton] at hcall
      rcases hcall with hc | hc | hc
      · exact hheadAck call hc
      · exact hpreAck call hc
      · rw [hc]; rfl

theorem row_trace (c : Collaborators) (ee : EventEmitter) (xld : XLogData) (snapshot : Bool)
    (hypertable : Hypertable) (eventProvider : Struct → Struct)
    (values : Option (GoMap GoAny)) :
    ∃ new, (emit0 c ee xld snapshot hypertable eventProvider
          (hypertableEventKeyProvider c hypertable values)).2.world.calls = ee.world.calls ++ new
      ∧ EventTrace (some hypertable) xld new
      ∧ ((hypertableEventKey c hypertable values >>= fun _ => (GoResult.ok () : GoResult Unit))
          ≠ .ok () → new = []) := by
  obtain ⟨new, hc, ht, hk⟩ := emit0_trace c ee xld snapshot hypertable eventProvider
    (hypertableEventKeyProvider c hypertable values)
  refine ⟨new, hc, ht, ?_⟩
  intro hfail
  apply hk
  intro keyData hkd
  unfold hypertableEventKeyProvider at hkd
  cases hkey : hypertableEventKey c hypertable values with
  | ok key => rw [hkey] at hfail; exact hfail rfl
  | error err => rw [hkey] at hkd; exact GoResult.noConfusion hkd
  | panic m => rw [hkey] at hkd; exact GoResult.noConfusion hkd

theorem handle_trace (c : Collaborators) (ee : EventEmitter) (event : Event) :
    ∃ x new, event.acknowledges x
      ∧ (handle c ee event).2.world.calls = ee.world.calls ++ new
      ∧ EventTrace event.hypertable? x new
      ∧ (event.converted c ≠ .ok () → new = []) := by
  cases event with
  | Read lsn hypertable newValues =>
    cases hcv : convertValues c hypertable newValues with
    | ok cn =>
      obtain ⟨new, hc, ht, hk⟩ := row_trace c ee
        { WALStart := lsn, WALData := [], ServerWALEnd := lsn, ServerTime := c.Now ee.world.calls }
        true hypertable (fun source => Struct.ReadEvent (Struct.ofValues cn) source) newValues
      refine ⟨_, new, ⟨rfl, rfl, rfl⟩, ?_, ht, ?_⟩
      · simp only [handle, OnReadEvent, hcv]; exact hc
      · simp only [Event.converted, hcv, GoResult.ok_bind]; exact hk
    | error err =>
      refine ⟨⟨lsn, lsn, 0, []⟩, [], ⟨rfl, rfl, rfl⟩, ?_, Or.inl rfl, fun _ => rfl⟩
      simp only [handle, OnReadEvent, hcv, List.append_nil]
    | panic m =>
      refine ⟨⟨lsn, lsn, 0, []⟩, [], ⟨rfl, rfl, rfl⟩, ?_, Or.inl rfl, fun _ => rfl⟩
      simp only [handle, OnReadEvent, hcv, List.append_nil]
  | Insert xld hypertable newValues =>
    cases hcv : convertValues c hypertable newValues with
    | ok cn =>
      obtain ⟨new, hc, ht, hk⟩ := row_trace c ee xld false hypertable
        (fun source => Struct.CreateEvent (Struct.ofValues cn) source) newValues
      refine ⟨xld, new, rfl, ?_, ht, ?_⟩
      · simp only [handle, OnInsertEvent, eventEmitterEventHandler.emit, hcv]; exact hc
      · simp only [Event.converted, hcv, GoResult.ok_bind]; exact hk
    | error err =>
      refine ⟨xld, [], rfl, ?_, Or.inl rfl, fun _ => rfl⟩
      simp only [handle, OnInsertEvent, hcv, List.append_nil]
    | panic m =>
      refine ⟨xld, [], rfl, ?_, Or.inl rfl, fun _ => rfl⟩
      simp only [handle, OnInsertEvent, hcv, List.append_nil]
  | Update xld hypertable oldValues newValues =>
    cases hco : convertValues c hypertable oldValues with
    | ok co =>
      cases hcv : convertValues c hypertable newValues with
      | ok cn =>
        obtain ⟨new, hc, ht, hk⟩ := row_trace c ee xld false hypertable
          (fun source =>
            Struct.UpdateEvent (Struct.ofValues co) (Struct.ofValues cn) source) newValues
        refine ⟨xld, new, rfl, ?_, ht, ?_⟩
        · simp only [handle, OnUpdateEvent, eventEmitterEventHandler.emit, hco, hcv]; exact hc
        · simp only [Event.converted, hco, hcv, GoResult.ok_bind]; exact hk
      | error err =>
        refine ⟨xld, [], rfl, ?_, Or.inl rfl, fun _ => rfl⟩
        simp only [handle, OnUpdateEvent, hco, hcv, List.append_nil]
      | panic m =>
        refine ⟨xld, [], rfl, ?_, Or.inl rfl, fun _ => rfl⟩
        simp only [handle, OnUpdateEvent, hco, hcv, List.append_nil]
    | error err =>
      refine ⟨xld, [], rfl, ?_, Or.inl rfl, fun _ => rfl⟩
      simp only [handle, OnUpdateEvent, hco, List.append_nil]
    | panic m =>
      refine ⟨xld, [], rfl, ?_, Or.inl rfl, fun _ => rfl⟩
      simp only [handle, OnUpdateEvent, hco, List.append_nil]
  | Delete xld hypertable oldValues tombstone =>
    cases hco : convertValues c hypertable oldValues with
    | ok co =>
      obtain ⟨new, hc, ht, hk⟩ := row_trace c ee xld false hypertable
        (fun source => Struct.DeleteEvent (Struct.ofValues co) source tombstone) oldValues
      refine ⟨xld, new, rfl, ?_, ht, ?_⟩
      · simp only [handle, OnDeleteEvent, eventEmitterEventHandler.emit, hco]; exact hc
      · simp only [Event.converted, hco, GoResult.ok_bind]; exact hk
    | error err =>
      refine ⟨xld, [], rfl, ?_, Or.inl rfl, fun _ => rfl⟩
      simp only [handle, OnDeleteEvent, hco, List.append_nil]
    | panic m =>
      refine ⟨xld, [], rfl, ?_, Or.inl rfl, fun _ => rfl⟩
      simp only [handle, OnDeleteEvent, hco, List.append_nil]
  | Truncate xld hypertable =>
    obtain ⟨new, hc, ht, _⟩ := emit0_trace c ee xld false hypertable
      (fun source => Struct.TruncateEvent source) (fun _ => .ok Struct.nil)
    exact ⟨xld, new, rfl, hc, ht, fun h => absurd rfl h⟩
  | Message xld msg =>
    obtain ⟨new, hc, ht⟩ := emitMessageEvent_trace c ee xld msg
      (fun source => Struct.MessageEvent msg.Prefix (c.EncodeToString msg.Content) source)
    exact ⟨xld, new, rfl, hc, ht, fun h => absurd rfl h⟩
  | ChunkCompressed xld hypertable =>
    obtain ⟨new, hc, ht, _⟩ := emit0_trace c ee xld false hypertable
      (fun source => Struct.CompressionEvent source) (fun _ => timescaleEventKey hypertable)
    exact ⟨xld, new, rfl, hc, ht, fun h => absurd rfl h⟩
  | ChunkDecompressed xld hypertable =>
    obtain ⟨new, hc, ht, _⟩ := emit0_trace c ee xld false hypertable
      (fun source => Struct.DecompressionEvent source) (fun _ => timescaleEventKey hypertable)
    exact ⟨xld, new, rfl, hc, ht, fun h => absurd rfl h⟩

theorem handle_discipline (c : Collaborators) (ee : EventEmitter) (event : Event) :
    ∃ new, (handle c ee event).2.world.calls = ee.world.calls ++ new
      ∧ AckDiscipline c event new := by
  obtain ⟨x, new, hx, hc, ht, hconv⟩ := handle_trace c ee event
  exact ⟨new, hc, AckDiscipline_of_trace c event x new hx ht hconv⟩

theorem AckDiscipline_nil (c : Collaborators) (event : Event) : AckDiscipline c event [] :=
  AckDiscipline_of_no_ack c event [] (fun _ hc => absurd hc (List.not_mem_nil _)) (fun _ => rfl)

theorem flatten_replicate_nil (n : Nat) : (List.replicate n ([] : List Call)).flatten = [] := by
  induction n with
  | zero => rfl
  | succ n ih => simp [List.replicate_succ, ih]

theorem forall₂_replicate_nil (c : Collaborators) (events : List Event) :
    List.Forall₂ (AckDiscipline c) events (List.replicate events.length []) := by
  induction events with
  | nil => exact List.Forall₂.nil
  | cons e rest ih => exact List.Forall₂.cons (AckDiscipline_nil c e) ih

/-- **C9.** For every sequence of row, message and administrative events handled by
the emitter's handler, the calls made to the collaborators split into one segment per
event, in order, and each segment obeys the acknowledgement discipline of its event:
every call of `AcknowledgeProcessed` is the last call of the segment, carries the
`XLogData` of that event, and directly follows the filter's rejection of that event or a
successful `sink.Emit` of it; an event whose value conversion or key construction fails
makes no call, and an event whose filter evaluation or last sink attempt fails is not
acknowledged. -/
theorem ack_discipline (c : Collaborators) (events : List Event) :
    ∀ ee : EventEmitter, ∃ segments : List (List Call),
      (handleAll c ee events).world.calls = ee.world.calls ++ segments.flatten
      ∧ List.Forall₂ (AckDiscipline c) events segments := by
  induction events with
  | nil =>
    intro ee
    exact ⟨[], by simp [handleAll], List.Forall₂.nil⟩
  | cons event rest ih =>
    intro ee
    obtain ⟨new, hc, hd⟩ := handle_discipline c ee event
    generalize hres : handle c ee event = res at hc
    obtain ⟨r, ee'⟩ := res
    simp only at hc
    cases r with
    | panic m =>
      refine ⟨new :: List.replicate rest.length [], ?_,
        List.Forall₂.cons hd (forall₂_replicate_nil c rest)⟩
      simp only [handleAll, hres, List.flatten_cons, flatten_replicate_nil, List.append_nil]
      exact hc
    | ok u =>
      obtain ⟨segments, hs, hf⟩ := ih ee'
      refine ⟨new :: segments, ?_, List.Forall₂.cons hd hf⟩
      simp only [handleAll, hres, List.flatten_cons]
      rw [hs, hc, List.append_assoc]
    | error err =>
      obtain ⟨segments, hs, hf⟩ := ih ee'
      refine ⟨new :: segments, ?_, List.Forall₂.cons hd hf⟩
      simp only [handleAll, hres, List.flatten_cons]
      rw [hs, hc, List.append_assoc]

/-! ## Event keys -/

theorem GoMap.mem_keys_set {β : Type} (m : GoMap β) (k' : GoString) (v : β) (k : GoString) :
    k ∈ (m.set k' v).keys ↔ k = k' ∨ k ∈ m.keys := by
  induction m with
  | nil => simp [GoMap.set, GoMap.keys]
  | cons p rest ih =>
    obtain ⟨k0, v0⟩ := p
    by_cases e : k0 = k'
    · subst e
      simp only [GoMap.set, if_true, GoMap.keys, List.map_cons, List.mem_cons]
      tauto
    · simp only [GoMap.keys] at ih
      simp only [GoMap.set, e, if_false, GoMap.keys, List.map_cons, List.mem_cons, ih]
      tauto

theorem convertColumnValuesLoop_keys (c : Collaborators) (columns : List Column)
    (values : GoMap GoAny) :
    ∀ (acc m : GoMap GoAny), convertColumnValuesLoop c columns values acc = .ok m →
      ∀ k, k ∈ m.keys ↔
        k ∈ acc.keys ∨ ∃ col ∈ columns, col.Name = k ∧ (values.get k).isSome = true := by
  induction columns with
  | nil =>
    intro acc m h k
    simp only [convertColumnValuesLoop] at h
    injection h with h
    subst h
    simp
  | cons column rest ih =>
    intro acc m h k
    unfold convertColumnValuesLoop at h
    cases hv : values.get column.Name with
    | none =>
      rw [hv] at h
      simp only at h
      rw [ih acc m h k]
      constructor
      · rintro (hk | ⟨col, hcol, hn, hs⟩)
        · exact Or.inl hk
        · exact Or.inr ⟨col, List.mem_cons_of_mem _ hcol, hn, hs⟩
      · rintro (hk | ⟨col, hcol, hn, hs⟩)
        · exact Or.inl hk
        · rw [List.mem_cons] at hcol
          rcases hcol with hc | hc
          · subst hc
            rw [← hn, hv] at hs
            exact Bool.noConfusion hs
          · exact Or.inr ⟨col, hc, hn, hs⟩
    | some v =>
      rw [hv] at h
      simp only at h
      cases hconv : c.ConverterByOID column.DataType with
      | error err => rw [hconv] at h; exact GoResult.noConfusion h
      | panic msg => rw [hconv] at h; exact GoResult.noConfusion h
      | ok converter =>
        rw [hconv] at h
        simp only [GoResult.ok_bind] at h
        have hstep : ∀ v', convertColumnValuesLoop c rest values (acc.set column.Name v')
            = .ok m → (k ∈ m.keys ↔ k ∈ acc.keys
              ∨ ∃ col ∈ column :: rest, col.Name = k ∧ (values.get k).isSome = true) := by
          intro v' h'
          rw [ih _ m h' k, GoMap.mem_keys_set]
          constructor
          · rintro ((hk | hk) | ⟨col, hcol, hn, hs⟩)
            · exact Or.inr ⟨column, List.mem_cons_self _ _, hk.symm, by rw [hk, hv]; rfl⟩
            · exact Or.inl hk
            · exact Or.inr ⟨col, List.mem_cons_of_mem _ hcol, hn, hs⟩
          · rintro (hk | ⟨col, hcol, hn, hs⟩)
            · exact Or.inl (Or.inr hk)
            · rw [List.mem_cons] at hcol
              rcases hcol with hc | hc
              · subst hc
                exact Or.inl (Or.inl hn.symm)
              · exact Or.inr ⟨col, hc, hn, hs⟩
        cases converter with
        | none => exact hstep v h
        | some convert =>
          simp only at h
          cases hres : convert column.DataType v with
          | error err => rw [hres] at h; exact GoResult.noConfusion h
          | panic msg => rw [hres] at h; exact GoResult.noConfusion h
          | ok v' =>
            rw [hres] at h
            exact hstep v' h

/-- **C10 (amended).** For every hypertable and every row values map, the key payload
produced by `hypertableEventKey` is built from the primary-key columns only: its keys
are exactly the names of the primary-key columns that occur in the values map; when
the table has no primary key the key payload is the empty map, whatever its
replica-identity columns are; for a `nil` values map it is `nil`. -/
theorem hypertableEventKey_primary_key_only (c : Collaborators) (hypertable : Hypertable)
    (values : GoMap GoAny) :
    (∀ m, hypertableEventKey c hypertable (some values) = .ok (some m) →
      ∀ k, k ∈ m.keys ↔ ∃ col ∈ hypertable.Columns,
        col.IsPrimaryKey = true ∧ col.Name = k ∧ (values.get k).isSome = true)
    ∧ (Columns.HasPrimaryKey hypertable.Columns = false →
        hypertableEventKey c hypertable (some values) = .ok (some []))
    ∧ hypertableEventKey c hypertable none = .ok none := by
  refine ⟨?_, ?_, rfl⟩
  · intro m h k
    simp only [hypertableEventKey, convertColumnValues] at h
    cases hl : convertColumnValuesLoop c
        (hypertable.Columns.filter fun column => column.IsPrimaryKey) values [] with
    | error err => rw [hl] at h; exact GoResult.noConfusion h
    | panic msg => rw [hl] at h; exact GoResult.noConfusion h
    | ok m' =>
      rw [hl] at h
      simp only [GoResult.ok_bind] at h
      injection h with h
      injection h with h
      subst h
      rw [convertColumnValuesLoop_keys c _ values [] m' hl k]
      simp only [GoMap.keys, List.map_nil, List.not_mem_nil, false_or, List.mem_filter]
      constructor
      · rintro ⟨col, ⟨hc, hp⟩, hn, hs⟩
        exact ⟨col, hc, hp, hn, hs⟩
      · rintro ⟨col, hc, hp, hn, hs⟩
        exact ⟨col, ⟨hc, hp⟩, hn, hs⟩
  · intro hno
    have hnil : (hypertable.Columns.filter fun column => column.IsPrimaryKey) = [] := by
      rw [List.filter_eq_nil_iff]
      intro col hcol hp
      have : Columns.HasPrimaryKey hypertable.Columns = true :=
        List.any_eq_true.mpr ⟨col, hcol, hp⟩
      rw [hno] at this
      exact Bool.noConfusion this
    simp only [hypertableEventKey, convertColumnValues, hnil, convertColumnValuesLoop,
      GoResult.ok_bind]

/-- **C10 (as stated) fails.** For the hypertable `public.metrics` without primary key
whose column `id` belongs to the replica-identity index, and the row `id = 7`, the
key payload is the empty map, not the map built from the replica-identity column. -/
theorem hypertableEventKey_ignores_replica_identity :
    Columns.HasPrimaryKey
        (Hypertable.mk (ascii "public") (ascii "metrics") (ascii "db") false none none
          ReplicaIdentity.INDEX [⟨ascii "id", 23, false, true⟩]).Columns = false
    ∧ hypertableEventKey (sampleCollaborators 0 (.ok true))
        (Hypertable.mk (ascii "public") (ascii "metrics") (ascii "db") false none none
          ReplicaIdentity.INDEX [⟨ascii "id", 23, false, true⟩])
        (some [(ascii "id", GoAny.int 7)]) = .ok (some [])
    ∧ convertColumnValues (sampleCollaborators 0 (.ok true))
        ((Hypertable.mk (ascii "public") (ascii "metrics") (ascii "db") false none none
          ReplicaIdentity.INDEX [⟨ascii "id", 23, false, true⟩]).Columns.filter
            fun column => column.IsReplicaIdent)
        (some [(ascii "id", GoAny.int 7)]) = .ok (some [(ascii "id", GoAny.int 7)]) :=
  ⟨by decide, by decide, by decide⟩

/-! ## Cache of the table filter -/

theorem GoMap.get_set {β : Type} (m : GoMap β) (k : GoString) (v : β) (k' : GoString) :
    (m.set k v).get k' = if k = k' then some v else m.get k' := by
  induction m with
  | nil => simp [GoMap.set, GoMap.get]
  | cons p rest ih =>
    obtain ⟨k0, v0⟩ := p
    by_cases e : k0 = k
    · subst e
      by_cases e' : k0 = k'
      · simp [GoMap.set, GoMap.get, e']
      · simp [GoMap.set, GoMap.get, e']
    · by_cases e' : k0 = k'
      · subst e'
        simp [GoMap.set, GoMap.get, e, Ne.symm e]
      · simp [GoMap.set, GoMap.get, e, e', ih]

theorem Enabled_of_miss (reMatch : Regexp → GoString → Bool) (rf : TableFilter)
    (e : SystemEntity) (h : rf.filterCache.get e.CanonicalName = none) :
    rf.Enabled reMatch e
      = (rf.cold reMatch e,
          { rf with filterCache := rf.filterCache.set e.CanonicalName (rf.cold reMatch e) }) := by
  unfold TableFilter.Enabled TableFilter.cold
  simp only [h]
  split
  · rfl
  · split <;> rfl

theorem Enabled_of_hit (reMatch : Regexp → GoString → Bool) (rf : TableFilter)
    (e : SystemEntity) (v : Bool) (h : rf.filterCache.get e.CanonicalName = some v) :
    rf.Enabled reMatch e = (v, rf) := by
  unfold TableFilter.Enabled
  simp only [h]

theorem EnabledAll_invariant (reMatch : Regexp → GoString → Bool) (calls : List SystemEntity) :
    ∀ (rf : TableFilter) (P : GoString → Bool → Prop),
      (∀ name v, rf.filterCache.get name = some v → P name v) →
      (∀ e' ∈ calls, P e'.CanonicalName (rf.cold reMatch e')) →
      (rf.EnabledAll reMatch calls).includes = rf.includes
      ∧ (rf.EnabledAll reMatch calls).excludes = rf.excludes
      ∧ (rf.EnabledAll reMatch calls).acceptedByDefault = rf.acceptedByDefault
      ∧ (∀ name v, (rf.EnabledAll reMatch calls).filterCache.get name = some v → P name v)
      ∧ (∀ name, rf.filterCache.get name ≠ none →
          (rf.EnabledAll reMatch calls).filterCache.get name = rf.filterCache.get name)
      ∧ (∀ e' ∈ calls, (rf.EnabledAll reMatch calls).filterCache.get e'.CanonicalName ≠ none) := by
  induction calls with
  | nil =>
    intro rf P hP _
    exact ⟨rfl, rfl, rfl, hP, fun _ _ => rfl, fun _ h => absurd h (List.not_mem_nil _)⟩
  | cons e rest ih =>
    intro rf P hP hcalls
    cases hget : rf.filterCache.get e.CanonicalName with
    | some v =>
      have hE : rf.Enabled reMatch e = (v, rf) := Enabled_of_hit reMatch rf e v hget
      obtain ⟨i1, i2, i3, i4, i5, i6⟩ := ih rf P hP
        (fun e' he' => hcalls e' (List.mem_cons_of_mem _ he'))
      simp only [TableFilter.EnabledAll, hE]
      refine ⟨i1, i2, i3, i4, i5, ?_⟩
      intro e' he'
      rw [List.mem_cons] at he'
      rcases he' with h | h
      · subst h
        rw [i5 _ (by rw [hget]; exact Option.noConfusion), hget]
        exact Option.noConfusion
      · exact i6 e' h
    | none =>
      have hE := Enabled_of_miss reMatch rf e hget
      have hcold : ∀ x, TableFilter.cold reMatch
          { rf with filterCache := rf.filterCache.set e.CanonicalName (rf.cold reMatch e) } x
          = rf.cold reMatch x := fun _ => rfl
      obtain ⟨i1, i2, i3, i4, i5, i6⟩ := ih
        { rf with filterCache := rf.filterCache.set e.CanonicalName (rf.cold reMatch e) } P
        (by
          intro name v hv
          simp only [GoMap.get_set] at hv
          split at hv
          · rename_i heq
            injection hv with hv
            rw [← heq, ← hv]
            exact hcalls e (List.mem_cons_self _ _)
          · exact hP name v hv)
        (by
          intro e' he'
          rw [hcold]
          exact hcalls e' (List.mem_cons_of_mem _ he'))
      simp only [TableFilter.EnabledAll, hE]
      refine ⟨i1, i2, i3, i4, ?_, ?_⟩
      · intro name hname
        have hne : ¬ e.CanonicalName = name := by
          intro heq
          rw [← heq] at hname
          exact hname hget
        rw [i5 name (by simp only [GoMap.get_set, hne, if_false]; exact hname)]
        simp only [GoMap.get_set, hne, if_false]
      · intro e' he'
        rw [List.mem_cons] at he'
        rcases he' with h | h
        · subst h
          rw [i5 _ (by simp only [GoMap.get_set, if_true]; exact Option.noConfusion)]
          simp only [GoMap.get_set, if_true]
          exact Option.noConfusion
        · exact i6 e' h

/-- **C11 (amended).** For every table filter with an empty cache (a freshly constructed
one), every sequence of earlier `Enabled` calls and every entity `e`: if each entity
of the earlier calls that has the canonical name of `e` gets, from the fresh filter,
the same decision as `e` (as is the case when it is `e` itself), then `Enabled e` after
these calls returns the value that the fresh filter returns for `e`. -/
theorem enabled_cache_sound (reMatch : Regexp → GoString → Bool) (rf : TableFilter)
    (calls : List SystemEntity) (e : SystemEntity) (hfresh : rf.filterCache = [])
    (hsame : ∀ e' ∈ calls, e'.CanonicalName = e.CanonicalName →
      (rf.Enabled reMatch e').1 = (rf.Enabled reMatch e).1) :
    ((rf.EnabledAll reMatch calls).Enabled reMatch e).1 = (rf.Enabled reMatch e).1 := by
  have hmiss : ∀ x : SystemEntity, rf.filterCache.get x.CanonicalName = none := by
    intro x; rw [hfresh]; rfl
  have hcoldE : ∀ x, (rf.Enabled reMatch x).1 = rf.cold reMatch x := by
    intro x; rw [Enabled_of_miss reMatch rf x (hmiss x)]
  obtain ⟨i1, i2, i3, i4, _, _⟩ := EnabledAll_invariant reMatch calls rf
    (fun name v => name = e.CanonicalName → v = rf.cold reMatch e)
    (by intro name v hv; rw [hfresh] at hv; exact Option.noConfusion hv)
    (by
      intro e' he' hname
      rw [← hcoldE, ← hcoldE]
      exact hsame e' he' hname)
  rw [hcoldE]
  cases hget : (rf.EnabledAll reMatch calls).filterCache.get e.CanonicalName with
  | some v =>
    rw [Enabled_of_hit reMatch _ e v hget]
    exact i4 _ v hget rfl
  | none =>
    rw [Enabled_of_miss reMatch _ e hget]
    simp only [TableFilter.cold, i1, i2, i3]

/-- Witness for `enabled_cache_sound`: `Enabled` is asked twice for `public.metrics` and
once for another table before it is asked again for `public.metrics`. -/
theorem enabled_cache_sound_witness :
    (((TableFilter.mk [⟨ascii "public", ascii "metrics", none, none⟩] [] [] false).EnabledAll
        (fun _ _ => false)
        [NewSystemEntity (ascii "public") (ascii "metrics"),
          NewSystemEntity (ascii "public") (ascii "events"),
          NewSystemEntity (ascii "public") (ascii "metrics")]).Enabled (fun _ _ => false)
        (NewSystemEntity (ascii "public") (ascii "metrics"))).1
      = ((TableFilter.mk [⟨ascii "public", ascii "metrics", none, none⟩] [] [] false).Enabled
          (fun _ _ => false) (NewSystemEntity (ascii "public") (ascii "metrics"))).1 :=
  enabled_cache_sound (fun _ _ => false)
    (TableFilter.mk [⟨ascii "public", ascii "metrics", none, none⟩] [] [] false)
    [NewSystemEntity (ascii "public") (ascii "metrics"),
      NewSystemEntity (ascii "public") (ascii "events"),
      NewSystemEntity (ascii "public") (ascii "metrics")]
    (NewSystemEntity (ascii "public") (ascii "metrics")) rfl (by decide)

/-- **C11 (as stated) fails.** The filter with the include `public.daily` and default
`false` is first asked for the plain entity `_timescaledb_internal._materialized_2`
and caches `false` under its canonical name; asked then for the continuous aggregate
with the same schema and table name and the view `public.daily`, it returns the cached
`false`, while a fresh filter returns `true`. -/
theorem enabled_cache_unsound_for_same_canonical_name :
    (NewSystemEntity (ascii "_timescaledb_internal") (ascii "_materialized_2")).CanonicalName
      = (SystemEntity.hypertable ⟨ascii "_timescaledb_internal", ascii "_materialized_2",
          ascii "db", true, some (ascii "public"), some (ascii "daily"),
          ReplicaIdentity.DEFAULT, []⟩).CanonicalName
    ∧ (((TableFilter.mk [⟨ascii "public", ascii "daily", none, none⟩] [] [] false).EnabledAll
        (fun _ _ => false)
        [NewSystemEntity (ascii "_timescaledb_internal") (ascii "_materialized_2")]).Enabled
        (fun _ _ => false)
        (SystemEntity.hypertable ⟨ascii "_timescaledb_internal", ascii "_materialized_2",
          ascii "db", true, some (ascii "public"), some (ascii "daily"),
          ReplicaIdentity.DEFAULT, []⟩)).1 = false
    ∧ ((TableFilter.mk [⟨ascii "public", ascii "daily", none, none⟩] [] [] false).Enabled
        (fun _ _ => false)
        (SystemEntity.hypertable ⟨ascii "_timescaledb_internal", ascii "_materialized_2",
          ascii "db", true, some (ascii "public"), some (ascii "daily"),
          ReplicaIdentity.DEFAULT, []⟩)).1 = true :=
  ⟨by decide, by decide, by decide⟩

/-! ## Continuous aggregates without view -/

theorem matches_of_missing_view (reMatch : Regexp → GoString → Bool) (f : filter)
    (h : Hypertable) (hc : h.IsContinuousAggregate = true)
    (hv : h.ViewSchema = none ∨ h.ViewName = none) :
    f.matches reMatch (.hypertable h) = false := by
  unfold filter.matches
  rcases hv with hv | hv
  · simp only [hc, hv, if_true]
  · cases hs : h.ViewSchema <;> simp only [hc, hv, hs, if_true]

/-- **C16 (amended).** For every continuous-aggregate hypertable whose view schema or
view name is absent, no pattern matches (`filter.matches` is `false` for every filter);
hence for every table filter whose cache has no entry for its canonical name `Enabled`
returns `acceptedByDefault`, which is `false` exactly when the default is `false`. -/
theorem enabled_missing_view (reMatch : Regexp → GoString → Bool) (rf : TableFilter)
    (h : Hypertable) (hc : h.IsContinuousAggregate = true)
    (hv : h.ViewSchema = none ∨ h.ViewName = none)
    (hmiss : rf.filterCache.get (SystemEntity.hypertable h).CanonicalName = none) :
    (∀ f : filter, f.matches reMatch (.hypertable h) = false)
    ∧ (rf.Enabled reMatch (.hypertable h)).1 = rf.acceptedByDefault := by
  refine ⟨fun f => matches_of_missing_view reMatch f h hc hv, ?_⟩
  rw [Enabled_of_miss reMatch rf _ hmiss]
  have h1 : rf.excludes.any (fun x => x.matches reMatch (.hypertable h)) = false := by
    rw [List.any_eq_false]
    intro x _
    rw [matches_of_missing_view reMatch x h hc hv]
    exact Bool.noConfusion
  have h2 : rf.includes.any (fun x => x.matches reMatch (.hypertable h)) = false := by
    rw [List.any_eq_false]
    intro x _
    rw [matches_of_missing_view reMatch x h hc hv]
    exact Bool.noConfusion
  simp only [TableFilter.cold, h1, h2, Bool.false_eq_true, if_false]

/-- Witness for `enabled_missing_view`: a continuous aggregate without view name, a
filter that includes every table of `public` and rejects by default. -/
theorem enabled_missing_view_witness :
    (∀ f : filter, f.matches (fun _ _ => true)
        (.hypertable ⟨ascii "_timescaledb_internal", ascii "_materialized_2", ascii "db", true,
          some (ascii "public"), none, ReplicaIdentity.DEFAULT, []⟩) = false)
    ∧ ((TableFilter.mk [⟨ascii "public", [], none, some ⟨ascii "^.*?$"⟩⟩] [] [] false).Enabled
        (fun _ _ => true)
        (.hypertable ⟨ascii "_timescaledb_internal", ascii "_materialized_2", ascii "db", true,
          some (ascii "public"), none, ReplicaIdentity.DEFAULT, []⟩)).1
      = (TableFilter.mk [⟨ascii "public", [], none, some ⟨ascii "^.*?$"⟩⟩] [] []
          false).acceptedByDefault :=
  enabled_missing_view (fun _ _ => true)
    (TableFilter.mk [⟨ascii "public", [], none, some ⟨ascii "^.*?$"⟩⟩] [] [] false)
    ⟨ascii "_timescaledb_internal", ascii "_materialized_2", ascii "db", true,
      some (ascii "public"), none, ReplicaIdentity.DEFAULT, []⟩ rfl (Or.inr rfl) rfl

/-- **C16 (as stated) fails.** A filter without patterns that accepts by default
returns `true` for a continuous aggregate without view name. -/
theorem enabled_missing_view_accepted_by_default :
    ((TableFilter.mk [] [] [] true).Enabled (fun _ _ => true)
      (.hypertable ⟨ascii "_timescaledb_internal", ascii "_materialized_2", ascii "db", true,
        some (ascii "public"), none, ReplicaIdentity.DEFAULT, []⟩)).1 = true := by
  decide

/-! ## Known entities -/

/-- **C13.** `getKnownChunks` and `getKnownVanillaTables` return the intersection of
the last durable set with the live catalog: when durable state is present under the
reserved key and decodes to `candidates`, the result is `candidates`, in decoded order,
restricted to the entities whose canonical name is the canonical name of some entity of
the live catalog (entities gone from the catalog are dropped, live entities absent from
the durable set are not added); when no durable state is present, the result is the
live catalog list. -/
theorem known_entities (available : Nat) (encodedState : GoString → Option (List Byte))
    (getAll : Unit → List SystemEntity) :
    (∀ state candidates, encodedState esPreviouslyKnownChunks = some state →
        decodeKnownTables available state = .ok candidates →
        ∃ known, getKnownChunks available encodedState getAll = .ok known
          ∧ known = candidates.filter (fun e =>
              decide (∃ live ∈ getAll (), live.CanonicalName = e.CanonicalName))
          ∧ known.Sublist candidates
          ∧ ∀ e, e ∈ known ↔
              e ∈ candidates ∧ ∃ live ∈ getAll (), live.CanonicalName = e.CanonicalName)
    ∧ (encodedState esPreviouslyKnownChunks = none →
        getKnownChunks available encodedState getAll = .ok (getAll ()))
    ∧ (∀ state candidates, encodedState esPreviouslyKnownTables = some state →
        decodeKnownTables available state = .ok candidates →
        ∃ known, getKnownVanillaTables available encodedState getAll = .ok known
          ∧ known = candidates.filter (fun e =>
              decide (∃ live ∈ getAll (), live.CanonicalName = e.CanonicalName))
          ∧ known.Sublist candidates
          ∧ ∀ e, e ∈ known ↔
              e ∈ candidates ∧ ∃ live ∈ getAll (), live.CanonicalName = e.CanonicalName)
    ∧ (encodedState esPreviouslyKnownTables = none →
        getKnownVanillaTables available encodedState getAll = .ok (getAll ())) := by
  have hfilter : ∀ candidates : List SystemEntity,
      candidates.filter (fun item =>
          (getAll ()).any fun other => item.CanonicalName == other.CanonicalName)
        = candidates.filter (fun e =>
            decide (∃ live ∈ getAll (), live.CanonicalName = e.CanonicalName)) := by
    intro candidates
    apply List.filter_congr
    intro e _
    rw [Bool.eq_iff_iff]
    simp only [List.any_eq_true, beq_iff_eq, decide_eq_true_eq]
    constructor
    · rintro ⟨live, hl, heq⟩; exact ⟨live, hl, heq.symm⟩
    · rintro ⟨live, hl, heq⟩; exact ⟨live, hl, heq.symm⟩
  have hmem : ∀ (candidates : List SystemEntity) (e : SystemEntity),
      e ∈ candidates.filter (fun item =>
          (getAll ()).any fun other => item.CanonicalName == other.CanonicalName)
        ↔ e ∈ candidates ∧ ∃ live ∈ getAll (), live.CanonicalName = e.CanonicalName := by
    intro candidates e
    simp only [List.mem_filter, List.any_eq_true, beq_iff_eq]
    constructor
    · rintro ⟨hc, live, hl, heq⟩; exact ⟨hc, live, hl, heq.symm⟩
    · rintro ⟨hc, live, hl, heq⟩; exact ⟨hc, live, hl, heq.symm⟩
  refine ⟨?_, ?_, ?_, ?_⟩
  · intro state candidates hs hd
    refine ⟨_, ?_, hfilter candidates, List.filter_sublist _, hmem candidates⟩
    simp only [getKnownChunks, hs, hd, GoResult.ok_bind]
  · intro hs
    simp only [getKnownChunks, hs]
  · intro state candidates hs hd
    refine ⟨_, ?_, hfilter candidates, List.filter_sublist _, hmem candidates⟩
    simp only [getKnownVanillaTables, hs, hd, GoResult.ok_bind]
  · intro hs
    simp only [getKnownVanillaTables, hs]

/-! ## Truncated known-tables payloads -/

theorem be32_inj (v w : Nat) (hv : v < 4294967296) (hw : w < 4294967296)
    (h : be32 v = be32 w) : v = w := by
  simp only [be32, List.cons.injEq, and_true, Fin.ofNat] at h
  obtain ⟨h0, h1, h2, h3⟩ := h
  have e0 := congrArg Fin.val h0
  have e1 := congrArg Fin.val h1
  have e2 := congrArg Fin.val h2
  have e3 := congrArg Fin.val h3
  simp only [Fin.val_mk] at e0 e1 e2 e3
  omega

theorem ReadUint32_eq_ok (b b' : ReadBuffer) (v : Nat) (h : b.ReadUint32 = .ok (v, b')) :
    b.bytes = be32 v ++ b'.bytes ∧ v < 4294967296 := by
  refine ⟨?_, ReadUint32_lt b b' v h⟩
  unfold ReadBuffer.ReadUint32 at h
  split at h
  · rename_i b0 b1 b2 b3 rest heq
    injection h with h
    injection h with hv hb
    rw [heq, ← hb, ← hv]
    have h0 := b0.isLt
    have h1 := b1.isLt
    have h2 := b2.isLt
    have h3 := b3.isLt
    simp only [be32, List.cons_append, List.nil_append, List.cons.injEq, and_true, Fin.ofNat]
    refine ⟨?_, ?_, ?_, ?_⟩ <;> (apply Fin.ext; simp only [Fin.val_mk]; omega)
  · exact GoResult.noConfusion h

theorem ReadUint32_ne_panic (b : ReadBuffer) (m : String) : b.ReadUint32 ≠ .panic m := by
  intro h
  unfold ReadBuffer.ReadUint32 at h
  split at h <;> exact GoResult.noConfusion h

theorem ReadUint32_short (b : ReadBuffer) (h : b.bytes.length < 4) :
    ∃ err, b.ReadUint32 = .error err := by
  unfold ReadBuffer.ReadUint32
  split
  · rename_i b0 b1 b2 b3 rest heq
    rw [heq] at h
    simp only [List.length_cons] at h
    omega
  · exact ⟨_, rfl⟩

theorem ReadString_eq_ok (b b' : ReadBuffer) (s : GoString) (h : b.ReadString = .ok (s, b')) :
    b.bytes = encodeString s ++ b'.bytes ∧ s.length < 4294967296 := by
  have hlt := ReadString_length_lt b b' s h
  refine ⟨?_, hlt⟩
  unfold ReadBuffer.ReadString at h
  cases hr : b.ReadUint32 with
  | ok p =>
    obtain ⟨n, b1⟩ := p
    obtain ⟨hb, _⟩ := ReadUint32_eq_ok b b1 n hr
    rw [hr] at h
    simp only [GoResult.ok_bind] at h
    split at h
    · rename_i hle
      injection h with h
      injection h with hs hb'
      have hlen : s.length = n := by rw [← hs, List.length_take]; omega
      rw [hb, encodeString, u32_of_lt hlt, hlen, ← hb', ← hs, List.append_assoc,
        List.take_append_drop]
    · exact GoResult.noConfusion h
  | error e => rw [hr] at h; exact GoResult.noConfusion h
  | panic m => rw [hr] at h; exact GoResult.noConfusion h

theorem ReadString_ne_panic (b : ReadBuffer) (m : String) : b.ReadString ≠ .panic m := by
  intro h
  unfold ReadBuffer.ReadString at h
  cases hr : b.ReadUint32 with
  | ok p =>
    rw [hr] at h
    simp only [GoResult.ok_bind] at h
    split at h <;> exact GoResult.noConfusion h
  | error e => rw [hr] at h; exact GoResult.noConfusion h
  | panic m' => exact ReadUint32_ne_panic b m' hr

theorem ReadString_overflow (len : Nat) (rest : List Byte) (hlen : len < 4294967296)
    (h : rest.length < len) : ∃ err, ReadBuffer.ReadString ⟨be32 len ++ rest⟩ = .error err := by
  refine ⟨.mk "unexpected EOF", ?_⟩
  simp only [ReadBuffer.ReadString, ReadUint32_be32 len hlen rest, GoResult.ok_bind]
  rw [if_neg (by omega)]

theorem wrapError_ne_panic {α : Type} (r : GoResult α) (h : ∀ m, r ≠ .panic m) :
    ∀ m, wrapError r ≠ .panic m := by
  intro m hm
  cases r with
  | ok a => exact GoResult.noConfusion hm
  | error e => exact GoResult.noConfusion hm
  | panic m' => exact h m' rfl

theorem decodeKnownTablesLoop_ne_panic (n : Nat) :
    ∀ (b : ReadBuffer) (acc : List SystemEntity) (m : String),
      decodeKnownTablesLoop n b acc ≠ .panic m := by
  induction n with
  | zero => intro b acc m h; exact GoResult.noConfusion h
  | succ n ih =>
    intro b acc m h
    simp only [decodeKnownTablesLoop] at h
    cases h1 : wrapError b.ReadString with
    | ok p1 =>
      obtain ⟨sn, b1⟩ := p1
      rw [h1] at h
      simp only [GoResult.ok_bind] at h
      cases h2 : wrapError b1.ReadString with
      | ok p2 =>
        obtain ⟨tn, b2⟩ := p2
        rw [h2] at h
        exact ih _ _ m h
      | error e => rw [h2] at h; exact GoResult.noConfusion h
      | panic m' => exact wrapError_ne_panic _ (ReadString_ne_panic b1) m' h2
    | error e => rw [h1] at h; exact GoResult.noConfusion h
    | panic m' => exact wrapError_ne_panic _ (ReadString_ne_panic b) m' h1

theorem decodeKnownTables_panic_inv (available : Nat) (data : List Byte) (m : String)
    (h : decodeKnownTables available data = .panic m) :
    ∃ n b, (NewReadBuffer data).ReadUint32 = .ok (n, b) ∧ available < n := by
  cases h1 : (NewReadBuffer data).ReadUint32 with
  | ok p =>
    obtain ⟨n, b⟩ := p
    by_cases hle : n ≤ available
    · rw [decodeKnownTables_of_read available data n b h1 hle] at h
      exact absurd h (decodeKnownTablesLoop_ne_panic n b [] m)
    · exact ⟨n, b, rfl, Nat.not_le.mp hle⟩
  | error e =>
    simp only [decodeKnownTables, h1, wrapError, GoResult.error_bind] at h
    exact GoResult.noConfusion h
  | panic m' => exact absurd h1 (ReadUint32_ne_panic _ m')

theorem decodeKnownTables_ne_panic (available : Nat) (data : List Byte)
    (hcap : ∀ n rest, n < 4294967296 → data = be32 n ++ rest → n ≤ available) (m : String) :
    decodeKnownTables available data ≠ .panic m := by
  intro h
  obtain ⟨n, b, hr, hlt⟩ := decodeKnownTables_panic_inv available data m h
  obtain ⟨hd, hn⟩ := ReadUint32_eq_ok _ b n hr
  exact Nat.lt_irrefl _ (Nat.lt_of_lt_of_le hlt (hcap n b.bytes hn hd))

theorem error_of_not_ok {α : Type} (r : GoResult α) (hp : ∀ m, r ≠ .panic m)
    (hok : ∀ a, r ≠ .ok a) : ∃ err, r = .error err := by
  cases r with
  | ok a => exact absurd rfl (hok a)
  | error e => exact ⟨e, rfl⟩
  | panic m => exact absurd rfl (hp m)

theorem decodeKnownTablesLoop_consumed (n : Nat) :
    ∀ (b : ReadBuffer) (acc R : List SystemEntity), decodeKnownTablesLoop n b acc = .ok R →
      ∃ K leftover, b.bytes = encodeEntities K ++ leftover ∧ K.length = n
        ∧ ∀ e ∈ K, e.SchemaName.length < 4294967296 ∧ e.TableName.length < 4294967296 := by
  induction n with
  | zero =>
    intro b acc R _
    exact ⟨[], b.bytes, rfl, rfl, fun e he => absurd he (List.not_mem_nil _)⟩
  | succ n ih =>
    intro b acc R h
    simp only [decodeKnownTablesLoop] at h
    cases h1 : wrapError b.ReadString with
    | ok p1 =>
      obtain ⟨sn, b1⟩ := p1
      rw [h1] at h
      simp only [GoResult.ok_bind] at h
      cases h2 : wrapError b1.ReadString with
      | ok p2 =>
        obtain ⟨tn, b2⟩ := p2
        rw [h2] at h
        simp only [GoResult.ok_bind] at h
        obtain ⟨e1, l1⟩ := ReadString_eq_ok b b1 sn (wrapError_eq_ok _ _ h1)
        obtain ⟨e2, l2⟩ := ReadString_eq_ok b1 b2 tn (wrapError_eq_ok _ _ h2)
        obtain ⟨K, leftover, hK, hlen, hb⟩ := ih b2 _ R h
        refine ⟨NewSystemEntity sn tn :: K, leftover, ?_, by simp [hlen], ?_⟩
        · rw [e1, e2, hK]
          simp only [encodeEntities, NewSystemEntity, SystemEntity.SchemaName,
            SystemEntity.TableName, List.append_assoc]
        · intro e he
          rw [List.mem_cons] at he
          rcases he with he | he
          · subst he; exact ⟨l1, l2⟩
          · exact hb e he
      | error e => rw [h2] at h; exact GoResult.noConfusion h
      | panic m => rw [h2] at h; exact GoResult.noConfusion h
    | error e => rw [h1] at h; exact GoResult.noConfusion h
    | panic m => rw [h1] at h; exact GoResult.noConfusion h

theorem encodeString_inj (s t : GoString) (a b : List Byte) (hs : s.length < 4294967296)
    (ht : t.length < 4294967296) (h : encodeString s ++ a = encodeString t ++ b) :
    s = t ∧ a = b := by
  simp only [encodeString, u32_of_lt hs, u32_of_lt ht, List.append_assoc] at h
  have h4 := List.append_inj h (by simp)
  have hl : s.length = t.length := be32_inj _ _ hs ht h4.1
  have := List.append_inj h4.2 hl
  exact this

theorem encodeEntities_inj (K : List SystemEntity) :
    ∀ (L : List SystemEntity) (x y : List Byte), K.length = L.length →
      (∀ e ∈ K, e.SchemaName.length < 4294967296 ∧ e.TableName.length < 4294967296) →
      (∀ e ∈ L, e.SchemaName.length < 4294967296 ∧ e.TableName.length < 4294967296) →
      encodeEntities K ++ x = encodeEntities L ++ y → x = y := by
  induction K with
  | nil =>
    intro L x y hl _ _ h
    cases L with
    | nil => simpa [encodeEntities] using h
    | cons e tl => simp at hl
  | cons k ktl ih =>
    intro L x y hl hK hL h
    cases L with
    | nil => simp at hl
    | cons l ltl =>
      simp only [encodeEntities, List.append_assoc] at h
      have hk := hK k (List.mem_cons_self _ _)
      have hl' := hL l (List.mem_cons_self _ _)
      obtain ⟨_, h1⟩ := encodeString_inj _ _ _ _ hk.1 hl'.1 h
      obtain ⟨_, h2⟩ := encodeString_inj _ _ _ _ hk.2 hl'.2 h1
      exact ih ltl x y (by simpa using hl)
        (fun e he => hK e (List.mem_cons_of_mem _ he))
        (fun e he => hL e (List.mem_cons_of_mem _ he)) h2

theorem decodeKnownTablesLoop_skip (K : List SystemEntity) :
    ∀ (m : Nat) (tail : List Byte) (acc : List SystemEntity),
      (∀ e ∈ K, e.SchemaName.length < 4294967296 ∧ e.TableName.length < 4294967296) →
      decodeKnownTablesLoop (K.length + m) ⟨encodeEntities K ++ tail⟩ acc
        = decodeKnownTablesLoop m ⟨tail⟩ (acc ++ K.map SystemEntity.plain) := by
  induction K with
  | nil => intro m tail acc _; simp [encodeEntities]
  | cons e tl ih =>
    intro m tail acc h
    have he := h e (List.mem_cons_self _ _)
    have htl : ∀ x ∈ tl, x.SchemaName.length < 4294967296 ∧ x.TableName.length < 4294967296 :=
      fun x hx => h x (List.mem_cons_of_mem _ hx)
    have hn : (e :: tl).length + m = (tl.length + m) + 1 := by simp only [List.length_cons]; omega
    rw [hn]
    simp only [decodeKnownTablesLoop, encodeEntities, List.append_assoc,
      ReadString_encodeString _ he.1, ReadString_encodeString _ he.2, wrapError_ok,
      GoResult.ok_bind, ih m tail _ htl, List.map_cons, SystemEntity.plain,
      List.singleton_append]

theorem encodeEntities_length_ge8 (K : List SystemEntity) :
    8 * K.length ≤ (encodeEntities K).length := by
  induction K with
  | nil => simp [encodeEntities]
  | cons e tl ih =>
    simp only [encodeEntities, encodeString, List.length_append, be32_length, List.length_cons]
    omega

theorem decodeKnownTables_eq_ok (available : Nat) (data : List Byte) (R : List SystemEntity)
    (h : decodeKnownTables available data = .ok R) :
    ∃ n K leftover, data = be32 n ++ (encodeEntities K ++ leftover) ∧ n < 4294967296
      ∧ K.length = n
      ∧ ∀ e ∈ K, e.SchemaName.length < 4294967296 ∧ e.TableName.length < 4294967296 := by
  obtain ⟨n, b, hr, _, hloop⟩ := decodeKnownTables_ok_inv available data R h
  obtain ⟨hd, hn⟩ := ReadUint32_eq_ok _ b n hr
  obtain ⟨K, leftover, hK, hlen, hb⟩ := decodeKnownTablesLoop_consumed n b [] R hloop
  refine ⟨n, K, leftover, ?_, hn, hlen, hb⟩
  rw [← hK]
  exact hd

/-- **C20 (amended).** On a machine whose runtime can allocate the slice of the declared
capacity, `decodeKnownTables` does not panic and returns an error (a) on every strict
prefix of `encodeKnownTables L`, for every entity list `L` with fewer than `2 ^ 32`
entries whose names are each shorter than `2 ^ 32` bytes, (b) on every payload whose
declared count exceeds the number of bytes that remain, and (c) on every payload that,
after the count and fewer complete entities than declared, holds a schema name or table
name whose declared length exceeds the bytes that remain. What happens when the declared
count is beyond what the runtime can allocate is not part of the statement. -/
theorem decode_malformed_known_tables (available : Nat) (L : List SystemEntity)
    (hcount : L.length < 4294967296)
    (hnames : ∀ e ∈ L, e.SchemaName.length < 4294967296 ∧ e.TableName.length < 4294967296)
    (hmem : L.length ≤ available) :
    (∀ p rest, encodeKnownTables L = .ok (p ++ rest) → rest ≠ [] →
        ∃ err, decodeKnownTables available p = .error err)
    ∧ (∀ n rest, n < 4294967296 → n ≤ available → rest.length < n →
        ∃ err, decodeKnownTables available (be32 n ++ rest) = .error err)
    ∧ (∀ n K pre len rest, n < 4294967296 → n ≤ available → K.length < n →
        (∀ e ∈ K, e.SchemaName.length < 4294967296 ∧ e.TableName.length < 4294967296) →
        (pre = [] ∨ ∃ s : GoString, s.length < 4294967296 ∧ pre = encodeString s) →
        len < 4294967296 → rest.length < len →
        ∃ err, decodeKnownTables available
            (be32 n ++ (encodeEntities K ++ (pre ++ (be32 len ++ rest)))) = .error err)
    ∧ (∀ data, (∀ n rest, n < 4294967296 → data = be32 n ++ rest → n ≤ available) →
        ∀ m, decodeKnownTables available data ≠ .panic m) := by
  refine ⟨?_, ?_, ?_, decodeKnownTables_ne_panic available⟩
  · intro p rest henc hrest
    rw [encodeKnownTables_eq, u32_of_lt hcount] at henc
    injection henc with henc
    apply error_of_not_ok _ (decodeKnownTables_ne_panic available p ?_)
    · intro R hR
      obtain ⟨n, K, leftover, hp, hn, hlen, hK⟩ := decodeKnownTables_eq_ok available p R hR
      rw [hp, List.append_assoc, List.append_assoc] at henc
      have h4 := List.append_inj henc.symm (by simp)
      have hnl : n = L.length := be32_inj _ _ hn hcount h4.1
      have hx := encodeEntities_inj K L (leftover ++ rest) [] (by rw [hlen, hnl]) hK hnames
        (by rw [List.append_nil]; exact h4.2)
      exact hrest (List.append_eq_nil.mp hx).2
    · intro n tail hn hp
      rw [hp, List.append_assoc] at henc
      have h4 := List.append_inj henc.symm (by simp)
      have hnl : n = L.length := be32_inj _ _ hn hcount h4.1
      rw [hnl]
      exact hmem
  · intro n rest hn hle hlt
    apply error_of_not_ok _ (decodeKnownTables_ne_panic available _ ?_)
    · intro R hR
      obtain ⟨n', K, leftover, hp, hn', hlen, _⟩ := decodeKnownTables_eq_ok available _ R hR
      have h4 := List.append_inj hp (by simp)
      have hnn : n = n' := be32_inj _ _ hn hn' h4.1
      have hge := encodeEntities_length_ge8 K
      have hl : rest.length = (encodeEntities K).length + leftover.length := by
        rw [h4.2, List.length_append]
      omega
    · intro n' tail hn' hp
      have h4 := List.append_inj hp (by simp)
      have hnn : n = n' := be32_inj _ _ hn hn' h4.1
      rw [← hnn]
      exact hle
  · intro n K pre len rest hn hle hK hb hpre hlen hlt
    have hr : ReadBuffer.ReadUint32 (NewReadBuffer
        (be32 n ++ (encodeEntities K ++ (pre ++ (be32 len ++ rest)))))
        = .ok (n, ⟨encodeEntities K ++ (pre ++ (be32 len ++ rest))⟩) :=
      ReadUint32_be32 _ hn _
    obtain ⟨m, hm⟩ : ∃ m, n = K.length + (m + 1) := ⟨n - K.length - 1, by omega⟩
    obtain ⟨err, herr⟩ := ReadString_overflow len rest hlen hlt
    rw [decodeKnownTables_of_read available _ _ _ hr hle]
    rw [hm, decodeKnownTablesLoop_skip K (m + 1) _ _ hb]
    rcases hpre with hpre | ⟨s, hs, hpre⟩
    · subst hpre
      refine ⟨.wrap err, ?_⟩
      simp only [decodeKnownTablesLoop, List.nil_append, herr, wrapError, GoResult.error_bind]
    · subst hpre
      refine ⟨.wrap err, ?_⟩
      simp only [decodeKnownTablesLoop, ReadString_encodeString s hs, wrapError_ok,
        GoResult.ok_bind, herr, wrapError, GoResult.error_bind]

/-- Witness for `decode_malformed_known_tables`: a chunk and an entity with empty
names, on a machine with room for two entities. -/
theorem decode_malformed_known_tables_witness :
    (∀ p rest, encodeKnownTables
          [NewSystemEntity (ascii "_timescaledb_internal") (ascii "_hyper_1_1_chunk"),
            NewSystemEntity [] []] = .ok (p ++ rest) → rest ≠ [] →
        ∃ err, decodeKnownTables 2 p = .error err)
    ∧ (∀ n rest, n < 4294967296 → n ≤ 2 → rest.length < n →
        ∃ err, decodeKnownTables 2 (be32 n ++ rest) = .error err)
    ∧ (∀ n K pre len rest, n < 4294967296 → n ≤ 2 → K.length < n →
        (∀ e ∈ K, e.SchemaName.length < 4294967296 ∧ e.TableName.length < 4294967296) →
        (pre = [] ∨ ∃ s : GoString, s.length < 4294967296 ∧ pre = encodeString s) →
        len < 4294967296 → rest.length < len →
        ∃ err, decodeKnownTables 2
            (be32 n ++ (encodeEntities K ++ (pre ++ (be32 len ++ rest)))) = .error err)
    ∧ (∀ data, (∀ n rest, n < 4294967296 → data = be32 n ++ rest → n ≤ 2) →
        ∀ m, decodeKnownTables 2 data ≠ .panic m) :=
  decode_malformed_known_tables 2
    [NewSystemEntity (ascii "_timescaledb_internal") (ascii "_hyper_1_1_chunk"),
      NewSystemEntity [] []] (by decide) (by decide) (by decide)

theorem encodeKnownTables_huge_name (n : Nat) (h : u32 (n + 4) = 0) :
    encodeKnownTables [NewSystemEntity (List.replicate (n + 4) (0 : Byte)) []]
      = .ok ([0, 0, 0, 1, 0, 0, 0, 0, 0, 0, 0, 0] ++ (List.replicate n 0 ++ [0, 0, 0, 0])) := by
  rw [encodeKnownTables_eq]
  simp only [encodeEntities, encodeString, NewSystemEntity, SystemEntity.SchemaName,
    SystemEntity.TableName, List.length_replicate, h, List.length_singleton, List.length_nil,
    List.append_nil]
  rw [show List.replicate (n + 4) (0 : Byte) = 0 :: 0 :: 0 :: 0 :: List.replicate n 0 from by
    simp only [List.replicate_succ]]
  rfl

/-- **C20 (as stated) fails.** For the one-entry list whose schema name consists of
`2 ^ 32` zero bytes the length field wraps to 0: the first 12 bytes of its encoding are
a strict prefix, and `decodeKnownTables`, with room for the one entity they declare,
decodes them without error into one entity with empty names. -/
theorem decode_strict_prefix_of_huge_name :
    (∃ rest, rest ≠ [] ∧
      encodeKnownTables [NewSystemEntity (List.replicate 4294967296 (0 : Byte)) []]
        = .ok ([0, 0, 0, 1, 0, 0, 0, 0, 0, 0, 0, 0] ++ rest))
    ∧ decodeKnownTables 1 [0, 0, 0, 1, 0, 0, 0, 0, 0, 0, 0, 0] = .ok [NewSystemEntity [] []] :=
  ⟨⟨List.replicate 4294967292 0 ++ [0, 0, 0, 0],
      fun h => List.cons_ne_nil _ _ (List.append_eq_nil.mp h).2,
      encodeKnownTables_huge_name 4294967292 rfl⟩, by decide⟩

/-- The preallocation of `decodeKnownTables` trusts the declared count: the payload
`FF FF FF FF` declares `2 ^ 32 - 1` entities and holds none, and on a machine with room
for a million entities the decoder asks the runtime for all of them before it reads the
first one, which ends the process. -/
theorem decode_huge_count_out_of_memory :
    decodeKnownTables 1000000 [255, 255, 255, 255]
      = .panic "fatal error: runtime: out of memory" :=
  decodeKnownTables_of_short 1000000 [255, 255, 255, 255] 4294967295 ⟨[]⟩ rfl (by omega)

set_option maxRecDepth 100000

theorem isPlainChar_facts : ∀ b : Byte, isPlainChar b = true →
    b.val < 128 ∧ b.val ≠ 34 ∧ b.val ≠ 92 ∧ isPlainChar (lowerASCII b) = true
    ∧ isWildcard (lowerASCII b) = isWildcard b
    ∧ ((isASCIILetter b = true ∨ b.val = 95 ∨ isWildcard b = true) →
        (isASCIILetter (lowerASCII b) = true ∨ (lowerASCII b).val = 95
          ∨ isWildcard (lowerASCII b) = true)) := by
  decide

theorem upperASCII_lowerASCII : ∀ b : Byte, upperASCII (lowerASCII b) = upperASCII b := by
  decide

theorem encodeRune_ascii : ∀ b : Byte, b.val < 128 → encodeRune b.val = [b] := by
  decide

theorem unicodeASCII_agrees : unicodeASCII.AgreesOnASCII := by
  intro r _
  simp [unicodeASCII]

theorem decodeRunesSteps_ascii (s : GoString) (h : ∀ b ∈ s, b.val < 128) :
    ∀ n, s.length ≤ n → decodeRunesSteps n s = s.map (fun b => b.val) := by
  induction s with
  | nil => intro n _; cases n <;> rfl
  | cons b rest ih =>
    intro n hn
    cases n with
    | zero => simp at hn
    | succ n =>
      have hb : b.val < 128 := h b (List.mem_cons_self _ _)
      have hd : decodeRune (b :: rest) = (b.val, 1) := by simp [decodeRune, hb]
      simp only [decodeRunesSteps, hd, List.drop_succ_cons, List.drop_zero, List.map_cons]
      rw [ih (fun x hx => h x (List.mem_cons_of_mem _ hx)) n (by simpa using hn)]

theorem decodeRunes_ascii (s : GoString) (h : ∀ b ∈ s, b.val < 128) :
    decodeRunes s = s.map (fun b => b.val) :=
  decodeRunesSteps_ascii s h _ (le_refl _)

theorem expandWildcards_cons (b : Byte) (rest : GoString) :
    expandWildcards (b :: rest) = expandWildcards [b] ++ expandWildcards rest := by
  simp [expandWildcards]

theorem expandWildcards_of_plain (s : GoString) (h : s.any isWildcard = false) :
    expandWildcards s = s := by
  induction s with
  | nil => rfl
  | cons b rest ih =>
    simp only [List.any_cons, Bool.or_eq_false_iff] at h
    rw [expandWildcards_cons, ih h.2]
    have hb := h.1
    simp only [isWildcard, Bool.or_eq_false_iff, beq_eq_false_iff_ne, ne_eq] at hb
    simp [expandWildcards, hb.1.1, hb.1.2, hb.2]

theorem parseTokenLoop_plain (env : PatternEnv) (hu : env.unicode.AgreesOnASCII)
    (lastIndex : Nat) (rest : GoString) :
    (∀ b ∈ rest, isPlainChar b = true) →
    ∀ (i : Nat) (builder : GoString) (isRegex : Bool), i + rest.length = lastIndex →
      parseTokenLoop env false lastIndex (rest.map (fun b => b.val)) i builder isRegex
        = .ok (builder ++ expandWildcards rest, isRegex || rest.any isWildcard) := by
  induction rest with
  | nil =>
    intro _ i builder isRegex hi
    simp only [List.length_nil, Nat.add_zero] at hi
    simp [parseTokenLoop, hi, expandWildcards]
  | cons b rest ih =>
    intro hp i builder isRegex hi
    have hb := hp b (List.mem_cons_self _ _)
    have ih' := ih (fun x hx => hp x (List.mem_cons_of_mem _ hx))
    have hlt : i < lastIndex := by simp only [List.length_cons] at hi; omega
    have hi' : i + 1 + rest.length = lastIndex := by simp only [List.length_cons] at hi; omega
    obtain ⟨h128, h34, h92, -, -, -⟩ := isPlainChar_facts b hb
    rw [expandWildcards_cons, List.any_cons, List.map_cons]
    unfold parseTokenLoop
    rw [if_neg (by simpa using hlt), if_neg (by simp), if_neg (by simp)]
    by_cases h42 : b.val = 42
    · rw [if_pos h42, ih' _ _ _ hi']
      simp [expandWildcards, isWildcard, h42]
    rw [if_neg h42]
    by_cases h63 : b.val = 63
    · rw [if_pos h63, ih' _ _ _ hi']
      simp [expandWildcards, isWildcard, h63]
    rw [if_neg h63]
    by_cases h43 : b.val = 43
    · rw [if_pos h43, ih' _ _ _ hi']
      simp [expandWildcards, isWildcard, h43]
    rw [if_neg h43]
    have hw : isWildcard b = false := by simp [isWildcard, h42, h63, h43]
    have hcls : (env.unicode.IsLetter b.val || env.unicode.IsNumber b.val || b.val == 95
        || false) = true := by
      obtain ⟨hl, hn⟩ := hu b.val h128
      rw [hl, hn]
      simpa [isPlainChar, isASCIILetter, isASCIIDigit, hw] using hb
    rw [if_pos hcls, ih' _ _ _ hi', encodeRune_ascii b h128]
    simp [expandWildcards, hw, h42, h63, h43]

theorem isWildcard_lowerASCII : ∀ b : Byte, isWildcard (lowerASCII b) = isWildcard b := by
  decide

theorem any_isWildcard_lowerASCII (s : GoString) :
    (s.map lowerASCII).any isWildcard = s.any isWildcard := by
  induction s with
  | nil => rfl
  | cons b rest ih => simp only [List.map_cons, List.any_cons, ih, isWildcard_lowerASCII]

theorem all_ascii_of_plain (s : GoString) (h : ∀ b ∈ s, isPlainChar b = true) :
    s.all (fun x => decide (x.val < 128)) = true := by
  rw [List.all_eq_true]
  intro x hx
  simpa using (isPlainChar_facts x (h x hx)).1

theorem parseToken_plain (env : PatternEnv) (token : GoString)
    (hu : env.unicode.AgreesOnASCII)
    (hchars : ∀ b ∈ token, isPlainChar b = true)
    (hfirst : ∃ b rest, token = b :: rest
      ∧ (isASCIILetter b = true ∨ b.val = 95 ∨ isWildcard b = true))
    (hlen : token.length ≤ 63)
    (hkeyword : token.map upperASCII ∉ env.reservedKeywords) :
    parseToken env token
      = .ok (expandWildcards (token.map lowerASCII), token.any isWildcard) := by
  obtain ⟨b, rest, rfl, hb⟩ := hfirst
  have hpb := hchars b (List.mem_cons_self _ _)
  obtain ⟨hb128, hb34, -, -, -, hfirst'⟩ := isPlainChar_facts b hpb
  have hlower : strings.ToLower env.unicode (b :: rest) = (b :: rest).map lowerASCII := by
    unfold strings.ToLower
    rw [if_pos (all_ascii_of_plain _ hchars)]
  have hplain : ∀ x ∈ (b :: rest).map lowerASCII, isPlainChar x = true := by
    intro x hx
    obtain ⟨y, hy, rfl⟩ := List.mem_map.1 hx
    exact (isPlainChar_facts y (hchars y hy)).2.2.2.1
  have hwild := any_isWildcard_lowerASCII (b :: rest)
  have hrunes := decodeRunes_ascii _ (fun x hx => (isPlainChar_facts x (hplain x hx)).1)
  have hloop := parseTokenLoop_plain env hu ((b :: rest).map lowerASCII).length
    ((b :: rest).map lowerASCII) hplain 0 [] false (by simp)
  obtain ⟨last, hlast⟩ : ∃ last, (b :: rest).getLast? = some last :=
    ⟨_, List.getLast?_eq_getLast _ (List.cons_ne_nil _ _)⟩
  have hq : (b.val == 34 && last.val == 34) = false := by simp [hb34]
  unfold parseToken
  rw [List.head?_cons, hlast]
  simp only [hq, Bool.not_false, if_true, hlower]
  have hhead : ((b :: rest).map lowerASCII).head? = some (lowerASCII b) := rfl
  have hfirstOk : ¬ (True ∧ (!env.unicode.IsLetter (lowerASCII b).val) = true
      ∧ (lowerASCII b).val ≠ 95 ∧ (lowerASCII b).val ≠ 42 ∧ (lowerASCII b).val ≠ 63
      ∧ (lowerASCII b).val ≠ 43) := by
    have hl := (hu (lowerASCII b).val
      (isPlainChar_facts _ (hplain _ (List.mem_map_of_mem _ (List.mem_cons_self _ _)))).1).1
    rintro ⟨-, h1, h2, h3, h4, h5⟩
    rw [hl] at h1
    rcases hfirst' hb with h | h | h
    · simp only [isASCIILetter] at h
      simp [h] at h1
    · exact h2 h
    · simp [isWildcard, h3, h4, h5] at h
  rw [if_neg (by simp only [List.length_map]; omega), hhead]
  simp only []
  rw [if_neg hfirstOk]
  simp only [Bool.false_eq_true, if_false, List.drop_zero, hrunes, hloop, GoResult.ok_bind,
    List.nil_append, Bool.false_or, hwild]
  cases hw : (b :: rest).any isWildcard
  · have hw' : ((b :: rest).map lowerASCII).any isWildcard = false := by rw [hwild, hw]
    have hupper : strings.ToUpper env.unicode ((b :: rest).map lowerASCII)
        = (b :: rest).map upperASCII := by
      unfold strings.ToUpper
      rw [if_pos (all_ascii_of_plain _ hplain), List.map_map]
      apply List.map_congr_left
      intro x _
      exact upperASCII_lowerASCII x
    rw [expandWildcards_of_plain _ hw', hupper]
    simpa using hkeyword
  · simp

theorem parseFilter_PUBLIC_Metrics (env : PatternEnv) (hu : env.unicode.AgreesOnASCII)
    (h1 : ascii "PUBLIC" ∉ env.reservedKeywords) (h2 : ascii "METRICS" ∉ env.reservedKeywords) :
    parseFilter env (ascii "PUBLIC.Metrics")
      = .ok ⟨ascii "public", ascii "metrics", none, none⟩ := by
  have hs : strings.Split (ascii "PUBLIC.Metrics") 46 = [ascii "PUBLIC", ascii "Metrics"] := by
    decide
  have hp1 := parseToken_plain env (ascii "PUBLIC") hu (by decide)
    ⟨80, ascii "UBLIC", by decide, by decide⟩ (by decide) h1
  have hp2 := parseToken_plain env (ascii "Metrics") hu (by decide)
    ⟨77, ascii "etrics", by decide, by decide⟩ (by decide) h2
  have e1 : expandWildcards ((ascii "PUBLIC").map lowerASCII) = ascii "public" := by decide
  have e2 : expandWildcards ((ascii "Metrics").map lowerASCII) = ascii "metrics" := by decide
  have w1 : (ascii "PUBLIC").any isWildcard = false := by decide
  have w2 : (ascii "Metrics").any isWildcard = false := by decide
  rw [e1, w1] at hp1
  rw [e2, w2] at hp2
  unfold parseFilter
  rw [hs]
  simp only [hp1, hp2, wrapError, GoResult.ok_bind]
  rfl

/-- **C19.** An unquoted token of ASCII letters, digits, `_` and wildcards that starts with a
letter, `_` or a wildcard, has at most 63 bytes and is not a reserved keyword is parsed
to its lower-case form with `*`, `?`, `+` replaced by `.*?`, `.{1}`, `.+?`, and is flagged
as a regular expression exactly when it contains a wildcard; the filter built from the
include `PUBLIC.Metrics` enables the entity `public.metrics`. -/
theorem parseToken_unquoted (env : PatternEnv) (token : GoString)
    (hu : env.unicode.AgreesOnASCII)
    (hchars : ∀ b ∈ token, isPlainChar b = true)
    (hfirst : ∃ b rest, token = b :: rest
      ∧ (isASCIILetter b = true ∨ b.val = 95 ∨ isWildcard b = true))
    (hlen : token.length ≤ 63)
    (hkeyword : token.map upperASCII ∉ env.reservedKeywords) :
    parseToken env token
        = .ok (expandWildcards (token.map lowerASCII), token.any isWildcard)
    ∧ (ascii "PUBLIC" ∉ env.reservedKeywords → ascii "METRICS" ∉ env.reservedKeywords →
        ∀ (reMatch : Regexp → GoString → Bool) (acceptedByDefault : Bool),
          ∃ rf, NewTableFilter env [] [ascii "PUBLIC.Metrics"] acceptedByDefault = .ok rf
            ∧ (rf.Enabled reMatch (NewSystemEntity (ascii "public") (ascii "metrics"))).1
                = true) := by
  refine ⟨parseToken_plain env token hu hchars hfirst hlen hkeyword, ?_⟩
  intro h1 h2 reMatch acceptedByDefault
  refine ⟨⟨[⟨ascii "public", ascii "metrics", none, none⟩], [], [], acceptedByDefault⟩, ?_, ?_⟩
  · simp only [NewTableFilter, parseFilters, parseFilter_PUBLIC_Metrics env hu h1 h2,
      GoResult.ok_bind, List.nil_append]
  · simp [TableFilter.Enabled, GoMap.get, filter.matches, NewSystemEntity,
      SystemEntity.SchemaName, SystemEntity.TableName]

theorem parseToken_unquoted_witness :
    parseToken samplePatternEnv (ascii "Sensor_*")
        = .ok (expandWildcards ((ascii "Sensor_*").map lowerASCII),
            (ascii "Sensor_*").any isWildcard)
    ∧ (ascii "PUBLIC" ∉ samplePatternEnv.reservedKeywords →
        ascii "METRICS" ∉ samplePatternEnv.reservedKeywords →
        ∀ (reMatch : Regexp → GoString → Bool) (acceptedByDefault : Bool),
          ∃ rf, NewTableFilter samplePatternEnv [] [ascii "PUBLIC.Metrics"] acceptedByDefault
                = .ok rf
            ∧ (rf.Enabled reMatch (NewSystemEntity (ascii "public") (ascii "metrics"))).1
                = true) :=
  parseToken_unquoted samplePatternEnv (ascii "Sensor_*") unicodeASCII_agrees (by decide)
    ⟨83, ascii "ensor_*", by decide, by decide⟩ (by decide) (by decide)

theorem parseTokenLoop_quoted (env env' : PatternEnv) (lastIndex : Nat) :
    ∀ (n : Nat) (l : List Rune), l.length ≤ n → ∀ (i : Nat) (builder : GoString) (isRegex : Bool),
      parseTokenLoop env true lastIndex l i builder isRegex
        = parseTokenLoop env' true lastIndex l i builder isRegex := by
  intro n
  induction n with
  | zero =>
    intro l hl i builder isRegex
    have : l = [] := List.length_eq_zero.1 (Nat.le_zero.1 hl)
    subst this
    simp only [parseTokenLoop]
  | succ n ih =>
    intro l hl i builder isRegex
    cases l with
    | nil => simp only [parseTokenLoop]
    | cons char rest =>
      have hrest : rest.length ≤ n := by simpa using hl
      have ih0 := ih [] (Nat.zero_le _)
      have ih1 := ih rest hrest
      cases rest with
      | nil =>
        conv_lhs => rw [parseTokenLoop]
        conv_rhs => rw [parseTokenLoop]
        simp only [Bool.or_true, ih0]
      | cons peek rest' =>
        have ih2 := ih rest' (by simp at hrest; omega)
        conv_lhs => rw [parseTokenLoop]
        conv_rhs => rw [parseTokenLoop]
        simp only [Bool.or_true, ih1, ih2]

theorem parseToken_quoted (env env' : PatternEnv) (token : GoString)
    (hfirst : token.head? = some 34) (hlast : token.getLast? = some 34) :
    parseToken env token = parseToken env' token := by
  unfold parseToken
  rw [hfirst, hlast]
  have hq : ((34 : Byte).val == 34 && (34 : Byte).val == 34) = true := by decide
  simp only [hq, Bool.not_true, Bool.false_eq_true, if_false, if_true, false_and, true_and,
    parseTokenLoop_quoted env env' _ _ _ (le_refl _)]

theorem parseToken_latin1 (env : PatternEnv) (h195 : env.unicode.IsLetter 195 = true)
    (h233 : env.unicode.IsLetter 233 = true) (hlower : env.unicode.ToLower 233 = 233) :
    parseToken env [195, 169] = .panic "index out of range" := by
  have hdec : decodeRunes [195, 169] = [233] := by decide
  have henc : encodeRune 233 = [195, 169] := by decide
  have hl : strings.ToLower env.unicode [195, 169] = [195, 169] := by
    have hall : List.all [(195 : Byte), 169] (fun b => decide (b.val < 128)) = false := by
      decide
    simp only [strings.ToLower, hall, Bool.false_eq_true, if_false, strings.Map, hdec,
      List.flatMap_cons, List.flatMap_nil, hlower, henc, List.append_nil]
  have hq : ((195 : Byte).val == 34 && (169 : Byte).val == 34) = false := by decide
  have hv : (195 : Byte).val = 195 := rfl
  have hhead : List.head? [(195 : Byte), 169] = some 195 := rfl
  have hlast : List.getLast? [(195 : Byte), 169] = some 169 := rfl
  unfold parseToken
  rw [hhead, hlast]
  simp only [hq, Bool.not_false, if_true, hl, hhead, hdec, Bool.false_eq_true, if_false,
    List.drop_zero, List.length_cons, List.length_nil]
  simp only [hv, h195, Bool.not_true, Bool.false_eq_true, false_and, and_false, if_false]
  have hloop : ∀ builder isRegex,
      parseTokenLoop env false (0 + 1 + 1) [233] 0 builder isRegex
        = .panic "index out of range" := by
    intro builder isRegex
    simp [parseTokenLoop, h233]
  rw [if_neg (by omega), hloop, GoResult.panic_bind]

/-- **C12 (the code at the failing inputs).** `NewTableFilter` panics with an index out of
range instead of returning an error for the patterns `.` and `.metrics` (whatever the
environment), for `public.`, and for the pattern `é.t` (bytes C3 A9 2E 74) whenever
package `unicode` classifies U+00C3 and U+00E9 as letters and maps U+00E9 to itself in
lower case; a pattern that does not split into two parts gives an error. -/
theorem NewTableFilter_panics (env : PatternEnv) (acceptedByDefault : Bool) :
    NewTableFilter env [] [ascii "."] acceptedByDefault = .panic "index out of range"
    ∧ NewTableFilter env [] [ascii ".metrics"] acceptedByDefault
        = .panic "index out of range"
    ∧ NewTableFilter env [ascii "."] [] acceptedByDefault = .panic "index out of range"
    ∧ NewTableFilter samplePatternEnv [] [ascii "public."] acceptedByDefault
        = .panic "index out of range"
    ∧ (env.unicode.IsLetter 195 = true → env.unicode.IsLetter 233 = true →
        env.unicode.ToLower 233 = 233 →
        NewTableFilter env [] [[195, 169, 46, 116]] acceptedByDefault
          = .panic "index out of range")
    ∧ NewTableFilter env [] [ascii "a.b.c"] acceptedByDefault
        = .error (.mk "failed parsing filter term")
    ∧ NewTableFilter env [] [ascii "metrics"] acceptedByDefault
        = .error (.mk "failed parsing filter term") := by
  have hdot : strings.Split (ascii ".") 46 = [[], []] := by decide
  have hmetrics : strings.Split (ascii ".metrics") 46 = [[], ascii "metrics"] := by decide
  have hpublic : parseFilter samplePatternEnv (ascii "public.") = .panic "index out of range" := by
    decide
  have hlatin : strings.Split [195, 169, 46, 116] 46 = [[195, 169], [116]] := by decide
  have habc : strings.Split (ascii "a.b.c") 46 = [ascii "a", ascii "b", ascii "c"] := by decide
  have hone : strings.Split (ascii "metrics") 46 = [ascii "metrics"] := by decide
  have hempty : parseToken env [] = .panic "index out of range" := rfl
  refine ⟨?_, ?_, ?_, ?_, ?_, ?_, ?_⟩
  · simp only [NewTableFilter, parseFilters, parseFilter, hdot, hempty, wrapError,
      GoResult.panic_bind, GoResult.ok_bind]
  · simp only [NewTableFilter, parseFilters, parseFilter, hmetrics, hempty, wrapError,
      GoResult.panic_bind, GoResult.ok_bind]
  · simp only [NewTableFilter, parseFilters, parseFilter, hdot, hempty, wrapError,
      GoResult.panic_bind, GoResult.ok_bind]
  · simp only [NewTableFilter, parseFilters, hpublic, GoResult.panic_bind, GoResult.ok_bind]
  · intro h195 h233 hlower
    simp only [NewTableFilter, parseFilters, parseFilter, hlatin,
      parseToken_latin1 env h195 h233 hlower, wrapError, GoResult.panic_bind, GoResult.ok_bind]
  · simp only [NewTableFilter, parseFilters, parseFilter, habc, GoResult.error_bind,
      GoResult.ok_bind]
  · simp only [NewTableFilter, parseFilters, parseFilter, hone, GoResult.error_bind,
      GoResult.ok_bind]

/-- **C17 (the code at the failing input).** The quoted table part `"x""y"` is parsed, in
every environment, to the literal `x""y` with both double quotes kept, so the filter of the
pattern `public."x""y"` does not match the entity whose name is x, one double quote, y, and
matches the entity whose name has two double quotes. -/
theorem parseToken_doubled_quote (env : PatternEnv) (reMatch : Regexp → GoString → Bool) :
    parseToken env (ascii "\"x\"\"y\"") = .ok (ascii "x\"\"y", false)
    ∧ parseFilter samplePatternEnv (ascii "public.\"x\"\"y\"")
        = .ok ⟨ascii "public", ascii "x\"\"y", none, none⟩
    ∧ filter.matches reMatch ⟨ascii "public", ascii "x\"\"y", none, none⟩
        (NewSystemEntity (ascii "public") (ascii "x\"y")) = false
    ∧ filter.matches reMatch ⟨ascii "public", ascii "x\"\"y", none, none⟩
        (NewSystemEntity (ascii "public") (ascii "x\"\"y")) = true := by
  refine ⟨?_, by decide, ?_, ?_⟩
  · rw [parseToken_quoted env samplePatternEnv _ (by decide) (by decide)]
    decide
  · have hne : ascii "x\"\"y" ≠ ascii "x\"y" := by decide
    simp [filter.matches, NewSystemEntity, SystemEntity.SchemaName, SystemEntity.TableName, hne]
  · simp [filter.matches, NewSystemEntity, SystemEntity.SchemaName, SystemEntity.TableName]

/-- **C18 (the code at the failing input).** The quoted table part `"a\*"` is parsed, in
every environment, to the literal `a\*` with the backslash kept and is not flagged as a
regular expression, so the filter of the pattern `public."a\*"` does not match the entity
named `a*` and matches the entity named `a\*`. -/
theorem parseToken_escaped_wildcard (env : PatternEnv) (reMatch : Regexp → GoString → Bool) :
    parseToken env (ascii "\"a\\*\"") = .ok (ascii "a\\*", false)
    ∧ parseFilter samplePatternEnv (ascii "public.\"a\\*\"")
        = .ok ⟨ascii "public", ascii "a\\*", none, none⟩
    ∧ filter.matches reMatch ⟨ascii "public", ascii "a\\*", none, none⟩
        (NewSystemEntity (ascii "public") (ascii "a*")) = false
    ∧ filter.matches reMatch ⟨ascii "public", ascii "a\\*", none, none⟩
        (NewSystemEntity (ascii "public") (ascii "a\\*")) = true := by
  refine ⟨?_, by decide, ?_, ?_⟩
  · rw [parseToken_quoted env samplePatternEnv _ (by decide) (by decide)]
    decide
  · have hne : ascii "a\\*" ≠ ascii "a*" := by decide
    simp [filter.matches, NewSystemEntity, SystemEntity.SchemaName, SystemEntity.TableName, hne]
  · simp [filter.matches, NewSystemEntity, SystemEntity.SchemaName, SystemEntity.TableName]

theorem UnregisterLoop_skip (handler : HandlerValue) (s : HandlerSlice) (m : Nat) :
    ∀ (mid a b : List HandlerValue), handler ∉ mid → s.elems ++ s.spare = a ++ mid ++ b →
      UnregisterLoop handler (mid.length + m) a.length s
        = UnregisterLoop handler m (a.length + mid.length) s := by
  intro mid
  induction mid with
  | nil => intro a b _ _; simp
  | cons c mid ih =>
    intro a b hn harr
    have hc : c ≠ handler := fun h => hn (h ▸ List.mem_cons_self _ _)
    have hget : (s.elems ++ s.spare)[a.length]? = some c := by
      rw [harr, List.append_assoc, List.getElem?_append_right (le_refl _)]
      simp
    have hlen : (c :: mid).length + m = (mid.length + m) + 1 := by
      simp only [List.length_cons]; omega
    rw [hlen, UnregisterLoop]
    simp only [hget, if_neg hc]
    have := ih (a ++ [c]) b (fun h => hn (List.mem_cons_of_mem _ h))
      (by rw [harr]; simp)
    simp only [List.length_append, List.length_singleton] at this
    rw [this, List.length_cons]
    congr 1
    omega

theorem UnregisterLoop_hit (handler : HandlerValue) (pre post spare : List HandlerValue)
    (n : Nat) :
    UnregisterLoop handler (n + 1) pre.length ⟨pre ++ handler :: post, spare⟩
      = UnregisterLoop handler n (pre.length + 1)
          ⟨pre ++ post, (none :: post).drop post.length ++ spare⟩ := by
  have hget : ((pre ++ handler :: post) ++ spare)[pre.length]? = some handler := by
    rw [List.append_assoc, List.getElem?_append_right (le_refl _)]
    simp
  have hset : (pre ++ handler :: post).set pre.length none = pre ++ none :: post := by
    rw [List.set_append_right _ _ (le_refl _)]
    simp
  rw [UnregisterLoop]
  simp only [hget, if_true, hset]
  rw [if_pos (by simp)]
  have h1 : (pre ++ none :: post).take pre.length = pre := by simp
  have h2 : (pre ++ none :: post).drop (pre.length + 1) = post := by
    rw [List.drop_append]; rfl
  have h3 : (pre ++ none :: post).drop ((pre ++ none :: post).length - 1)
      = (none :: post).drop post.length := by
    have : (pre ++ none :: post).length - 1 = pre.length + post.length := by simp
    rw [this, List.drop_append]
  rw [h1, h2, h3]

theorem stale_slot_mem (post : List HandlerValue) :
    ∀ c ∈ (post ++ (none :: post).drop post.length).tail, c ∈ post := by
  cases post with
  | nil => intro c hc; simp at hc
  | cons p ps =>
    intro c hc
    have hd : (none :: p :: ps).drop (p :: ps).length = (p :: ps).drop ps.length := by
      simp
    rw [hd] at hc
    simp only [List.cons_append, List.tail_cons, List.mem_append] at hc
    rcases hc with h | h
    · exact List.mem_cons_of_mem _ h
    · exact List.mem_of_mem_drop h

theorem stale_slot_length (post : List HandlerValue) :
    (post ++ (none :: post).drop post.length).tail.length = post.length := by
  simp

theorem UnregisterLoop_of_nodup (handler : HandlerValue) (s : HandlerSlice)
    (hnd : s.elems.Nodup) :
    ∃ s', UnregisterLoop handler s.elems.length 0 s = .ok s'
      ∧ s'.elems = s.elems.erase handler ∧ (handler ∉ s.elems → s' = s) := by
  by_cases hmem : handler ∈ s.elems
  · obtain ⟨pre, post, hsplit⟩ := List.append_of_mem hmem
    have hnd' := hnd
    rw [hsplit] at hnd'
    have hpre : handler ∉ pre := fun h =>
      (List.nodup_append.1 hnd').2.2 h (List.mem_cons_self _ _)
    have hpost : handler ∉ post := (List.nodup_cons.1 (List.nodup_append.1 hnd').2.1).1
    obtain ⟨elems, spare⟩ := s
    simp only at hsplit hmem hnd
    subst hsplit
    refine ⟨⟨pre ++ post, (none :: post).drop post.length ++ spare⟩, ?_, ?_, ?_⟩
    · have h1 := UnregisterLoop_skip handler ⟨pre ++ handler :: post, spare⟩ (post.length + 1)
        pre [] (handler :: post ++ spare) hpre (by simp)
      simp only [List.length_nil, Nat.zero_add] at h1
      have hlen : (pre ++ handler :: post).length = pre.length + (post.length + 1) := by simp
      simp only [hlen]
      rw [h1, UnregisterLoop_hit]
      cases post with
      | nil => rfl
      | cons p ps =>
        have h2 := UnregisterLoop_skip handler
          ⟨pre ++ p :: ps, (none :: p :: ps).drop (p :: ps).length ++ spare⟩ 0
          ((p :: ps) ++ (none :: p :: ps).drop (p :: ps).length).tail (pre ++ [p]) spare
          (fun h => hpost (stale_slot_mem _ _ h)) (by simp)
        rw [stale_slot_length] at h2
        simp only [List.length_append, List.length_singleton, Nat.add_zero] at h2
        rw [h2]
        rfl
    · simp only
      rw [List.erase_append_right _ hpre, List.erase_cons_head]
    · intro h; exact absurd hmem h
  · refine ⟨s, ?_, ?_, fun _ => rfl⟩
    · have h1 := UnregisterLoop_skip handler s 0 s.elems [] s.spare hmem (by simp)
      simp only [List.length_nil, Nat.add_zero, Nat.zero_add] at h1
      rw [h1]
      rfl
    · rw [List.erase_of_not_mem hmem]

theorem Unregister_of_nodup (d : Dispatcher) (handler : HandlerValue)
    (hnd : d.handlers.elems.Nodup) :
    ∃ d', d.UnregisterReplicationEventHandler handler = .ok d'
      ∧ d'.handlers.elems = d.handlers.elems.erase handler
      ∧ (handler ∉ d.handlers.elems → d' = d) := by
  obtain ⟨s', hloop, helems, hsame⟩ := UnregisterLoop_of_nodup handler d.handlers hnd
  refine ⟨{ d with handlers := s' }, ?_, helems, ?_⟩
  · simp only [Dispatcher.UnregisterReplicationEventHandler, hloop, GoResult.ok_bind]
  · intro h
    rw [hsame h]

theorem Reachable_nodup (grow : Nat → Nat) (d : Dispatcher) (h : d.Reachable grow) :
    d.handlers.elems.Nodup := by
  induction h with
  | new => exact List.nodup_nil
  | register d handler _ ih =>
    unfold Dispatcher.RegisterReplicationEventHandler
    split
    · exact ih
    · rename_i hany
      have hmem : handler ∉ d.handlers.elems := by
        intro hm
        apply hany
        rw [List.any_eq_true]
        exact ⟨handler, hm, by simp⟩
      have helems : (d.handlers.append grow handler).elems = d.handlers.elems ++ [handler] := by
        unfold HandlerSlice.append
        split <;> rfl
      simp only [helems]
      exact List.Nodup.append ih (List.nodup_singleton _)
        (by
          intro x hx hx'
          rw [List.mem_singleton] at hx'
          exact hmem (hx' ▸ hx))
  | unregister d d' handler _ hun ih =>
    obtain ⟨d'', h1, h2, -⟩ := Unregister_of_nodup d handler ih
    rw [hun] at h1
    cases h1
    rw [h2]
    exact ih.erase _

/-- **C14.** On every dispatcher reachable from `NewDispatcher` by registrations and
unregistrations, `UnregisterReplicationEventHandler` returns without an out-of-range
access; afterwards the handler list is the previous list with the occurrence of the
handler removed - the handler is gone, every other handler is kept and the order is
unchanged - and the dispatcher is unchanged when the handler was not registered. -/
theorem unregister_removes (grow : Nat → Nat) (d : Dispatcher) (hreach : d.Reachable grow)
    (handler : HandlerValue) :
    ∃ d', d.UnregisterReplicationEventHandler handler = .ok d'
      ∧ d'.handlers.elems = d.handlers.elems.erase handler
      ∧ d'.handlers.elems = d.handlers.elems.filter (fun other => other != handler)
      ∧ handler ∉ d'.handlers.elems
      ∧ (handler ∉ d.handlers.elems → d' = d) := by
  have hnd := Reachable_nodup grow d hreach
  obtain ⟨d', h1, h2, h3⟩ := Unregister_of_nodup d handler hnd
  refine ⟨d', h1, h2, ?_, ?_, h3⟩
  · rw [h2, hnd.erase_eq_filter]
  · rw [h2]
    exact hnd.not_mem_erase

/-- Witness for `unregister_removes`: the first of the three sample handlers is
unregistered. -/
theorem unregister_removes_witness :
    ∃ d', sampleDispatcher.UnregisterReplicationEventHandler
          (some ⟨1, true, false, true, true, false⟩) = .ok d'
      ∧ d'.handlers.elems
          = sampleDispatcher.handlers.elems.erase (some ⟨1, true, false, true, true, false⟩)
      ∧ d'.handlers.elems = sampleDispatcher.handlers.elems.filter
          (fun other => other != some ⟨1, true, false, true, true, false⟩)
      ∧ some ⟨1, true, false, true, true, false⟩ ∉ d'.handlers.elems
      ∧ (some ⟨1, true, false, true, true, false⟩ ∉ sampleDispatcher.handlers.elems
          → d' = sampleDispatcher) :=
  unregister_removes (fun n => 2 * n) sampleDispatcher
    (.register _ (some ⟨3, true, true, true, true, true⟩)
      (.register _ (some ⟨2, false, true, false, false, true⟩)
        (.register _ (some ⟨1, true, false, true, true, false⟩) .new))) _

theorem Walk.apply_register {σ : Type} (grow : Nat → Nat) (L : List HandlerValue)
    (walk : Walk σ) (handler : HandlerValue) (h : walk.Undisturbed L) :
    (walk.apply grow (.register handler)).Undisturbed L
      ∧ (walk.apply grow (.register handler)).state = walk.state
      ∧ (walk.apply grow (.register handler)).invoked = walk.invoked
      ∧ (walk.apply grow (.register handler)).logged = walk.logged := by
  obtain ⟨hfront, hlen, harr, hrun⟩ := h
  refine ⟨?_, rfl, rfl, rfl⟩
  by_cases hany : walk.dispatcher.handlers.elems.any (fun candidate => candidate == handler)
      = true
  · have hd : walk.dispatcher.RegisterReplicationEventHandler grow handler = walk.dispatcher := by
      simp only [Dispatcher.RegisterReplicationEventHandler, hany, if_true]
    cases hs : walk.shared with
    | false =>
      exact ⟨by simpa [Walk.apply, hd, hany, hs] using hfront,
        by simpa [Walk.apply, hd, hany, hs] using hlen,
        by simp [Walk.apply, hd, hany, hs],
        by simpa [Walk.apply] using hrun⟩
    | true =>
      have ha := harr hs
      exact ⟨by simpa [Walk.apply, hd, hany, hs, ← ha] using hfront,
        by simpa [Walk.apply, hd, hany, hs] using hlen,
        by simp [Walk.apply, hd, hany, hs],
        by simpa [Walk.apply] using hrun⟩
  · have hany' : walk.dispatcher.handlers.elems.any (fun candidate => candidate == handler)
        = false := Bool.eq_false_iff.mpr hany
    cases hsp : walk.dispatcher.handlers.spare with
    | nil =>
      have hd : (walk.dispatcher.RegisterReplicationEventHandler grow handler).handlers.elems
          = walk.dispatcher.handlers.elems ++ [handler] := by
        simp only [Dispatcher.RegisterReplicationEventHandler, hany', HandlerSlice.append, hsp]
        rfl
      refine ⟨?_, ?_, ?_, ?_⟩
      · simpa [Walk.apply, hany', hsp] using hfront
      · simp only [Walk.apply, hd, List.length_append, List.length_singleton]
        omega
      · simp [Walk.apply, hany', hsp]
      · simpa [Walk.apply] using hrun
    | cons x sp =>
      have hd : walk.dispatcher.RegisterReplicationEventHandler grow handler
          = { walk.dispatcher with
              handlers := ⟨walk.dispatcher.handlers.elems ++ [handler], sp⟩ } := by
        simp only [Dispatcher.RegisterReplicationEventHandler, hany', HandlerSlice.append, hsp]
        rfl
      cases hs : walk.shared with
      | false =>
        refine ⟨?_, ?_, ?_, ?_⟩
        · simpa [Walk.apply, hany', hsp, hs] using hfront
        · simp only [Walk.apply, hd, List.length_append, List.length_singleton]
          omega
        · simp [Walk.apply, hany', hsp, hs]
        · simpa [Walk.apply] using hrun
      | true =>
        have ha := harr hs
        refine ⟨?_, ?_, ?_, ?_⟩
        · simp only [Walk.apply, hd, hany', hsp, hs, List.isEmpty_cons, Bool.not_false,
            Bool.and_false, Bool.and_true, Bool.not_true, if_true, List.append_assoc]
          rw [List.take_append_of_le_length hlen]
          rw [ha, List.take_append_of_le_length hlen] at hfront
          exact hfront
        · simp only [Walk.apply, hd, List.length_append, List.length_singleton]
          omega
        · simp [Walk.apply, hd, hany', hsp, hs]
        · simpa [Walk.apply] using hrun

theorem Walk.applyAll_register {σ : Type} (grow : Nat → Nat) (L : List HandlerValue)
    (calls : List HandlerCall) (hcalls : ∀ h, HandlerCall.unregister h ∉ calls) :
    ∀ walk : Walk σ, walk.Undisturbed L →
      (Walk.applyAll grow calls walk).Undisturbed L
        ∧ (Walk.applyAll grow calls walk).state = walk.state
        ∧ (Walk.applyAll grow calls walk).invoked = walk.invoked
        ∧ (Walk.applyAll grow calls walk).logged = walk.logged := by
  induction calls with
  | nil => intro walk h; exact ⟨h, rfl, rfl, rfl⟩
  | cons call rest ih =>
    intro walk h
    cases call with
    | unregister handler => exact absurd (List.mem_cons_self _ _) (hcalls handler)
    | register handler =>
      obtain ⟨h1, h2, h3, h4⟩ := Walk.apply_register grow L walk handler h
      have hrun : (walk.apply grow (.register handler)).panicked.isSome = false := by
        rw [h1.running]; rfl
      obtain ⟨k1, k2, k3, k4⟩ := ih (fun x hx => hcalls x (List.mem_cons_of_mem _ hx)) _ h1
      simp only [Walk.applyAll, hrun, Bool.false_eq_true, if_false]
      exact ⟨k1, k2.trans h2, k3.trans h3, k4.trans h4⟩

theorem invokeAll_logged {σ : Type} (fn : HandlerValue → σ → Invocation σ) :
    ∀ (handlers : List HandlerValue) (state : σ) (logged : List GoError),
      invokeAll fn handlers state logged
        = ((invokeAll fn handlers state []).1, logged ++ (invokeAll fn handlers state []).2) := by
  intro handlers
  induction handlers with
  | nil => intro state logged; simp [invokeAll]
  | cons handler rest ih =>
    intro state logged
    simp only [invokeAll]
    cases (fn handler state).result with
    | ok _ => simp only; rw [ih _ logged]
    | panic _ => simp only; rw [ih _ logged]
    | error err =>
      simp only
      rw [ih _ (logged ++ [err]), ih _ ([] ++ [err])]
      simp

theorem notifyLoop_undisturbed {σ : Type} (grow : Nat → Nat) (capable : HandlerValue → Bool)
    (fn : HandlerValue → σ → Invocation σ)
    (hreturns : ∀ handler state msg, (fn handler state).result ≠ .panic msg)
    (hkeeps : ∀ handler state h, HandlerCall.unregister h ∉ (fn handler state).calls)
    (L : List HandlerValue) :
    ∀ (rest done : List HandlerValue) (walk : Walk σ), L = done ++ rest → walk.Undisturbed L →
      (notifyLoop grow capable fn rest.length done.length walk).Undisturbed L
        ∧ (notifyLoop grow capable fn rest.length done.length walk).invoked
          = walk.invoked ++ rest.filter capable
        ∧ ((notifyLoop grow capable fn rest.length done.length walk).state,
            (notifyLoop grow capable fn rest.length done.length walk).logged)
          = invokeAll fn (rest.filter capable) walk.state walk.logged := by
  intro rest
  induction rest with
  | nil => intro done walk _ h; exact ⟨h, by simp [notifyLoop], by simp [notifyLoop, invokeAll]⟩
  | cons handler rest ih =>
    intro done walk hL h
    have hget : walk.array[done.length]? = some handler := by
      have h1 : (walk.array.take L.length)[done.length]? = some handler := by
        rw [h.front, hL, List.getElem?_append_right (le_refl _)]
        simp
      rw [List.getElem?_take] at h1
      split at h1
      · exact h1
      · exact Option.noConfusion h1
    have hL' : L = (done ++ [handler]) ++ rest := by rw [hL]; simp
    have hlen : (done ++ [handler]).length = done.length + 1 := by simp
    simp only [List.length_cons, notifyLoop, hget]
    by_cases hc : capable handler = true
    · rw [if_pos hc, List.filter_cons_of_pos hc]
      have hstart : Walk.Undisturbed L
          ({ walk with invoked := walk.invoked ++ [handler] } : Walk σ) :=
        ⟨h.front, h.length_le, h.array_eq, h.running⟩
      obtain ⟨a1, a2, a3, a4⟩ := Walk.applyAll_register grow L (fn handler walk.state).calls
        (hkeeps handler walk.state) _ hstart
      have hrun : (Walk.applyAll grow (fn handler walk.state).calls
          { walk with invoked := walk.invoked ++ [handler] }).panicked.isSome = false := by
        rw [a1.running]; rfl
      simp only [hrun, Bool.false_eq_true, if_false]
      cases hres : (fn handler walk.state).result with
      | panic msg => exact absurd hres (hreturns _ _ _)
      | ok u =>
        simp only
        have hnext : Walk.Undisturbed L
            ({ Walk.applyAll grow (fn handler walk.state).calls
                { walk with invoked := walk.invoked ++ [handler] } with
              state := (fn handler walk.state).state } : Walk σ) :=
          ⟨a1.front, a1.length_le, a1.array_eq, a1.running⟩
        have := ih (done ++ [handler]) _ hL' hnext
        rw [hlen] at this
        obtain ⟨b1, b2, b3⟩ := this
        refine ⟨b1, ?_, ?_⟩
        · rw [b2]; simp only [a3, List.append_assoc, List.singleton_append]
        · rw [b3]; simp only [invokeAll, hres, a4]
      | error err =>
        simp only
        have hnext : Walk.Undisturbed L
            ({ Walk.applyAll grow (fn handler walk.state).calls
                { walk with invoked := walk.invoked ++ [handler] } with
              state := (fn handler walk.state).state
              logged := (Walk.applyAll grow (fn handler walk.state).calls
                { walk with invoked := walk.invoked ++ [handler] }).logged ++ [err] } : Walk σ) :=
          ⟨a1.front, a1.length_le, a1.array_eq, a1.running⟩
        have := ih (done ++ [handler]) _ hL' hnext
        rw [hlen] at this
        obtain ⟨b1, b2, b3⟩ := this
        refine ⟨b1, ?_, ?_⟩
        · rw [b2]; simp only [a3, List.append_assoc, List.singleton_append]
        · rw [b3]; simp only [invokeAll, hres, a4]
    · rw [if_neg hc, List.filter_cons_of_neg hc]
      have := ih (done ++ [handler]) walk hL' h
      rw [hlen] at this
      exact this

theorem notifyLoop_called {σ : Type} (grow : Nat → Nat) (capable : HandlerValue → Bool)
    (fn : HandlerValue → σ → Invocation σ)
    (hreturns : ∀ handler state msg, (fn handler state).result ≠ .panic msg)
    (hkeeps : ∀ handler state h, HandlerCall.unregister h ∉ (fn handler state).calls)
    (n : notificatorImpl) (state : σ) :
    (notifyLoop grow capable fn n.dispatcher.handlers.elems.length 0 (n.enter state)).Called fn
      (n.dispatcher.handlers.elems.filter capable) state := by
  have hstart : (n.enter state).Undisturbed n.dispatcher.handlers.elems :=
    ⟨by simp [notificatorImpl.enter], le_refl _, fun _ => rfl, rfl⟩
  obtain ⟨h1, h2, h3⟩ := notifyLoop_undisturbed grow capable fn hreturns hkeeps
    n.dispatcher.handlers.elems n.dispatcher.handlers.elems [] (n.enter state) rfl hstart
  simp only [List.length_nil] at h1 h2 h3
  have h3a := congrArg Prod.fst h3
  have h3b := congrArg Prod.snd h3
  exact ⟨h1.running, by simpa [notificatorImpl.enter] using h2,
    by simpa [notificatorImpl.enter] using h3a, by simpa [notificatorImpl.enter] using h3b⟩

/-- **C15 (amended).** For every handler list and every callback that returns - `nil` or
an error, not a panic - and that does not unregister a handler while the walk runs (it
may register handlers), each notification method returns after calling the callback
exactly once, in registration order, on every handler that was registered when the walk
began and passes the method's type assertion, and on no other handler: the base method
on every entry, the other five on the handlers that implement the method's interface.
The closure ends in the state that these calls, made one after the other, leave; the
errors the callback returned are the ones logged, and none of them stops the walk. -/
theorem notify_walks_capable_handlers {σ : Type} (grow : Nat → Nat) (n : notificatorImpl)
    (fn : HandlerValue → σ → Invocation σ) (state : σ)
    (hreturns : ∀ handler state msg, (fn handler state).result ≠ .panic msg)
    (hkeeps : ∀ handler state h, HandlerCall.unregister h ∉ (fn handler state).calls) :
    (n.NotifyBaseReplicationEventHandler grow fn state).Called fn
        n.dispatcher.handlers.elems state
    ∧ (n.NotifySystemCatalogReplicationEventHandler grow fn state).Called fn
        (n.dispatcher.handlers.elems.filter
          (fun handler => handler.any (fun h => h.systemCatalog))) state
    ∧ (n.NotifyCompressionReplicationEventHandler grow fn state).Called fn
        (n.dispatcher.handlers.elems.filter
          (fun handler => handler.any (fun h => h.compression))) state
    ∧ (n.NotifyHypertableReplicationEventHandler grow fn state).Called fn
        (n.dispatcher.handlers.elems.filter
          (fun handler => handler.any (fun h => h.hypertable))) state
    ∧ (n.NotifyLogicalReplicationEventHandler grow fn state).Called fn
        (n.dispatcher.handlers.elems.filter
          (fun handler => handler.any (fun h => h.logical))) state
    ∧ (n.NotifyChunkSnapshotEventHandler grow fn state).Called fn
        (n.dispatcher.handlers.elems.filter
          (fun handler => handler.any (fun h => h.chunkSnapshot))) state := by
  refine ⟨?_, notifyLoop_called grow _ fn hreturns hkeeps n state,
    notifyLoop_called grow _ fn hreturns hkeeps n state,
    notifyLoop_called grow _ fn hreturns hkeeps n state,
    notifyLoop_called grow _ fn hreturns hkeeps n state,
    notifyLoop_called grow _ fn hreturns hkeeps n state⟩
  have h := notifyLoop_called grow (fun _ => true) fn hreturns hkeeps n state
  rw [List.filter_true] at h
  exact h

theorem sampleCallback_returns (handler : HandlerValue) (seen : List Nat) (msg : String) :
    (sampleCallback handler seen).result ≠ .panic msg := by
  unfold sampleCallback
  cases handler with
  | none => simp
  | some h => by_cases hodd : h.id % 2 = 1 <;> simp [hodd]

theorem sampleCallback_keeps (handler : HandlerValue) (seen : List Nat) (h : HandlerValue) :
    HandlerCall.unregister h ∉ (sampleCallback handler seen).calls := by
  unfold sampleCallback
  cases handler with
  | none => simp
  | some x => by_cases h2 : x.id = 2 <;> simp [h2]

/-- Witness for `notify_walks_capable_handlers`: the three sample handlers and a callback
that fails on the first and the third of them and registers a fourth handler when it is
called on the second. -/
theorem notify_walks_capable_handlers_witness :
    ((notificatorImpl.mk sampleDispatcher).NotifyBaseReplicationEventHandler
        (fun n => 2 * n) sampleCallback []).Called sampleCallback
        sampleDispatcher.handlers.elems []
    ∧ ((notificatorImpl.mk sampleDispatcher).NotifySystemCatalogReplicationEventHandler
        (fun n => 2 * n) sampleCallback []).Called sampleCallback
        (sampleDispatcher.handlers.elems.filter
          (fun handler => handler.any (fun h => h.systemCatalog))) []
    ∧ ((notificatorImpl.mk sampleDispatcher).NotifyCompressionReplicationEventHandler
        (fun n => 2 * n) sampleCallback []).Called sampleCallback
        (sampleDispatcher.handlers.elems.filter
          (fun handler => handler.any (fun h => h.compression))) []
    ∧ ((notificatorImpl.mk sampleDispatcher).NotifyHypertableReplicationEventHandler
        (fun n => 2 * n) sampleCallback []).Called sampleCallback
        (sampleDispatcher.handlers.elems.filter
          (fun handler => handler.any (fun h => h.hypertable))) []
    ∧ ((notificatorImpl.mk sampleDispatcher).NotifyLogicalReplicationEventHandler
        (fun n => 2 * n) sampleCallback []).Called sampleCallback
        (sampleDispatcher.handlers.elems.filter
          (fun handler => handler.any (fun h => h.logical))) []
    ∧ ((notificatorImpl.mk sampleDispatcher).NotifyChunkSnapshotEventHandler
        (fun n => 2 * n) sampleCallback []).Called sampleCallback
        (sampleDispatcher.handlers.elems.filter
          (fun handler => handler.any (fun h => h.chunkSnapshot))) [] :=
  notify_walks_capable_handlers (fun n => 2 * n) ⟨sampleDispatcher⟩ sampleCallback []
    sampleCallback_returns sampleCallback_keeps

/-- The sample walk evaluated: the system-catalog method calls the callback on the first
and the third handler, both calls fail and both errors are logged; the base method calls
it on all three, and the handler registered during that walk is in the list afterwards
without having been visited. -/
theorem notify_sample_walk :
    ((notificatorImpl.mk sampleDispatcher).NotifySystemCatalogReplicationEventHandler
        (fun n => 2 * n) sampleCallback []).invoked
      = [some ⟨1, true, false, true, true, false⟩, some ⟨3, true, true, true, true, true⟩]
    ∧ ((notificatorImpl.mk sampleDispatcher).NotifySystemCatalogReplicationEventHandler
        (fun n => 2 * n) sampleCallback []).state = [1, 3]
    ∧ ((notificatorImpl.mk sampleDispatcher).NotifySystemCatalogReplicationEventHandler
        (fun n => 2 * n) sampleCallback []).logged
      = [.mk "handler failed", .mk "handler failed"]
    ∧ ((notificatorImpl.mk sampleDispatcher).NotifyBaseReplicationEventHandler
        (fun n => 2 * n) sampleCallback []).state = [1, 2, 3]
    ∧ ((notificatorImpl.mk sampleDispatcher).NotifyBaseReplicationEventHandler
        (fun n => 2 * n) sampleCallback []).dispatcher.handlers.elems
      = sampleHandlers ++ [some ⟨4, true, true, true, true, true⟩] := by
  decide

/-- **C15 (as stated) fails.** Three handlers are registered. With a callback that
panics on the first handler the base method does not return: the panic unwinds the walk
after one call, and the second and the third handler are never notified. With a callback
in which the first handler unregisters itself the walk returns, but the list has moved
one slot down inside the array the loop reads: the second handler is skipped and the
third one is called twice. -/
theorem notify_misses_registered_handler :
    sampleDispatcher.handlers.elems
      = [some ⟨1, true, false, true, true, false⟩, some ⟨2, false, true, false, false, true⟩,
          some ⟨3, true, true, true, true, true⟩]
    ∧ ((notificatorImpl.mk sampleDispatcher).NotifyBaseReplicationEventHandler
        (fun n => 2 * n) panickingCallback []).panicked = some "handler panicked"
    ∧ ((notificatorImpl.mk sampleDispatcher).NotifyBaseReplicationEventHandler
        (fun n => 2 * n) panickingCallback []).invoked
      = [some ⟨1, true, false, true, true, false⟩]
    ∧ ((notificatorImpl.mk sampleDispatcher).NotifyBaseReplicationEventHandler
        (fun n => 2 * n) panickingCallback []).state = [1]
    ∧ ((notificatorImpl.mk sampleDispatcher).NotifyBaseReplicationEventHandler
        (fun n => 2 * n) unregisteringCallback []).panicked = none
    ∧ ((notificatorImpl.mk sampleDispatcher).NotifyBaseReplicationEventHandler
        (fun n => 2 * n) unregisteringCallback []).invoked
      = [some ⟨1, true, false, true, true, false⟩, some ⟨3, true, true, true, true, true⟩,
          some ⟨3, true, true, true, true, true⟩]
    ∧ ((notificatorImpl.mk sampleDispatcher).NotifyBaseReplicationEventHandler
        (fun n => 2 * n) unregisteringCallback []).state = [1, 3, 3]
    ∧ ¬ ((notificatorImpl.mk sampleDispatcher).NotifyBaseReplicationEventHandler
        (fun n => 2 * n) panickingCallback []).Called panickingCallback
        sampleDispatcher.handlers.elems []
    ∧ ¬ ((notificatorImpl.mk sampleDispatcher).NotifyBaseReplicationEventHandler
        (fun n => 2 * n) unregisteringCallback []).Called unregisteringCallback
        sampleDispatcher.handlers.elems [] := by
  refine ⟨by decide, by decide, by decide, by decide, by decide, by decide, by decide, ?_, ?_⟩
  · intro h
    exact absurd h.1 (by decide)
  · intro h
    exact absurd h.2.1 (by decide)

theorem unregister_duplicate_panics :
    (Dispatcher.mk ⟨[some ⟨1, true, false, true, true, false⟩, none,
        some ⟨1, true, false, true, true, false⟩], []⟩).UnregisterReplicationEventHandler
        (some ⟨1, true, false, true, true, false⟩)
      = .panic "index out of range" := by
  decide

/-! ## Transient attributes -/

theorem unmarshalItems_transient (data : ByteSlice) :
    ∀ (n offset : Nat) (s s' : sinkContextImpl),
      sinkContextImpl.unmarshalItems data n offset s = .ok s' →
      s'.transientAttributes = s.transientAttributes := by
  intro n
  induction n with
  | zero =>
    intro offset s s' h
    simp only [sinkContextImpl.unmarshalItems] at h
    injection h with h
    rw [← h]
  | succ n ih =>
    intro offset s s' h
    unfold sinkContextImpl.unmarshalItems at h
    cases h1 : data.sliceFrom offset with
    | error e => rw [h1] at h; exact GoResult.noConfusion h
    | panic m => rw [h1] at h; exact GoResult.noConfusion h
    | ok d1 =>
      rw [h1] at h
      simp only [GoResult.ok_bind] at h
      cases h2 : BigEndian.Uint32 d1 with
      | error e => rw [h2] at h; exact GoResult.noConfusion h
      | panic m => rw [h2] at h; exact GoResult.noConfusion h
      | ok keyLength =>
        rw [h2] at h
        simp only [GoResult.ok_bind] at h
        cases h3 : data.sliceFrom (u32 (offset + 4)) with
        | error e => rw [h3] at h; exact GoResult.noConfusion h
        | panic m => rw [h3] at h; exact GoResult.noConfusion h
        | ok d2 =>
          rw [h3] at h
          simp only [GoResult.ok_bind] at h
          cases h4 : BigEndian.Uint32 d2 with
          | error e => rw [h4] at h; exact GoResult.noConfusion h
          | panic m => rw [h4] at h; exact GoResult.noConfusion h
          | ok valueLength =>
            rw [h4] at h
            simp only [GoResult.ok_bind] at h
            cases h5 : data.slice (u32 (u32 (offset + 4) + 4))
                (u32 (u32 (u32 (offset + 4) + 4) + keyLength)) with
            | error e => rw [h5] at h; exact GoResult.noConfusion h
            | panic m => rw [h5] at h; exact GoResult.noConfusion h
            | ok key =>
              rw [h5] at h
              simp only [GoResult.ok_bind] at h
              cases h6 : data.slice (u32 (u32 (u32 (offset + 4) + 4) + keyLength))
                  (u32 (u32 (u32 (u32 (offset + 4) + 4) + keyLength) + valueLength)) with
              | error e => rw [h6] at h; exact GoResult.noConfusion h
              | panic m => rw [h6] at h; exact GoResult.noConfusion h
              | ok value =>
                rw [h6] at h
                simp only [GoResult.ok_bind] at h
                rw [ih _ _ _ h]
                rfl

theorem UnmarshalBinary_transient (s s' : sinkContextImpl) (data : ByteSlice)
    (h : s.UnmarshalBinary data = .ok s') : s'.transientAttributes = s.transientAttributes := by
  unfold sinkContextImpl.UnmarshalBinary at h
  simp only [] at h
  cases h1 : data.sliceFrom 0 with
  | error e => rw [h1] at h; exact GoResult.noConfusion h
  | panic m => rw [h1] at h; exact GoResult.noConfusion h
  | ok d1 =>
    rw [h1] at h
    simp only [GoResult.ok_bind] at h
    cases h2 : BigEndian.Uint32 d1 with
    | error e => rw [h2] at h; exact GoResult.noConfusion h
    | panic m => rw [h2] at h; exact GoResult.noConfusion h
    | ok numOfItems =>
      rw [h2] at h
      simp only [GoResult.ok_bind] at h
      exact unmarshalItems_transient data _ _ _ _ h

theorem UnmarshalBinary_MarshalBinary (M order transient : GoMap GoString) (spare : List Byte)
    (hM : M.keys.Nodup) (hperm : order.Perm M)
    (hsize : (sinkContextImpl.MarshalBinary ⟨M, transient⟩ order).length < 4294967296) :
    newSinkContextImpl.UnmarshalBinary
        ⟨sinkContextImpl.MarshalBinary ⟨M, transient⟩ order, spare⟩ = .ok ⟨order, []⟩ := by
  have henc : sinkContextImpl.MarshalBinary ⟨M, transient⟩ order
      = be32 (u32 M.length) ++ encodeItems order := by
    simp only [sinkContextImpl.MarshalBinary, AppendUint32_eq, marshalItems_eq, List.nil_append]
  rw [henc] at hsize ⊢
  have hlen : M.length = order.length := hperm.length_eq.symm
  have hge := encodeItems_length_ge order
  simp only [List.length_append, be32_length] at hsize
  have hcount : u32 M.length = order.length := by rw [hlen]; exact u32_of_lt (by omega)
  rw [hcount]
  have hnd : order.keys.Nodup := (List.Perm.nodup_iff (hperm.map Prod.fst)).mpr hM
  let d : ByteSlice := ⟨be32 order.length ++ encodeItems order, spare⟩
  have s0 : d.sliceFrom 0 = .ok ⟨be32 order.length ++ encodeItems order, spare⟩ :=
    sliceFrom_append d [] _ rfl
  have hloop := unmarshalItems_encode d order (be32 order.length) newSinkContextImpl rfl
    (by simp only [d, List.length_append, be32_length]; omega)
  rw [foldl_SetAttribute order newSinkContextImpl (by simpa [newSinkContextImpl] using hnd)]
    at hloop
  simp only [sinkContextImpl.UnmarshalBinary, s0, GoResult.ok_bind,
    Uint32_be32 _ (show order.length < 4294967296 by omega)]
  simpa [newSinkContextImpl, u32] using hloop

/-- **C26.** Transient attributes are never encoded: `MarshalBinary` gives the same bytes
for two sink contexts with the same persistent map, whatever their transient maps, for
the same iteration order; `SetTransientAttribute` leaves the persistent map and the
encoding unchanged; `UnmarshalBinary` never changes the transient map, so a fresh
context has none afterwards; and the encoding of a context with transient attributes,
when shorter than `2 ^ 32` bytes, is unmarshalled without error into a fresh context
that has no transient attribute. -/
theorem transient_never_encoded :
    (∀ (attributes transient₁ transient₂ order : GoMap GoString),
      sinkContextImpl.MarshalBinary ⟨attributes, transient₁⟩ order
        = sinkContextImpl.MarshalBinary ⟨attributes, transient₂⟩ order)
    ∧ (∀ (s : sinkContextImpl) (key value : GoString) (order : GoMap GoString),
        (s.SetTransientAttribute key value).attributes = s.attributes
        ∧ (∀ k, (s.SetTransientAttribute key value).Attribute k = s.Attribute k)
        ∧ (s.SetTransientAttribute key value).MarshalBinary order = s.MarshalBinary order)
    ∧ (∀ (s s' : sinkContextImpl) (data : ByteSlice), s.UnmarshalBinary data = .ok s' →
        s'.transientAttributes = s.transientAttributes)
    ∧ (∀ (s' : sinkContextImpl) (data : ByteSlice),
        newSinkContextImpl.UnmarshalBinary data = .ok s' →
        s'.transientAttributes = [] ∧ ∀ k, s'.TransientAttribute k = none)
    ∧ (∀ (M order transient : GoMap GoString) (spare : List Byte), M.keys.Nodup →
        order.Perm M →
        (sinkContextImpl.MarshalBinary ⟨M, transient⟩ order).length < 4294967296 →
        ∃ s', newSinkContextImpl.UnmarshalBinary
              ⟨sinkContextImpl.MarshalBinary ⟨M, transient⟩ order, spare⟩ = .ok s'
          ∧ s'.transientAttributes = []) := by
  refine ⟨fun _ _ _ _ => rfl, fun _ _ _ _ => ⟨rfl, fun _ => rfl, rfl⟩,
    UnmarshalBinary_transient, ?_, ?_⟩
  · intro s' data h
    have ht := UnmarshalBinary_transient _ _ _ h
    have ht' : s'.transientAttributes = [] := ht
    refine ⟨ht', fun k => ?_⟩
    simp only [sinkContextImpl.TransientAttribute, ht', GoMap.get]
  · intro M order transient spare hM hperm hsize
    exact ⟨_, UnmarshalBinary_MarshalBinary M order transient spare hM hperm hsize, rfl⟩

/-! ## Registration of handlers -/

theorem Register_of_mem (grow : Nat → Nat) (d : Dispatcher) (handler : HandlerValue)
    (h : handler ∈ d.handlers.elems) : d.RegisterReplicationEventHandler grow handler = d := by
  unfold Dispatcher.RegisterReplicationEventHandler
  rw [if_pos]
  rw [List.any_eq_true]
  exact ⟨handler, h, by simp⟩

theorem Register_of_not_mem (grow : Nat → Nat) (d : Dispatcher) (handler : HandlerValue)
    (h : handler ∉ d.handlers.elems) :
    (d.RegisterReplicationEventHandler grow handler).handlers.elems
      = d.handlers.elems ++ [handler] := by
  unfold Dispatcher.RegisterReplicationEventHandler
  rw [if_neg]
  · simp only [HandlerSlice.append]
    split <;> rfl
  · rw [List.any_eq_true]
    rintro ⟨x, hx, hxe⟩
    have : x = handler := by simpa using hxe
    exact h (this ▸ hx)

/-- **C27.** `RegisterReplicationEventHandler` leaves the dispatcher unchanged when the
handler is already in the list and otherwise appends the handler at the end of the list;
every handler list reachable from `NewDispatcher` through registrations and
unregistrations holds no handler twice. -/
theorem register_keeps_handlers_distinct (grow : Nat → Nat) :
    (∀ (d : Dispatcher) (handler : HandlerValue), handler ∈ d.handlers.elems →
      d.RegisterReplicationEventHandler grow handler = d)
    ∧ (∀ (d : Dispatcher) (handler : HandlerValue), handler ∉ d.handlers.elems →
      (d.RegisterReplicationEventHandler grow handler).handlers.elems
        = d.handlers.elems ++ [handler])
    ∧ (∀ d : Dispatcher, d.Reachable grow → d.handlers.elems.Nodup) :=
  ⟨Register_of_mem grow, Register_of_not_mem grow, Reachable_nodup grow⟩

/-! ## Continuous aggregates with a view -/

theorem matches_of_view (reMatch : Regexp → GoString → Bool) (f : filter) (h : Hypertable)
    (viewSchema viewName : GoString) (hc : h.IsContinuousAggregate = true)
    (hs : h.ViewSchema = some viewSchema) (hn : h.ViewName = some viewName) :
    f.matches reMatch (.hypertable h)
      = f.matches reMatch (NewSystemEntity viewSchema viewName) := by
  simp only [filter.matches, hc, hs, hn, if_true, NewSystemEntity, SystemEntity.SchemaName,
    SystemEntity.TableName]

/-- **C28.** For every filter and every continuous-aggregate hypertable whose view schema
and view name are both present, `filter.matches` returns what it returns for the plain
entity named by the view schema and the view name; two such hypertables with the same
view get the same result, whatever their own schema and table names are. -/
theorem matches_continuous_aggregate_by_view (reMatch : Regexp → GoString → Bool) (f : filter)
    (h : Hypertable) (viewSchema viewName : GoString) (hc : h.IsContinuousAggregate = true)
    (hs : h.ViewSchema = some viewSchema) (hn : h.ViewName = some viewName) :
    f.matches reMatch (.hypertable h)
        = f.matches reMatch (NewSystemEntity viewSchema viewName)
    ∧ ∀ h' : Hypertable, h'.IsContinuousAggregate = true → h'.ViewSchema = some viewSchema →
        h'.ViewName = some viewName →
        f.matches reMatch (.hypertable h') = f.matches reMatch (.hypertable h) := by
  refine ⟨matches_of_view reMatch f h viewSchema viewName hc hs hn, fun h' hc' hs' hn' => ?_⟩
  rw [matches_of_view reMatch f h viewSchema viewName hc hs hn,
    matches_of_view reMatch f h' viewSchema viewName hc' hs' hn']

/-- Witness for `matches_continuous_aggregate_by_view`: the continuous aggregate
`public.daily` over `_timescaledb_internal._materialized_2` and the pattern
`public.daily`. -/
theorem matches_continuous_aggregate_by_view_witness :
    filter.matches (fun _ _ => false) ⟨ascii "public", ascii "daily", none, none⟩
        (.hypertable ⟨ascii "_timescaledb_internal", ascii "_materialized_2", ascii "db", true,
          some (ascii "public"), some (ascii "daily"), ReplicaIdentity.DEFAULT, []⟩)
      = filter.matches (fun _ _ => false) ⟨ascii "public", ascii "daily", none, none⟩
          (NewSystemEntity (ascii "public") (ascii "daily"))
    ∧ ∀ h' : Hypertable, h'.IsContinuousAggregate = true →
        h'.ViewSchema = some (ascii "public") → h'.ViewName = some (ascii "daily") →
        filter.matches (fun _ _ => false) ⟨ascii "public", ascii "daily", none, none⟩
            (.hypertable h')
          = filter.matches (fun _ _ => false) ⟨ascii "public", ascii "daily", none, none⟩
            (.hypertable ⟨ascii "_timescaledb_internal", ascii "_materialized_2", ascii "db",
              true, some (ascii "public"), some (ascii "daily"), ReplicaIdentity.DEFAULT, []⟩) :=
  matches_continuous_aggregate_by_view (fun _ _ => false)
    ⟨ascii "public", ascii "daily", none, none⟩
    ⟨ascii "_timescaledb_internal", ascii "_materialized_2", ascii "db", true,
      some (ascii "public"), some (ascii "daily"), ReplicaIdentity.DEFAULT, []⟩
    (ascii "public") (ascii "daily") rfl rfl rfl

theorem matches_view_sample :
    filter.matches (fun _ _ => false) ⟨ascii "public", ascii "daily", none, none⟩
        (.hypertable ⟨ascii "_timescaledb_internal", ascii "_materialized_2", ascii "db", true,
          some (ascii "public"), some (ascii "daily"), ReplicaIdentity.DEFAULT, []⟩) = true
    ∧ filter.matches (fun _ _ => false)
        ⟨ascii "_timescaledb_internal", ascii "_materialized_2", none, none⟩
        (.hypertable ⟨ascii "_timescaledb_internal", ascii "_materialized_2", ascii "db", true,
          some (ascii "public"), some (ascii "daily"), ReplicaIdentity.DEFAULT, []⟩) = false := by
  decide

/-! ## Topic names -/

/-- **C29.** For every prefix and hypertable, `DebeziumNamingStrategy.EventTopicName` and
`SchemaTopicName` return the same string: the prefix, a dot, the schema name, a dot, the
table name; a `NameGenerator` hands its configured prefix unchanged to its strategy, so
with the Debezium strategy both of its names are that string, and the prefix `prefix`
with the table `public.metrics` gives `prefix.public.metrics`. -/
theorem debezium_topic_names (topicPrefix : GoString) (hypertable : model.Hypertable) :
    DebeziumNamingStrategy.EventTopicName topicPrefix hypertable
        = topicPrefix ++ ascii "." ++ hypertable.SchemaName ++ ascii "."
            ++ hypertable.HypertableName
    ∧ DebeziumNamingStrategy.SchemaTopicName topicPrefix hypertable
        = DebeziumNamingStrategy.EventTopicName topicPrefix hypertable
    ∧ (∀ strategy : NamingStrategy,
        (NewNameGenerator topicPrefix strategy).EventTopicName hypertable
            = strategy.EventTopicName topicPrefix hypertable
        ∧ (NewNameGenerator topicPrefix strategy).SchemaTopicName hypertable
            = strategy.SchemaTopicName topicPrefix hypertable
        ∧ (NewNameGenerator topicPrefix strategy).MessageTopicName
            = strategy.MessageTopicName topicPrefix)
    ∧ (∀ messageTopicName : GoString → GoString,
        (NewNameGenerator topicPrefix (DebeziumNamingStrategy messageTopicName)).EventTopicName
            hypertable
          = topicPrefix ++ ascii "." ++ hypertable.SchemaName ++ ascii "."
              ++ hypertable.HypertableName
        ∧ (NewNameGenerator topicPrefix
              (DebeziumNamingStrategy messageTopicName)).SchemaTopicName hypertable
          = topicPrefix ++ ascii "." ++ hypertable.SchemaName ++ ascii "."
              ++ hypertable.HypertableName)
    ∧ (∀ messageTopicName : GoString → GoString,
        (NewNameGenerator (ascii "prefix")
            (DebeziumNamingStrategy messageTopicName)).EventTopicName
            ⟨ascii "public", ascii "metrics"⟩ = ascii "prefix.public.metrics") := by
  refine ⟨rfl, rfl, fun _ => ⟨rfl, rfl, rfl⟩, fun _ => ⟨rfl, rfl⟩, fun _ => ?_⟩
  show DebeziumNamingStrategy.EventTopicName (ascii "prefix") ⟨ascii "public", ascii "metrics"⟩
    = ascii "prefix.public.metrics"
  decide

/-! ## The source of message events -/

theorem retryLoop_calls (c : Collaborators) (operation : World → GoResult Unit × World)
    (P : Call → Prop)
    (hop : ∀ w, ∃ new, (operation w).2.calls = w.calls ++ new ∧ ∀ call ∈ new, P call)
    (hsleep : ∀ d, P (Call.Sleep d)) (n : Nat) :
    ∀ (b : backOffTries) (w : World), b.maxTries - b.numTries = n →
      ∃ new, (retryLoop c operation b w).2.2.calls = w.calls ++ new
        ∧ ∀ call ∈ new, P call := by
  induction n using Nat.strong_induction_on with
  | _ n ih =>
    intro b w hn
    obtain ⟨new, hnew, hP⟩ := hop w
    rcases hres : operation w with ⟨r, w1⟩
    rw [hres] at hnew
    simp only at hnew
    cases r with
    | ok u =>
      rw [retryLoop_ok c _ b w w1 u hres]
      exact ⟨new, hnew, hP⟩
    | panic m =>
      rw [retryLoop_panic c _ b w w1 m hres]
      exact ⟨new, hnew, hP⟩
    | error err =>
      cases hp : err.asPermanent with
      | some inner =>
        rw [retryLoop_permanent c _ b w w1 err inner hres hp]
        exact ⟨new, hnew, hP⟩
      | none =>
        rcases hnb : b.NextBackOff (c.NextBackOff w1.calls) with ⟨o, b'⟩
        cases o with
        | none =>
          rw [retryLoop_stop c _ b b' w w1 err hres hp hnb]
          exact ⟨new, hnew, hP⟩
        | some next =>
          rw [retryLoop_again c _ b b' w w1 err next hres hp hnb]
          have hb' : b'.maxTries - b'.numTries < n := by
            unfold backOffTries.NextBackOff at hnb
            split at hnb
            · injection hnb with h1 _; exact Option.noConfusion h1
            · split at hnb
              · injection hnb with h1 _; exact Option.noConfusion h1
              · injection hnb with _ h2
                rw [← h2]
                show b.maxTries - (b.numTries + 1) < n
                omega
          obtain ⟨new', hnew', hP'⟩ := ih _ hb' b'
            ⟨w1.sinkContext, w1.calls ++ [Call.Sleep next]⟩ rfl
          refine ⟨new ++ [Call.Sleep next] ++ new', ?_, ?_⟩
          · rw [hnew', hnew]
            simp only [List.append_assoc]
          · intro call hcall
            simp only [List.mem_append, List.mem_singleton] at hcall
            rcases hcall with (h | h) | h
            · exact hP call h
            · rw [h]; exact hsleep next
            · exact hP' call h

theorem emit_calls (c : Collaborators) (ee : EventEmitter) (xld : XLogData)
    (topic : GoString) (key envelope : Struct) :
    ∃ new, (EventEmitter.emit c ee xld topic key envelope).2.world.calls
        = ee.world.calls ++ new
      ∧ ∀ call ∈ new, ∀ ctx time topic' key' envelope' r,
          call = Call.Emit ctx time topic' key' envelope' r →
          time = xld.ServerTime ∧ topic' = topic ∧ key' = key ∧ envelope' = envelope := by
  obtain ⟨new, hnew, hP⟩ := retryLoop_calls c
    (EventEmitter.emitOperation c xld topic key envelope)
    (fun call => ∀ ctx time topic' key' envelope' r,
      call = Call.Emit ctx time topic' key' envelope' r →
      time = xld.ServerTime ∧ topic' = topic ∧ key' = key ∧ envelope' = envelope)
    (by
      intro w
      refine ⟨[Call.Emit w.sinkContext xld.ServerTime topic key envelope
        (c.Emit w.calls w.sinkContext xld.ServerTime topic key envelope).1], rfl, ?_⟩
      intro call hcall ctx time topic' key' envelope' r he
      rw [List.mem_singleton] at hcall
      rw [hcall] at he
      injection he with _ h2 h3 h4 h5 _
      exact ⟨h2.symm, h3.symm, h4.symm, h5.symm⟩)
    (by intro d ctx time topic' key' envelope' r he; exact Call.noConfusion he)
    _ ee.backOff.Reset ee.world rfl
  unfold EventEmitter.emit Retry
  generalize hres : retryLoop c (EventEmitter.emitOperation c xld topic key envelope)
    ee.backOff.Reset ee.world = res at hnew
  obtain ⟨r, b, w⟩ := res
  simp only at hnew
  cases r with
  | ok u =>
    refine ⟨new ++ [Call.AcknowledgeProcessed xld (c.AcknowledgeProcessed w.calls xld)], ?_, ?_⟩
    · simp only [EventEmitter.AcknowledgeProcessed, hnew, List.append_assoc]
    · intro call hcall
      simp only [List.mem_append, List.mem_singleton] at hcall
      rcases hcall with h | h
      · exact hP call h
      · intro ctx time topic' key' envelope' r he
        rw [h] at he
        exact Call.noConfusion he
  | error err => exact ⟨new, hnew, hP⟩
  | panic m => exact ⟨new, hnew, hP⟩

/-- **C24.** For every logical message event, `emitMessageEvent` hands the event provider a
source struct that carries the transaction id of the transaction monitor when the
message is transactional and no transaction id otherwise, and whose timestamp is the
server time of the event when the message is transactional and the wall clock read at
emission otherwise (LSN of the event, no snapshot, empty database, schema and table
names); the envelope of the resulting payload is what every call of `sink.Emit` made for
the event carries, and at least one such call is made. -/
theorem message_source (c : Collaborators) (ee : EventEmitter) (xld : XLogData)
    (msg : LogicalReplicationMessage) (eventProvider : Struct → Struct) :
    ∃ (timestamp : Nat) (transactionId : Option Nat) (new : List Call),
      emitMessageEvent c ee xld msg eventProvider
          = EventEmitter.emit c ee xld (c.MessageTopicName ())
              (Struct.Envelope (c.GetSchema c.MessageKeySchemaName)
                (Struct.MessageKey msg.Prefix))
              (Struct.Envelope (EventEmitter.envelopeMessageSchema c)
                (eventProvider
                  (Struct.Source xld.ServerWALEnd timestamp false [] [] [] transactionId)))
      ∧ (transactionId.isSome = msg.IsTransactional)
      ∧ (msg.IsTransactional = true →
          timestamp = xld.ServerTime ∧ transactionId = some (c.TransactionId ee.world.calls))
      ∧ (msg.IsTransactional = false →
          timestamp = c.Now ee.world.calls ∧ transactionId = none)
      ∧ (emitMessageEvent c ee xld msg eventProvider).2.world.calls = ee.world.calls ++ new
      ∧ (∀ call ∈ new, ∀ ctx time topic key value r,
          call = Call.Emit ctx time topic key value r →
          value = Struct.Envelope (EventEmitter.envelopeMessageSchema c)
            (eventProvider
              (Struct.Source xld.ServerWALEnd timestamp false [] [] [] transactionId)))
      ∧ (∃ ctx time topic key value r, Call.Emit ctx time topic key value r ∈ new) := by
  obtain ⟨new, hnew, hP⟩ := emit_calls c ee xld (c.MessageTopicName ())
    (Struct.Envelope (c.GetSchema c.MessageKeySchemaName) (Struct.MessageKey msg.Prefix))
    (Struct.Envelope (EventEmitter.envelopeMessageSchema c)
      (eventProvider (Struct.Source xld.ServerWALEnd
        (if msg.IsTransactional = true then xld.ServerTime else c.Now ee.world.calls) false
        [] [] [] (if msg.IsTransactional = true then some (c.TransactionId ee.world.calls)
          else none))))
  obtain ⟨pre, ctx, last, _, hcases⟩ := emit_trace c ee xld (c.MessageTopicName ())
    (Struct.Envelope (c.GetSchema c.MessageKeySchemaName) (Struct.MessageKey msg.Prefix))
    (Struct.Envelope (EventEmitter.envelopeMessageSchema c)
      (eventProvider (Struct.Source xld.ServerWALEnd
        (if msg.IsTransactional = true then xld.ServerTime else c.Now ee.world.calls) false
        [] [] [] (if msg.IsTransactional = true then some (c.TransactionId ee.world.calls)
          else none))))
  refine ⟨if msg.IsTransactional = true then xld.ServerTime else c.Now ee.world.calls,
    if msg.IsTransactional = true then some (c.TransactionId ee.world.calls) else none,
    new, rfl, ?_, ?_, ?_, hnew, ?_, ?_⟩
  · cases msg.IsTransactional <;> rfl
  · intro h; simp only [h, if_true, and_self]
  · intro h; simp only [h, Bool.false_eq_true, if_false, and_self]
  · intro call hcall ctx' time topic key value r he
    exact (hP call hcall ctx' time topic key value r he).2.2.2
  · have hmem : ∀ tail, (EventEmitter.emit c ee xld (c.MessageTopicName ())
          (Struct.Envelope (c.GetSchema c.MessageKeySchemaName) (Struct.MessageKey msg.Prefix))
          (Struct.Envelope (EventEmitter.envelopeMessageSchema c)
            (eventProvider (Struct.Source xld.ServerWALEnd
              (if msg.IsTransactional = true then xld.ServerTime else c.Now ee.world.calls)
              false [] [] []
              (if msg.IsTransactional = true then some (c.TransactionId ee.world.calls)
                else none))))).2.world.calls = ee.world.calls ++ tail →
        ∀ call ∈ tail, call ∈ new := by
      intro tail ht call hcall
      rw [hnew] at ht
      rw [List.append_cancel_left ht]
      exact hcall
    rcases hcases with ⟨_, hcalls⟩ | ⟨_, hcalls, _⟩
    · exact ⟨_, _, _, _, _, _,
        hmem _ hcalls _ (List.mem_append_right _ (List.mem_cons_self _ _))⟩
    · exact ⟨_, _, _, _, _, _,
        hmem _ hcalls _ (List.mem_append_right _ (List.mem_cons_self _ _))⟩

theorem message_source_sample :
    (emitMessageEvent (sampleCollaborators 0 (.ok true)) NewEventEmitter sampleXLogData
        ⟨ascii "audit", [1, 2], false⟩ (fun source => source)).2.world.calls
      = [Call.Emit newSinkContextImpl 5 (ascii "prefix.message")
          (Struct.Envelope (Struct.registered (ascii "message.key"))
            (Struct.MessageKey (ascii "audit")))
          (Struct.Envelope Struct.EnvelopeMessageSchema
            (Struct.Source 100 1000 false [] [] [] none)) (.ok ()),
         Call.AcknowledgeProcessed sampleXLogData (.ok ())]
    ∧ (emitMessageEvent (sampleCollaborators 0 (.ok true)) NewEventEmitter sampleXLogData
        ⟨ascii "audit", [1, 2], true⟩ (fun source => source)).2.world.calls
      = [Call.Emit newSinkContextImpl 5 (ascii "prefix.message")
          (Struct.Envelope (Struct.registered (ascii "message.key"))
            (Struct.MessageKey (ascii "audit")))
          (Struct.Envelope Struct.EnvelopeMessageSchema
            (Struct.Source 100 5 false [] [] [] (some 7))) (.ok ()),
         Call.AcknowledgeProcessed sampleXLogData (.ok ())] := by
  constructor <;>
    simp [emitMessageEvent, EventEmitter.emit, Retry, retryLoop, EventEmitter.emitOperation,
      EventEmitter.AcknowledgeProcessed, sampleCollaborators, NewEventEmitter,
      sampleXLogData, EventEmitter.envelopeMessageSchema, backOffTries.Reset, WithMaxRetries,
      LogicalReplicationMessage.IsTransactional, emitResults, newSinkContextImpl]

/-! ## Conversion of column values -/

theorem convertColumnValuesLoop_cons (c : Collaborators) (column : Column) (rest : List Column)
    (values result : GoMap GoAny) :
    convertColumnValuesLoop c (column :: rest) values result
      = match values.get column.Name with
        | some v =>
          (convertedValue c column v).bind fun v' =>
            convertColumnValuesLoop c rest values (result.set column.Name v')
        | none => convertColumnValuesLoop c rest values result := by
  rw [convertColumnValuesLoop]
  cases values.get column.Name with
  | none => rfl
  | some v =>
    simp only [convertedValue]
    cases c.ConverterByOID column.DataType with
    | error e => rfl
    | panic m => rfl
    | ok converter =>
      cases converter with
      | none => rfl
      | some convert => rfl

theorem convertColumnValuesLoop_append (c : Collaborators) (values : GoMap GoAny)
    (pre rest : List Column) :
    ∀ result, convertColumnValuesLoop c (pre ++ rest) values result
      = (convertColumnValuesLoop c pre values result).bind fun result' =>
          convertColumnValuesLoop c rest values result' := by
  induction pre with
  | nil => intro result; rfl
  | cons column pre ih =>
    intro result
    rw [List.cons_append, convertColumnValuesLoop_cons, convertColumnValuesLoop_cons]
    cases values.get column.Name with
    | none => exact ih result
    | some v =>
      simp only
      cases convertedValue c column v with
      | error e => rfl
      | panic m => rfl
      | ok v' => exact ih _

theorem convertColumnValuesLoop_ok (c : Collaborators) (values : GoMap GoAny)
    (columns : List Column)
    (hall : ∀ col ∈ columns, ∀ v, values.get col.Name = some v →
      ∃ w, convertedValue c col v = .ok w) :
    ∀ result, ∃ m, convertColumnValuesLoop c columns values result = .ok m := by
  induction columns with
  | nil => intro result; exact ⟨result, rfl⟩
  | cons column rest ih =>
    intro result
    rw [convertColumnValuesLoop_cons]
    have ih' := ih fun col hcol => hall col (List.mem_cons_of_mem _ hcol)
    cases hv : values.get column.Name with
    | none => exact ih' result
    | some v =>
      obtain ⟨w, hw⟩ := hall column (List.mem_cons_self _ _) v hv
      simp only [hw, GoResult.bind]
      exact ih' _

theorem convertColumnValuesLoop_get_other (c : Collaborators) (values : GoMap GoAny)
    (k : GoString) (columns : List Column) (hk : ∀ col ∈ columns, col.Name ≠ k) :
    ∀ result m, convertColumnValuesLoop c columns values result = .ok m →
      m.get k = result.get k := by
  induction columns with
  | nil =>
    intro result m h
    simp only [convertColumnValuesLoop] at h
    injection h with h
    rw [h]
  | cons column rest ih =>
    intro result m h
    rw [convertColumnValuesLoop_cons] at h
    have ih' := ih fun col hcol => hk col (List.mem_cons_of_mem _ hcol)
    cases hv : values.get column.Name with
    | none => rw [hv] at h; exact ih' result m h
    | some v =>
      rw [hv] at h
      simp only at h
      cases hw : convertedValue c column v with
      | error e => rw [hw] at h; exact GoResult.noConfusion h
      | panic msg => rw [hw] at h; exact GoResult.noConfusion h
      | ok w =>
        rw [hw] at h
        rw [ih' _ m h, GoMap.get_set, if_neg (hk column (List.mem_cons_self _ _))]

theorem GoMap.keys_set_nodup {β : Type} (m : GoMap β) (k : GoString) (v : β)
    (h : m.keys.Nodup) : (m.set k v).keys.Nodup := by
  induction m with
  | nil => simp [GoMap.set, GoMap.keys]
  | cons p rest ih =>
    obtain ⟨k0, v0⟩ := p
    simp only [GoMap.keys, List.map_cons, List.nodup_cons] at h
    by_cases e : k0 = k
    · subst e
      simp only [GoMap.set, if_true, GoMap.keys, List.map_cons, List.nodup_cons]
      exact h
    · simp only [GoMap.set, e, if_false, GoMap.keys, List.map_cons, List.nodup_cons]
      refine ⟨?_, ih h.2⟩
      intro hmem
      have := (GoMap.mem_keys_set rest k v k0).1 hmem
      rcases this with h1 | h1
      · exact e h1
      · exact h.1 h1

theorem convertColumnValuesLoop_nodup (c : Collaborators) (values : GoMap GoAny)
    (columns : List Column) :
    ∀ result m, result.keys.Nodup → convertColumnValuesLoop c columns values result = .ok m →
      m.keys.Nodup := by
  induction columns with
  | nil =>
    intro result m hnd h
    simp only [convertColumnValuesLoop] at h
    injection h with h
    rw [← h]; exact hnd
  | cons column rest ih =>
    intro result m hnd h
    rw [convertColumnValuesLoop_cons] at h
    cases hv : values.get column.Name with
    | none => rw [hv] at h; exact ih result m hnd h
    | some v =>
      rw [hv] at h
      simp only at h
      cases hw : convertedValue c column v with
      | error e => rw [hw] at h; exact GoResult.noConfusion h
      | panic msg => rw [hw] at h; exact GoResult.noConfusion h
      | ok w =>
        rw [hw] at h
        exact ih _ m (GoMap.keys_set_nodup _ _ _ hnd) h

/-- **C25.** For every column list and every non-nil values map: when the conversion of
every column that is a key of the input succeeds, `convertColumnValues` returns a map
whose keys are exactly the names of the columns that are keys of the input, each once,
and whose value for a column is the converted input value of the column (of the last
column of that name, should a name occur twice); the converted value is the
converter's output when a converter is registered for the OID of the column and the
input value itself when none is; when the converter lookup or the conversion fails for
a column, after the columns before it succeeded, the call returns that error and no
map. -/
theorem convertColumnValues_result (c : Collaborators) (columns : List Column)
    (values : GoMap GoAny) :
    ((∀ col ∈ columns, ∀ v, values.get col.Name = some v →
        ∃ w, convertedValue c col v = .ok w) →
      ∃ result, convertColumnValues c columns (some values) = .ok (some result)
        ∧ (∀ k, k ∈ result.keys ↔
            (∃ col ∈ columns, col.Name = k) ∧ (values.get k).isSome = true)
        ∧ result.keys.Nodup
        ∧ (∀ pre col post v w, columns = pre ++ col :: post →
            (∀ col' ∈ post, col'.Name ≠ col.Name) →
            values.get col.Name = some v → convertedValue c col v = .ok w →
            result.get col.Name = some w))
    ∧ (∀ pre col post v err, columns = pre ++ col :: post →
        (∀ col' ∈ pre, ∀ v', values.get col'.Name = some v' →
          ∃ w, convertedValue c col' v' = .ok w) →
        values.get col.Name = some v → convertedValue c col v = .error err →
        convertColumnValues c columns (some values) = .error err)
    ∧ (∀ col v,
        (c.ConverterByOID col.DataType = .ok none → convertedValue c col v = .ok v)
        ∧ (∀ convert, c.ConverterByOID col.DataType = .ok (some convert) →
            convertedValue c col v = convert col.DataType v)
        ∧ (∀ err, c.ConverterByOID col.DataType = .error err →
            convertedValue c col v = .error err)) := by
  refine ⟨?_, ?_, ?_⟩
  · intro hall
    obtain ⟨m, hm⟩ := convertColumnValuesLoop_ok c values columns hall []
    refine ⟨m, ?_, ?_, ?_, ?_⟩
    · simp only [convertColumnValues, hm, GoResult.ok_bind]
    · intro k
      rw [convertColumnValuesLoop_keys c columns values [] m hm k]
      simp only [GoMap.keys, List.map_nil, List.not_mem_nil, false_or]
      constructor
      · rintro ⟨col, hcol, hname, hv⟩
        exact ⟨⟨col, hcol, hname⟩, hv⟩
      · rintro ⟨⟨col, hcol, hname⟩, hv⟩
        exact ⟨col, hcol, hname, hv⟩
    · exact convertColumnValuesLoop_nodup c values columns [] m List.nodup_nil hm
    · intro pre col post v w hsplit hpost hv hw
      subst hsplit
      rw [convertColumnValuesLoop_append] at hm
      cases hpre : convertColumnValuesLoop c pre values [] with
      | error e => rw [hpre] at hm; exact GoResult.noConfusion hm
      | panic msg => rw [hpre] at hm; exact GoResult.noConfusion hm
      | ok acc =>
        rw [hpre] at hm
        simp only [GoResult.bind] at hm
        rw [convertColumnValuesLoop_cons, hv] at hm
        simp only [hw, GoResult.bind] at hm
        rw [convertColumnValuesLoop_get_other c values col.Name post hpost _ m hm,
          GoMap.get_set, if_pos rfl]
  · intro pre col post v err hsplit hpre hv herr
    subst hsplit
    obtain ⟨acc, hacc⟩ := convertColumnValuesLoop_ok c values pre hpre []
    simp only [convertColumnValues]
    rw [convertColumnValuesLoop_append, hacc]
    simp only [GoResult.bind]
    rw [convertColumnValuesLoop_cons, hv]
    simp only [herr, GoResult.bind]
    rfl
  · intro col v
    refine ⟨?_, ?_, ?_⟩
    · intro h; simp only [convertedValue, h]
    · intro convert h; simp only [convertedValue, h]
    · intro err h; simp only [convertedValue, h]

theorem convertColumnValues_sample :
    convertColumnValues (sampleCollaborators 0 (.ok true))
        [⟨ascii "id", 20, true, false⟩, ⟨ascii "v", 23, false, false⟩,
          ⟨ascii "note", 25, false, false⟩]
        (some [(ascii "v", GoAny.int 1), (ascii "id", GoAny.int 7),
          (ascii "ghost", GoAny.text (ascii "x"))])
      = .ok (some [(ascii "id", GoAny.int 7), (ascii "v", GoAny.int 1)]) := by
  decide

/-! ## Shutdown of the replicator -/

theorem TaskCall.errors_append (a b : List TaskCall) :
    TaskCall.errors (a ++ b) = TaskCall.errors a ++ TaskCall.errors b := by
  induction a with
  | nil => rfl
  | cons x rest ih =>
    obtain ⟨i, r⟩ := x
    cases r <;> simp [TaskCall.errors, ih]

theorem TaskCall.errors_eq_nil_iff (calls : List TaskCall) :
    TaskCall.errors calls = [] ↔ ∀ call ∈ calls, ∀ err, call.result ≠ .error err := by
  induction calls with
  | nil => simp [TaskCall.errors]
  | cons x rest ih =>
    obtain ⟨i, r⟩ := x
    cases r with
    | ok u => simp [TaskCall.errors, ih]
    | panic m => simp [TaskCall.errors, ih]
    | error e => simp [TaskCall.errors]

theorem StopReplicationLoop_spec (shutdownTasks : List ShutdownTask)
    (hnopanic : ∀ task ∈ shutdownTasks, ∀ calls msg, task calls ≠ .panic msg) :
    ∀ (i : Nat) (errors : List GoError) (calls : List TaskCall), i ≤ shutdownTasks.length →
      ∃ new, StopReplicationLoop shutdownTasks i errors calls
          = .ok (errors ++ TaskCall.errors new, calls ++ new)
        ∧ new.map (fun call => call.index) = (List.range i).reverse
        ∧ TaskCall.Faithful shutdownTasks calls new
        ∧ ∀ call ∈ new, ∀ msg, call.result ≠ .panic msg := by
  intro i
  induction i with
  | zero =>
    intro errors calls _
    exact ⟨[], by simp [StopReplicationLoop, TaskCall.errors], rfl, trivial, by simp⟩
  | succ i ih =>
    intro errors calls hi
    have hlt : i < shutdownTasks.length := hi
    have hget : shutdownTasks[i]? = some shutdownTasks[i] := List.getElem?_eq_getElem hlt
    have hrange : (List.range (i + 1)).reverse = i :: (List.range i).reverse := by
      rw [List.range_succ, List.reverse_append]; rfl
    rw [StopReplicationLoop, hget]
    simp only
    cases hr : shutdownTasks[i] calls with
    | panic msg => exact absurd hr (hnopanic _ (List.getElem_mem hlt) calls msg)
    | ok u =>
      obtain ⟨new, hloop, hidx, hfaith, hnp⟩ := ih errors (calls ++ [⟨i, .ok ()⟩]) (by omega)
      refine ⟨⟨i, .ok ()⟩ :: new, ?_, ?_, ?_, ?_⟩
      · simp only [hloop]; simp [TaskCall.errors]
      · rw [List.map_cons, hidx, hrange]
      · exact ⟨⟨_, hget, hr⟩, hfaith⟩
      · intro call hcall msg
        rcases List.mem_cons.1 hcall with h | h
        · rw [h]; exact fun hc => GoResult.noConfusion hc
        · exact hnp call h msg
    | error err =>
      obtain ⟨new, hloop, hidx, hfaith, hnp⟩ :=
        ih (errors ++ [err]) (calls ++ [⟨i, .error err⟩]) (by omega)
      refine ⟨⟨i, .error err⟩ :: new, ?_, ?_, ?_, ?_⟩
      · simp only [hloop]; simp [TaskCall.errors]
      · rw [List.map_cons, hidx, hrange]
      · exact ⟨⟨_, hget, hr⟩, hfaith⟩
      · intro call hcall msg
        rcases List.mem_cons.1 hcall with h | h
        · rw [h]; exact fun hc => GoResult.noConfusion hc
        · exact hnp call h msg

/-- **C21.** When no shutdown task panics, `StopReplication` returns after calling every
task of `shutdownTasks` once, from the last registered to the first, each call getting
the answer of its task whatever the earlier calls returned; it returns `nil` exactly
when no call returned an error, and otherwise one exit error with code 250 that joins
the errors of all calls in the order in which they were returned. -/
theorem StopReplication_runs_tasks_in_reverse (r : Replicator)
    (hnopanic : ∀ task ∈ r.shutdownTasks, ∀ calls msg, task calls ≠ .panic msg) :
    ∃ result calls, r.StopReplication = .ok (result, calls)
      ∧ calls.map (fun call => call.index) = (List.range r.shutdownTasks.length).reverse
      ∧ TaskCall.Faithful r.shutdownTasks [] calls
      ∧ (result = none ↔ ∀ call ∈ calls, ∀ err, call.result ≠ .error err)
      ∧ (result = none ∨ result = some ⟨TaskCall.errors calls, 250⟩)
      ∧ (∀ err, err ∈ TaskCall.errors calls ↔ ∃ call ∈ calls, call.result = .error err) := by
  have hmem : ∀ calls : List TaskCall, ∀ err,
      err ∈ TaskCall.errors calls ↔ ∃ call ∈ calls, call.result = .error err := by
    intro calls
    induction calls with
    | nil => simp [TaskCall.errors]
    | cons x rest ih =>
      intro err
      obtain ⟨i, res⟩ := x
      cases res with
      | ok u => simp [TaskCall.errors, ih]
      | panic m => simp [TaskCall.errors, ih]
      | error e =>
        simp only [TaskCall.errors, List.mem_cons, ih, exists_eq_or_imp, GoResult.error.injEq]
        constructor
        · rintro (h | h)
          · exact Or.inl h.symm
          · exact Or.inr h
        · rintro (h | h)
          · exact Or.inl h.symm
          · exact Or.inr h
  unfold Replicator.StopReplication
  by_cases hlen : r.shutdownTasks.length > 0
  · obtain ⟨new, hloop, hidx, hfaith, _⟩ :=
      StopReplicationLoop_spec r.shutdownTasks hnopanic r.shutdownTasks.length [] []
        (le_refl _)
    rw [if_pos hlen, hloop]
    simp only [List.nil_append]
    by_cases herr : (TaskCall.errors new).length > 0
    · rw [if_pos herr]
      refine ⟨_, new, rfl, hidx, hfaith, ?_, Or.inr rfl, hmem new⟩
      constructor
      · intro h; exact Option.noConfusion h
      · intro h
        have := (TaskCall.errors_eq_nil_iff new).2 h
        rw [this] at herr
        exact absurd herr (by simp)
    · rw [if_neg herr]
      refine ⟨none, new, rfl, hidx, hfaith, ?_, Or.inl rfl, hmem new⟩
      have hnil : TaskCall.errors new = [] := List.length_eq_zero.1 (by omega)
      exact ⟨fun _ => (TaskCall.errors_eq_nil_iff new).1 hnil, fun _ => rfl⟩
  · rw [if_neg hlen]
    have h0 : r.shutdownTasks.length = 0 := by omega
    refine ⟨none, [], rfl, ?_, trivial, ?_, Or.inl rfl, hmem []⟩
    · rw [h0]; rfl
    · exact ⟨fun _ call hcall => absurd hcall (List.not_mem_nil _), fun _ => rfl⟩

/-- Witness for `StopReplication_runs_tasks_in_reverse`: three tasks of which the first
and the third fail. -/
theorem StopReplication_runs_tasks_in_reverse_witness :
    ∃ result calls, (Replicator.mk sampleShutdownTasks).StopReplication = .ok (result, calls)
      ∧ calls.map (fun call => call.index)
          = (List.range (Replicator.mk sampleShutdownTasks).shutdownTasks.length).reverse
      ∧ TaskCall.Faithful (Replicator.mk sampleShutdownTasks).shutdownTasks [] calls
      ∧ (result = none ↔ ∀ call ∈ calls, ∀ err, call.result ≠ .error err)
      ∧ (result = none ∨ result = some ⟨TaskCall.errors calls, 250⟩)
      ∧ (∀ err, err ∈ TaskCall.errors calls ↔ ∃ call ∈ calls, call.result = .error err) :=
  StopReplication_runs_tasks_in_reverse ⟨sampleShutdownTasks⟩ (by
    intro task htask calls msg
    simp only [sampleShutdownTasks, List.mem_cons, List.mem_singleton, List.not_mem_nil,
      or_false] at htask
    rcases htask with h | h | h <;> rw [h] <;> exact fun hc => GoResult.noConfusion hc)

theorem StopReplication_sample :
    (Replicator.mk sampleShutdownTasks).StopReplication
      = .ok (some ⟨[.mk "channel", .mk "stats"], 250⟩,
          [⟨2, .error (.mk "channel")⟩, ⟨1, .ok ()⟩, ⟨0, .error (.mk "stats")⟩]) := by
  decide

/-! ## Length limit of pattern tokens -/

theorem parseTokenLoop_error (env : PatternEnv) (isQuoted : Bool) (lastIndex : Nat) :
    ∀ (n : Nat) (l : List Rune), l.length ≤ n →
      ∀ (i : Nat) (builder : GoString) (isRegex : Bool) (e : GoError),
        parseTokenLoop env isQuoted lastIndex l i builder isRegex = .error e →
        e = .mk "illegal character in pattern" := by
  intro n
  induction n with
  | zero =>
    intro l hl i builder isRegex e h
    have : l = [] := List.length_eq_zero.1 (Nat.le_zero.1 hl)
    subst this
    rw [parseTokenLoop] at h
    split_ifs at h
  | succ n ih =>
    intro l hl i builder isRegex e h
    cases l with
    | nil =>
      rw [parseTokenLoop] at h
      split_ifs at h
    | cons char rest =>
      have hrest : rest.length ≤ n := by simpa using hl
      have ih0 := ih [] (Nat.zero_le _)
      have ih1 := ih rest hrest
      cases rest with
      | nil =>
        rw [parseTokenLoop] at h
        split_ifs at h <;>
          first
          | exact ih0 _ _ _ _ h
          | (injection h with h; exact h.symm)
      | cons peek rest' =>
        have ih2 := ih rest' (by simp at hrest; omega)
        rw [parseTokenLoop] at h
        split_ifs at h <;>
          first
          | exact ih1 _ _ _ _ h
          | exact ih2 _ _ _ _ h
          | (injection h with h; exact h.symm)

theorem parseToken_length_error (env : PatternEnv) (token : GoString) (first last : Byte)
    (hfirst : token.head? = some first) (hlast : token.getLast? = some last) :
    parseToken env token = .error (.mk "an pattern cannot be longer than 63 characters") ↔
      (if (first.val == 34 && last.val == 34) = true then 65 < token.length
        else 63 < (strings.ToLower env.unicode token).length) := by
  have hne : GoError.mk "illegal character in pattern"
      ≠ .mk "an pattern cannot be longer than 63 characters" := by decide
  have hne1 : GoError.mk "illegal first character of pattern"
      ≠ .mk "an pattern cannot be longer than 63 characters" := by decide
  have hne2 : GoError.mk "an unquoted pattern cannot match a reserved keyword"
      ≠ .mk "an pattern cannot be longer than 63 characters" := by decide
  unfold parseToken
  rw [hfirst, hlast]
  simp only []
  cases hq : (first.val == 34 && last.val == 34)
  · simp only [Bool.not_false, if_true, Bool.false_eq_true, if_false, true_or, and_true,
      true_and]
    by_cases hl : 63 < (strings.ToLower env.unicode token).length
    · simp only [gt_iff_lt, hl, if_true]
    · simp only [gt_iff_lt, hl, if_false, iff_false]
      intro h
      cases hh : (strings.ToLower env.unicode token).head? with
      | none => rw [hh] at h; exact GoResult.noConfusion h
      | some token0 =>
        rw [hh] at h
        simp only [] at h
        split_ifs at h with hc
        · injection h with h; exact hne1 h
        · cases hloop : parseTokenLoop env false (strings.ToLower env.unicode token).length
              (List.drop 0 (decodeRunes (strings.ToLower env.unicode token))) 0 [] false with
          | panic msg => rw [hloop] at h; exact GoResult.noConfusion h
          | error e =>
            rw [hloop] at h
            simp only [GoResult.error_bind] at h
            injection h with h
            rw [parseTokenLoop_error env _ _ _ _ (le_refl _) _ _ _ _ hloop] at h
            exact hne h
          | ok p =>
            rw [hloop] at h
            simp only [GoResult.ok_bind] at h
            split_ifs at h
            · injection h with h; exact hne2 h
  · simp only [Bool.not_true, Bool.false_eq_true, if_false, if_true, false_or, false_and]
    by_cases hl : 65 < token.length
    · have hl' : 63 < token.length := by omega
      simp only [gt_iff_lt, hl, hl', and_self, if_true]
    · simp only [gt_iff_lt, hl, and_false, if_false, iff_false]
      intro h
      cases hh : token.head? with
      | none => rw [hh] at h; exact GoResult.noConfusion h
      | some token0 =>
        rw [hh] at h
        simp only [] at h
        cases hloop : parseTokenLoop env true (token.length - 1)
            (List.drop 1 (decodeRunes token)) 1 [] false with
        | panic msg => rw [hloop] at h; exact GoResult.noConfusion h
        | error e =>
          rw [hloop] at h
          simp only [GoResult.error_bind] at h
          injection h with h
          rw [parseTokenLoop_error env _ _ _ _ (le_refl _) _ _ _ _ hloop] at h
          exact hne h
        | ok p =>
          rw [hloop] at h
          simp only [GoResult.ok_bind] at h
          exact GoResult.noConfusion h

theorem decodeRune_width_pos (b : Byte) (rest : List Byte) :
    1 ≤ (decodeRune (b :: rest)).2 := by
  simp only [decodeRune]
  repeat' split
  all_goals simp

theorem decodeRunesSteps_length_le :
    ∀ (n : Nat) (s : List Byte), (decodeRunesSteps n s).length ≤ s.length := by
  intro n
  induction n with
  | zero => intro s; simp [decodeRunesSteps]
  | succ n ih =>
    intro s
    cases s with
    | nil => simp [decodeRunesSteps]
    | cons b rest =>
      simp only [decodeRunesSteps, List.length_cons]
      have hw := decodeRune_width_pos b rest
      have h1 := ih ((b :: rest).drop (decodeRune (b :: rest)).2)
      have h2 : ((b :: rest).drop (decodeRune (b :: rest)).2).length ≤ rest.length := by
        rw [List.length_drop, List.length_cons]
        omega
      omega

theorem decodeRunes_length_le (s : GoString) : (decodeRunes s).length ≤ s.length :=
  decodeRunesSteps_length_le _ s

theorem encodeRune_length_pos (r : Rune) : 1 ≤ (encodeRune r).length := by
  unfold encodeRune
  split_ifs <;> simp

theorem flatMap_length_ge {α β : Type} (f : α → List β) (h : ∀ a, 1 ≤ (f a).length) :
    ∀ l : List α, l.length ≤ (l.flatMap f).length := by
  intro l
  induction l with
  | nil => simp
  | cons a rest ih =>
    simp only [List.flatMap_cons, List.length_cons, List.length_append]
    have := h a
    omega

theorem ToLower_length_ge (u : Unicode) (s : GoString) :
    (decodeRunes s).length ≤ (strings.ToLower u s).length := by
  unfold strings.ToLower
  split_ifs
  · rw [List.length_map]; exact decodeRunes_length_le s
  · exact flatMap_length_ge _ (fun r => encodeRune_length_pos _) _

theorem parseToken_of_lowered (env : PatternEnv) (token t : GoString) (first last : Byte)
    (hu : env.unicode.AgreesOnASCII)
    (hhead : token.head? = some first) (hlast : token.getLast? = some last)
    (hq : (first.val == 34 && last.val == 34) = false)
    (ht : strings.ToLower env.unicode token = t)
    (hchars : ∀ b ∈ t, isPlainChar b = true)
    (hfirst : ∃ b rest, t = b :: rest
      ∧ (isASCIILetter b = true ∨ b.val = 95 ∨ isWildcard b = true))
    (hlen : t.length ≤ 63)
    (hkeyword : t.map upperASCII ∉ env.reservedKeywords) :
    parseToken env token = .ok (expandWildcards t, t.any isWildcard) := by
  obtain ⟨b, rest, rfl, hb⟩ := hfirst
  have hrunes := decodeRunes_ascii _ (fun x hx => (isPlainChar_facts x (hchars x hx)).1)
  have hloop := parseTokenLoop_plain env hu (b :: rest).length (b :: rest) hchars 0 [] false
    (by simp)
  have hfirstOk : ¬ (True ∧ (!env.unicode.IsLetter b.val) = true
      ∧ b.val ≠ 95 ∧ b.val ≠ 42 ∧ b.val ≠ 63 ∧ b.val ≠ 43) := by
    have hl := (hu b.val (isPlainChar_facts _ (hchars _ (List.mem_cons_self _ _))).1).1
    rintro ⟨-, h1, h2, h3, h4, h5⟩
    rw [hl] at h1
    rcases hb with h | h | h
    · simp only [isASCIILetter] at h
      simp [h] at h1
    · exact h2 h
    · simp [isWildcard, h3, h4, h5] at h
  unfold parseToken
  rw [hhead, hlast]
  simp only [hq, Bool.not_false, if_true, ht]
  rw [if_neg (by omega), List.head?_cons]
  simp only []
  rw [if_neg hfirstOk]
  simp only [Bool.false_eq_true, if_false, List.drop_zero, hrunes, hloop, GoResult.ok_bind,
    List.nil_append, Bool.false_or]
  cases hw : (b :: rest).any isWildcard
  · have hupper : strings.ToUpper env.unicode (b :: rest) = (b :: rest).map upperASCII := by
      unfold strings.ToUpper
      rw [if_pos (all_ascii_of_plain _ hchars)]
    rw [expandWildcards_of_plain _ hw, hupper]
    simpa using hkeyword
  · simp


theorem parseToken_kelvin (env : PatternEnv) (hu : env.unicode.AgreesOnASCII)
    (hlower : env.unicode.ToLower 8490 = 107)
    (hkeyword : List.replicate 22 (75 : Byte) ∉ env.reservedKeywords) :
    parseToken env (List.replicate 22 [226, 132, 170]).flatten
      = .ok (List.replicate 22 107, false) := by
  have hdec : decodeRunes (List.replicate 22 ([226, 132, 170] : List Byte)).flatten
      = List.replicate 22 8490 := by decide
  have hall : List.all (List.replicate 22 ([226, 132, 170] : List Byte)).flatten
      (fun b => decide (b.val < 128)) = false := by decide
  have ht : strings.ToLower env.unicode (List.replicate 22 [226, 132, 170]).flatten
      = List.replicate 22 107 := by
    unfold strings.ToLower strings.Map
    rw [hdec]
    simp only [hall, Bool.false_eq_true, if_false]
    have henc : encodeRune 107 = [107] := by decide
    simp only [List.replicate, List.flatMap_cons, List.flatMap_nil, hlower, henc,
      List.singleton_append, List.append_nil]
  have h := parseToken_of_lowered env (List.replicate 22 [226, 132, 170]).flatten
    (List.replicate 22 107) 226 170 hu (by decide) (by decide) (by decide) ht (by decide)
    ⟨107, List.replicate 21 107, by decide, by decide⟩ (by decide)
    (by
      have : (List.replicate 22 (107 : Byte)).map upperASCII = List.replicate 22 75 := by decide
      rw [this]; exact hkeyword)
  rw [h]
  have e1 : expandWildcards (List.replicate 22 107) = List.replicate 22 107 := by decide
  have e2 : (List.replicate 22 (107 : Byte)).any isWildcard = false := by decide
  rw [e1, e2]

/-- **C22 (amended).** For every non-empty token, `parseToken` returns its length error
exactly when the token is too long in bytes: more than 65 bytes for a quoted token
(quotes included), more than 63 bytes of the lower-cased form for an unquoted token. A
token of more than 63 characters (65 when quoted) is therefore always rejected; an
unquoted token of 63 letters and a quoted token of 65 bytes are accepted; and an
unquoted token of 66 bytes whose lower-cased form is shorter (22 Kelvin signs, when
`unicode.ToLower` maps U+212A to `k`) is accepted. -/
theorem parseToken_length_limit (env : PatternEnv) (token : GoString) (first last : Byte)
    (hfirst : token.head? = some first) (hlast : token.getLast? = some last) :
    (parseToken env token = .error (.mk "an pattern cannot be longer than 63 characters") ↔
        (if (first.val == 34 && last.val == 34) = true then 65 < token.length
          else 63 < (strings.ToLower env.unicode token).length))
    ∧ ((first.val == 34 && last.val == 34) = false → 63 < (decodeRunes token).length →
        parseToken env token = .error (.mk "an pattern cannot be longer than 63 characters"))
    ∧ ((first.val == 34 && last.val == 34) = true → 65 < (decodeRunes token).length →
        parseToken env token = .error (.mk "an pattern cannot be longer than 63 characters"))
    ∧ (env.unicode.AgreesOnASCII → List.replicate 63 (65 : Byte) ∉ env.reservedKeywords →
        parseToken env (List.replicate 63 97) = .ok (List.replicate 63 97, false))
    ∧ parseToken env ([34] ++ List.replicate 63 97 ++ [34]) = .ok (List.replicate 63 97, false)
    ∧ (env.unicode.AgreesOnASCII → env.unicode.ToLower 8490 = 107 →
        List.replicate 22 (75 : Byte) ∉ env.reservedKeywords →
        (List.replicate 22 ([226, 132, 170] : List Byte)).flatten.length = 66
        ∧ parseToken env (List.replicate 22 [226, 132, 170]).flatten
            = .ok (List.replicate 22 107, false)) := by
  have hiff := parseToken_length_error env token first last hfirst hlast
  refine ⟨hiff, ?_, ?_, ?_, ?_, ?_⟩
  · intro hq hlen
    rw [hiff, hq]
    simp only [Bool.false_eq_true, if_false]
    exact lt_of_lt_of_le hlen (ToLower_length_ge env.unicode token)
  · intro hq hlen
    rw [hiff, hq]
    simp only [if_true]
    exact lt_of_lt_of_le hlen (decodeRunes_length_le token)
  · intro hu hkeyword
    have h := parseToken_plain env (List.replicate 63 97) hu (by decide)
      ⟨97, List.replicate 62 97, by decide, by decide⟩ (by decide)
      (by
        have : (List.replicate 63 (97 : Byte)).map upperASCII = List.replicate 63 65 := by
          decide
        rw [this]; exact hkeyword)
    rw [h]
    have e1 : expandWildcards ((List.replicate 63 (97 : Byte)).map lowerASCII)
        = List.replicate 63 97 := by decide
    have e2 : (List.replicate 63 (97 : Byte)).any isWildcard = false := by decide
    rw [e1, e2]
  · rw [parseToken_quoted env samplePatternEnv _ (by decide) (by decide)]
    decide
  · intro hu hlower hkeyword
    exact ⟨by decide, parseToken_kelvin env hu hlower hkeyword⟩

/-- Witness for `parseToken_length_limit`: the token `metrics`. -/
theorem parseToken_length_limit_witness :
    (parseToken samplePatternEnv (ascii "metrics")
        = .error (.mk "an pattern cannot be longer than 63 characters") ↔
        (if ((109 : Byte).val == 34 && (115 : Byte).val == 34) = true
          then 65 < (ascii "metrics").length
          else 63 < (strings.ToLower samplePatternEnv.unicode (ascii "metrics")).length))
    ∧ (((109 : Byte).val == 34 && (115 : Byte).val == 34) = false →
        63 < (decodeRunes (ascii "metrics")).length →
        parseToken samplePatternEnv (ascii "metrics")
          = .error (.mk "an pattern cannot be longer than 63 characters"))
    ∧ (((109 : Byte).val == 34 && (115 : Byte).val == 34) = true →
        65 < (decodeRunes (ascii "metrics")).length →
        parseToken samplePatternEnv (ascii "metrics")
          = .error (.mk "an pattern cannot be longer than 63 characters"))
    ∧ (samplePatternEnv.unicode.AgreesOnASCII →
        List.replicate 63 (65 : Byte) ∉ samplePatternEnv.reservedKeywords →
        parseToken samplePatternEnv (List.replicate 63 97) = .ok (List.replicate 63 97, false))
    ∧ parseToken samplePatternEnv ([34] ++ List.replicate 63 97 ++ [34])
        = .ok (List.replicate 63 97, false)
    ∧ (samplePatternEnv.unicode.AgreesOnASCII → samplePatternEnv.unicode.ToLower 8490 = 107 →
        List.replicate 22 (75 : Byte) ∉ samplePatternEnv.reservedKeywords →
        (List.replicate 22 ([226, 132, 170] : List Byte)).flatten.length = 66
        ∧ parseToken samplePatternEnv (List.replicate 22 [226, 132, 170]).flatten
            = .ok (List.replicate 22 107, false)) :=
  parseToken_length_limit samplePatternEnv (ascii "metrics") 109 115 (by decide) (by decide)

/-- **C22 (as stated) fails.** The quoted token made of a double quote, 33 times the
letter `é` (two bytes each) and a double quote has 35 characters, within the limit of 65,
and is rejected in every environment for its length, because it has 68 bytes; the
unquoted token of 32 times `é` has 32 characters and 64 bytes and is rejected for its
length as well. -/
theorem parseToken_rejects_token_of_35_characters :
    (decodeRunes ([34] ++ (List.replicate 33 ([195, 169] : List Byte)).flatten ++ [34])).length
      = 35
    ∧ (∀ env : PatternEnv,
        parseToken env ([34] ++ (List.replicate 33 ([195, 169] : List Byte)).flatten ++ [34])
          = .error (.mk "an pattern cannot be longer than 63 characters"))
    ∧ (decodeRunes (List.replicate 32 ([195, 169] : List Byte)).flatten).length = 32
    ∧ parseToken samplePatternEnv (List.replicate 32 ([195, 169] : List Byte)).flatten
        = .error (.mk "an pattern cannot be longer than 63 characters") := by
  refine ⟨by decide, ?_, by decide, by decide⟩
  intro env
  rw [parseToken_length_error env _ 34 34 (by decide) (by decide)]
  have hq : ((34 : Byte).val == 34 && (34 : Byte).val == 34) = true := by decide
  rw [if_pos hq]
  decide

/-! ## Task queue and shutdown of the dispatcher -/

theorem Step_shutdownActive (s s' : DispatcherRun) (h : Step s s')
    (ha : s.shutdownActive = true) : s'.shutdownActive = true := by
  cases h <;> first | exact ha | rfl

theorem Steps_shutdownActive (s s' : DispatcherRun) (h : Steps s s')
    (ha : s.shutdownActive = true) : s'.shutdownActive = true := by
  induction h with
  | refl => exact ha
  | tail _ hstep ih => exact Step_shutdownActive _ _ hstep ih

theorem Step_queue_of_shutdownActive (s s' : DispatcherRun) (h : Step s s')
    (ha : s.shutdownActive = true) (hs : s.senders = []) :
    s'.senders = [] ∧ ∃ done, s.taskQueue = done ++ s'.taskQueue := by
  cases h with
  | start => exact ⟨hs, [], rfl⟩
  | receive task rest _ hq => exact ⟨hs, [task], by simp [hq]⟩
  | handoff task pre post _ _ hsend =>
    rw [hs] at hsend
    exact absurd hsend (by simp)
  | idle => exact ⟨hs, [], rfl⟩
  | leave => exact ⟨hs, [], rfl⟩
  | confirm => exact ⟨hs, [], rfl⟩
  | stopMark => exact ⟨hs, [], rfl⟩
  | enqueueRejected => exact ⟨hs, [], rfl⟩
  | enqueueAccepted task hna => rw [ha] at hna; exact Bool.noConfusion hna
  | send task pre post hsend _ =>
    rw [hs] at hsend
    exact absurd hsend (by simp)

theorem Step_stop (s s' : DispatcherRun) (h : Step s s')
    (hs : s.stop = .notCalled ∨ s.stop = .sendingStart) :
    s'.stop = .notCalled ∨ s'.stop = .sendingStart := by
  cases h with
  | confirm _ hr =>
    rcases hs with h | h <;> rw [h] at hr <;> exact StopState.noConfusion hr
  | stopMark => exact Or.inr rfl
  | _ => exact hs

theorem Step_worker (s s' : DispatcherRun) (h : Step s s')
    (hs : s.stop = .notCalled ∨ s.stop = .sendingStart) (hw : s.worker ≠ .finished) :
    s'.worker ≠ .finished := by
  cases h with
  | start => exact fun hf => WorkerState.noConfusion hf
  | leave => exact fun hf => WorkerState.noConfusion hf
  | confirm _ hr =>
    rcases hs with h | h <;> rw [h] at hr <;> exact StopState.noConfusion hr
  | _ => exact hw

theorem Steps_stop (s s' : DispatcherRun) (h : Steps s s')
    (hs : s.stop = .notCalled ∨ s.stop = .sendingStart) (hw : s.worker ≠ .finished) :
    (s'.stop = .notCalled ∨ s'.stop = .sendingStart) ∧ s'.worker ≠ .finished := by
  induction h with
  | refl => exact ⟨hs, hw⟩
  | tail _ hstep ih => exact ⟨Step_stop _ _ hstep ih.1, Step_worker _ _ hstep ih.1 ih.2⟩

theorem Steps_queue_of_shutdownActive (s s' : DispatcherRun) (h : Steps s s')
    (ha : s.shutdownActive = true) (hs : s.senders = []) :
    s'.senders = [] ∧ ∃ done, s.taskQueue = done ++ s'.taskQueue := by
  induction h with
  | refl => exact ⟨hs, [], rfl⟩
  | tail hsteps hstep ih =>
    obtain ⟨hs1, done1, hd1⟩ := ih
    obtain ⟨hs2, done2, hd2⟩ := Step_queue_of_shutdownActive _ _ hstep
      (Steps_shutdownActive _ _ hsteps ha) hs1
    exact ⟨hs2, done1 ++ done2, by rw [hd1, hd2, List.append_assoc]⟩

/-- **C23.** Once the first statement of `StopDispatcher` has set `shutdownActive`, the flag
stays set whatever the goroutines do, and every call of `EnqueueTask` made from then on
returns an error and leaves the dispatcher, its task queue included, as it was (the
queue only loses the tasks that the worker takes); while the flag is not set,
`EnqueueTask` on a queue that is not full returns `nil` and appends the task at the end
of the queue. -/
theorem enqueue_after_shutdown :
    (∀ (d : DispatcherRun) (task : Task), d.shutdownActive = true →
      Dispatcher.EnqueueTask d task = some (some (.mk "shutdown active, draining only"), d))
    ∧ (∀ (d : DispatcherRun) (task : Task), d.shutdownActive = false →
      d.taskQueue.length < d.queueLength →
      Dispatcher.EnqueueTask d task
        = some (none, { d with taskQueue := d.taskQueue ++ [task] }))
    ∧ (∀ s : DispatcherRun, s.stop = .notCalled →
      Step s { s with shutdownActive := true, stop := .sendingStart })
    ∧ (∀ (s t : DispatcherRun) (task : Task), s.shutdownActive = true → Steps s t →
      t.shutdownActive = true
      ∧ Dispatcher.EnqueueTask t task
          = some (some (.mk "shutdown active, draining only"), t))
    ∧ (∀ s t : DispatcherRun, s.shutdownActive = true → s.senders = [] → Steps s t →
      ∃ done, s.taskQueue = done ++ t.taskQueue)
    ∧ (∀ (d t : DispatcherRun) (task : Task) (err : Option GoError),
      Dispatcher.EnqueueTask d task = some (err, t) → Steps d t) := by
  refine ⟨?_, ?_, fun s hs => Step.stopMark s hs, ?_, ?_, ?_⟩
  · intro d task ha
    simp only [Dispatcher.EnqueueTask, ha, if_true]
  · intro d task ha hlen
    simp only [Dispatcher.EnqueueTask, ha, Bool.false_eq_true, if_false, hlen, if_true]
  · intro s t task ha hsteps
    have hat := Steps_shutdownActive s t hsteps ha
    exact ⟨hat, by simp only [Dispatcher.EnqueueTask, hat, if_true]⟩
  · intro s t ha hs hsteps
    exact (Steps_queue_of_shutdownActive s t hsteps ha hs).2
  · intro d t task err h
    unfold Dispatcher.EnqueueTask at h
    split_ifs at h with ha hlen
    · injection h with h
      injection h with _ h2
      rw [← h2]
    · injection h with h
      injection h with _ h2
      rw [← h2]
      have hna : d.shutdownActive = false := by simpa using ha
      have s1 : Step d { d with senders := d.senders ++ [task] } :=
        Step.enqueueAccepted d task hna
      have s2 : Step { d with senders := d.senders ++ [task] }
          { d with taskQueue := d.taskQueue ++ [task] } := by
        have := Step.send { d with senders := d.senders ++ [task] } task d.senders [] rfl hlen
        simpa using this
      exact Relation.ReflTransGen.tail (Relation.ReflTransGen.single s1) s2

theorem stuck_run_steps :
    Steps (DispatcherRun.new 2)
      ⟨2, [], true, .sendingDone, .sendingStart, [], [1, 2]⟩ := by
  have s1 : Step (DispatcherRun.new 2) ⟨2, [], false, .selecting, .notCalled, [], []⟩ :=
    Step.start (DispatcherRun.new 2) rfl
  have s2 : Step ⟨2, [], false, .selecting, .notCalled, [], []⟩
      ⟨2, [], false, .selecting, .notCalled, [1], []⟩ :=
    Step.enqueueAccepted ⟨2, [], false, .selecting, .notCalled, [], []⟩ 1 rfl
  have s3 : Step ⟨2, [], false, .selecting, .notCalled, [1], []⟩
      ⟨2, [1], false, .selecting, .notCalled, [], []⟩ :=
    Step.send ⟨2, [], false, .selecting, .notCalled, [1], []⟩ 1 [] [] rfl (by decide)
  have s4 : Step ⟨2, [1], false, .selecting, .notCalled, [], []⟩
      ⟨2, [1], false, .selecting, .notCalled, [2], []⟩ :=
    Step.enqueueAccepted ⟨2, [1], false, .selecting, .notCalled, [], []⟩ 2 rfl
  have s5 : Step ⟨2, [1], false, .selecting, .notCalled, [2], []⟩
      ⟨2, [1, 2], false, .selecting, .notCalled, [], []⟩ :=
    Step.send ⟨2, [1], false, .selecting, .notCalled, [2], []⟩ 2 [] [] rfl (by decide)
  have s6 : Step ⟨2, [1, 2], false, .selecting, .notCalled, [], []⟩
      ⟨2, [1, 2], true, .selecting, .sendingStart, [], []⟩ :=
    Step.stopMark ⟨2, [1, 2], false, .selecting, .notCalled, [], []⟩ rfl
  have s7 : Step ⟨2, [1, 2], true, .selecting, .sendingStart, [], []⟩
      ⟨2, [2], true, .selecting, .sendingStart, [], [1]⟩ :=
    Step.receive ⟨2, [1, 2], true, .selecting, .sendingStart, [], []⟩ 1 [2] rfl rfl
  have s8 : Step ⟨2, [2], true, .selecting, .sendingStart, [], [1]⟩
      ⟨2, [], true, .selecting, .sendingStart, [], [1, 2]⟩ :=
    Step.receive ⟨2, [2], true, .selecting, .sendingStart, [], [1]⟩ 2 [] rfl rfl
  have s9 : Step ⟨2, [], true, .selecting, .sendingStart, [], [1, 2]⟩
      ⟨2, [], true, .sendingDone, .sendingStart, [], [1, 2]⟩ :=
    Step.leave ⟨2, [], true, .selecting, .sendingStart, [], [1, 2]⟩ rfl rfl rfl
  exact ((((((((Relation.ReflTransGen.single s1).tail s2).tail s3).tail s4).tail s5).tail
    s6).tail s7).tail s8).tail s9

theorem stuck_run_final (t : DispatcherRun)
    (h : Step ⟨2, [], true, .sendingDone, .sendingStart, [], [1, 2]⟩ t) :
    t = ⟨2, [], true, .sendingDone, .sendingStart, [], [1, 2]⟩ := by
  generalize hs : DispatcherRun.mk 2 [] true .sendingDone .sendingStart [] [1, 2] = s at h
  cases h with
  | start hw => subst hs; exact WorkerState.noConfusion hw
  | receive _ _ hw => subst hs; exact WorkerState.noConfusion hw
  | handoff _ _ _ hw => subst hs; exact WorkerState.noConfusion hw
  | idle hw => subst hs; exact WorkerState.noConfusion hw
  | leave hw => subst hs; exact WorkerState.noConfusion hw
  | confirm _ hr => subst hs; exact StopState.noConfusion hr
  | stopMark hr => subst hs; exact StopState.noConfusion hr
  | enqueueRejected => rfl
  | enqueueAccepted _ ha => subst hs; exact Bool.noConfusion ha
  | send _ pre post hsend => subst hs; simp at hsend

/-- **C30 (the code at the failing input).** After `NewDispatcher` the call of
`StopDispatcher` never returns, whatever the goroutines do: it never gets past its send
on `shutdownStart`, from which nothing receives, so it never receives from
`shutdownDone`, and the worker never gets past its send on `shutdownDone`. The worker
does leave its loop only when `shutdownActive` is set and the task queue is empty. In
the run with a queue of length 2 in which two tasks are enqueued before
`StopDispatcher` is called, both tasks are executed, the worker leaves its loop, and
then no goroutine can take a step that changes the state. -/
theorem StopDispatcher_never_returns :
    (∀ (queueLength : Nat) (s : DispatcherRun), Steps (DispatcherRun.new queueLength) s →
      s.stop ≠ .returned ∧ s.stop ≠ .receivingDone ∧ s.worker ≠ .finished)
    ∧ (∀ s t : DispatcherRun, Step s t → s.worker = .selecting → t.worker ≠ .selecting →
      s.shutdownActive = true ∧ s.taskQueue = [] ∧ t.worker = .sendingDone)
    ∧ Steps (DispatcherRun.new 2) ⟨2, [], true, .sendingDone, .sendingStart, [], [1, 2]⟩
    ∧ (∀ t : DispatcherRun, Step ⟨2, [], true, .sendingDone, .sendingStart, [], [1, 2]⟩ t →
      t = ⟨2, [], true, .sendingDone, .sendingStart, [], [1, 2]⟩) := by
  refine ⟨?_, ?_, stuck_run_steps, stuck_run_final⟩
  · intro queueLength s hsteps
    obtain ⟨hstop, hworker⟩ := Steps_stop _ s hsteps (Or.inl rfl)
      (fun h => WorkerState.noConfusion h)
    refine ⟨?_, ?_, hworker⟩
    · intro h
      rcases hstop with h' | h' <;> rw [h] at h' <;> exact StopState.noConfusion h'
    · intro h
      rcases hstop with h' | h' <;> rw [h] at h' <;> exact StopState.noConfusion h'
  · intro s t hstep hw hne
    cases hstep with
    | start hw' => rw [hw] at hw'; exact WorkerState.noConfusion hw'
    | leave _ hq ha => exact ⟨ha, hq, rfl⟩
    | confirm hw' _ => rw [hw] at hw'; exact WorkerState.noConfusion hw'
    | _ => exact absurd hw hne

/-! ## Message events and the event filter -/

theorem retryLoop_congr (c c' : Collaborators) (operation : World → GoResult Unit × World)
    (hnext : ∀ calls, c'.NextBackOff calls = c.NextBackOff calls) (n : Nat) :
    ∀ (b : backOffTries) (w : World), b.maxTries - b.numTries = n →
      retryLoop c' operation b w = retryLoop c operation b w := by
  induction n using Nat.strong_induction_on with
  | _ n ih =>
    intro b w hn
    rcases hres : operation w with ⟨r, w1⟩
    cases r with
    | ok u => rw [retryLoop_ok c _ b w w1 u hres, retryLoop_ok c' _ b w w1 u hres]
    | panic m => rw [retryLoop_panic c _ b w w1 m hres, retryLoop_panic c' _ b w w1 m hres]
    | error err =>
      cases hp : err.asPermanent with
      | some inner =>
        rw [retryLoop_permanent c _ b w w1 err inner hres hp,
          retryLoop_permanent c' _ b w w1 err inner hres hp]
      | none =>
        rcases hnb : b.NextBackOff (c.NextBackOff w1.calls) with ⟨o, b'⟩
        have hnb' : b.NextBackOff (c'.NextBackOff w1.calls) = (o, b') := by rw [hnext, hnb]
        cases o with
        | none =>
          rw [retryLoop_stop c _ b b' w w1 err hres hp hnb,
            retryLoop_stop c' _ b b' w w1 err hres hp hnb']
        | some next =>
          rw [retryLoop_again c _ b b' w w1 err next hres hp hnb,
            retryLoop_again c' _ b b' w w1 err next hres hp hnb']
          have hb' : b'.maxTries - b'.numTries < n := by
            unfold backOffTries.NextBackOff at hnb
            split at hnb
            · injection hnb with h1 _; exact Option.noConfusion h1
            · split at hnb
              · injection hnb with h1 _; exact Option.noConfusion h1
              · injection hnb with _ h2
                rw [← h2]
                show b.maxTries - (b.numTries + 1) < n
                omega
          exact ih _ hb' b' _ rfl

theorem emit_congr (c c' : Collaborators) (ee : EventEmitter) (xld : XLogData)
    (topic : GoString) (key envelope : Struct) (hemit : c'.Emit = c.Emit)
    (hnext : c'.NextBackOff = c.NextBackOff)
    (hack : c'.AcknowledgeProcessed = c.AcknowledgeProcessed) :
    EventEmitter.emit c' ee xld topic key envelope
      = EventEmitter.emit c ee xld topic key envelope := by
  have hop : EventEmitter.emitOperation c' xld topic key envelope
      = EventEmitter.emitOperation c xld topic key envelope := by
    funext w
    simp only [EventEmitter.emitOperation, hemit]
  unfold EventEmitter.emit Retry
  rw [hop, retryLoop_congr c c' _ (fun calls => by rw [hnext]) _ _ _ rfl]
  rcases retryLoop c (EventEmitter.emitOperation c xld topic key envelope) ee.backOff.Reset
    ee.world with ⟨r, b, w⟩
  cases r with
  | ok u => simp only [EventEmitter.AcknowledgeProcessed, hack]
  | error err => rfl
  | panic m => rfl

/-- **C31.** `emitMessageEvent` never consults the event filter: its result and the state
it leaves are the same whatever `filter.Evaluate` answers, and no call it makes is a
filter evaluation. The calls it makes are failed sink attempts and waits, then a last
call of `sink.Emit`, all of them under the message topic with the message key; when
that last call succeeds it is followed by one call of `AcknowledgeProcessed` with the
`XLogData` of the event, whose result is returned, and otherwise nothing follows and
the sink's error is returned. -/
theorem message_events_bypass_filter (c : Collaborators) (ee : EventEmitter) (xld : XLogData)
    (msg : LogicalReplicationMessage) (eventProvider : Struct → Struct) :
    (∀ evaluate : List Call → Hypertable → Struct → Struct → GoResult Bool,
      emitMessageEvent { c with Evaluate := evaluate } ee xld msg eventProvider
        = emitMessageEvent c ee xld msg eventProvider)
    ∧ ∃ (pre : List Call) (ctx : sinkContextImpl) (value : Struct) (last : GoResult Unit),
        (∀ call ∈ pre, call.isRetry = true)
        ∧ (∀ call ∈ pre, ∀ ctx' time topic key value' r,
            call = Call.Emit ctx' time topic key value' r →
            topic = c.MessageTopicName ()
            ∧ key = Struct.Envelope (c.GetSchema c.MessageKeySchemaName)
                (Struct.MessageKey msg.Prefix)
            ∧ value' = value)
        ∧ (((∃ u, last = .ok u)
            ∧ (emitMessageEvent c ee xld msg eventProvider).2.world.calls
              = ee.world.calls ++ (pre ++
                [Call.Emit ctx xld.ServerTime (c.MessageTopicName ())
                    (Struct.Envelope (c.GetSchema c.MessageKeySchemaName)
                      (Struct.MessageKey msg.Prefix)) value last,
                  Call.AcknowledgeProcessed xld
                    (emitMessageEvent c ee xld msg eventProvider).1]))
          ∨ (last ≠ .ok ()
            ∧ (emitMessageEvent c ee xld msg eventProvider).2.world.calls
              = ee.world.calls ++ (pre ++
                [Call.Emit ctx xld.ServerTime (c.MessageTopicName ())
                    (Struct.Envelope (c.GetSchema c.MessageKeySchemaName)
                      (Struct.MessageKey msg.Prefix)) value last])
            ∧ (emitMessageEvent c ee xld msg eventProvider).1 = retryReturn last))
        ∧ (∀ new, (emitMessageEvent c ee xld msg eventProvider).2.world.calls
              = ee.world.calls ++ new →
            ∀ call ∈ new, ∀ hypertable key value' r,
              call ≠ Call.Evaluate hypertable key value' r) := by
  constructor
  · intro evaluate
    unfold emitMessageEvent
    exact emit_congr c { c with Evaluate := evaluate } ee xld _ _ _ rfl rfl rfl
  · unfold emitMessageEvent
    simp only
    obtain ⟨pre, ctx, last, hretry, hcases⟩ := emit_trace c ee xld (c.MessageTopicName ())
      (Struct.Envelope (c.GetSchema c.MessageKeySchemaName) (Struct.MessageKey msg.Prefix))
      (Struct.Envelope (EventEmitter.envelopeMessageSchema c)
        (eventProvider (Struct.Source xld.ServerWALEnd
          (if msg.IsTransactional = true then xld.ServerTime else c.Now ee.world.calls) false
          [] [] [] (if msg.IsTransactional = true then some (c.TransactionId ee.world.calls)
            else none))))
    obtain ⟨new, hnew, hP⟩ := emit_calls c ee xld (c.MessageTopicName ())
      (Struct.Envelope (c.GetSchema c.MessageKeySchemaName) (Struct.MessageKey msg.Prefix))
      (Struct.Envelope (EventEmitter.envelopeMessageSchema c)
        (eventProvider (Struct.Source xld.ServerWALEnd
          (if msg.IsTransactional = true then xld.ServerTime else c.Now ee.world.calls) false
          [] [] [] (if msg.IsTransactional = true then some (c.TransactionId ee.world.calls)
            else none))))
    refine ⟨pre, ctx, _, last, hretry, ?_, hcases, ?_⟩
    · intro call hcall ctx' time topic key value' r he
      have hmem : call ∈ new := by
        rcases hcases with ⟨_, hcalls⟩ | ⟨_, hcalls, _⟩
        · rw [hnew] at hcalls
          rw [List.append_cancel_left hcalls]
          exact List.mem_append_left _ hcall
        · rw [hnew] at hcalls
          rw [List.append_cancel_left hcalls]
          exact List.mem_append_left _ hcall
      obtain ⟨_, h2, h3, h4⟩ := hP call hmem ctx' time topic key value' r he
      exact ⟨h2, h3, h4⟩
    · intro new' hnew' call hcall hypertable key value' r he
      have hpre : ∀ x ∈ pre, x ≠ Call.Evaluate hypertable key value' r := by
        intro x hx hxe
        have := hretry x hx
        rw [hxe] at this
        exact Bool.noConfusion this
      rcases hcases with ⟨_, hcalls⟩ | ⟨_, hcalls, _⟩
      · rw [hnew'] at hcalls
        rw [List.append_cancel_left hcalls] at hcall
        simp only [List.mem_append, List.mem_cons, List.mem_singleton, List.not_mem_nil,
          or_false] at hcall
        rcases hcall with h | h | h
        · exact hpre call h he
        · rw [h] at he; exact Call.noConfusion he
        · rw [h] at he; exact Call.noConfusion he
      · rw [hnew'] at hcalls
        rw [List.append_cancel_left hcalls] at hcall
        simp only [List.mem_append, List.mem_singleton] at hcall
        rcases hcall with h | h
        · exact hpre call h he
        · rw [h] at he; exact Call.noConfusion he

theorem message_with_rejecting_filter :
    (emitMessageEvent (sampleCollaborators 0 (.ok false)) NewEventEmitter sampleXLogData
        ⟨ascii "audit", [1, 2], true⟩ (fun source => source))
      = (.ok (), ⟨⟨newSinkContextImpl,
          [Call.Emit newSinkContextImpl 5 (ascii "prefix.message")
            (Struct.Envelope (Struct.registered (ascii "message.key"))
              (Struct.MessageKey (ascii "audit")))
            (Struct.Envelope Struct.EnvelopeMessageSchema
              (Struct.Source 100 5 false [] [] [] (some 7))) (.ok ()),
           Call.AcknowledgeProcessed sampleXLogData (.ok ())]⟩, ⟨8, 0⟩⟩)
    ∧ (emitMessageEvent (sampleCollaborators 0 (.error (.mk "filter failed"))) NewEventEmitter
        sampleXLogData ⟨ascii "audit", [1, 2], true⟩ (fun source => source))
      = (emitMessageEvent (sampleCollaborators 0 (.ok false)) NewEventEmitter sampleXLogData
        ⟨ascii "audit", [1, 2], true⟩ (fun source => source)) := by
  constructor <;>
    simp [emitMessageEvent, EventEmitter.emit, Retry, retryLoop, EventEmitter.emitOperation,
      EventEmitter.AcknowledgeProcessed, sampleCollaborators, NewEventEmitter,
      sampleXLogData, EventEmitter.envelopeMessageSchema, backOffTries.Reset, WithMaxRetries,
      LogicalReplicationMessage.IsTransactional, emitResults, newSinkContextImpl]

/-! ## Keys of update and delete events -/

theorem emit0_keys (c : Collaborators) (ee : EventEmitter) (xld : XLogData) (snapshot : Bool)
    (hypertable : Hypertable) (eventProvider : Struct → Struct)
    (keyProvider : Unit → GoResult Struct) :
    ∃ new, (emit0 c ee xld snapshot hypertable eventProvider keyProvider).2.world.calls
        = ee.world.calls ++ new
      ∧ (∀ call ∈ new, ∀ k, call.key? = some k →
          ∃ keyData, keyProvider () = .ok keyData ∧ k = emit0Key c hypertable keyData)
      ∧ (∀ keyData, keyProvider () = .ok keyData →
          ∃ value r rest,
            new = Call.Evaluate hypertable (emit0Key c hypertable keyData) value r :: rest)
      ∧ ((∀ keyData, keyProvider () ≠ .ok keyData) → new = []) := by
  cases hk : keyProvider () with
  | error err =>
    refine ⟨[], ?_, ?_, ?_, fun _ => rfl⟩
    · simp only [emit0, hk, List.append_nil]
    · intro call hcall; exact absurd hcall (List.not_mem_nil _)
    · intro keyData h; exact GoResult.noConfusion h
  | panic m =>
    refine ⟨[], ?_, ?_, ?_, fun _ => rfl⟩
    · simp only [emit0, hk, List.append_nil]
    · intro call hcall; exact absurd hcall (List.not_mem_nil _)
    · intro keyData h; exact GoResult.noConfusion h
  | ok keyData =>
    have hev : ∀ (call : Call) value r,
        call = Call.Evaluate hypertable (emit0Key c hypertable keyData) value r →
        ∀ k, call.key? = some k →
          ∃ keyData', GoResult.ok keyData = .ok keyData'
            ∧ k = emit0Key c hypertable keyData' := by
      intro call value r he k hkey
      rw [he] at hkey
      simp only [Call.key?, Option.some.injEq] at hkey
      exact ⟨keyData, rfl, hkey.symm⟩
    have hfirst : ∀ (value : Struct) (r : GoResult Bool) (rest : List Call),
        ∀ keyData', GoResult.ok keyData = .ok keyData' →
          ∃ value' r' rest',
            Call.Evaluate hypertable (emit0Key c hypertable keyData) value r :: rest
              = Call.Evaluate hypertable (emit0Key c hypertable keyData') value' r' :: rest' := by
      intro value r rest keyData' h
      injection h with h
      subst h
      exact ⟨_, _, _, rfl⟩
    cases hf : c.Evaluate ee.world.calls hypertable (emit0Key c hypertable keyData)
        (emit0Value c ee xld snapshot hypertable eventProvider) with
    | error err =>
      simp only [emit0Key, emit0Value] at hf
      refine ⟨[Call.Evaluate hypertable (emit0Key c hypertable keyData)
          (emit0Value c ee xld snapshot hypertable eventProvider) (.error err)], ?_, ?_,
        hfirst _ _ _, fun h => absurd rfl (h keyData)⟩
      · simp only [emit0, hk, hf, emit0Key, emit0Value]
      · intro call hcall
        rw [List.mem_singleton] at hcall
        exact hev call _ _ hcall
    | panic m =>
      simp only [emit0Key, emit0Value] at hf
      refine ⟨[Call.Evaluate hypertable (emit0Key c hypertable keyData)
          (emit0Value c ee xld snapshot hypertable eventProvider) (.panic m)], ?_, ?_,
        hfirst _ _ _, fun h => absurd rfl (h keyData)⟩
      · simp only [emit0, hk, hf, emit0Key, emit0Value]
      · intro call hcall
        rw [List.mem_singleton] at hcall
        exact hev call _ _ hcall
    | ok accepted =>
      simp only [emit0Key, emit0Value] at hf
      cases accepted with
      | false =>
        refine ⟨[Call.Evaluate hypertable (emit0Key c hypertable keyData)
            (emit0Value c ee xld snapshot hypertable eventProvider) (.ok false),
            Call.AcknowledgeProcessed xld
              (emit0 c ee xld snapshot hypertable eventProvider keyProvider).1], ?_, ?_,
          hfirst _ _ _, fun h => absurd rfl (h keyData)⟩
        · simp only [emit0, hk, hf, EventEmitter.AcknowledgeProcessed, List.append_assoc,
            List.singleton_append, emit0Key, emit0Value]
        · intro call hcall k hkey
          simp only [List.mem_cons, List.mem_singleton, List.not_mem_nil, or_false] at hcall
          rcases hcall with h | h
          · exact hev call _ _ h k hkey
          · rw [h] at hkey; exact Option.noConfusion hkey
      | true =>
        have hemit0 : emit0 c ee xld snapshot hypertable eventProvider keyProvider
            = EventEmitter.emit c
                { ee with world := ⟨ee.world.sinkContext, ee.world.calls ++
                  [Call.Evaluate hypertable (emit0Key c hypertable keyData)
                    (emit0Value c ee xld snapshot hypertable eventProvider) (.ok true)]⟩ }
                xld (c.EventTopicName hypertable) (emit0Key c hypertable keyData)
                (emit0Value c ee xld snapshot hypertable eventProvider) := by
          simp only [emit0, hk, hf, emit0Key, emit0Value]
        obtain ⟨new, hnew, hP⟩ := emit_calls c
          { ee with world := ⟨ee.world.sinkContext, ee.world.calls ++
            [Call.Evaluate hypertable (emit0Key c hypertable keyData)
              (emit0Value c ee xld snapshot hypertable eventProvider) (.ok true)]⟩ }
          xld (c.EventTopicName hypertable) (emit0Key c hypertable keyData)
          (emit0Value c ee xld snapshot hypertable eventProvider)
        have hnoeval := emit_trace c
          { ee with world := ⟨ee.world.sinkContext, ee.world.calls ++
            [Call.Evaluate hypertable (emit0Key c hypertable keyData)
              (emit0Value c ee xld snapshot hypertable eventProvider) (.ok true)]⟩ }
          xld (c.EventTopicName hypertable) (emit0Key c hypertable keyData)
          (emit0Value c ee xld snapshot hypertable eventProvider)
        rw [hemit0]
        refine ⟨Call.Evaluate hypertable (emit0Key c hypertable keyData)
            (emit0Value c ee xld snapshot hypertable eventProvider) (.ok true) :: new,
          ?_, ?_, hfirst _ _ _, fun h => absurd rfl (h keyData)⟩
        · rw [hnew]
          simp only [List.append_assoc, List.singleton_append]
        · intro call hcall k hkey
          rcases List.mem_cons.1 hcall with h | h
          · exact hev call _ _ h k hkey
          · cases call with
            | Emit ctx time topic key value r =>
              simp only [Call.key?, Option.some.injEq] at hkey
              obtain ⟨_, _, h3, _⟩ := hP _ h ctx time topic key value r rfl
              exact ⟨keyData, rfl, by rw [← hkey, h3]⟩
            | Evaluate h' k' v' r' =>
              exfalso
              obtain ⟨pre, ctx, last, hretry, hcases⟩ := hnoeval
              have hsub : ∀ tail, new = tail →
                  (∀ x ∈ tail, x.isRetry = true ∨ x.isAck = true) → False := by
                intro tail ht hall
                rw [ht] at h
                rcases hall _ h with h1 | h1 <;> exact Bool.noConfusion h1
              rcases hcases with ⟨_, hcalls⟩ | ⟨_, hcalls, _⟩
              · rw [hnew] at hcalls
                refine hsub _ (List.append_cancel_left hcalls) ?_
                intro x hx
                simp only [List.mem_append, List.mem_cons, List.mem_singleton,
                  List.not_mem_nil, or_false] at hx
                rcases hx with hx | hx | hx
                · exact Or.inl (hretry x hx)
                · rw [hx]; exact Or.inl rfl
                · rw [hx]; exact Or.inr rfl
              · rw [hnew] at hcalls
                refine hsub _ (List.append_cancel_left hcalls) ?_
                intro x hx
                simp only [List.mem_append, List.mem_singleton] at hx
                rcases hx with hx | hx
                · exact Or.inl (hretry x hx)
                · rw [hx]; exact Or.inl rfl
            | AcknowledgeProcessed x r => exact Option.noConfusion hkey
            | Sleep d => exact Option.noConfusion hkey

theorem row_keys (c : Collaborators) (ee : EventEmitter) (xld : XLogData) (snapshot : Bool)
    (hypertable : Hypertable) (eventProvider : Struct → Struct)
    (values : Option (GoMap GoAny)) :
    ∃ new, (emit0 c ee xld snapshot hypertable eventProvider
          (hypertableEventKeyProvider c hypertable values)).2.world.calls
        = ee.world.calls ++ new
      ∧ (∀ call ∈ new, ∀ k, call.key? = some k →
          ∃ keyData, hypertableEventKey c hypertable values = .ok keyData
            ∧ k = Struct.Envelope (EventEmitter.keySchema c hypertable)
                (Struct.ofValues keyData))
      ∧ (∀ keyData, hypertableEventKey c hypertable values = .ok keyData →
          ∃ value r rest,
            new = Call.Evaluate hypertable
              (Struct.Envelope (EventEmitter.keySchema c hypertable) (Struct.ofValues keyData))
              value r :: rest) := by
  obtain ⟨new, hnew, hkeys, hfirst, _⟩ := emit0_keys c ee xld snapshot hypertable eventProvider
    (hypertableEventKeyProvider c hypertable values)
  refine ⟨new, hnew, ?_, ?_⟩
  · intro call hcall k hk
    obtain ⟨keyData, hp, hke⟩ := hkeys call hcall k hk
    unfold hypertableEventKeyProvider at hp
    cases hv : hypertableEventKey c hypertable values with
    | error e => rw [hv] at hp; exact GoResult.noConfusion hp
    | panic m => rw [hv] at hp; exact GoResult.noConfusion hp
    | ok key =>
      rw [hv] at hp
      simp only [GoResult.ok_bind] at hp
      injection hp with hp
      exact ⟨key, rfl, by rw [hke, ← hp]; rfl⟩
  · intro keyData hv
    have hp : hypertableEventKeyProvider c hypertable values ()
        = .ok (Struct.ofValues keyData) := by
      simp only [hypertableEventKeyProvider, hv, GoResult.ok_bind]
    exact hfirst _ hp

theorem update_keys (c : Collaborators) (ee : EventEmitter) (xld : XLogData)
    (hypertable : Hypertable) (oldValues newValues : Option (GoMap GoAny)) :
    ∃ new, (OnUpdateEvent c ee xld hypertable oldValues newValues).2.world.calls
        = ee.world.calls ++ new
      ∧ (∀ call ∈ new, ∀ k, call.key? = some k →
          ∃ keyData, hypertableEventKey c hypertable newValues = .ok keyData
            ∧ k = Struct.Envelope (EventEmitter.keySchema c hypertable)
                (Struct.ofValues keyData))
      ∧ (∀ coValues cnValues keyData, convertValues c hypertable oldValues = .ok coValues →
          convertValues c hypertable newValues = .ok cnValues →
          hypertableEventKey c hypertable newValues = .ok keyData →
          ∃ value r rest,
            new = Call.Evaluate hypertable
              (Struct.Envelope (EventEmitter.keySchema c hypertable) (Struct.ofValues keyData))
              value r :: rest) := by
  unfold OnUpdateEvent
  cases ho : convertValues c hypertable oldValues with
  | error e =>
    exact ⟨[], by simp, fun call hcall => absurd hcall (List.not_mem_nil _),
      fun _ _ _ h => GoResult.noConfusion h⟩
  | panic m =>
    exact ⟨[], by simp, fun call hcall => absurd hcall (List.not_mem_nil _),
      fun _ _ _ h => GoResult.noConfusion h⟩
  | ok coValues =>
    cases hn : convertValues c hypertable newValues with
    | error e =>
      exact ⟨[], by simp, fun call hcall => absurd hcall (List.not_mem_nil _),
        fun _ _ _ _ h => GoResult.noConfusion h⟩
    | panic m =>
      exact ⟨[], by simp, fun call hcall => absurd hcall (List.not_mem_nil _),
        fun _ _ _ _ h => GoResult.noConfusion h⟩
    | ok cnValues =>
      obtain ⟨new, hnew, hkeys, hfirst⟩ := row_keys c ee xld false hypertable
        (fun source =>
          Struct.UpdateEvent (Struct.ofValues coValues) (Struct.ofValues cnValues) source)
        newValues
      exact ⟨new, hnew, hkeys, fun _ _ keyData _ _ hk => hfirst keyData hk⟩

theorem delete_keys (c : Collaborators) (ee : EventEmitter) (xld : XLogData)
    (hypertable : Hypertable) (oldValues : Option (GoMap GoAny)) (tombstone : Bool) :
    ∃ new, (OnDeleteEvent c ee xld hypertable oldValues tombstone).2.world.calls
        = ee.world.calls ++ new
      ∧ (∀ call ∈ new, ∀ k, call.key? = some k →
          ∃ keyData, hypertableEventKey c hypertable oldValues = .ok keyData
            ∧ k = Struct.Envelope (EventEmitter.keySchema c hypertable)
                (Struct.ofValues keyData))
      ∧ (∀ coValues keyData, convertValues c hypertable oldValues = .ok coValues →
          hypertableEventKey c hypertable oldValues = .ok keyData →
          ∃ value r rest,
            new = Call.Evaluate hypertable
              (Struct.Envelope (EventEmitter.keySchema c hypertable) (Struct.ofValues keyData))
              value r :: rest) := by
  unfold OnDeleteEvent
  cases ho : convertValues c hypertable oldValues with
  | error e =>
    exact ⟨[], by simp, fun call hcall => absurd hcall (List.not_mem_nil _),
      fun _ _ h => GoResult.noConfusion h⟩
  | panic m =>
    exact ⟨[], by simp, fun call hcall => absurd hcall (List.not_mem_nil _),
      fun _ _ h => GoResult.noConfusion h⟩
  | ok coValues =>
    obtain ⟨new, hnew, hkeys, hfirst⟩ := row_keys c ee xld false hypertable
      (fun source => Struct.DeleteEvent (Struct.ofValues coValues) source tombstone)
      oldValues
    exact ⟨new, hnew, hkeys, fun _ keyData _ hk => hfirst keyData hk⟩

theorem update_changing_primary_key :
    (OnUpdateEvent (sampleCollaborators 0 (.ok true)) NewEventEmitter sampleXLogData
        sampleHypertable (some sampleOldValues) (some sampleNewValues)).2.world.calls.map
        Call.key?
      = [some (Struct.Envelope (Struct.KeySchema sampleHypertable)
            (Struct.values [(ascii "id", GoAny.int 8)])),
          some (Struct.Envelope (Struct.KeySchema sampleHypertable)
            (Struct.values [(ascii "id", GoAny.int 8)])),
          none] := by
  have h1 : convertValues (sampleCollaborators 0 (.ok true)) sampleHypertable
      (some sampleOldValues) = .ok (some sampleOldValues) := by decide
  have h2 : convertValues (sampleCollaborators 0 (.ok true)) sampleHypertable
      (some sampleNewValues) = .ok (some sampleNewValues) := by decide
  have h3 : hypertableEventKey (sampleCollaborators 0 (.ok true)) sampleHypertable
      (some sampleNewValues) = .ok (some [(ascii "id", GoAny.int 8)]) := by decide
  simp only [OnUpdateEvent, h1, h2, eventEmitterEventHandler.emit, emit0,
    hypertableEventKeyProvider, h3, GoResult.ok_bind, Struct.ofValues]
  simp [EventEmitter.emit, Retry, retryLoop, EventEmitter.emitOperation,
    EventEmitter.AcknowledgeProcessed, EventEmitter.keySchema, EventEmitter.envelopeSchema,
    sampleCollaborators, NewEventEmitter, sampleXLogData, backOffTries.Reset, WithMaxRetries,
    emitResults, newSinkContextImpl, Call.key?]

/-- **C32.** Every call to the event filter and to the sink made for an update event
carries the key built by `hypertableEventKey` from the new row values, and every such
call made for a delete event the key built from the old row values; the filter is
called with that key as soon as the conversions succeed. Hence two updates of a
hypertable with the same new values carry the same key whatever their old values, their
`XLogData` and the state of the emitter are, and the update of the row `id = 7` of
`public.metrics` to `id = 8` is filtered and emitted under the key `id = 8`. -/
theorem keys_of_update_and_delete (c : Collaborators) (ee : EventEmitter) (xld : XLogData)
    (hypertable : Hypertable) (oldValues newValues : Option (GoMap GoAny))
    (tombstone : Bool) :
    (∃ new, (OnUpdateEvent c ee xld hypertable oldValues newValues).2.world.calls
          = ee.world.calls ++ new
      ∧ (∀ call ∈ new, ∀ k, call.key? = some k →
          ∃ keyData, hypertableEventKey c hypertable newValues = .ok keyData
            ∧ k = Struct.Envelope (EventEmitter.keySchema c hypertable)
                (Struct.ofValues keyData))
      ∧ (∀ coValues cnValues keyData, convertValues c hypertable oldValues = .ok coValues →
          convertValues c hypertable newValues = .ok cnValues →
          hypertableEventKey c hypertable newValues = .ok keyData →
          ∃ value r rest,
            new = Call.Evaluate hypertable
              (Struct.Envelope (EventEmitter.keySchema c hypertable) (Struct.ofValues keyData))
              value r :: rest))
    ∧ (∃ new, (OnDeleteEvent c ee xld hypertable oldValues tombstone).2.world.calls
          = ee.world.calls ++ new
      ∧ (∀ call ∈ new, ∀ k, call.key? = some k →
          ∃ keyData, hypertableEventKey c hypertable oldValues = .ok keyData
            ∧ k = Struct.Envelope (EventEmitter.keySchema c hypertable)
                (Struct.ofValues keyData))
      ∧ (∀ coValues keyData, convertValues c hypertable oldValues = .ok coValues →
          hypertableEventKey c hypertable oldValues = .ok keyData →
          ∃ value r rest,
            new = Call.Evaluate hypertable
              (Struct.Envelope (EventEmitter.keySchema c hypertable) (Struct.ofValues keyData))
              value r :: rest))
    ∧ (∀ (ee' : EventEmitter) (xld' : XLogData) (oldValues' : Option (GoMap GoAny))
        (new new' : List Call),
        (OnUpdateEvent c ee xld hypertable oldValues newValues).2.world.calls
          = ee.world.calls ++ new →
        (OnUpdateEvent c ee' xld' hypertable oldValues' newValues).2.world.calls
          = ee'.world.calls ++ new' →
        ∀ call ∈ new, ∀ call' ∈ new', ∀ k k',
          call.key? = some k → call'.key? = some k' → k = k')
    ∧ (OnUpdateEvent (sampleCollaborators 0 (.ok true)) NewEventEmitter sampleXLogData
        sampleHypertable (some sampleOldValues) (some sampleNewValues)).2.world.calls.map
        Call.key?
      = [some (Struct.Envelope (Struct.KeySchema sampleHypertable)
            (Struct.values [(ascii "id", GoAny.int 8)])),
          some (Struct.Envelope (Struct.KeySchema sampleHypertable)
            (Struct.values [(ascii "id", GoAny.int 8)])),
          none] := by
  refine ⟨update_keys c ee xld hypertable oldValues newValues,
    delete_keys c ee xld hypertable oldValues tombstone, ?_, update_changing_primary_key⟩
  intro ee' xld' oldValues' new new' hnew hnew' call hcall call' hcall' k k' hk hk'
  obtain ⟨n1, h1, hkeys1, _⟩ := update_keys c ee xld hypertable oldValues newValues
  obtain ⟨n2, h2, hkeys2, _⟩ := update_keys c ee' xld' hypertable oldValues' newValues
  rw [hnew] at h1
  rw [hnew'] at h2
  have e1 := List.append_cancel_left h1
  have e2 := List.append_cancel_left h2
  subst e1
  subst e2
  obtain ⟨d1, hd1, hk1⟩ := hkeys1 call hcall k hk
  obtain ⟨d2, hd2, hk2⟩ := hkeys2 call' hcall' k' hk'
  rw [hd1] at hd2
  injection hd2 with hd2
  rw [hk1, hk2, hd2]

end Streamer
